import Mathlib

/-!
# SkookumScript binding generator: type classifier and export graph walker

A shallow embedding of `FSkookumScriptGenerator`
(`Source/SkookumScriptGenerator/Private/SkookumScriptGenerator.cpp`).

* The reflected type graph handed over by the engine (classes, script structs,
  functions, properties) is data: `TypeGraph`.  Pointers are handles
  (`Nat` indices into the graph); a handle outside the graph reads an inert
  default record.
* The generator's data members are the record `Generator`; every member function
  that touches them is a state-passing function.  Generated text (script stubs,
  glue code) is not part of the state: a generator function is embedded by its
  effect on the data members and by the calls it makes.
* `FError::Throwf` is the outcome `Result.fatal`.  In the routines on `Generator`
  writes of script files are taken to succeed.
* The namespace `Files` holds the same routines together with their file output:
  a run hands its requests to the file system over in order (`Output`), `perform`
  carries them out on a `FileSystem`, where a write can fail, through
  `save_header_if_changed`, and `rename_temp_files` commits the staged headers.
* Recursion that the code performs on the call stack (`generate_struct`) or by
  walking super pointers takes an explicit budget; `Result.out_of_fuel` marks an
  exhausted budget and has no counterpart in the code.
-/

namespace SkookumScriptGenerator

/-! ## Engine strings -/

/-- ASCII lower-casing of one character (`FChar::ToLower`, `tolower` in the C locale). -/
def FChar_ToLower (c : Char) : Char :=
  if 65 ≤ c.toNat ∧ c.toNat ≤ 90 then Char.ofNat (c.toNat + 32) else c

/-- Equality of engine strings, `FString::operator==`: the engine compares with
`Stricmp`, that is without regard to ASCII case.  `FName` equality ignores case as well. -/
def FString_eq (a b : String) : Bool :=
  a.data.map FChar_ToLower == b.data.map FChar_ToLower

/-- Membership test of `TArray<FString>::Contains`, which uses `FString::operator==`. -/
def TArray_Contains (xs : List String) (x : String) : Bool :=
  xs.any (fun y => FString_eq y x)

/-- Does `sub` occur at the start of `s`, ignoring ASCII case. -/
def starts_with_ci : List Char → List Char → Bool
  | _, [] => true
  | [], _ :: _ => false
  | c :: s, d :: sub => FChar_ToLower c == FChar_ToLower d && starts_with_ci s sub

/-- Index-free form of `FString::Find(sub) >= 0` with the engine's default
`ESearchCase::IgnoreCase`: does `sub` occur somewhere in `s`. -/
def FString_contains_ci : List Char → List Char → Bool
  | [], sub => starts_with_ci [] sub
  | c :: s, sub => starts_with_ci (c :: s) sub || FString_contains_ci s sub

/-! ## The reflected type graph -/

/-- Canonical script types, `eSkTypeID`. -/
inductive eSkTypeID where
  | SkTypeID_None
  | SkTypeID_Integer
  | SkTypeID_Real
  | SkTypeID_Boolean
  | SkTypeID_String
  | SkTypeID_Name
  | SkTypeID_Vector2
  | SkTypeID_Vector3
  | SkTypeID_Vector4
  | SkTypeID_Rotation
  | SkTypeID_RotationAngles
  | SkTypeID_Transform
  | SkTypeID_Color
  | SkTypeID_Enum
  | SkTypeID_UStruct
  | SkTypeID_UClass
  | SkTypeID_UObject
  | SkTypeID_List
  deriving DecidableEq

open eSkTypeID

/-- The dynamic class of a `UProperty` object together with the fields that this
class adds.  Handles: `Struct` is a script struct, `Enum` an enum (absent for a plain
byte), `PropertyClass` a class: the field `UObjectPropertyBase::PropertyClass`.
`UClassProperty` derives from `UObjectProperty` and `UAssetClassProperty` from
`UAssetObjectProperty`; the four object kinds, the class kind and the asset-class
kind all derive from `UObjectPropertyBase`.  `UOtherProperty` stands for every
property class the generator never names (text, double, 64 bit integer, ...). -/
inductive PropertyType where
  | UIntProperty
  | UFloatProperty
  | UStrProperty
  | UNameProperty
  | UBoolProperty
  | UStructProperty (Struct : Nat)
  | UByteProperty (Enum : Option Nat)
  | UClassProperty (PropertyClass : Nat)
  | UObjectProperty (PropertyClass : Nat)
  | UWeakObjectProperty (PropertyClass : Nat)
  | ULazyObjectProperty (PropertyClass : Nat)
  | UAssetObjectProperty (PropertyClass : Nat)
  | UAssetClassProperty (PropertyClass : Nat)
  | UInterfaceProperty
  | UArrayProperty (Inner : PropertyType)
  | UDelegateProperty
  | UMulticastDelegateProperty
  | UOtherProperty
  deriving DecidableEq

open PropertyType

/-- A class or script struct handle: an element of `TSet<UStruct *>`. -/
inductive UStructP where
  | cls (class_p : Nat)
  | sstruct (struct_p : Nat)
  deriving DecidableEq

/-- A reflected property (also a function parameter or return value): its name, the
property flags the generator reads, its owners and its kind (the dynamic property
class with its fields).  `OwnerClass` is
`GetOwnerClass()` (none for a member of a script struct), `OwnerStruct` is
`GetOwnerStruct()` (none when the owner is a function). -/
structure UProperty where
  Name : String
  CPF_ReturnParm : Bool
  CPF_OutParm : Bool
  CPF_Edit : Bool
  OwnerClass : Option Nat
  OwnerStruct : Option UStructP
  Kind : PropertyType
  deriving DecidableEq

/-- A reflected function: name, the function flags the generator reads, the owning
class and the parameters in field order (the return value is the parameter flagged
`CPF_ReturnParm`). -/
structure UFunction where
  Name : String
  FUNC_Delegate : Bool
  FUNC_Static : Bool
  OwnerClass : Nat
  Params : List UProperty
  deriving DecidableEq

/-- A reflected class: own functions and own properties in field order. -/
structure UClass where
  Name : String
  SuperClass : Option Nat
  CLASS_RequiredAPI : Bool
  CLASS_MinimalAPI : Bool
  Functions : List UFunction
  Properties : List UProperty
  deriving DecidableEq

/-- A reflected script struct. -/
structure UScriptStruct where
  Name : String
  SuperStruct : Option Nat
  HasDefaults : Bool
  STRUCT_RequiredAPI : Bool
  Properties : List UProperty
  deriving DecidableEq

/-- The reflected type graph: the classes and script structs, addressed by index. -/
structure TypeGraph where
  classes : List UClass
  structs : List UScriptStruct
  deriving DecidableEq

/-- Record read through a class handle that is not in the graph. -/
def UClass.inert : UClass :=
  { Name := "", SuperClass := none, CLASS_RequiredAPI := false, CLASS_MinimalAPI := false,
    Functions := [], Properties := [] }

/-- Record read through a struct handle that is not in the graph. -/
def UScriptStruct.inert : UScriptStruct :=
  { Name := "", SuperStruct := none, HasDefaults := false, STRUCT_RequiredAPI := false,
    Properties := [] }

/-- Dereference a class handle. -/
def TypeGraph.class_at (env : TypeGraph) (class_p : Nat) : UClass :=
  env.classes.getD class_p UClass.inert

/-- Dereference a script struct handle. -/
def TypeGraph.struct_at (env : TypeGraph) (struct_p : Nat) : UScriptStruct :=
  env.structs.getD struct_p UScriptStruct.inert

/-! ## Type classifier -/

/-- Whether the struct can be exported at all, `is_struct_type_supported`.  The
handle is a script struct, so the `Cast<UScriptStruct>` of the code succeeds. -/
def is_struct_type_supported (env : TypeGraph) (struct_p : Nat) : Bool :=
  (env.struct_at struct_p).HasDefaults || (env.struct_at struct_p).STRUCT_RequiredAPI

/-- Whether the class exports DLL symbols, `does_class_have_static_class`. -/
def does_class_have_static_class (env : TypeGraph) (class_p : Nat) : Bool :=
  (env.class_at class_p).CLASS_RequiredAPI || (env.class_at class_p).CLASS_MinimalAPI

/-- `IsA(UObjectPropertyBase::StaticClass())`. -/
def PropertyType.IsA_UObjectPropertyBase : PropertyType → Bool
  | UClassProperty _ => true
  | UObjectProperty _ => true
  | UWeakObjectProperty _ => true
  | ULazyObjectProperty _ => true
  | UAssetObjectProperty _ => true
  | UAssetClassProperty _ => true
  | _ => false

/-- The field `PropertyClass` behind `Cast<UObjectPropertyBase>(property_p)`. -/
def PropertyType.PropertyClass : PropertyType → Option Nat
  | UClassProperty c => some c
  | UObjectProperty c => some c
  | UWeakObjectProperty c => some c
  | ULazyObjectProperty c => some c
  | UAssetObjectProperty c => some c
  | UAssetClassProperty c => some c
  | _ => none

/-- Script type of the eight math and colour structs that are matched by name. -/
def known_struct_type (struct_name : String) : Option eSkTypeID :=
  if FString_eq struct_name "Vector2D" then some SkTypeID_Vector2
  else if FString_eq struct_name "Vector" then some SkTypeID_Vector3
  else if FString_eq struct_name "Vector4" then some SkTypeID_Vector4
  else if FString_eq struct_name "Quat" then some SkTypeID_Rotation
  else if FString_eq struct_name "Rotator" then some SkTypeID_RotationAngles
  else if FString_eq struct_name "Transform" then some SkTypeID_Transform
  else if FString_eq struct_name "Color" then some SkTypeID_Color
  else if FString_eq struct_name "LinearColor" then some SkTypeID_Color
  else none

/-- The classifier `get_skookum_property_type`, with `is_property_type_supported`
inlined at its one recursive use (the element of an array). -/
def get_skookum_property_type (env : TypeGraph) : PropertyType → eSkTypeID
  | UIntProperty => SkTypeID_Integer
  | UFloatProperty => SkTypeID_Real
  | UStrProperty => SkTypeID_String
  | UNameProperty => SkTypeID_Name
  | UBoolProperty => SkTypeID_Boolean
  | UStructProperty s =>
    match known_struct_type (env.struct_at s).Name with
    | some t => t
    | none => if is_struct_type_supported env s then SkTypeID_UStruct else SkTypeID_None
  | UByteProperty e => if e.isSome then SkTypeID_Enum else SkTypeID_None
  | UClassProperty _ => SkTypeID_UClass
  | UObjectProperty c | UWeakObjectProperty c | ULazyObjectProperty c
  | UAssetObjectProperty c | UAssetClassProperty c =>
    if does_class_have_static_class env c || FString_eq (env.class_at c).Name "Object"
    then SkTypeID_UObject else SkTypeID_None
  | UArrayProperty inner =>
    let inner_supported :=
      match inner with
      | ULazyObjectProperty _ | UAssetObjectProperty _ | UAssetClassProperty _
      | UWeakObjectProperty _ => false
      | _ => get_skookum_property_type env inner != SkTypeID_None
    if inner_supported && get_skookum_property_type env inner != SkTypeID_List
    then SkTypeID_List else SkTypeID_None
  | _ => SkTypeID_None

/-- The gate `is_property_type_supported`. -/
def is_property_type_supported (env : TypeGraph) (property_p : PropertyType) : Bool :=
  match property_p with
  | ULazyObjectProperty _ | UAssetObjectProperty _ | UAssetClassProperty _
  | UWeakObjectProperty _ => false
  | _ => get_skookum_property_type env property_p != SkTypeID_None

/-! ## Identifier transformer -/

/-- C library `isupper` in the C locale. -/
def isupper (c : Char) : Bool := decide (65 ≤ c.toNat) && decide (c.toNat ≤ 90)

/-- C library `isdigit`. -/
def isdigit (c : Char) : Bool := decide (48 ≤ c.toNat) && decide (c.toNat ≤ 57)

/-- The table `ms_reserved_keywords`. -/
def ms_reserved_keywords : List String :=
  ["branch", "case", "divert", "else", "exit", "false", "fork", "if", "loop", "nil",
   "race", "rush", "skip", "sync", "this", "this_class", "this_code", "true", "unless",
   "when", "and", "nand", "nor", "not", "nxor", "or", "xor"]

/-- Class name override table, `skookify_class_name`. -/
def skookify_class_name (name : String) : String :=
  if FString_eq name "Object" then "Entity"
  else if FString_eq name "Class" then "EntityClass"
  else if FString_eq name "Enum" then "Enum2"
  else name

/-- The character loop of `skookify_var_name`: the characters still to read and the
two flags `was_upper`, `was_underscore`; the result is what the loop appends. -/
def skookify_var_name_loop : List Char → Bool → Bool → List Char
  | [], _, _ => []
  | c :: cs, was_upper, was_underscore =>
    let is_upper := isupper c || isdigit c
    (if is_upper && !was_upper && !was_underscore then ['_'] else [])
      ++ FChar_ToLower c :: skookify_var_name_loop cs is_upper (c == '_')

/-- The flag `is_boolean` of `skookify_var_name`: `name[0] == 'b' && isupper(name[1])`
(for a name of one character `name[1]` is the terminating zero). -/
def skookify_is_boolean : List Char → Bool
  | c :: d :: _ => c == 'b' && isupper d
  | _ => false

/-- The transformer `skookify_var_name`: the script name and the flag written to
`is_boolean_p`. -/
def skookify_var_name (name : String) : String × Bool :=
  if name.data.isEmpty then (name, false)
  else
    let is_boolean := skookify_is_boolean name.data
    let skookum_name : String :=
      String.mk (skookify_var_name_loop (if is_boolean then name.data.drop 1 else name.data)
        true true)
    (if ms_reserved_keywords.any (fun k => FString_eq skookum_name k)
      then String.mk (skookum_name.data ++ ['_']) else skookum_name,
     is_boolean)

/-- Engine routine `FString::IsNumeric` after an optional sign: digits with at most
one dot.  The flag tells whether a dot has been read. -/
def FCString_IsNumeric_loop : List Char → Bool → Bool
  | [], _ => true
  | c :: cs, has_dot =>
    if c == '.' then (if has_dot then false else FCString_IsNumeric_loop cs true)
    else if isdigit c then FCString_IsNumeric_loop cs has_dot else false

/-- Engine routine `FString::IsNumeric`: false for the empty string, else an
optional sign followed by digits with at most one dot. -/
def FString_IsNumeric : List Char → Bool
  | [] => false
  | c :: cs =>
    if c == '-' || c == '+' then FCString_IsNumeric_loop cs false
    else FCString_IsNumeric_loop (c :: cs) false

/-- Engine routine `FString::RemoveFromStart(prefix, ESearchCase::CaseSensitive)`:
the string without the prefix when it starts with it. -/
def RemoveFromStart (s pre : List Char) : Option (List Char) :=
  if pre.isPrefixOf s then some (s.drop pre.length) else none

/-- The transformer `skookify_method_name`; `return_is_bool` is
`return_property_p && return_property_p->IsA(UBoolProperty::StaticClass())`. -/
def skookify_method_name (name : String) (return_is_bool : Bool) : String :=
  let var := skookify_var_name name
  let method_name := var.1.data
  let is_boolean := var.2
  -- Remove K2 (Kismet 2) prefix if present
  let method_name :=
    if 3 < method_name.length && !FString_IsNumeric ((method_name.drop 3).take 1) then
      (RemoveFromStart method_name "k2_".data).getD method_name
    else method_name
  let r : List Char × Bool :=
    if 4 < method_name.length && !FString_IsNumeric ((method_name.drop 4).take 1) then
      match RemoveFromStart method_name "get_".data with
      | some rest => (rest, true)
      | none =>
        match RemoveFromStart method_name "set_".data with
        | some rest => (rest ++ "_set".data, is_boolean)
        | none => (method_name, is_boolean)
    else (method_name, is_boolean)
  let method_name := r.1
  let is_boolean :=
    if "is_".data.isPrefixOf method_name || "has_".data.isPrefixOf method_name
        || "can_".data.isPrefixOf method_name
    then true else r.2
  String.mk (if is_boolean && return_is_bool then method_name ++ "?".data else method_name)

/-- Bindings generated for one class: `m_script_name` and `m_code_name`. -/
structure MethodBinding where
  m_script_name : String
  m_code_name : String
  deriving DecidableEq

/-- Engine routine `FString::Replace("?", dst)`. -/
def replace_question_mark (s dst : List Char) : List Char :=
  s.flatMap (fun c => if c == '?' then dst else [c])

/-- The return property of a function, `UFunction::GetReturnProperty`: the first
parameter flagged `CPF_ReturnParm`. -/
def UFunction.GetReturnProperty (function_p : UFunction) : Option UProperty :=
  function_p.Params.find? (fun p => p.CPF_ReturnParm)

/-- `return_property_p && return_property_p->IsA(UBoolProperty::StaticClass())`. -/
def is_bool_property : Option UProperty → Bool
  | some p => decide (p.Kind = UBoolProperty)
  | none => false

/-- Names for a method, `MethodBinding::make_method`. -/
def MethodBinding.make_method (function_p : UFunction) : MethodBinding :=
  let script_name := skookify_method_name function_p.Name
    (is_bool_property function_p.GetReturnProperty)
  { m_script_name := script_name,
    m_code_name := String.mk (replace_question_mark script_name.data "_Q".data) }

/-- Names for a property getter, `MethodBinding::make_property_getter`. -/
def MethodBinding.make_property_getter (property_p : UProperty) : MethodBinding :=
  let script_name := skookify_method_name property_p.Name (is_bool_property (some property_p))
  { m_script_name := script_name,
    m_code_name := String.mk (replace_question_mark script_name.data "_Q".data) }

/-- Names for a property setter, `MethodBinding::make_property_setter`. -/
def MethodBinding.make_property_setter (property_p : UProperty) : MethodBinding :=
  let script_name := String.mk ((skookify_method_name property_p.Name false).data ++ "_set".data)
  { m_script_name := script_name, m_code_name := script_name }

/-- Lookup `bindings.Find(binding) >= 0`; bindings are compared by
`MethodBinding::operator==`, that is by script name. -/
def bindings_contain (bindings : List MethodBinding) (binding : MethodBinding) : Bool :=
  bindings.any (fun b => FString_eq b.m_script_name binding.m_script_name)

/-! ## Generator state -/

/-- Outcome of a generator routine: a normal return, an aborted run
(`FError::Throwf`, or a dereference of a failed `Cast`), or an exhausted recursion
budget of the embedding. -/
inductive Result (α : Type) where
  | ok (a : α)
  | fatal
  | out_of_fuel
  deriving DecidableEq

/-- Sequencing of generator routines. -/
def Result.bind {α β : Type} : Result α → (α → Result β) → Result β
  | .ok a, f => f a
  | .fatal, _ => .fatal
  | .out_of_fuel, _ => .out_of_fuel

/-- A class kept for later exporting, `ClassRecord`. -/
structure ClassRecord where
  m_class_p : Nat
  m_source_header_file_name : String
  deriving DecidableEq

/-- The data members of `FSkookumScriptGenerator` that steer the export: the
exported set, the deferred classes, the used classes, the skip list and the exported
enums.  The field `log_generating` is the sequence of log lines `Generating class` and
`Generating struct`, each recorded by the handle it is about. -/
structure Generator where
  m_source_header_file_name : String
  m_exported_classes : List UStructP
  m_extra_classes : List ClassRecord
  m_used_classes : List Nat
  m_skip_classes : List String
  m_exported_enums : List Nat
  log_generating : List UStructP
  deriving DecidableEq

/-- Insertion `TSet::Add` and `TArray::AddUnique` on handles. -/
def add_unique {α : Type} [DecidableEq α] (xs : List α) (x : α) : List α :=
  if x ∈ xs then xs else xs ++ [x]

/-- Insertion `m_extra_classes.AddUnique(record)`; records are compared by
`ClassRecord::operator==`, that is by class handle. -/
def add_unique_record (xs : List ClassRecord) (r : ClassRecord) : List ClassRecord :=
  if xs.any (fun x => decide (x.m_class_p = r.m_class_p)) then xs else xs ++ [r]

/-- State after `Initialize`: nothing exported, deferred or used; the skip list is
the one read from the configuration. -/
def Initialize (skip_classes : List String) : Generator :=
  { m_source_header_file_name := "", m_exported_classes := [], m_extra_classes := [],
    m_used_classes := [], m_skip_classes := skip_classes, m_exported_enums := [],
    log_generating := [] }

/-- Statement `m_used_classes.AddUnique(class_p)`. -/
def Generator.use_class (st : Generator) (class_p : Nat) : Generator :=
  { st with m_used_classes := add_unique st.m_used_classes class_p }

/-- Statement `m_exported_enums.Add(enum_p)`. -/
def Generator.export_enum (st : Generator) (enum_p : Nat) : Generator :=
  { st with m_exported_enums := add_unique st.m_exported_enums enum_p }

/-- The log line and `m_exported_classes.Add` that open the generation of a class or
struct. -/
def Generator.begin_generating (st : Generator) (h : UStructP) : Generator :=
  { st with m_exported_classes := add_unique st.m_exported_classes h,
            log_generating := st.log_generating ++ [h] }

/-! ## Export gates -/

/-- The gate `can_export_class`. -/
def can_export_class (env : TypeGraph) (st : Generator) (class_p : Nat) : Bool :=
  does_class_have_static_class env class_p
    && !decide (UStructP.cls class_p ∈ st.m_exported_classes)
    && !TArray_Contains st.m_skip_classes (env.class_at class_p).Name

/-- The gate `can_export_struct`. -/
def can_export_struct (env : TypeGraph) (st : Generator) (struct_p : Nat) : Bool :=
  if decide (UStructP.sstruct struct_p ∈ st.m_exported_classes)
      || TArray_Contains st.m_skip_classes (env.struct_at struct_p).Name
  then false
  else is_struct_type_supported env struct_p

/-! ## Walking super pointers -/

/-- The ancestors reached by following a super pointer until it is null, nearest
first. -/
def super_chain (GetSuper : Nat → Option Nat) : Nat → Nat → Result (List Nat)
  | 0, _ => .out_of_fuel
  | fuel + 1, p =>
    match GetSuper p with
    | none => .ok []
    | some super_p => (super_chain GetSuper fuel super_p).bind (fun rest => .ok (super_p :: rest))

/-- The method `GetSuperClass`. -/
def TypeGraph.GetSuperClass (env : TypeGraph) (class_p : Nat) : Option Nat :=
  (env.class_at class_p).SuperClass

/-- The method `GetSuperStruct` of a script struct. -/
def TypeGraph.GetSuperStruct (env : TypeGraph) (struct_p : Nat) : Option Nat :=
  (env.struct_at struct_p).SuperStruct

/-- The functions visited by `TFieldIterator<UFunction>(class_p)`: those of the class,
then those of each super class. -/
def class_functions (fuel : Nat) (env : TypeGraph) (class_p : Nat) : Result (List UFunction) :=
  (super_chain env.GetSuperClass fuel class_p).bind
    (fun supers => .ok ((class_p :: supers).flatMap (fun c => (env.class_at c).Functions)))

/-- The properties visited by `TFieldIterator<UProperty>(class_or_struct_p)`: those of
the class or struct, then those of each super. -/
def struct_properties (fuel : Nat) (env : TypeGraph) : UStructP → Result (List UProperty)
  | .cls class_p =>
    (super_chain env.GetSuperClass fuel class_p).bind
      (fun supers => .ok ((class_p :: supers).flatMap (fun c => (env.class_at c).Properties)))
  | .sstruct struct_p =>
    (super_chain env.GetSuperStruct fuel struct_p).bind
      (fun supers => .ok ((struct_p :: supers).flatMap (fun s => (env.struct_at s).Properties)))

/-- Effect of `get_skookum_class_path` on the generator: every super class of a class
is entered into `m_used_classes`; for a struct the chain is walked and nothing is
recorded. -/
def get_skookum_class_path (fuel : Nat) (env : TypeGraph) (class_or_struct_p : UStructP)
    (st : Generator) : Result Generator :=
  match class_or_struct_p with
  | .cls class_p =>
    (super_chain env.GetSuperClass fuel class_p).bind
      (fun supers => .ok (supers.foldl Generator.use_class st))
  | .sstruct struct_p =>
    (super_chain env.GetSuperStruct fuel struct_p).bind (fun _ => .ok st)

/-! ## Generation of members

The routines below reach `generate_struct` through the parameter `gs`: the recursive
entry `generate_struct` with the call depth that is left. -/

/-- Routine `generate_enum_from_property`: export the enum of a byte property once. -/
def generate_enum_from_property (prop_p : PropertyType) (st : Generator) : Result Generator :=
  match prop_p with
  | UByteProperty none => .ok st
  | UByteProperty (some enum_p) =>
    if enum_p ∈ st.m_exported_enums then .ok st else .ok (st.export_enum enum_p)
  | _ => .fatal

/-- Routine `generate_struct_from_property`. -/
def generate_struct_from_property (gs : Nat → Generator → Result Generator)
    (prop_p : PropertyType) (st : Generator) : Result Generator :=
  match prop_p with
  | UStructProperty struct_p => gs struct_p st
  | _ => .fatal

/-- Effect of `get_skookum_property_type_name`: a referenced class becomes used, a
referenced struct is generated. -/
def get_skookum_property_type_name (gs : Nat → Generator → Result Generator)
    (env : TypeGraph) (property_p : PropertyType) (st : Generator) : Result Generator :=
  match get_skookum_property_type env property_p with
  | SkTypeID_UObject =>
    match property_p.PropertyClass with
    | some class_p => .ok (st.use_class class_p)
    | none => .fatal
  | SkTypeID_UStruct =>
    match property_p with
    | UStructProperty struct_p => gs struct_p st
    | _ => .fatal
  | _ => .ok st

/-- The test of `can_export_method` for delegate, multicast delegate, weak object and
interface parameters. -/
def is_rejected_param_kind : PropertyType → Bool
  | UDelegateProperty => true
  | UMulticastDelegateProperty => true
  | UWeakObjectProperty _ => true
  | UInterfaceProperty => true
  | _ => false

/-- The tail shared by `can_export_method` (per parameter) and `can_export_property`:
with the type accepted, export the enum or struct it names. -/
def export_type_of_member (gs : Nat → Generator → Result Generator) (env : TypeGraph)
    (property_p : PropertyType) (st : Generator) : Result Generator :=
  let type_id := get_skookum_property_type env property_p
  (if type_id = SkTypeID_Enum then generate_enum_from_property property_p st else .ok st).bind
    (fun st1 =>
      if type_id = SkTypeID_UStruct then generate_struct_from_property gs property_p st1
      else .ok st1)

/-- The parameter loop of `can_export_method`. -/
def can_export_method_params (gs : Nat → Generator → Result Generator) (env : TypeGraph) :
    List UProperty → Generator → Result (Bool × Generator)
  | [], st => .ok (true, st)
  | param_p :: rest, st =>
    if is_rejected_param_kind param_p.Kind then .ok (false, st)
    else if !is_property_type_supported env param_p.Kind then .ok (false, st)
    else (export_type_of_member gs env param_p.Kind st).bind
      (fun st1 => can_export_method_params gs env rest st1)

/-- The gate `can_export_method`: its answer and the state it leaves. -/
def can_export_method (gs : Nat → Generator → Result Generator) (env : TypeGraph)
    (class_p : Nat) (function_p : UFunction) (st : Generator) : Result (Bool × Generator) :=
  if function_p.OwnerClass ≠ class_p then .ok (false, st)
  else if function_p.FUNC_Delegate then .ok (false, st)
  else can_export_method_params gs env function_p.Params st

/-- The gate `can_export_property`: its answer and the state it leaves. -/
def can_export_property (gs : Nat → Generator → Result Generator) (env : TypeGraph)
    (class_or_struct_p : UStructP) (property_p : UProperty) (st : Generator) :
    Result (Bool × Generator) :=
  let inherited_by_class :=
    match class_or_struct_p with
    | .cls class_p => decide (property_p.OwnerClass ≠ some class_p)
    | .sstruct _ => false
  if inherited_by_class then .ok (false, st)
  else if property_p.OwnerStruct ≠ some class_or_struct_p then .ok (false, st)
  else if !is_property_type_supported env property_p.Kind then .ok (false, st)
  else (export_type_of_member gs env property_p.Kind st).bind (fun st1 => .ok (true, st1))

/-- Routine `generate_property_default_ctor_argument`: aborts on an unclassified
type, else leaves the state alone. -/
def generate_property_default_ctor_argument (env : TypeGraph) (param_p : PropertyType)
    (st : Generator) : Result Generator :=
  match get_skookum_property_type env param_p with
  | SkTypeID_None => .fatal
  | _ => .ok st

/-- The `switch` of `generate_return_or_param_value_passing` on the type of a non-null
value property; `list_case` is what the case `SkTypeID_List` does. -/
def value_passing_switch (gs : Nat → Generator → Result Generator) (env : TypeGraph)
    (value_property : PropertyType) (list_case : Generator → Result Generator)
    (st : Generator) : Result Generator :=
  match get_skookum_property_type env value_property with
  | SkTypeID_None => .fatal
  | SkTypeID_UStruct => get_skookum_property_type_name gs env value_property st
  | SkTypeID_UObject => get_skookum_property_type_name gs env value_property st
  | SkTypeID_List => list_case st
  | _ => .ok st

/-- Routine `generate_return_or_param_value_passing` for a non-null value property:
the case `SkTypeID_List` passes the element property of the array to the routine
itself (for a property that is no array the `Cast<UArrayProperty>` yields null). -/
def generate_return_or_param_value_passing (gs : Nat → Generator → Result Generator)
    (env : TypeGraph) : PropertyType → Generator → Result Generator
  | UArrayProperty inner_property, st =>
    value_passing_switch gs env (UArrayProperty inner_property)
      (generate_return_or_param_value_passing gs env inner_property) st
  | value_property, st =>
    value_passing_switch gs env value_property (fun _ => .fatal) st

/-- Routine `get_array_parameter_expression`. -/
def get_array_parameter_expression (gs : Nat → Generator → Result Generator)
    (env : TypeGraph) (param_p : PropertyType) (st : Generator) : Result Generator :=
  match param_p with
  | UArrayProperty InnerProperty =>
    match get_skookum_property_type env InnerProperty with
    | SkTypeID_None => .fatal
    | SkTypeID_List => .fatal
    | SkTypeID_UStruct => get_skookum_property_type_name gs env InnerProperty st
    | SkTypeID_UObject => get_skookum_property_type_name gs env InnerProperty st
    | _ => .ok st
  | _ => .fatal

/-- The flag `is_out_only` of `generate_method_parameter_expression`: the return
value, or an out parameter whose name begins with `Out`. -/
def is_out_only (param_p : UProperty) : Bool :=
  param_p.CPF_ReturnParm || (param_p.CPF_OutParm && starts_with_ci param_p.Name.data "Out".data)

/-- Routine `generate_method_parameter_expression`. -/
def generate_method_parameter_expression (gs : Nat → Generator → Result Generator)
    (env : TypeGraph) (param_p : UProperty) (st : Generator) : Result Generator :=
  if !is_out_only param_p then
    match get_skookum_property_type env param_p.Kind with
    | SkTypeID_None => .fatal
    | SkTypeID_UStruct => get_skookum_property_type_name gs env param_p.Kind st
    | SkTypeID_UObject => get_skookum_property_type_name gs env param_p.Kind st
    | SkTypeID_List => get_array_parameter_expression gs env param_p.Kind st
    | _ => .ok st
  else if param_p.Kind.IsA_UObjectPropertyBase then .ok st
  else generate_property_default_ctor_argument env param_p.Kind st

/-- Routine `generate_method_out_parameter_expression`. -/
def generate_method_out_parameter_expression (gs : Nat → Generator → Result Generator)
    (env : TypeGraph) (param_p : UProperty) (st : Generator) : Result Generator :=
  match get_skookum_property_type env param_p.Kind with
  | SkTypeID_None => .fatal
  | SkTypeID_UStruct => get_skookum_property_type_name gs env param_p.Kind st
  | SkTypeID_UObject => get_skookum_property_type_name gs env param_p.Kind st
  | SkTypeID_List => generate_return_or_param_value_passing gs env param_p.Kind st
  | _ => .ok st

/-- Run a routine for every element of a list, in order. -/
def for_each {α : Type} (body : α → Generator → Result Generator) :
    List α → Generator → Result Generator
  | [], st => .ok st
  | x :: xs, st => (body x st).bind (for_each body xs)

/-- Routine `generate_method_script_file`: the type name of every parameter and of the
return value, then the path of the owner class. -/
def generate_method_script_file (gs : Nat → Generator → Result Generator) (fuel : Nat)
    (env : TypeGraph) (function_p : UFunction) (st : Generator) : Result Generator :=
  (for_each (fun param_p => get_skookum_property_type_name gs env param_p.Kind)
      function_p.Params st).bind
    (get_skookum_class_path fuel env (.cls function_p.OwnerClass))

/-- Routine `generate_method_binding_code`: per parameter the parameter expression and,
for an out parameter that is not the return value, the out parameter expression; then
the passing of the return value. -/
def generate_method_binding_code (gs : Nat → Generator → Result Generator)
    (env : TypeGraph) (function_p : UFunction) (st : Generator) : Result Generator :=
  (for_each
      (fun param_p st0 =>
        (generate_method_parameter_expression gs env param_p st0).bind
          (fun st1 =>
            if param_p.CPF_OutParm && !param_p.CPF_ReturnParm
            then generate_method_out_parameter_expression gs env param_p st1
            else .ok st1))
      function_p.Params st).bind
    (fun st2 =>
      match function_p.GetReturnProperty with
      | some return_value_p => generate_return_or_param_value_passing gs env return_value_p.Kind st2
      | none => .ok st2)

/-- Routine `generate_method`. -/
def generate_method (gs : Nat → Generator → Result Generator) (fuel : Nat)
    (env : TypeGraph) (function_p : UFunction) (st : Generator) : Result Generator :=
  (generate_method_script_file gs fuel env function_p st).bind
    (generate_method_binding_code gs env function_p)

/-- The owner used for the script path of a property accessor:
`GetOwnerClass() ? GetOwnerClass() : GetOwnerStruct()`. -/
def UProperty.owner (property_p : UProperty) : Option UStructP :=
  match property_p.OwnerClass with
  | some class_p => some (.cls class_p)
  | none => property_p.OwnerStruct

/-- Effect of `get_skookum_method_path(owner, ...)` for a property accessor. -/
def get_skookum_method_path_of_owner (fuel : Nat) (env : TypeGraph) (property_p : UProperty)
    (st : Generator) : Result Generator :=
  match property_p.owner with
  | some owner => get_skookum_class_path fuel env owner st
  | none => .fatal

/-- Routine `generate_property_getter`: script file (type name, owner path), then
binding code (default constructor argument, passing of the value). -/
def generate_property_getter (gs : Nat → Generator → Result Generator) (fuel : Nat)
    (env : TypeGraph) (property_p : UProperty) (st : Generator) : Result Generator :=
  (get_skookum_property_type_name gs env property_p.Kind st).bind (fun st1 =>
    (get_skookum_method_path_of_owner fuel env property_p st1).bind (fun st2 =>
      (generate_property_default_ctor_argument env property_p.Kind st2).bind
        (generate_return_or_param_value_passing gs env property_p.Kind)))

/-- Routine `generate_property_setter`: script file (owner path, type name), then
binding code (parameter expression). -/
def generate_property_setter (gs : Nat → Generator → Result Generator) (fuel : Nat)
    (env : TypeGraph) (property_p : UProperty) (st : Generator) : Result Generator :=
  (get_skookum_method_path_of_owner fuel env property_p st).bind (fun st1 =>
    (get_skookum_property_type_name gs env property_p.Kind st1).bind
      (generate_method_parameter_expression gs env property_p))

/-! ## Generation of classes and structs -/

/-- The two binding lists of a binding file: `bindings[Scope_instance]` and
`bindings[Scope_class]`. -/
structure Bindings where
  instance_scope : List MethodBinding
  class_scope : List MethodBinding
  deriving DecidableEq

/-- The function loop of `generate_class_binding_file`. -/
def export_functions (gs : Nat → Generator → Result Generator) (fuel : Nat) (env : TypeGraph)
    (class_p : Nat) : List UFunction → Bindings → Generator → Result (Bindings × Generator)
  | [], bindings, st => .ok (bindings, st)
  | function_p :: rest, bindings, st =>
    (can_export_method gs env class_p function_p st).bind (fun r =>
      if r.1 then
        let binding := MethodBinding.make_method function_p
        if !bindings_contain bindings.instance_scope binding
            && !bindings_contain bindings.class_scope binding then
          (generate_method gs fuel env function_p r.2).bind (fun st2 =>
            export_functions gs fuel env class_p rest
              (if function_p.FUNC_Static
                then { bindings with class_scope := bindings.class_scope ++ [binding] }
                else { bindings with instance_scope := bindings.instance_scope ++ [binding] })
              st2)
        else export_functions gs fuel env class_p rest bindings r.2
      else export_functions gs fuel env class_p rest bindings r.2)

/-- The property loop of `generate_class_binding_file` and of
`generate_struct_binding_file`. -/
def export_properties (gs : Nat → Generator → Result Generator) (fuel : Nat) (env : TypeGraph)
    (class_or_struct_p : UStructP) :
    List UProperty → Bindings → Generator → Result (Bindings × Generator)
  | [], bindings, st => .ok (bindings, st)
  | property_p :: rest, bindings, st =>
    (can_export_property gs env class_or_struct_p property_p st).bind (fun r =>
      if r.1 then
        let getter := MethodBinding.make_property_getter property_p
        (if !bindings_contain bindings.instance_scope getter then
            (generate_property_getter gs fuel env property_p r.2).bind (fun st2 =>
              .ok ({ bindings with instance_scope := bindings.instance_scope ++ [getter] }, st2))
          else .ok (bindings, r.2)).bind (fun r2 =>
          (if property_p.CPF_Edit then
              let setter := MethodBinding.make_property_setter property_p
              if !bindings_contain r2.1.instance_scope setter then
                (generate_property_setter gs fuel env property_p r2.2).bind (fun st3 =>
                  .ok ({ r2.1 with instance_scope := r2.1.instance_scope ++ [setter] }, st3))
              else .ok r2
            else .ok r2).bind (fun r3 =>
            export_properties gs fuel env class_or_struct_p rest r3.1 r3.2))
      else export_properties gs fuel env class_or_struct_p rest bindings r.2)

/-- Routine `generate_class_binding_file`: the bindings it registers and the state
it leaves. -/
def generate_class_binding_file (gs : Nat → Generator → Result Generator) (fuel : Nat)
    (env : TypeGraph) (class_p : Nat) (st : Generator) : Result (Bindings × Generator) :=
  (class_functions fuel env class_p).bind (fun functions =>
    (export_functions gs fuel env class_p functions
        { instance_scope := [], class_scope := [] } st).bind (fun r =>
      (struct_properties fuel env (.cls class_p)).bind (fun properties =>
        export_properties gs fuel env (.cls class_p) properties r.1 r.2)))

/-- Routine `generate_struct_binding_file`. -/
def generate_struct_binding_file (gs : Nat → Generator → Result Generator) (fuel : Nat)
    (env : TypeGraph) (struct_p : Nat) (st : Generator) : Result (Bindings × Generator) :=
  (struct_properties fuel env (.sstruct struct_p)).bind (fun properties =>
    export_properties gs fuel env (.sstruct struct_p) properties
      { instance_scope := [], class_scope := [] } st)

/-- Routine `generate_struct`.  The header file name it is given only enters the
generated text and is left out. -/
def generate_struct : Nat → TypeGraph → Nat → Generator → Result Generator
  | 0, _, _, _ => .out_of_fuel
  | fuel + 1, env, struct_p, st =>
    (if can_export_struct env st struct_p then
        -- generate_struct_script_files, generate_struct_header_file,
        -- generate_struct_binding_file
        (get_skookum_class_path fuel env (.sstruct struct_p)
            (st.begin_generating (.sstruct struct_p))).bind (fun st1 =>
          (generate_struct_binding_file (generate_struct fuel env) fuel env struct_p st1).bind
            (fun r => .ok r.2))
      else .ok st).bind (fun st2 =>
      match env.GetSuperStruct struct_p with
      | some parent_struct_p => generate_struct fuel env parent_struct_p st2
      | none => .ok st2)

/-- Routine `generate_class`: mark the class exported, write its script files (which
walks its super classes), its header and its binding file.  The header file name it
is given only enters the generated text and is left out. -/
def generate_class (fuel : Nat) (env : TypeGraph) (class_p : Nat) (st : Generator) :
    Result Generator :=
  (get_skookum_class_path fuel env (.cls class_p) (st.begin_generating (.cls class_p))).bind
    (fun st1 =>
      (generate_class_binding_file (generate_struct fuel env) fuel env class_p st1).bind
        (fun r => .ok r.2))

/-! ## Entry points -/

/-- The test of `ExportClass` for classes that come from engine plugins. -/
def is_engine_plugin_header (source_header_file_name : String) : Bool :=
  FString_contains_ci source_header_file_name.data "Engine/Plugins".data
    || FString_contains_ci source_header_file_name.data "Engine\\Plugins".data

/-- Entry point `ExportClass`, one top-level export request. -/
def ExportClass (fuel : Nat) (env : TypeGraph) (class_p : Nat)
    (source_header_file_name : String) (st : Generator) : Result Generator :=
  if is_engine_plugin_header source_header_file_name then .ok st
  else
    let st1 := { st with m_source_header_file_name := source_header_file_name }
    if !can_export_class env st1 class_p then
      .ok { st1 with m_extra_classes :=
              add_unique_record st1.m_extra_classes (ClassRecord.mk class_p source_header_file_name) }
    else generate_class fuel env class_p st1

/-- The loop of `FinishExport` over the deferred classes. -/
def finish_extra_classes (fuel : Nat) (env : TypeGraph) :
    List ClassRecord → Generator → Result Generator
  | [], st => .ok st
  | extra_class :: rest, st =>
    (if decide (extra_class.m_class_p ∈ st.m_used_classes)
      then generate_class fuel env extra_class.m_class_p st
      else .ok st).bind (finish_extra_classes fuel env rest)

/-- Entry point `FinishExport`: generate the deferred classes that have been used.
The master binding file and the renaming of the staged files that follow do not
touch the state kept here. -/
def FinishExport (fuel : Nat) (env : TypeGraph) (st : Generator) : Result Generator :=
  finish_extra_classes fuel env st.m_extra_classes st

/-- A whole run: the export requests in order, then `FinishExport`. -/
def export_requests (fuel : Nat) (env : TypeGraph) :
    List (Nat × String) → Generator → Result Generator
  | [], st => .ok st
  | request :: rest, st =>
    (ExportClass fuel env request.1 request.2 st).bind (export_requests fuel env rest)

/-- A whole run: `Initialize`, the export requests in order, then `FinishExport`. -/
def run (fuel : Nat) (env : TypeGraph) (skip_classes : List String)
    (requests : List (Nat × String)) : Result Generator :=
  (export_requests fuel env requests (Initialize skip_classes)).bind (FinishExport fuel env)

/-! ## The classifier's rules in the words of the specification -/

/-- The struct is one of the eight math and colour structs matched by name. -/
def is_known_math_struct (env : TypeGraph) (struct_p : Nat) : Prop :=
  known_struct_type (env.struct_at struct_p).Name ≠ none

/-- The class referenced by an object property has a static class or is named
`Object`. -/
def is_exposed_class (env : TypeGraph) (class_p : Nat) : Prop :=
  does_class_have_static_class env class_p = true
    ∨ FString_eq (env.class_at class_p).Name "Object" = true

/-- The allowlist of property shapes as the specification words it: the five scalar
kinds; a struct property whose struct is a named math or colour struct or is
supportable; an enum-backed byte; a class property; an object reference (any kind
deriving from the object property base) whose class is exposed; an array whose
element is supported and does not classify as a list.  Every other shape is off the
list. -/
def allowlisted_shape (env : TypeGraph) : PropertyType → Prop
  | UIntProperty => True
  | UFloatProperty => True
  | UStrProperty => True
  | UNameProperty => True
  | UBoolProperty => True
  | UStructProperty s => is_known_math_struct env s ∨ is_struct_type_supported env s = true
  | UByteProperty e => e.isSome = true
  | UClassProperty _ => True
  | UObjectProperty c => is_exposed_class env c
  | UWeakObjectProperty c => is_exposed_class env c
  | ULazyObjectProperty c => is_exposed_class env c
  | UAssetObjectProperty c => is_exposed_class env c
  | UAssetClassProperty c => is_exposed_class env c
  | UArrayProperty inner =>
    is_property_type_supported env inner = true
      ∧ get_skookum_property_type env inner ≠ SkTypeID_List
  | UInterfaceProperty => False
  | UDelegateProperty => False
  | UMulticastDelegateProperty => False
  | UOtherProperty => False

/-! ## Steps of the walker, ends of super chains, recursion budget -/

/-- One elementary change that member generation makes to the generator: a class
becomes used, an enum is exported, or a struct that passes `can_export_struct` is
marked exported and logged. -/
inductive Step (env : TypeGraph) : Generator → Generator → Prop where
  | use_class (st : Generator) (class_p : Nat) : Step env st (st.use_class class_p)
  | export_enum (st : Generator) (enum_p : Nat) : Step env st (st.export_enum enum_p)
  | begin_struct (st : Generator) (struct_p : Nat) :
      can_export_struct env st struct_p = true →
      Step env st (st.begin_generating (.sstruct struct_p))

/-- Finitely many elementary changes in a row. -/
def Reach (env : TypeGraph) : Generator → Generator → Prop :=
  Relation.ReflTransGen (Step env)

/-- Every super chain that starts at one of the first `n` handles reaches a null
super pointer: following the pointer `n` times is enough.  For a graph of `n` nodes
this says that no super chain runs into a cycle. -/
def chains_end (GetSuper : Nat → Option Nat) (n : Nat) : Bool :=
  (List.range n).all (fun p =>
    match super_chain GetSuper (n + 1) p with
    | .ok _ => true
    | _ => false)

/-- The super chains of all script structs and of all classes of the graph end. -/
def TypeGraph.super_chains_end (env : TypeGraph) : Bool :=
  chains_end env.GetSuperStruct env.structs.length
    && chains_end env.GetSuperClass env.classes.length

/-- The handle reached from `p` by following the super pointer `k` times, when none
of the pointers followed is null. -/
def super_iterate (GetSuper : Nat → Option Nat) : Nat → Nat → Option Nat
  | 0, p => some p
  | k + 1, p => (GetSuper p).bind (super_iterate GetSuper k)

/-- No handle is its own ancestor: following the super pointer one or more times
never leads back to where it started. -/
def acyclic (GetSuper : Nat → Option Nat) : Prop :=
  ∀ p k, super_iterate GetSuper (k + 1) p ≠ some p

/-- The super chains of the script structs and of the classes of the graph are
acyclic. -/
def TypeGraph.super_chains_acyclic (env : TypeGraph) : Prop :=
  acyclic env.GetSuperStruct ∧ acyclic env.GetSuperClass

/-- Number of ancestors of a handle (0 when the chain does not end). -/
def chain_length (GetSuper : Nat → Option Nat) (n p : Nat) : Nat :=
  match super_chain GetSuper (n + 1) p with
  | .ok chain => chain.length
  | _ => 0

/-- Number of script structs of the graph that are not in the exported set. -/
def unexported_structs (env : TypeGraph) (st : Generator) : Nat :=
  ((List.range env.structs.length).filter
    (fun s => decide (UStructP.sstruct s ∉ st.m_exported_classes))).length

/-- Budget left over for the walks along super pointers. -/
def walk_budget (env : TypeGraph) : Nat :=
  env.structs.length + env.classes.length + 2

/-- A recursion budget that suffices for `generate_struct` on a given struct in a
given state. -/
def struct_budget (env : TypeGraph) (st : Generator) (struct_p : Nat) : Nat :=
  unexported_structs env st * (env.structs.length + 2)
    + chain_length env.GetSuperStruct env.structs.length struct_p + 1 + walk_budget env

/-- A recursion budget that suffices for every entry point in every state. -/
def enough_fuel (env : TypeGraph) : Nat :=
  env.structs.length * (env.structs.length + 2) + env.structs.length + 1 + walk_budget env

/-- A routine on generator states runs to a normal return from every state with at
most `k` unexported structs, and only makes elementary changes. -/
def Runs (env : TypeGraph) (k : Nat) (routine : Generator → Result Generator) : Prop :=
  ∀ st, unexported_structs env st ≤ k →
    ∃ st1, routine st = .ok st1 ∧ Reach env st st1

/-- The same for a routine that also returns a value. -/
def RunsWith {α : Type} (env : TypeGraph) (k : Nat)
    (routine : Generator → Result (α × Generator)) : Prop :=
  ∀ st, unexported_structs env st ≤ k →
    ∃ a st1, routine st = .ok (a, st1) ∧ Reach env st st1

/-- The budget suffices for every walk along super pointers of the graph. -/
def walks_fit (env : TypeGraph) (fuel : Nat) : Prop :=
  env.structs.length + 1 ≤ fuel ∧ env.classes.length + 1 ≤ fuel

/-- The parameter conditions of `can_export_method` as one test: no parameter of a
rejected kind, every parameter supported. -/
def params_exportable (env : TypeGraph) (params : List UProperty) : Bool :=
  params.all (fun p => !is_rejected_param_kind p.Kind && is_property_type_supported env p.Kind)

/-- The answer of `can_export_method` as one test. -/
def method_exportable (env : TypeGraph) (class_p : Nat) (function_p : UFunction) : Bool :=
  decide (function_p.OwnerClass = class_p) && !function_p.FUNC_Delegate
    && params_exportable env function_p.Params

/-- The answer of `can_export_property` as one test. -/
def property_exportable (env : TypeGraph) (class_or_struct_p : UStructP)
    (property_p : UProperty) : Bool :=
  (match class_or_struct_p with
    | .cls class_p => decide (property_p.OwnerClass = some class_p)
    | .sstruct _ => true)
    && decide (property_p.OwnerStruct = some class_or_struct_p)
    && is_property_type_supported env property_p.Kind

/-- With this budget `generate_struct` runs to a normal return from every state whose
budget for the struct fits, and only makes elementary changes. -/
def StructsRun (env : TypeGraph) (fuel : Nat) : Prop :=
  ∀ s st, struct_budget env st s ≤ fuel →
    ∃ st1, generate_struct fuel env s st = .ok st1 ∧ Reach env st st1

/-! ## A small type graph for concrete runs -/

/-- A parameter of a function of class `class_p`. -/
def demo_param (class_p : Nat) (name : String) (kind : PropertyType) : UProperty :=
  { Name := name, CPF_ReturnParm := false, CPF_OutParm := false, CPF_Edit := false,
    OwnerClass := some class_p, OwnerStruct := none, Kind := kind }

/-- A return value of a function of class `class_p`. -/
def demo_return (class_p : Nat) (kind : PropertyType) : UProperty :=
  { Name := "ReturnValue", CPF_ReturnParm := true, CPF_OutParm := true, CPF_Edit := false,
    OwnerClass := some class_p, OwnerStruct := none, Kind := kind }

/-- Function `Attach(Alpha Target)` of class 2. -/
def demo_attach : UFunction :=
  { Name := "Attach", FUNC_Delegate := false, FUNC_Static := false, OwnerClass := 2,
    Params := [demo_param 2 "Target" (UObjectProperty 1)] }

/-- Function `int GetScore()` of class 3. -/
def demo_get_score : UFunction :=
  { Name := "GetScore", FUNC_Delegate := false, FUNC_Static := false, OwnerClass := 3,
    Params := [demo_return 3 UIntProperty] }

/-- Function `SetNode(Node NewNode)` of class 3. -/
def demo_set_node : UFunction :=
  { Name := "SetNode", FUNC_Delegate := false, FUNC_Static := false, OwnerClass := 3,
    Params := [demo_param 3 "NewNode" (UStructProperty 1)] }

/-- Function `Notify(delegate Callback, int Count)` of class 3. -/
def demo_notify : UFunction :=
  { Name := "Notify", FUNC_Delegate := false, FUNC_Static := false, OwnerClass := 3,
    Params := [demo_param 3 "Count" UIntProperty, demo_param 3 "Callback" UDelegateProperty] }

/-- Classes `Object` (0), `Alpha` (1), `Beta` (2, no static class, a method that takes
an `Alpha`), `Delta` (3, derived from `Beta`); structs `Base` (0), `Node` (1, derived
from `Base`, holds an array of `Node`), `Hidden` (2, derived from `Node`, not
supportable). -/
def demo_graph : TypeGraph :=
  { classes :=
      [ { Name := "Object", SuperClass := none, CLASS_RequiredAPI := true,
          CLASS_MinimalAPI := false, Functions := [], Properties := [] },
        { Name := "Alpha", SuperClass := some 0, CLASS_RequiredAPI := true,
          CLASS_MinimalAPI := false, Functions := [], Properties := [] },
        { Name := "Beta", SuperClass := some 0, CLASS_RequiredAPI := false,
          CLASS_MinimalAPI := false, Functions := [demo_attach], Properties := [] },
        { Name := "Delta", SuperClass := some 2, CLASS_RequiredAPI := true,
          CLASS_MinimalAPI := false,
          Functions := [demo_get_score, demo_set_node, demo_notify], Properties := [] } ],
    structs :=
      [ { Name := "Base", SuperStruct := none, HasDefaults := true,
          STRUCT_RequiredAPI := false, Properties := [] },
        { Name := "Node", SuperStruct := some 0, HasDefaults := true,
          STRUCT_RequiredAPI := false,
          Properties :=
            [ { Name := "Children", CPF_ReturnParm := false, CPF_OutParm := false,
                CPF_Edit := true, OwnerClass := none, OwnerStruct := some (.sstruct 1),
                Kind := UArrayProperty (UStructProperty 1) } ] },
        { Name := "Hidden", SuperStruct := some 1, HasDefaults := false,
          STRUCT_RequiredAPI := false, Properties := [] } ] }

/-- The routine returns normally and what it returns satisfies `P`. -/
def Result.returns {α : Type} (r : Result α) (P : α → Prop) : Prop :=
  match r with
  | .ok a => P a
  | .fatal => False
  | .out_of_fuel => False

instance Result.decidable_returns {α : Type} (r : Result α) (P : α → Prop)
    [DecidablePred P] : Decidable (r.returns P) :=
  match r with
  | .ok a => inferInstanceAs (Decidable (P a))
  | .fatal => isFalse (fun h => h)
  | .out_of_fuel => isFalse (fun h => h)

/-- The class handles of the deferred records, in order. -/
def Generator.deferred_classes (st : Generator) : List Nat :=
  st.m_extra_classes.map (fun r => r.m_class_p)

/-- The generator after the requests for `Alpha`, `Beta` and `Delta` on the demo graph
with `Alpha` on the skip list: `Delta` and the structs it uses are exported, `Alpha`
(skip-listed) and `Beta` (no static class) are deferred, the super classes of `Delta`
are used. -/
def demo_requested : Generator :=
  { m_source_header_file_name := "Delta.h",
    m_exported_classes := [.cls 3, .sstruct 1, .sstruct 0],
    m_extra_classes := [ClassRecord.mk 1 "Alpha.h", ClassRecord.mk 2 "Beta.h"],
    m_used_classes := [2, 0],
    m_skip_classes := ["Alpha"],
    m_exported_enums := [],
    log_generating := [.cls 3, .sstruct 1, .sstruct 0] }

/-! ## Identifier transformer: the characters it keeps and the separator rule as specified -/

/-- C library `isalpha` in the C locale. -/
def isalpha (c : Char) : Bool :=
  (decide (65 ≤ c.toNat) && decide (c.toNat ≤ 90))
    || (decide (97 ≤ c.toNat) && decide (c.toNat ≤ 122))

/-- The characters of a native name that the loop of `skookify_var_name` reads: the
loop starts at index `int32(is_boolean)`. -/
def kept_characters (name : List Char) : List Char :=
  if skookify_is_boolean name then name.drop 1 else name

/-- The separator rule in the words of the specification: an underscore goes before a
character that is an uppercase letter or a digit and whose predecessor is neither an
uppercase letter, a digit nor an underscore. -/
def separator_goes_before (predecessor c : Char) : Bool :=
  (isupper c || isdigit c)
    && !(isupper predecessor || isdigit predecessor || predecessor == '_')

/-- What the specification says a kept character contributes: an underscore when the
separator rule asks for one (never for the first kept character, which has no
predecessor among the kept ones), then the character in lower case. -/
def separated_character : Option Char × Char → List Char
  | (some predecessor, c) =>
    (if separator_goes_before predecessor c then ['_'] else []) ++ [FChar_ToLower c]
  | (none, c) => [FChar_ToLower c]

/-- The kept characters with the separators of the specification: every kept
character is paired with its predecessor. -/
def insert_separators (kept : List Char) : List Char :=
  (List.zip (none :: kept.map some) kept).flatMap separated_character

/-- Two underscores in a row somewhere in a string. -/
def adjacent_underscores : List Char → Bool
  | c :: d :: cs => (c == '_' && d == '_') || adjacent_underscores (d :: cs)
  | _ => false

/-- The name that the loop of `skookify_var_name` builds, before the test for
reserved keywords. -/
def transformed_name (name : String) : String :=
  String.mk (skookify_var_name_loop (kept_characters name.data) true true)

/-! ## Types that the gates export -/

/-- The enum or struct that a property names directly is exported: the enum of a byte
property is in `m_exported_enums`; the struct of a struct property is in
`m_exported_classes` when it is none of the known math structs, is supportable and
its name is not on the skip list. -/
def direct_type_exported (env : TypeGraph) (st : Generator) (property_p : PropertyType) : Prop :=
  (∀ enum_p, property_p = UByteProperty (some enum_p) → enum_p ∈ st.m_exported_enums)
    ∧ (∀ struct_p, property_p = UStructProperty struct_p →
        known_struct_type (env.struct_at struct_p).Name = none →
        is_struct_type_supported env struct_p = true →
        TArray_Contains st.m_skip_classes (env.struct_at struct_p).Name = false →
        UStructP.sstruct struct_p ∈ st.m_exported_classes)

/-! ## More data for concrete runs -/

/-- A property `int32 Foo` declared by class 1. -/
def clash_foo : UProperty :=
  { Name := "Foo", CPF_ReturnParm := false, CPF_OutParm := false, CPF_Edit := false,
    OwnerClass := some 1, OwnerStruct := some (.cls 1), Kind := UIntProperty }

/-- A function `int32 GetFoo()` declared by class 1, static or not. -/
def clash_get_foo (is_static : Bool) : UFunction :=
  { Name := "GetFoo", FUNC_Delegate := false, FUNC_Static := is_static, OwnerClass := 1,
    Params := [demo_return 1 UIntProperty] }

/-- Classes `Object` (0) and `Thing` (1); `Thing` declares the function `GetFoo` and
the property `Foo`, both with the script name `foo`. -/
def clash_graph (is_static : Bool) : TypeGraph :=
  { classes :=
      [ { Name := "Object", SuperClass := none, CLASS_RequiredAPI := true,
          CLASS_MinimalAPI := false, Functions := [], Properties := [] },
        { Name := "Thing", SuperClass := some 0, CLASS_RequiredAPI := true,
          CLASS_MinimalAPI := false, Functions := [clash_get_foo is_static],
          Properties := [clash_foo] } ],
    structs := [] }

/-- The script names of a list of bindings. -/
def script_names (bindings : List MethodBinding) : List String :=
  bindings.map (fun b => b.m_script_name)

/-- Function `SetModes(TArray<EMode> Modes)` of class 1; `EMode` is enum 0. -/
def element_set_modes : UFunction :=
  { Name := "SetModes", FUNC_Delegate := false, FUNC_Static := false, OwnerClass := 1,
    Params := [demo_param 1 "Modes" (UArrayProperty (UByteProperty (some 0)))] }

/-- Function `int32 GetItems()` of class 1. -/
def element_get_items : UFunction :=
  { Name := "GetItems", FUNC_Delegate := false, FUNC_Static := false, OwnerClass := 1,
    Params := [demo_return 1 UIntProperty] }

/-- Property `FVector Position` of class 1; `Vector` is struct 0. -/
def element_position : UProperty :=
  { Name := "Position", CPF_ReturnParm := false, CPF_OutParm := false, CPF_Edit := false,
    OwnerClass := some 1, OwnerStruct := some (.cls 1), Kind := UStructProperty 0 }

/-- Property `TArray<FItem> Items` of class 1; `Item` is struct 1. -/
def element_items : UProperty :=
  { Name := "Items", CPF_ReturnParm := false, CPF_OutParm := false, CPF_Edit := false,
    OwnerClass := some 1, OwnerStruct := some (.cls 1),
    Kind := UArrayProperty (UStructProperty 1) }

/-- Classes `Object` (0) and `Widget` (1); structs `Vector` (0) and `Item` (1), both
supportable.  `Widget` takes an array of enums, holds a `Vector` and an array of
`Item`, and its method `GetItems` has the script name of the getter of `Items`. -/
def element_graph : TypeGraph :=
  { classes :=
      [ { Name := "Object", SuperClass := none, CLASS_RequiredAPI := true,
          CLASS_MinimalAPI := false, Functions := [], Properties := [] },
        { Name := "Widget", SuperClass := some 0, CLASS_RequiredAPI := true,
          CLASS_MinimalAPI := false, Functions := [element_set_modes, element_get_items],
          Properties := [element_position, element_items] } ],
    structs :=
      [ { Name := "Vector", SuperStruct := none, HasDefaults := true,
          STRUCT_RequiredAPI := false, Properties := [] },
        { Name := "Item", SuperStruct := none, HasDefaults := true,
          STRUCT_RequiredAPI := false, Properties := [] } ] }

/-- The boolean property `bVisible` of class 0. -/
def demo_visible : UProperty :=
  { Name := "bVisible", CPF_ReturnParm := false, CPF_OutParm := false, CPF_Edit := true,
    OwnerClass := some 0, OwnerStruct := some (.cls 0), Kind := UBoolProperty }

/-- The property `Children` of struct `Node` of the demo graph, an array of `Node`. -/
def demo_children : UProperty :=
  { Name := "Children", CPF_ReturnParm := false, CPF_OutParm := false, CPF_Edit := true,
    OwnerClass := none, OwnerStruct := some (.sstruct 1),
    Kind := UArrayProperty (UStructProperty 1) }

/-! ## Files: paths, the file system and the staged headers

Engine strings are zero terminated: a string of the embedding stands for the
characters before the terminator.  A path names a file by its spelling: two paths are
the same file when they are equal as strings. -/

/-- Engine routine `FString::operator/`: path concatenation.  A slash is put between
the two parts unless the left part is empty or ends in a slash or backslash, or the
right part begins with a slash. -/
def path_combine (a b : String) : String :=
  if a.data.isEmpty then b
  else if a.data.getLast? = some '/' ∨ a.data.getLast? = some '\\' then a ++ b
  else if b.data.isEmpty then a ++ "/"
  else if b.data.head? = some '/' then a ++ b
  else a ++ "/" ++ b

/-- Engine routine `FString::Replace(pat, dst)` with the default
`ESearchCase::IgnoreCase`, as a loop over the characters still to read: `skip` counts
the characters of a match just replaced that are still to be passed over.  Matches are
found from left to right and do not overlap. -/
def FString_Replace_loop (pat dst : List Char) : Nat → List Char → List Char
  | _, [] => []
  | 0, c :: cs =>
    if starts_with_ci (c :: cs) pat then dst ++ FString_Replace_loop pat dst (pat.length - 1) cs
    else c :: FString_Replace_loop pat dst 0 cs
  | skip + 1, _ :: cs => FString_Replace_loop pat dst skip cs

/-- Engine routine `FString::Replace(pat, dst)`; an empty pattern leaves the string
as it is. -/
def FString_Replace (s pat dst : String) : String :=
  if pat.data.isEmpty then s else String.mk (FString_Replace_loop pat.data dst.data 0 s.data)

/-- The files on disk as the generator meets them: the text of the file at a path
(`none` when there is no file) and the paths at which a write fails. -/
structure FileSystem where
  text : String → Option String
  write_fails : String → Bool

/-- Engine routine `FFileHelper::LoadFileToString`: the text read, or nothing when the
file cannot be read, in which case the result string is left empty. -/
def FileSystem.LoadFileToString (disk : FileSystem) (path : String) : String :=
  (disk.text path).getD ""

/-- Engine routine `IFileManager::Delete`. -/
def FileSystem.Delete (disk : FileSystem) (path : String) : FileSystem :=
  { disk with text := fun p => if p = path then none else disk.text p }

/-- Engine routine `FFileHelper::SaveStringToFile`: the disk after the write, or
`none` when the write fails. -/
def FileSystem.SaveStringToFile (disk : FileSystem) (contents path : String) :
    Option FileSystem :=
  if disk.write_fails path then none
  else some { disk with text := fun p => if p = path then some contents else disk.text p }

/-- Engine routine `IFileManager::Move(dest, src, replace = true)`: the disk after the
move, or `none` when the source is missing or the destination cannot be written. -/
def FileSystem.Move (disk : FileSystem) (dest src : String) : Option FileSystem :=
  match disk.text src with
  | none => none
  | some contents =>
    if disk.write_fails dest then none
    else some { disk with
      text := fun p => if p = dest then some contents else if p = src then none else disk.text p }

/-- Lines that `save_header_if_changed` and `rename_temp_files` write to the log. -/
inductive LogLine where
  | Warning_failed_to_save (temp_header_file_name : String)
  | Error_could_not_write (file_name : String)
  | Log_exported (file_name : String)
  deriving DecidableEq

/-- The disk together with the data member `m_temp_headers` and the log: what
`save_header_if_changed` and `rename_temp_files` work on. -/
structure Staging where
  disk : FileSystem
  m_temp_headers : List String
  log : List LogLine

/-- Routine `save_header_if_changed`: its return value `has_changed` and its effect. -/
def save_header_if_changed (header_path new_header_contents : String) (st : Staging) :
    Bool × Staging :=
  let original_header_local := st.disk.LoadFileToString header_path
  let has_changed :=
    original_header_local.data.isEmpty || decide (original_header_local ≠ new_header_contents)
  if has_changed then
    let temp_header_file_name := header_path ++ ".tmp"
    -- delete any existing temp file
    let disk1 := st.disk.Delete temp_header_file_name
    match disk1.SaveStringToFile new_header_contents temp_header_file_name with
    | none =>
      (has_changed, { st with disk := disk1,
                              log := st.log ++ [.Warning_failed_to_save temp_header_file_name] })
    | some disk2 =>
      (has_changed, { st with disk := disk2,
                              m_temp_headers := st.m_temp_headers ++ [temp_header_file_name] })
  else (has_changed, st)

/-- The body of the loop of `rename_temp_files` for one recorded temporary. -/
def rename_temp_file (st : Staging) (temp_header_file_name : String) : Staging :=
  let file_name := FString_Replace temp_header_file_name ".tmp" ""
  match st.disk.Move file_name temp_header_file_name with
  | none => { st with log := st.log ++ [.Error_could_not_write file_name] }
  | some disk1 => { st with disk := disk1, log := st.log ++ [.Log_exported file_name] }

/-- Routine `rename_temp_files`. -/
def rename_temp_files (st : Staging) : Staging :=
  st.m_temp_headers.foldl rename_temp_file st

/-- A disk that holds the given files and nothing else, on which no write fails. -/
def FileSystem.of_files (files : List (String × String)) : FileSystem :=
  { text := fun p => (files.find? (fun f => decide (f.1 = p))).map (fun f => f.2),
    write_fails := fun _ => false }

/-! ## The generator with its file output

The routines of the generator once more, now with the files they write.  A routine
never reads a file that the run wrote: the only read of a run is the one of
`save_header_if_changed`, and what it finds decides nothing but the staging.  So the
run is kept apart from the disk: it hands over its requests to the file system in the
order in which it makes them (`Output`), and `perform` carries them out. -/

/-- A request of the generator to the file system: a script file written in place by
`FFileHelper::SaveStringToFile` (a failure is answered by `FError::Throwf`), or a call
of `save_header_if_changed`. -/
inductive Output where
  | script (path body : String)
  | header (header_path new_header_contents : String)
  deriving DecidableEq

/-- The data members set by `Initialize` that enter file paths. -/
structure Settings where
  m_binding_code_path : String
  m_scripts_path : String
  m_scripts_path_depth : Nat

/-- What a run reads from the engine beyond the type graph: the flag
`STRUCT_CopyNative` of a script struct, the name of an enum, and the text of each
generated file.  The text is put together with `FString::Printf` from tool tips, C++
type names and flags of the reflected objects; the staging of the files does not look
into it, so it is taken as it comes: the body of each script file, and for the
headers, binding files and the master file the text that follows their fixed first
lines. -/
structure EngineData where
  STRUCT_CopyNative : Nat → Bool
  enum_name : Nat → String
  text_class_meta : Nat → String
  text_struct_script : Nat → String → String
  text_enum_script : Nat → String → String
  text_method_script : UFunction → String
  text_getter_script : UProperty → String
  text_setter_script : UProperty → String
  code_class_header : Nat → String → String
  code_struct_header : Nat → String → String
  code_binding_file : UStructP → Bindings → String
  code_master_file : List String → List String → List UStructP → String

/-- The generator together with the names of the files it generated and its requests
to the file system so far. -/
structure Exporter where
  gen : Generator
  m_all_header_file_names : List String
  m_all_binding_file_names : List String
  outputs : List Output
  deriving DecidableEq

/-- One more request to the file system. -/
def Exporter.emit (st : Exporter) (o : Output) : Exporter :=
  { st with outputs := st.outputs ++ [o] }

/-- Name of a class or struct, `GetName()`. -/
def TypeGraph.name_of (env : TypeGraph) : UStructP → String
  | .cls class_p => (env.class_at class_p).Name
  | .sstruct struct_p => (env.struct_at struct_p).Name

/-- Routine `get_skookum_class_name`. -/
def get_skookum_class_name (env : TypeGraph) (class_or_struct_p : UStructP) : String :=
  skookify_class_name (env.name_of class_or_struct_p)

/-- The path built by `get_skookum_class_path` from the script names of the super
classes on `super_class_stack` (nearest first): the supers popped off the stack, root
first and at most `max_super_class_nesting` of them, become folders; when supers are
left on the stack the class name is preceded by the name of the nearest super. -/
def skookum_class_path (cfg : Settings) (is_class : Bool) (class_name : String)
    (super_class_stack : List String) : String :=
  let max_super_class_nesting :=
    if is_class then cfg.m_scripts_path_depth - 1 else cfg.m_scripts_path_depth - 2
  let popped := super_class_stack.reverse.take max_super_class_nesting
  let left := super_class_stack.take (super_class_stack.length - popped.length)
  let class_path :=
    popped.foldl path_combine
      (path_combine cfg.m_scripts_path (if is_class then "Object" else "Object/UStruct"))
  path_combine class_path
    (match left with
      | [] => class_name
      | nearest :: _ => nearest ++ "." ++ class_name)

/-- The file name part of `get_skookum_method_path`. -/
def method_file_name (script_function_name : String) (is_static : Bool) : String :=
  String.mk (replace_question_mark script_function_name.data "-Q".data)
    ++ (if is_static then "()C.sk" else "().sk")

/-- File name of the generated header of a class or struct. -/
def header_file_name (env : TypeGraph) (class_or_struct_p : UStructP) : String :=
  "SkUE" ++ get_skookum_class_name env class_or_struct_p ++ ".generated.hpp"

/-- File name of the generated binding file of a class or struct. -/
def binding_file_name (env : TypeGraph) (class_or_struct_p : UStructP) : String :=
  "SkUE" ++ get_skookum_class_name env class_or_struct_p ++ ".generated.inl"

namespace Files

/-- Run a routine for every element of a list, in order. -/
def for_each {α : Type} (body : α → Exporter → Result Exporter) :
    List α → Exporter → Result Exporter
  | [], st => .ok st
  | x :: xs, st => (body x st).bind (for_each body xs)

/-- Routine `get_skookum_class_path`: the path, and every super class of a class
entered into `m_used_classes`. -/
def get_skookum_class_path (cfg : Settings) (fuel : Nat) (env : TypeGraph)
    (class_or_struct_p : UStructP) (st : Exporter) : Result (String × Exporter) :=
  match class_or_struct_p with
  | .cls class_p =>
    (super_chain env.GetSuperClass fuel class_p).bind (fun supers =>
      .ok (skookum_class_path cfg true (get_skookum_class_name env class_or_struct_p)
            (supers.map (fun c => get_skookum_class_name env (.cls c))),
           { st with gen := supers.foldl Generator.use_class st.gen }))
  | .sstruct struct_p =>
    (super_chain env.GetSuperStruct fuel struct_p).bind (fun supers =>
      .ok (skookum_class_path cfg false (get_skookum_class_name env class_or_struct_p)
            (supers.map (fun s => get_skookum_class_name env (.sstruct s))),
           st))

/-- Routine `get_skookum_method_path`. -/
def get_skookum_method_path (cfg : Settings) (fuel : Nat) (env : TypeGraph)
    (class_or_struct_p : UStructP) (script_function_name : String) (is_static : Bool)
    (st : Exporter) : Result (String × Exporter) :=
  (get_skookum_class_path cfg fuel env class_or_struct_p st).bind (fun r =>
    .ok (path_combine r.1 (method_file_name script_function_name is_static), r.2))

/-- Routine `generate_enum_script_files`. -/
def generate_enum_script_files (cfg : Settings) (eng : EngineData) (enum_p : Nat)
    (st : Exporter) : Exporter :=
  let enum_path :=
    path_combine (path_combine cfg.m_scripts_path "Object/Enum") (eng.enum_name enum_p)
  ((st.emit (.script (path_combine enum_path "!Class.sk-meta")
        (eng.text_enum_script enum_p "!Class.sk-meta"))).emit
      (.script (path_combine enum_path "!DataC.sk")
        (eng.text_enum_script enum_p "!DataC.sk"))).emit
    (.script (path_combine enum_path "!()C.sk") (eng.text_enum_script enum_p "!()C.sk"))

/-- Routine `generate_enum_from_property`. -/
def generate_enum_from_property (cfg : Settings) (eng : EngineData) (prop_p : PropertyType)
    (st : Exporter) : Result Exporter :=
  match prop_p with
  | UByteProperty none => .ok st
  | UByteProperty (some enum_p) =>
    if enum_p ∈ st.gen.m_exported_enums then .ok st
    else .ok (generate_enum_script_files cfg eng enum_p
      { st with gen := st.gen.export_enum enum_p })
  | _ => .fatal

/-- Routine `generate_struct_from_property`. -/
def generate_struct_from_property (gs : Nat → Exporter → Result Exporter)
    (prop_p : PropertyType) (st : Exporter) : Result Exporter :=
  match prop_p with
  | UStructProperty struct_p => gs struct_p st
  | _ => .fatal

/-- Routine `get_skookum_property_type_name`. -/
def get_skookum_property_type_name (gs : Nat → Exporter → Result Exporter)
    (env : TypeGraph) (property_p : PropertyType) (st : Exporter) : Result Exporter :=
  match get_skookum_property_type env property_p with
  | SkTypeID_UObject =>
    match property_p.PropertyClass with
    | some class_p => .ok { st with gen := st.gen.use_class class_p }
    | none => .fatal
  | SkTypeID_UStruct =>
    match property_p with
    | UStructProperty struct_p => gs struct_p st
    | _ => .fatal
  | _ => .ok st

/-- The tail shared by `can_export_method` and `can_export_property`. -/
def export_type_of_member (cfg : Settings) (eng : EngineData)
    (gs : Nat → Exporter → Result Exporter) (env : TypeGraph)
    (property_p : PropertyType) (st : Exporter) : Result Exporter :=
  let type_id := get_skookum_property_type env property_p
  (if type_id = SkTypeID_Enum then generate_enum_from_property cfg eng property_p st
    else .ok st).bind
    (fun st1 =>
      if type_id = SkTypeID_UStruct then generate_struct_from_property gs property_p st1
      else .ok st1)

/-- The parameter loop of `can_export_method`. -/
def can_export_method_params (cfg : Settings) (eng : EngineData)
    (gs : Nat → Exporter → Result Exporter) (env : TypeGraph) :
    List UProperty → Exporter → Result (Bool × Exporter)
  | [], st => .ok (true, st)
  | param_p :: rest, st =>
    if is_rejected_param_kind param_p.Kind then .ok (false, st)
    else if !is_property_type_supported env param_p.Kind then .ok (false, st)
    else (export_type_of_member cfg eng gs env param_p.Kind st).bind
      (fun st1 => can_export_method_params cfg eng gs env rest st1)

/-- The gate `can_export_method`. -/
def can_export_method (cfg : Settings) (eng : EngineData)
    (gs : Nat → Exporter → Result Exporter) (env : TypeGraph)
    (class_p : Nat) (function_p : UFunction) (st : Exporter) : Result (Bool × Exporter) :=
  if function_p.OwnerClass ≠ class_p then .ok (false, st)
  else if function_p.FUNC_Delegate then .ok (false, st)
  else can_export_method_params cfg eng gs env function_p.Params st

/-- The gate `can_export_property`. -/
def can_export_property (cfg : Settings) (eng : EngineData)
    (gs : Nat → Exporter → Result Exporter) (env : TypeGraph)
    (class_or_struct_p : UStructP) (property_p : UProperty) (st : Exporter) :
    Result (Bool × Exporter) :=
  let inherited_by_class :=
    match class_or_struct_p with
    | .cls class_p => decide (property_p.OwnerClass ≠ some class_p)
    | .sstruct _ => false
  if inherited_by_class then .ok (false, st)
  else if property_p.OwnerStruct ≠ some class_or_struct_p then .ok (false, st)
  else if !is_property_type_supported env property_p.Kind then .ok (false, st)
  else (export_type_of_member cfg eng gs env property_p.Kind st).bind
    (fun st1 => .ok (true, st1))

/-- Routine `generate_property_default_ctor_argument`. -/
def generate_property_default_ctor_argument (env : TypeGraph) (param_p : PropertyType)
    (st : Exporter) : Result Exporter :=
  match get_skookum_property_type env param_p with
  | SkTypeID_None => .fatal
  | _ => .ok st

/-- The `switch` of `generate_return_or_param_value_passing`. -/
def value_passing_switch (gs : Nat → Exporter → Result Exporter) (env : TypeGraph)
    (value_property : PropertyType) (list_case : Exporter → Result Exporter)
    (st : Exporter) : Result Exporter :=
  match get_skookum_property_type env value_property with
  | SkTypeID_None => .fatal
  | SkTypeID_UStruct => get_skookum_property_type_name gs env value_property st
  | SkTypeID_UObject => get_skookum_property_type_name gs env value_property st
  | SkTypeID_List => list_case st
  | _ => .ok st

/-- Routine `generate_return_or_param_value_passing` for a non-null value property. -/
def generate_return_or_param_value_passing (gs : Nat → Exporter → Result Exporter)
    (env : TypeGraph) : PropertyType → Exporter → Result Exporter
  | UArrayProperty inner_property, st =>
    value_passing_switch gs env (UArrayProperty inner_property)
      (generate_return_or_param_value_passing gs env inner_property) st
  | value_property, st =>
    value_passing_switch gs env value_property (fun _ => .fatal) st

/-- Routine `get_array_parameter_expression`. -/
def get_array_parameter_expression (gs : Nat → Exporter → Result Exporter)
    (env : TypeGraph) (param_p : PropertyType) (st : Exporter) : Result Exporter :=
  match param_p with
  | UArrayProperty InnerProperty =>
    match get_skookum_property_type env InnerProperty with
    | SkTypeID_None => .fatal
    | SkTypeID_List => .fatal
    | SkTypeID_UStruct => get_skookum_property_type_name gs env InnerProperty st
    | SkTypeID_UObject => get_skookum_property_type_name gs env InnerProperty st
    | _ => .ok st
  | _ => .fatal

/-- Routine `generate_method_parameter_expression`. -/
def generate_method_parameter_expression (gs : Nat → Exporter → Result Exporter)
    (env : TypeGraph) (param_p : UProperty) (st : Exporter) : Result Exporter :=
  if !is_out_only param_p then
    match get_skookum_property_type env param_p.Kind with
    | SkTypeID_None => .fatal
    | SkTypeID_UStruct => get_skookum_property_type_name gs env param_p.Kind st
    | SkTypeID_UObject => get_skookum_property_type_name gs env param_p.Kind st
    | SkTypeID_List => get_array_parameter_expression gs env param_p.Kind st
    | _ => .ok st
  else if param_p.Kind.IsA_UObjectPropertyBase then .ok st
  else generate_property_default_ctor_argument env param_p.Kind st

/-- Routine `generate_method_out_parameter_expression`. -/
def generate_method_out_parameter_expression (gs : Nat → Exporter → Result Exporter)
    (env : TypeGraph) (param_p : UProperty) (st : Exporter) : Result Exporter :=
  match get_skookum_property_type env param_p.Kind with
  | SkTypeID_None => .fatal
  | SkTypeID_UStruct => get_skookum_property_type_name gs env param_p.Kind st
  | SkTypeID_UObject => get_skookum_property_type_name gs env param_p.Kind st
  | SkTypeID_List => generate_return_or_param_value_passing gs env param_p.Kind st
  | _ => .ok st

/-- Routine `generate_method_script_file`: the type name of every parameter and of the
return value, then the script file of the method in the folder of the owner class. -/
def generate_method_script_file (cfg : Settings) (eng : EngineData)
    (gs : Nat → Exporter → Result Exporter) (fuel : Nat) (env : TypeGraph)
    (function_p : UFunction) (script_function_name : String) (st : Exporter) :
    Result Exporter :=
  (for_each (fun param_p => get_skookum_property_type_name gs env param_p.Kind)
      function_p.Params st).bind (fun st1 =>
    (get_skookum_method_path cfg fuel env (.cls function_p.OwnerClass) script_function_name
        function_p.FUNC_Static st1).bind (fun r =>
      .ok (r.2.emit (.script r.1 (eng.text_method_script function_p)))))

/-- Routine `generate_method_binding_code`. -/
def generate_method_binding_code (gs : Nat → Exporter → Result Exporter)
    (env : TypeGraph) (function_p : UFunction) (st : Exporter) : Result Exporter :=
  (for_each
      (fun param_p st0 =>
        (generate_method_parameter_expression gs env param_p st0).bind
          (fun st1 =>
            if param_p.CPF_OutParm && !param_p.CPF_ReturnParm
            then generate_method_out_parameter_expression gs env param_p st1
            else .ok st1))
      function_p.Params st).bind
    (fun st2 =>
      match function_p.GetReturnProperty with
      | some return_value_p =>
        generate_return_or_param_value_passing gs env return_value_p.Kind st2
      | none => .ok st2)

/-- Routine `generate_method`. -/
def generate_method (cfg : Settings) (eng : EngineData)
    (gs : Nat → Exporter → Result Exporter) (fuel : Nat) (env : TypeGraph)
    (function_p : UFunction) (binding : MethodBinding) (st : Exporter) : Result Exporter :=
  (generate_method_script_file cfg eng gs fuel env function_p binding.m_script_name st).bind
    (generate_method_binding_code gs env function_p)

/-- Routine `generate_property_getter`: script file (type name, path in the folder of
the owner, write), then binding code (default constructor argument, passing of the
value). -/
def generate_property_getter (cfg : Settings) (eng : EngineData)
    (gs : Nat → Exporter → Result Exporter) (fuel : Nat) (env : TypeGraph)
    (property_p : UProperty) (binding : MethodBinding) (st : Exporter) : Result Exporter :=
  (get_skookum_property_type_name gs env property_p.Kind st).bind (fun st1 =>
    (match property_p.owner with
      | some owner =>
        get_skookum_method_path cfg fuel env owner binding.m_script_name false st1
      | none => .fatal).bind (fun r =>
      (generate_property_default_ctor_argument env property_p.Kind
          (r.2.emit (.script r.1 (eng.text_getter_script property_p)))).bind
        (generate_return_or_param_value_passing gs env property_p.Kind)))

/-- Routine `generate_property_setter`: script file (folder of the owner, type name,
write), then binding code (parameter expression). -/
def generate_property_setter (cfg : Settings) (eng : EngineData)
    (gs : Nat → Exporter → Result Exporter) (fuel : Nat) (env : TypeGraph)
    (property_p : UProperty) (binding : MethodBinding) (st : Exporter) : Result Exporter :=
  (match property_p.owner with
    | some owner => get_skookum_class_path cfg fuel env owner st
    | none => .fatal).bind (fun r =>
    (get_skookum_property_type_name gs env property_p.Kind r.2).bind (fun st1 =>
      generate_method_parameter_expression gs env property_p
        (st1.emit (.script (path_combine r.1 (binding.m_script_name ++ "().sk"))
          (eng.text_setter_script property_p)))))

/-- The function loop of `generate_class_binding_file`. -/
def export_functions (cfg : Settings) (eng : EngineData)
    (gs : Nat → Exporter → Result Exporter) (fuel : Nat) (env : TypeGraph)
    (class_p : Nat) : List UFunction → Bindings → Exporter → Result (Bindings × Exporter)
  | [], bindings, st => .ok (bindings, st)
  | function_p :: rest, bindings, st =>
    (can_export_method cfg eng gs env class_p function_p st).bind (fun r =>
      if r.1 then
        let binding := MethodBinding.make_method function_p
        if !bindings_contain bindings.instance_scope binding
            && !bindings_contain bindings.class_scope binding then
          (generate_method cfg eng gs fuel env function_p binding r.2).bind (fun st2 =>
            export_functions cfg eng gs fuel env class_p rest
              (if function_p.FUNC_Static
                then { bindings with class_scope := bindings.class_scope ++ [binding] }
                else { bindings with instance_scope := bindings.instance_scope ++ [binding] })
              st2)
        else export_functions cfg eng gs fuel env class_p rest bindings r.2
      else export_functions cfg eng gs fuel env class_p rest bindings r.2)

/-- The property loop of `generate_class_binding_file` and of
`generate_struct_binding_file`. -/
def export_properties (cfg : Settings) (eng : EngineData)
    (gs : Nat → Exporter → Result Exporter) (fuel : Nat) (env : TypeGraph)
    (class_or_struct_p : UStructP) :
    List UProperty → Bindings → Exporter → Result (Bindings × Exporter)
  | [], bindings, st => .ok (bindings, st)
  | property_p :: rest, bindings, st =>
    (can_export_property cfg eng gs env class_or_struct_p property_p st).bind (fun r =>
      if r.1 then
        let getter := MethodBinding.make_property_getter property_p
        (if !bindings_contain bindings.instance_scope getter then
            (generate_property_getter cfg eng gs fuel env property_p getter r.2).bind
              (fun st2 =>
                .ok ({ bindings with instance_scope := bindings.instance_scope ++ [getter] },
                     st2))
          else .ok (bindings, r.2)).bind (fun r2 =>
          (if property_p.CPF_Edit then
              let setter := MethodBinding.make_property_setter property_p
              if !bindings_contain r2.1.instance_scope setter then
                (generate_property_setter cfg eng gs fuel env property_p setter r2.2).bind
                  (fun st3 =>
                    .ok ({ r2.1 with instance_scope := r2.1.instance_scope ++ [setter] },
                         st3))
              else .ok r2
            else .ok r2).bind (fun r3 =>
            export_properties cfg eng gs fuel env class_or_struct_p rest r3.1 r3.2))
      else export_properties cfg eng gs fuel env class_or_struct_p rest bindings r.2)

/-- Routine `generate_class_script_files`. -/
def generate_class_script_files (cfg : Settings) (eng : EngineData) (fuel : Nat)
    (env : TypeGraph) (class_p : Nat) (st : Exporter) : Result Exporter :=
  (get_skookum_class_path cfg fuel env (.cls class_p) st).bind (fun r =>
    .ok (r.2.emit (.script (path_combine r.1 "!Class.sk-meta") (eng.text_class_meta class_p))))

/-- Routine `generate_class_header_file`. -/
def generate_class_header_file (cfg : Settings) (eng : EngineData) (env : TypeGraph)
    (class_p : Nat) (source_header_file_name : String) (st : Exporter) : Exporter :=
  let class_header_file_name := header_file_name env (.cls class_p)
  { st with m_all_header_file_names := st.m_all_header_file_names ++ [class_header_file_name]
    }.emit
    (.header (path_combine cfg.m_binding_code_path class_header_file_name)
      ("#pragma once\r\n\r\n#include <Bindings/SkUEClassBinding.hpp>\r\n"
        ++ eng.code_class_header class_p source_header_file_name))

/-- Routine `generate_class_binding_file`. -/
def generate_class_binding_file (cfg : Settings) (eng : EngineData)
    (gs : Nat → Exporter → Result Exporter) (fuel : Nat) (env : TypeGraph)
    (class_p : Nat) (st : Exporter) : Result (Bindings × Exporter) :=
  let class_binding_file_name := binding_file_name env (.cls class_p)
  (class_functions fuel env class_p).bind (fun functions =>
    (export_functions cfg eng gs fuel env class_p functions
        { instance_scope := [], class_scope := [] }
        { st with m_all_binding_file_names :=
            st.m_all_binding_file_names ++ [class_binding_file_name] }).bind (fun r =>
      (struct_properties fuel env (.cls class_p)).bind (fun properties =>
        (export_properties cfg eng gs fuel env (.cls class_p) properties r.1 r.2).bind
          (fun r2 =>
            .ok (r2.1, r2.2.emit
              (.header (path_combine cfg.m_binding_code_path class_binding_file_name)
                ("\r\nnamespace SkUE" ++ get_skookum_class_name env (.cls class_p)
                  ++ "_Impl\r\n  \x7b\r\n\r\n"
                  ++ eng.code_binding_file (.cls class_p) r2.1)))))))

/-- Routine `generate_struct_script_files`. -/
def generate_struct_script_files (cfg : Settings) (eng : EngineData) (fuel : Nat)
    (env : TypeGraph) (struct_p : Nat) (st : Exporter) : Result Exporter :=
  (get_skookum_class_path cfg fuel env (.sstruct struct_p) st).bind (fun r =>
    let st1 := r.2.emit (.script (path_combine r.1 "!Class.sk-meta")
      (eng.text_struct_script struct_p "!Class.sk-meta"))
    let st2 := st1.emit (.script (path_combine r.1 "!().sk")
      (eng.text_struct_script struct_p "!().sk"))
    let st3 := st2.emit (.script (path_combine r.1 "!copy().sk")
      (eng.text_struct_script struct_p "!copy().sk"))
    let st4 :=
      if eng.STRUCT_CopyNative struct_p then
        st3.emit (.script (path_combine r.1 "assign().sk")
          (eng.text_struct_script struct_p "assign().sk"))
      else st3
    .ok (st4.emit (.script (path_combine r.1 "!!().sk")
      (eng.text_struct_script struct_p "!!().sk"))))

/-- Routine `generate_struct_header_file`. -/
def generate_struct_header_file (cfg : Settings) (eng : EngineData) (env : TypeGraph)
    (struct_p : Nat) (source_header_file_name : String) (st : Exporter) : Exporter :=
  let class_header_file_name := header_file_name env (.sstruct struct_p)
  { st with m_all_header_file_names := st.m_all_header_file_names ++ [class_header_file_name]
    }.emit
    (.header (path_combine cfg.m_binding_code_path class_header_file_name)
      ("#pragma once\r\n\r\n#include <Bindings/SkUEClassBinding.hpp>\r\n"
        ++ eng.code_struct_header struct_p source_header_file_name))

/-- Routine `generate_struct_binding_file`. -/
def generate_struct_binding_file (cfg : Settings) (eng : EngineData)
    (gs : Nat → Exporter → Result Exporter) (fuel : Nat) (env : TypeGraph)
    (struct_p : Nat) (st : Exporter) : Result (Bindings × Exporter) :=
  let struct_binding_file_name := binding_file_name env (.sstruct struct_p)
  (struct_properties fuel env (.sstruct struct_p)).bind (fun properties =>
    (export_properties cfg eng gs fuel env (.sstruct struct_p) properties
        { instance_scope := [], class_scope := [] }
        { st with m_all_binding_file_names :=
            st.m_all_binding_file_names ++ [struct_binding_file_name] }).bind (fun r2 =>
      .ok (r2.1, r2.2.emit
        (.header (path_combine cfg.m_binding_code_path struct_binding_file_name)
          ("\r\nnamespace SkUE" ++ get_skookum_class_name env (.sstruct struct_p)
            ++ "_Impl\r\n  \x7b\r\n\r\n"
            ++ eng.code_binding_file (.sstruct struct_p) r2.1)))))

/-- Routine `generate_struct`.  The struct is generated from a property with the
header file name `m_source_header_file_name`, which the recursion hands on. -/
def generate_struct (cfg : Settings) (eng : EngineData) :
    Nat → TypeGraph → Nat → String → Exporter → Result Exporter
  | 0, _, _, _, _ => .out_of_fuel
  | fuel + 1, env, struct_p, source_header_file_name, st =>
    (if can_export_struct env st.gen struct_p then
        (generate_struct_script_files cfg eng fuel env struct_p
            { st with gen := st.gen.begin_generating (.sstruct struct_p) }).bind (fun st1 =>
          (generate_struct_binding_file cfg eng
              (fun s st0 =>
                generate_struct cfg eng fuel env s st0.gen.m_source_header_file_name st0)
              fuel env struct_p
              (generate_struct_header_file cfg eng env struct_p source_header_file_name
                st1)).bind
            (fun r => .ok r.2))
      else .ok st).bind (fun st2 =>
      match env.GetSuperStruct struct_p with
      | some parent_struct_p =>
        generate_struct cfg eng fuel env parent_struct_p source_header_file_name st2
      | none => .ok st2)

/-- Routine `generate_class`. -/
def generate_class (cfg : Settings) (eng : EngineData) (fuel : Nat) (env : TypeGraph)
    (class_p : Nat) (source_header_file_name : String) (st : Exporter) : Result Exporter :=
  (generate_class_script_files cfg eng fuel env class_p
      { st with gen := st.gen.begin_generating (.cls class_p) }).bind (fun st1 =>
    (generate_class_binding_file cfg eng
        (fun s st0 => generate_struct cfg eng fuel env s st0.gen.m_source_header_file_name st0)
        fuel env class_p
        (generate_class_header_file cfg eng env class_p source_header_file_name st1)).bind
      (fun r => .ok r.2))

/-- Entry point `ExportClass`. -/
def ExportClass (cfg : Settings) (eng : EngineData) (fuel : Nat) (env : TypeGraph)
    (class_p : Nat) (source_header_file_name : String) (st : Exporter) : Result Exporter :=
  if is_engine_plugin_header source_header_file_name then .ok st
  else
    let gen1 := { st.gen with m_source_header_file_name := source_header_file_name }
    if !can_export_class env gen1 class_p then
      let extra_classes :=
        add_unique_record gen1.m_extra_classes (ClassRecord.mk class_p source_header_file_name)
      .ok { st with gen := { gen1 with m_extra_classes := extra_classes } }
    else generate_class cfg eng fuel env class_p source_header_file_name { st with gen := gen1 }

/-- The loop of `FinishExport` over the deferred classes. -/
def finish_extra_classes (cfg : Settings) (eng : EngineData) (fuel : Nat) (env : TypeGraph) :
    List ClassRecord → Exporter → Result Exporter
  | [], st => .ok st
  | extra_class :: rest, st =>
    (if decide (extra_class.m_class_p ∈ st.gen.m_used_classes)
      then generate_class cfg eng fuel env extra_class.m_class_p
        extra_class.m_source_header_file_name st
      else .ok st).bind (finish_extra_classes cfg eng fuel env rest)

/-- Routine `generate_master_binding_file`. -/
def generate_master_binding_file (cfg : Settings) (eng : EngineData) (st : Exporter) :
    Exporter :=
  st.emit
    (.header (path_combine cfg.m_binding_code_path "SkUE.generated.inl")
      ("\r\n#include \"SkookumScript/SkClass.hpp\"\r\n"
        ++ eng.code_master_file st.m_all_header_file_names st.m_all_binding_file_names
            st.gen.m_exported_classes))

/-- Entry point `FinishExport` up to the call of `rename_temp_files`: the deferred
classes that have been used, then the master binding file. -/
def FinishExport (cfg : Settings) (eng : EngineData) (fuel : Nat) (env : TypeGraph)
    (st : Exporter) : Result Exporter :=
  (finish_extra_classes cfg eng fuel env st.gen.m_extra_classes st).bind (fun st1 =>
    .ok (generate_master_binding_file cfg eng st1))

/-- The export requests in order. -/
def export_requests (cfg : Settings) (eng : EngineData) (fuel : Nat) (env : TypeGraph) :
    List (Nat × String) → Exporter → Result Exporter
  | [], st => .ok st
  | request :: rest, st =>
    (ExportClass cfg eng fuel env request.1 request.2 st).bind
      (export_requests cfg eng fuel env rest)

/-- State after `Initialize`.  The clearing of the script folder and the reading of
the path depth happen before the first request; the path depth is a setting. -/
def Initialize (skip_classes : List String) : Exporter :=
  { gen := SkookumScriptGenerator.Initialize skip_classes, m_all_header_file_names := [],
    m_all_binding_file_names := [], outputs := [] }

/-- The requests of a whole run to the file system: `Initialize`, the export requests
in order, then `FinishExport` up to the call of `rename_temp_files`. -/
def run (cfg : Settings) (eng : EngineData) (fuel : Nat) (env : TypeGraph)
    (skip_classes : List String) (requests : List (Nat × String)) : Result Exporter :=
  (export_requests cfg eng fuel env requests (Initialize skip_classes)).bind
    (FinishExport cfg eng fuel env)

end Files

/-- Carry out one request: a script file is written in place and a failed write aborts
the run; a header goes through `save_header_if_changed`. -/
def perform_output (o : Output) (st : Staging) : Result Staging :=
  match o with
  | .script path body =>
    match st.disk.SaveStringToFile body path with
    | some disk1 => .ok { st with disk := disk1 }
    | none => .fatal
  | .header header_path new_header_contents =>
    .ok (save_header_if_changed header_path new_header_contents st).2

/-- Carry out the requests in order. -/
def perform : List Output → Staging → Result Staging
  | [], st => .ok st
  | o :: rest, st => (perform_output o st).bind (perform rest)

/-- A whole run on a disk: the requests of the run carried out in order, from an empty
`m_temp_headers`. -/
def generate_files (cfg : Settings) (eng : EngineData) (fuel : Nat) (env : TypeGraph)
    (skip_classes : List String) (requests : List (Nat × String)) (disk : FileSystem) :
    Result Staging :=
  (Files.run cfg eng fuel env skip_classes requests).bind (fun st =>
    perform st.outputs { disk := disk, m_temp_headers := [], log := [] })

/-- A whole run on a disk, `rename_temp_files` at the end of `FinishExport` included. -/
def run_on_disk (cfg : Settings) (eng : EngineData) (fuel : Nat) (env : TypeGraph)
    (skip_classes : List String) (requests : List (Nat × String)) (disk : FileSystem) :
    Result Staging :=
  (generate_files cfg eng fuel env skip_classes requests disk).bind (fun st =>
    .ok (rename_temp_files st))

/-! ## Demo runs with files -/

/-- Settings of the demo runs: generated code under `Gen`, scripts under `Scripts`, the
default path depth. -/
def demo_settings : Settings :=
  { m_binding_code_path := "Gen", m_scripts_path := "Scripts", m_scripts_path_depth := 4 }

/-- Texts of the demo runs.  The header of a class or struct ends with the class
declaration, which names the C++ class (`U` or `F` before the name); a binding file
names the class or struct and lists the script names of its bindings; the other texts
name what they are generated for. -/
def demo_engine (env : TypeGraph) : EngineData :=
  { STRUCT_CopyNative := fun _ => false,
    enum_name := fun enum_p => "Enum" ++ toString enum_p,
    text_class_meta := fun class_p => "// " ++ (env.class_at class_p).Name ++ "\r\n",
    text_struct_script := fun struct_p file_name =>
      "// " ++ (env.struct_at struct_p).Name ++ " " ++ file_name ++ "\r\n",
    text_enum_script := fun _ file_name => "// " ++ file_name ++ "\r\n",
    text_method_script := fun function_p => "// " ++ function_p.Name ++ "\r\n",
    text_getter_script := fun property_p => "// " ++ property_p.Name ++ "\r\n",
    text_setter_script := fun property_p => "// " ++ property_p.Name ++ "\r\n",
    code_class_header := fun class_p source_header_file_name =>
      "#include <" ++ source_header_file_name ++ ">\r\n\r\nclass SkUE"
        ++ get_skookum_class_name env (.cls class_p) ++ " : public SkUEClassBindingEntity<SkUE"
        ++ get_skookum_class_name env (.cls class_p) ++ ", U" ++ (env.class_at class_p).Name
        ++ ">\r\n",
    code_struct_header := fun struct_p source_header_file_name =>
      "#include <" ++ source_header_file_name ++ ">\r\n\r\nclass SkUE"
        ++ get_skookum_class_name env (.sstruct struct_p)
        ++ " : public SkUEClassBindingStruct<SkUE"
        ++ get_skookum_class_name env (.sstruct struct_p) ++ ", F"
        ++ (env.struct_at struct_p).Name ++ ">\r\n",
    code_binding_file := fun class_or_struct_p bindings =>
      "// " ++ env.name_of class_or_struct_p ++ "\r\n"
        ++ String.join (bindings.instance_scope.map (fun b => b.m_script_name ++ "\r\n"))
        ++ String.join (bindings.class_scope.map (fun b => b.m_script_name ++ "\r\n")),
    code_master_file := fun header_file_names binding_file_names _ =>
      String.join (header_file_names.map (fun n => "#include \"" ++ n ++ "\"\r\n"))
        ++ String.join (binding_file_names.map (fun n => "#include \"" ++ n ++ "\"\r\n")) }

/-! ## What a run asks of the file system -/

/-- Does the path end with the extension. -/
def has_extension (path ext : String) : Prop := ext.data <:+ path.data

instance has_extension_decidable (path ext : String) : Decidable (has_extension path ext) :=
  inferInstanceAs (Decidable (ext.data <:+ path.data))

/-- The target path of a call of `save_header_if_changed`. -/
def Output.header_path : Output → List String
  | .script _ _ => []
  | .header header_path _ => [header_path]

/-- The target paths of the calls of `save_header_if_changed`, in order. -/
def header_paths (outputs : List Output) : List String :=
  outputs.flatMap Output.header_path

/-- A script file has the extension `.sk` or `.sk-meta`; a header or binding file has
the extension `.hpp` or `.inl` and its text is not empty. -/
def Output.well_formed : Output → Prop
  | .script path _ => has_extension path ".sk" ∨ has_extension path ".sk-meta"
  | .header header_path new_header_contents =>
    (has_extension header_path ".hpp" ∨ has_extension header_path ".inl")
      ∧ new_header_contents ≠ ""

/-- The header and the binding file of a generated class or struct. -/
def entity_headers (cfg : Settings) (env : TypeGraph) (class_or_struct_p : UStructP) :
    List String :=
  [path_combine cfg.m_binding_code_path (header_file_name env class_or_struct_p),
   path_combine cfg.m_binding_code_path (binding_file_name env class_or_struct_p)]

/-- The requests so far are well formed, and the headers asked for so far together
with the headers `owed` by the generations under way are the header and the binding
file of every class and struct whose generation was begun, each as often as it was
begun. -/
def Accounted (cfg : Settings) (env : TypeGraph) (owed : List String) (st : Exporter) : Prop :=
  (∀ o ∈ st.outputs, o.well_formed)
    ∧ ∀ p, (header_paths st.outputs).count p + owed.count p
        = (st.gen.log_generating.flatMap (entity_headers cfg env)).count p

/-- A routine keeps a property of the state whenever it returns. -/
def Keeps (I : Exporter → Prop) (r : Exporter → Result Exporter) : Prop :=
  ∀ st st1, I st → r st = .ok st1 → I st1

/-- A routine with a result keeps a property of the state whenever it returns. -/
def KeepsWith {α : Type} (I : Exporter → Prop) (r : Exporter → Result (α × Exporter)) : Prop :=
  ∀ st a, I st → r st = .ok a → I a.2

/-- A property of the state that looks only at the requests and at the generation log
and that holds on when a script file is written. -/
structure Stable (I : Exporter → Prop) : Prop where
  frame : ∀ st st1 : Exporter, st1.outputs = st.outputs →
    st1.gen.log_generating = st.gen.log_generating → I st → I st1
  script : ∀ (st : Exporter) (path body : String),
    has_extension path ".sk" ∨ has_extension path ".sk-meta" → I st →
    I (st.emit (.script path body))

/-- Where the text of each header asked for is on the disk: in its temporary while the
temporary is among `remaining`, at its target otherwise.  The entries of `remaining`
are the temporaries of headers asked for, each once. -/
def Staged (done : List Output) (remaining : List String) (disk : FileSystem) : Prop :=
  (∀ p c, Output.header p c ∈ done →
      (p ++ ".tmp" ∈ remaining → disk.text (p ++ ".tmp") = some c)
        ∧ (p ++ ".tmp" ∉ remaining → disk.text p = some c))
    ∧ remaining.Nodup
    ∧ ∀ t ∈ remaining, ∃ p ∈ header_paths done, t = p ++ ".tmp"

/-- A log line that reports a failed write: the warning of `save_header_if_changed` or
the error of `rename_temp_files`. -/
def LogLine.is_failure : LogLine → Bool
  | .Warning_failed_to_save _ => true
  | .Error_could_not_write _ => true
  | .Log_exported _ => false

/-- The path of a script file written in place. -/
def Output.script_path : Output → List String
  | .script path _ => [path]
  | .header _ _ => []

/-- The paths of the script files that a run writes, in order. -/
def script_paths (outputs : List Output) : List String :=
  outputs.flatMap Output.script_path

/-! ## Names of bindings -/

/-- A string without its underscores. -/
def without_underscores (s : List Char) : List Char :=
  s.filter (fun c => c != '_')

/-- The name of the glue function of a binding, `mthd%s_%s` in
`generate_method_binding_declaration` and in the tables `methods_i` and `methods_c`:
a `c` marks the class scope, the name is the code name of the binding. -/
def glue_symbol (is_static : Bool) (code_name : String) : String :=
  "mthd" ++ (if is_static then "c" else "") ++ "_" ++ code_name

/-- A native name made of ASCII letters, digits and underscores. -/
def native_identifier (name : String) : Prop :=
  ∀ c ∈ name.data, isalpha c = true ∨ isdigit c = true ∨ c = '_'

instance native_identifier_decidable (name : String) : Decidable (native_identifier name) :=
  inferInstanceAs (Decidable (∀ c ∈ name.data, isalpha c = true ∨ isdigit c = true ∨ c = '_'))

/-- A binding made by `make_method`, `make_property_getter` or `make_property_setter`
from a member whose native name is made of ASCII letters, digits and underscores. -/
def made_from_identifier (binding : MethodBinding) : Prop :=
  (∃ function_p : UFunction, native_identifier function_p.Name
      ∧ binding = MethodBinding.make_method function_p)
    ∨ (∃ property_p : UProperty, native_identifier property_p.Name
        ∧ binding = MethodBinding.make_property_getter property_p)
    ∨ (∃ property_p : UProperty, native_identifier property_p.Name
        ∧ binding = MethodBinding.make_property_setter property_p)

/-- No two bindings of a list have the same script name; script names are compared as
`MethodBinding::operator==` compares them. -/
def distinct_script_names (bindings : List MethodBinding) : Prop :=
  bindings.Pairwise (fun a b => FString_eq a.m_script_name b.m_script_name = false)

/-! ## The generator inside the run with files -/

/-- The outcome of a routine seen through a projection of what it returns. -/
def Result.map {α β : Type} (f : α → β) : Result α → Result β
  | .ok a => .ok (f a)
  | .fatal => .fatal
  | .out_of_fuel => .out_of_fuel

/-! ## Data for runs with files -/

/-- The generator at the end of the demo run with files: the request for `Delta` from
`Delta.h` on the demo graph, then `FinishExport` up to `rename_temp_files`. -/
def demo_exporter : Exporter :=
  match Files.run demo_settings (demo_engine demo_graph) 40 demo_graph [] [(3, "Delta.h")] with
  | .ok st => st
  | _ => Files.Initialize []

/-- The disk and `m_temp_headers` of the demo run on an empty disk, before
`rename_temp_files`. -/
def demo_staged : Staging :=
  match perform demo_exporter.outputs
      { disk := FileSystem.of_files [], m_temp_headers := [], log := [] } with
  | .ok s => s
  | _ => { disk := FileSystem.of_files [], m_temp_headers := [], log := [] }

/-- Classes `Object` (0) and `Entity` (1, derived from `Object`), both with a static
class.  `skookify_class_name` gives both the script class name `Entity`. -/
def twin_graph : TypeGraph :=
  { classes :=
      [ { Name := "Object", SuperClass := none, CLASS_RequiredAPI := true,
          CLASS_MinimalAPI := false, Functions := [], Properties := [] },
        { Name := "Entity", SuperClass := some 0, CLASS_RequiredAPI := true,
          CLASS_MinimalAPI := false, Functions := [], Properties := [] } ],
    structs := [] }

/-- An empty disk on which two files cannot be written: the temporary of the header of
`Delta` and the master binding file. -/
def locked_disk : FileSystem :=
  { text := fun _ => none,
    write_fails := fun path =>
      path == "Gen/SkUEDelta.generated.hpp.tmp" || path == "Gen/SkUE.generated.inl" }

/-- An empty disk on which the class meta file of `Delta` cannot be written. -/
def read_only_scripts : FileSystem :=
  { text := fun _ => none,
    write_fails := fun path => path == "Scripts/Object/Entity/Beta/Delta/!Class.sk-meta" }

/-- The disk and the log of the demo run on an empty disk, `rename_temp_files`
included. -/
def demo_committed : Staging :=
  match run_on_disk demo_settings (demo_engine demo_graph) 40 demo_graph [] [(3, "Delta.h")]
      (FileSystem.of_files []) with
  | .ok s => s
  | _ => { disk := FileSystem.of_files [], m_temp_headers := [], log := [] }

/-- The disk left behind by the run for the request `Entity` alone on the twin graph,
from an empty disk: the header and the binding file `SkUEEntity.generated` are those of
the class `Entity`. -/
def twin_disk : FileSystem :=
  match run_on_disk demo_settings (demo_engine twin_graph) 40 twin_graph [] [(1, "Entity.h")]
      (FileSystem.of_files []) with
  | .ok s => s.disk
  | _ => FileSystem.of_files []

/-! ## Facts about the classifier -/

theorem known_struct_type_ne_none_or_list (name : String) (t : eSkTypeID)
    (h : known_struct_type name = some t) : t ≠ SkTypeID_None ∧ t ≠ SkTypeID_List
      ∧ t ≠ SkTypeID_UStruct ∧ t ≠ SkTypeID_UObject ∧ t ≠ SkTypeID_Enum := by
  unfold known_struct_type at h
  split_ifs at h <;> first
    | (injection h with h; subst h; exact ⟨by decide, by decide, by decide, by decide, by decide⟩)

/-- Unfolding of the array rule of the classifier through the gate
`is_property_type_supported`. -/
theorem get_skookum_property_type_array_eq (env : TypeGraph) (inner : PropertyType) :
    get_skookum_property_type env (UArrayProperty inner)
      = if is_property_type_supported env inner
            && get_skookum_property_type env inner != SkTypeID_List
        then SkTypeID_List else SkTypeID_None := by
  cases inner <;> simp [get_skookum_property_type, is_property_type_supported]

theorem get_skookum_property_type_array_cases (env : TypeGraph) (inner : PropertyType) :
    get_skookum_property_type env (UArrayProperty inner) = SkTypeID_List
      ∨ get_skookum_property_type env (UArrayProperty inner) = SkTypeID_None := by
  rw [get_skookum_property_type_array_eq]
  split <;> simp

theorem is_property_type_supported_ne_none (env : TypeGraph) (p : PropertyType)
    (h : is_property_type_supported env p = true) :
    get_skookum_property_type env p ≠ SkTypeID_None := by
  cases p <;> simp_all [is_property_type_supported]

theorem array_tag_list_iff (env : TypeGraph) (e : PropertyType) :
    get_skookum_property_type env (UArrayProperty e) = SkTypeID_List
      ↔ (is_property_type_supported env e = true
          ∧ get_skookum_property_type env e ≠ SkTypeID_List) := by
  rw [get_skookum_property_type_array_eq]
  constructor
  · intro h
    split at h
    · rename_i hc
      simpa using hc
    · cases h
  · intro h
    rw [if_pos (by simpa using h)]

theorem type_list_inv (env : TypeGraph) (p : PropertyType)
    (h : get_skookum_property_type env p = SkTypeID_List) :
    ∃ inner, p = UArrayProperty inner ∧ is_property_type_supported env inner = true
      ∧ get_skookum_property_type env inner ≠ SkTypeID_List := by
  cases p with
  | UArrayProperty inner =>
    refine ⟨inner, rfl, ?_⟩
    rw [get_skookum_property_type_array_eq] at h
    split at h
    · simp_all
    · cases h
  | UStructProperty s =>
    simp only [get_skookum_property_type] at h
    split at h
    · rename_i t ht
      exact absurd h (known_struct_type_ne_none_or_list _ _ ht).2.1
    · split at h <;> cases h
  | UByteProperty e => simp only [get_skookum_property_type] at h; split at h <;> cases h
  | UObjectProperty c | UWeakObjectProperty c | ULazyObjectProperty c
  | UAssetObjectProperty c | UAssetClassProperty c =>
    simp only [get_skookum_property_type] at h; split at h <;> cases h
  | _ => simp [get_skookum_property_type] at h

theorem type_ustruct_inv (env : TypeGraph) (p : PropertyType)
    (h : get_skookum_property_type env p = SkTypeID_UStruct) :
    ∃ s, p = UStructProperty s := by
  cases p with
  | UStructProperty s => exact ⟨s, rfl⟩
  | UArrayProperty inner =>
    rcases get_skookum_property_type_array_cases env inner with h1 | h1 <;> rw [h1] at h <;> cases h
  | UByteProperty e => simp only [get_skookum_property_type] at h; split at h <;> cases h
  | UObjectProperty c | UWeakObjectProperty c | ULazyObjectProperty c
  | UAssetObjectProperty c | UAssetClassProperty c =>
    simp only [get_skookum_property_type] at h; split at h <;> cases h
  | _ => simp [get_skookum_property_type] at h

theorem type_uobject_inv (env : TypeGraph) (p : PropertyType)
    (h : get_skookum_property_type env p = SkTypeID_UObject) :
    ∃ c, p.PropertyClass = some c := by
  cases p with
  | UStructProperty s =>
    simp only [get_skookum_property_type] at h
    split at h
    · rename_i t ht
      exact absurd h (known_struct_type_ne_none_or_list _ _ ht).2.2.2.1
    · split at h <;> cases h
  | UArrayProperty inner =>
    rcases get_skookum_property_type_array_cases env inner with h1 | h1 <;> rw [h1] at h <;> cases h
  | UByteProperty e => simp only [get_skookum_property_type] at h; split at h <;> cases h
  | UObjectProperty c | UWeakObjectProperty c | ULazyObjectProperty c
  | UAssetObjectProperty c | UAssetClassProperty c => exact ⟨c, rfl⟩
  | _ => simp [get_skookum_property_type] at h

theorem type_enum_inv (env : TypeGraph) (p : PropertyType)
    (h : get_skookum_property_type env p = SkTypeID_Enum) :
    ∃ e, p = UByteProperty (some e) := by
  cases p with
  | UStructProperty s =>
    simp only [get_skookum_property_type] at h
    split at h
    · rename_i t ht
      exact absurd h (known_struct_type_ne_none_or_list _ _ ht).2.2.2.2
    · split at h <;> cases h
  | UArrayProperty inner =>
    rcases get_skookum_property_type_array_cases env inner with h1 | h1 <;> rw [h1] at h <;> cases h
  | UByteProperty e =>
    cases e with
    | none => simp [get_skookum_property_type] at h
    | some e => exact ⟨e, rfl⟩
  | UObjectProperty c | UWeakObjectProperty c | ULazyObjectProperty c
  | UAssetObjectProperty c | UAssetClassProperty c =>
    simp only [get_skookum_property_type] at h; split at h <;> cases h
  | _ => simp [get_skookum_property_type] at h

/-! ## Sequencing -/

@[simp] theorem Result.bind_ok {α β : Type} (a : α) (f : α → Result β) :
    (Result.ok a).bind f = f a := rfl

@[simp] theorem Result.bind_fatal {α β : Type} (f : α → Result β) :
    (Result.fatal : Result α).bind f = .fatal := rfl

@[simp] theorem Result.bind_out_of_fuel {α β : Type} (f : α → Result β) :
    (Result.out_of_fuel : Result α).bind f = .out_of_fuel := rfl

theorem Result.bind_eq_ok {α β : Type} {x : Result α} {f : α → Result β} {b : β}
    (h : x.bind f = .ok b) : ∃ a, x = .ok a ∧ f a = .ok b := by
  cases x with
  | ok a => exact ⟨a, rfl, h⟩
  | fatal => cases h
  | out_of_fuel => cases h

/-! ## Super chains -/

theorem super_chain_mono (G : Nat → Option Nat) :
    ∀ (fuel : Nat) (p : Nat) (chain : List Nat), super_chain G fuel p = .ok chain →
      ∀ fuel1, fuel ≤ fuel1 → super_chain G fuel1 p = .ok chain := by
  intro fuel
  induction fuel with
  | zero => intro p chain h; cases h
  | succ n ih =>
    intro p chain h fuel1 hle
    obtain ⟨m, rfl⟩ : ∃ m, fuel1 = m + 1 := ⟨fuel1 - 1, by omega⟩
    simp only [super_chain] at h ⊢
    cases hG : G p with
    | none => simpa [hG] using h
    | some q =>
      simp only [hG] at h ⊢
      obtain ⟨rest, h1, h2⟩ := Result.bind_eq_ok h
      rw [ih q rest h1 m (by omega)]
      exact h2

theorem super_chain_length_lt (G : Nat → Option Nat) :
    ∀ (fuel : Nat) (p : Nat) (chain : List Nat), super_chain G fuel p = .ok chain →
      chain.length < fuel := by
  intro fuel
  induction fuel with
  | zero => intro p chain h; cases h
  | succ n ih =>
    intro p chain h
    simp only [super_chain] at h
    cases hG : G p with
    | none =>
      simp only [hG] at h
      cases h
      simp
    | some q =>
      simp only [hG] at h
      obtain ⟨rest, h1, h2⟩ := Result.bind_eq_ok h
      cases h2
      have := ih q rest h1
      simp
      omega

theorem chains_end_spec (G : Nat → Option Nat) (n : Nat) (hend : chains_end G n = true)
    (hout : ∀ p, n ≤ p → G p = none) (p : Nat) :
    ∃ chain, super_chain G (n + 1) p = .ok chain := by
  by_cases hp : p < n
  · unfold chains_end at hend
    rw [List.all_eq_true] at hend
    have := hend p (List.mem_range.mpr hp)
    split at this
    · rename_i chain h
      exact ⟨chain, h⟩
    · cases this
  · refine ⟨[], ?_⟩
    simp [super_chain, hout p (by omega)]

theorem chains_end_walk (G : Nat → Option Nat) (n : Nat) (hend : chains_end G n = true)
    (hout : ∀ p, n ≤ p → G p = none) (p : Nat) (fuel : Nat) (hfuel : n + 1 ≤ fuel) :
    ∃ chain, super_chain G fuel p = .ok chain ∧ chain.length = chain_length G n p := by
  obtain ⟨chain, h⟩ := chains_end_spec G n hend hout p
  refine ⟨chain, super_chain_mono G _ p chain h fuel hfuel, ?_⟩
  simp [chain_length, h]

theorem chain_length_le (G : Nat → Option Nat) (n p : Nat) : chain_length G n p ≤ n := by
  unfold chain_length
  split
  · rename_i chain h
    have := super_chain_length_lt G _ p chain h
    omega
  · omega

theorem chain_length_super (G : Nat → Option Nat) (n : Nat) (hend : chains_end G n = true)
    (hout : ∀ p, n ≤ p → G p = none) (p q : Nat) (hq : G p = some q) :
    chain_length G n q + 1 = chain_length G n p := by
  obtain ⟨chain, h⟩ := chains_end_spec G n hend hout p
  have hp : chain_length G n p = chain.length := by simp [chain_length, h]
  simp only [super_chain, hq] at h
  obtain ⟨rest, h1, h2⟩ := Result.bind_eq_ok h
  cases h2
  have h3 := super_chain_mono G n q rest h1 (n + 1) (by omega)
  have hq2 : chain_length G n q = rest.length := by simp [chain_length, h3]
  rw [hp, hq2]
  simp

theorem struct_at_outside (env : TypeGraph) (p : Nat) (h : env.structs.length ≤ p) :
    env.struct_at p = UScriptStruct.inert := by
  unfold TypeGraph.struct_at
  exact List.getD_eq_default _ _ h

theorem class_at_outside (env : TypeGraph) (p : Nat) (h : env.classes.length ≤ p) :
    env.class_at p = UClass.inert := by
  unfold TypeGraph.class_at
  exact List.getD_eq_default _ _ h

theorem GetSuperStruct_outside (env : TypeGraph) (p : Nat) (h : env.structs.length ≤ p) :
    env.GetSuperStruct p = none := by
  unfold TypeGraph.GetSuperStruct
  rw [struct_at_outside env p h]
  rfl

theorem GetSuperClass_outside (env : TypeGraph) (p : Nat) (h : env.classes.length ≤ p) :
    env.GetSuperClass p = none := by
  unfold TypeGraph.GetSuperClass
  rw [class_at_outside env p h]
  rfl

theorem is_struct_type_supported_inside (env : TypeGraph) (s : Nat)
    (h : is_struct_type_supported env s = true) : s < env.structs.length := by
  by_contra hs
  have hle : env.structs.length ≤ s := by omega
  unfold is_struct_type_supported at h
  rw [struct_at_outside env s hle] at h
  exact absurd h (by decide)

/-! ## Acyclic super chains -/

theorem super_iterate_add (G : Nat → Option Nat) :
    ∀ (i d p : Nat), super_iterate G (i + d) p = (super_iterate G i p).bind (super_iterate G d) := by
  intro i
  induction i with
  | zero => intro d p; simp [super_iterate]
  | succ i ih =>
    intro d p
    rw [show i + 1 + d = (i + d) + 1 by omega]
    simp only [super_iterate]
    cases hG : G p with
    | none => simp
    | some q => simp [ih]

/-- A walk that does not return has found a non-null super pointer at every step. -/
theorem super_chain_not_ok (G : Nat → Option Nat) :
    ∀ (fuel p : Nat), (∀ chain, super_chain G fuel p ≠ .ok chain) →
      ∀ k, k ≤ fuel → ∃ q, super_iterate G k p = some q := by
  intro fuel
  induction fuel with
  | zero =>
    intro p _ k hk
    obtain rfl : k = 0 := by omega
    exact ⟨p, rfl⟩
  | succ n ih =>
    intro p h k hk
    cases k with
    | zero => exact ⟨p, rfl⟩
    | succ k =>
      cases hG : G p with
      | none =>
        exfalso
        exact h [] (by simp [super_chain, hG])
      | some q =>
        have h2 : ∀ chain, super_chain G n q ≠ .ok chain := by
          intro chain hc
          exact h (q :: chain) (by simp [super_chain, hG, hc])
        obtain ⟨r, hr⟩ := ih q h2 k (by omega)
        exact ⟨r, by simp [super_iterate, hG, hr]⟩

/-- A walk that returns has met a null super pointer. -/
theorem super_chain_ok_ends (G : Nat → Option Nat) :
    ∀ (fuel p : Nat) (chain : List Nat), super_chain G fuel p = .ok chain →
      super_iterate G (chain.length + 1) p = none := by
  intro fuel
  induction fuel with
  | zero => intro p chain h; cases h
  | succ n ih =>
    intro p chain h
    simp only [super_chain] at h
    cases hG : G p with
    | none =>
      simp only [hG] at h
      cases h
      simp [super_iterate, hG]
    | some q =>
      simp only [hG] at h
      obtain ⟨rest, h1, h2⟩ := Result.bind_eq_ok h
      cases h2
      have := ih q rest h1
      simp only [List.length_cons]
      rw [super_iterate, hG]
      exact this

theorem super_iterate_prefix (G : Nat → Option Nat) (i d p : Nat)
    (h : super_iterate G i p = none) : super_iterate G (i + d) p = none := by
  rw [super_iterate_add, h]
  rfl

/-- Ending chains leave no room for a cycle. -/
theorem acyclic_of_chains_end (G : Nat → Option Nat) (n : Nat) (hend : chains_end G n = true)
    (hout : ∀ p, n ≤ p → G p = none) : acyclic G := by
  intro p k hcyc
  obtain ⟨chain, hchain⟩ := chains_end_spec G n hend hout p
  have hnone := super_chain_ok_ends G _ p chain hchain
  -- going round the cycle any number of times is possible
  have hround : ∀ m, super_iterate G (m * (k + 1)) p = some p := by
    intro m
    induction m with
    | zero => simp [super_iterate]
    | succ m ih =>
      rw [show (m + 1) * (k + 1) = m * (k + 1) + (k + 1) by ring, super_iterate_add, ih]
      exact hcyc
  have h1 := hround (chain.length + 1)
  have h2 := super_iterate_prefix G (chain.length + 1) ((chain.length + 1) * k) p hnone
  rw [show chain.length + 1 + (chain.length + 1) * k = (chain.length + 1) * (k + 1) by ring] at h2
  rw [h1] at h2
  cases h2

/-- In a graph of `n` nodes an acyclic super chain ends within `n` steps. -/
theorem chains_end_of_acyclic (G : Nat → Option Nat) (n : Nat) (hacyc : acyclic G)
    (hout : ∀ p, n ≤ p → G p = none) : chains_end G n = true := by
  unfold chains_end
  rw [List.all_eq_true]
  intro p _
  split
  · rfl
  · rename_i hne
    exfalso
    have hnot : ∀ chain, super_chain G (n + 1) p ≠ .ok chain := fun chain hc => hne chain hc
    have hsome := super_chain_not_ok G (n + 1) p hnot
    -- the first n + 1 handles of the walk all have a super, so they are inside the graph
    have hin : ∀ i, i ≤ n → ∃ q, super_iterate G i p = some q ∧ q < n := by
      intro i hi
      obtain ⟨q, hq⟩ := hsome i (by omega)
      refine ⟨q, hq, ?_⟩
      by_contra hge
      obtain ⟨r, hr⟩ := hsome (i + 1) (by omega)
      have hG : G q = none := hout q (by omega)
      rw [super_iterate_add, hq] at hr
      simp only [Option.some_bind, super_iterate, hG, Option.none_bind] at hr
      cases hr
    choose f hf using hin
    let g : Fin (n + 1) → Fin n := fun i => ⟨f i.1 (by omega), (hf i.1 (by omega)).2⟩
    obtain ⟨a, b, hab, hg⟩ := Fintype.exists_ne_map_eq_of_card_lt g (by simp)
    have hval : f a.1 (by omega) = f b.1 (by omega) := by
      have := congrArg Fin.val hg
      simpa [g] using this
    -- two equal handles on the walk close a cycle
    have hcycle : ∀ i j (hi : i ≤ n) (hj : j ≤ n), i < j → f i hi = f j hj → False := by
      intro i j hi hj hlt heq
      have h1 := (hf i hi).1
      have h2 := (hf j hj).1
      obtain ⟨d, rfl⟩ : ∃ d, j = i + (d + 1) := ⟨j - i - 1, by omega⟩
      rw [super_iterate_add, h1] at h2
      simp only [Option.some_bind] at h2
      exact hacyc (f i hi) d (by rw [h2, heq])
    rcases Nat.lt_or_gt_of_ne (fun h => hab (Fin.ext h)) with hlt | hgt
    · exact hcycle a.1 b.1 (by omega) (by omega) hlt hval
    · exact hcycle b.1 a.1 (by omega) (by omega) hgt hval.symm

/-- For the super pointers of a graph, acyclic chains and ending chains are the same. -/
theorem super_chains_end_iff_acyclic (env : TypeGraph) :
    env.super_chains_end = true ↔ env.super_chains_acyclic := by
  unfold TypeGraph.super_chains_end TypeGraph.super_chains_acyclic
  rw [Bool.and_eq_true]
  constructor
  · rintro ⟨h1, h2⟩
    exact ⟨acyclic_of_chains_end _ _ h1 (GetSuperStruct_outside env),
      acyclic_of_chains_end _ _ h2 (GetSuperClass_outside env)⟩
  · rintro ⟨h1, h2⟩
    exact ⟨chains_end_of_acyclic _ _ h1 (GetSuperStruct_outside env),
      chains_end_of_acyclic _ _ h2 (GetSuperClass_outside env)⟩

/-! ## Elementary changes -/

theorem mem_add_unique {α : Type} [DecidableEq α] (xs : List α) (x y : α) :
    y ∈ add_unique xs x ↔ y ∈ xs ∨ y = x := by
  unfold add_unique
  split
  · constructor
    · intro h; exact Or.inl h
    · rintro (h | h)
      · exact h
      · subst h; assumption
  · simp

theorem filter_length_le {α : Type} (p q : α → Bool) :
    ∀ l : List α, (∀ a ∈ l, p a = true → q a = true) →
      (l.filter p).length ≤ (l.filter q).length := by
  intro l
  induction l with
  | nil => intro _; simp
  | cons x xs ih =>
    intro h
    have ih1 := ih (fun a ha => h a (List.mem_cons_of_mem _ ha))
    have hx := h x (List.mem_cons_self _ _)
    by_cases hp : p x = true
    · simp [List.filter_cons, hp, hx hp]
      exact ih1
    · by_cases hq : q x = true
      · simp [List.filter_cons, hp, hq]
        omega
      · simp [List.filter_cons, hp, hq]
        exact ih1

theorem filter_length_lt {α : Type} (p q : α → Bool) :
    ∀ l : List α, (∀ a ∈ l, p a = true → q a = true) →
      (∃ a ∈ l, q a = true ∧ p a = false) →
      (l.filter p).length < (l.filter q).length := by
  intro l
  induction l with
  | nil => intro _ h; obtain ⟨a, ha, _⟩ := h; cases ha
  | cons x xs ih =>
    intro h hex
    have hmono := fun a ha => h a (List.mem_cons_of_mem _ ha)
    have hle := filter_length_le p q xs hmono
    have hx := h x (List.mem_cons_self _ _)
    obtain ⟨a, ha, hqa, hpa⟩ := hex
    rcases List.mem_cons.mp ha with rfl | ha1
    · simp [List.filter_cons, hpa, hqa]
      omega
    · have ih1 := ih hmono ⟨a, ha1, hqa, hpa⟩
      by_cases hp : p x = true
      · simp [List.filter_cons, hp, hx hp]
        exact ih1
      · by_cases hq : q x = true
        · simp [List.filter_cons, hp, hq]
          omega
        · simp [List.filter_cons, hp, hq]
          exact ih1

theorem unexported_structs_le (env : TypeGraph) (st st1 : Generator)
    (h : ∀ x, x ∈ st.m_exported_classes → x ∈ st1.m_exported_classes) :
    unexported_structs env st1 ≤ unexported_structs env st := by
  unfold unexported_structs
  apply filter_length_le
  intro a _ ha
  simp only [decide_eq_true_eq] at ha ⊢
  exact fun hc => ha (h _ hc)

theorem unexported_structs_le_length (env : TypeGraph) (st : Generator) :
    unexported_structs env st ≤ env.structs.length := by
  unfold unexported_structs
  calc ((List.range env.structs.length).filter _).length
      ≤ (List.range env.structs.length).length := List.length_filter_le _ _
    _ = env.structs.length := List.length_range _

theorem can_export_struct_inv (env : TypeGraph) (st : Generator) (s : Nat)
    (h : can_export_struct env st s = true) :
    UStructP.sstruct s ∉ st.m_exported_classes
      ∧ TArray_Contains st.m_skip_classes (env.struct_at s).Name = false
      ∧ is_struct_type_supported env s = true := by
  unfold can_export_struct at h
  split at h
  · cases h
  · rename_i hc
    simp only [Bool.or_eq_true, decide_eq_true_eq, not_or, Bool.not_eq_true] at hc
    exact ⟨hc.1, hc.2, h⟩

theorem unexported_structs_begin (env : TypeGraph) (st : Generator) (s : Nat)
    (h : can_export_struct env st s = true) :
    unexported_structs env (st.begin_generating (.sstruct s)) < unexported_structs env st := by
  obtain ⟨hnot, _, hsup⟩ := can_export_struct_inv env st s h
  unfold unexported_structs
  apply filter_length_lt
  · intro a _ ha
    simp only [decide_eq_true_eq, Generator.begin_generating, mem_add_unique] at ha ⊢
    exact fun hc => ha (Or.inl hc)
  · refine ⟨s, List.mem_range.mpr (is_struct_type_supported_inside env s hsup), ?_, ?_⟩
    · simpa using hnot
    · simp [Generator.begin_generating, mem_add_unique]

/-- What an elementary change keeps and what it may add. -/
theorem step_frame (env : TypeGraph) (st st1 : Generator) (h : Step env st st1) :
    st1.m_extra_classes = st.m_extra_classes
      ∧ st1.m_skip_classes = st.m_skip_classes
      ∧ st1.m_source_header_file_name = st.m_source_header_file_name
      ∧ (∀ x, x ∈ st.m_exported_classes → x ∈ st1.m_exported_classes)
      ∧ (∀ c, c ∈ st.m_used_classes → c ∈ st1.m_used_classes)
      ∧ (∀ e, e ∈ st.m_exported_enums → e ∈ st1.m_exported_enums)
      ∧ (∀ c, UStructP.cls c ∈ st1.m_exported_classes → UStructP.cls c ∈ st.m_exported_classes) := by
  cases h with
  | use_class c =>
    refine ⟨rfl, rfl, rfl, fun _ hx => hx, ?_, fun _ he => he, fun _ hc => hc⟩
    intro c1 hc1
    simp only [Generator.use_class, mem_add_unique]
    exact Or.inl hc1
  | export_enum e =>
    refine ⟨rfl, rfl, rfl, fun _ hx => hx, fun _ hc => hc, ?_, fun _ hc => hc⟩
    intro e1 he1
    simp only [Generator.export_enum, mem_add_unique]
    exact Or.inl he1
  | begin_struct s hs =>
    refine ⟨rfl, rfl, rfl, ?_, fun _ hc => hc, fun _ he => he, ?_⟩
    · intro x hx
      simp only [Generator.begin_generating, mem_add_unique]
      exact Or.inl hx
    · intro c hc
      simp only [Generator.begin_generating, mem_add_unique] at hc
      rcases hc with hc | hc
      · exact hc
      · cases hc

/-- What a run of elementary changes keeps and what it may add. -/
theorem reach_frame (env : TypeGraph) (st st1 : Generator) (h : Reach env st st1) :
    st1.m_extra_classes = st.m_extra_classes
      ∧ st1.m_skip_classes = st.m_skip_classes
      ∧ st1.m_source_header_file_name = st.m_source_header_file_name
      ∧ (∀ x, x ∈ st.m_exported_classes → x ∈ st1.m_exported_classes)
      ∧ (∀ c, c ∈ st.m_used_classes → c ∈ st1.m_used_classes)
      ∧ (∀ e, e ∈ st.m_exported_enums → e ∈ st1.m_exported_enums)
      ∧ (∀ c, UStructP.cls c ∈ st1.m_exported_classes → UStructP.cls c ∈ st.m_exported_classes) := by
  induction h with
  | refl => exact ⟨rfl, rfl, rfl, fun _ h => h, fun _ h => h, fun _ h => h, fun _ h => h⟩
  | tail _ hstep ih =>
    obtain ⟨a1, a2, a3, a4, a5, a6, a7⟩ := ih
    obtain ⟨b1, b2, b3, b4, b5, b6, b7⟩ := step_frame env _ _ hstep
    exact ⟨b1.trans a1, b2.trans a2, b3.trans a3, fun x hx => b4 x (a4 x hx),
      fun c hc => b5 c (a5 c hc), fun e he => b6 e (a6 e he), fun c hc => a7 c (b7 c hc)⟩

theorem reach_unexported_le (env : TypeGraph) (st st1 : Generator) (h : Reach env st st1) :
    unexported_structs env st1 ≤ unexported_structs env st :=
  unexported_structs_le env st st1 (reach_frame env st st1 h).2.2.2.1

theorem Reach.refl (env : TypeGraph) (st : Generator) : Reach env st st :=
  Relation.ReflTransGen.refl

theorem Reach.trans {env : TypeGraph} {a b c : Generator} (h1 : Reach env a b)
    (h2 : Reach env b c) : Reach env a c :=
  Relation.ReflTransGen.trans h1 h2

theorem Reach.step {env : TypeGraph} {a b : Generator} (h : Step env a b) : Reach env a b :=
  Relation.ReflTransGen.single h

/-! ## Routines that run to a normal return -/

theorem Runs.ok (env : TypeGraph) (k : Nat) : Runs env k (fun st => .ok st) :=
  fun st _ => ⟨st, rfl, Reach.refl env st⟩

theorem Runs.bind {env : TypeGraph} {k : Nat} {r1 r2 : Generator → Result Generator}
    (h1 : Runs env k r1) (h2 : Runs env k r2) : Runs env k (fun st => (r1 st).bind r2) := by
  intro st hst
  obtain ⟨st1, e1, reach1⟩ := h1 st hst
  obtain ⟨st2, e2, reach2⟩ :=
    h2 st1 (le_trans (reach_unexported_le env st st1 reach1) hst)
  exact ⟨st2, by simp [e1, e2], reach1.trans reach2⟩

theorem Runs.mono {env : TypeGraph} {k k1 : Nat} {r : Generator → Result Generator}
    (h : Runs env k r) (hk : k1 ≤ k) : Runs env k1 r :=
  fun st hst => h st (le_trans hst hk)

theorem Runs.for_each {α : Type} {env : TypeGraph} {k : Nat}
    {body : α → Generator → Result Generator} :
    ∀ xs : List α, (∀ x ∈ xs, Runs env k (body x)) → Runs env k (for_each body xs) := by
  intro xs
  induction xs with
  | nil => intro _; exact Runs.ok env k
  | cons x xs ih =>
    intro h
    have h1 := h x (List.mem_cons_self _ _)
    have h2 := ih (fun y hy => h y (List.mem_cons_of_mem _ hy))
    exact Runs.bind h1 h2

theorem Runs.use_class (env : TypeGraph) (k : Nat) (c : Nat) :
    Runs env k (fun st => .ok (st.use_class c)) :=
  fun st _ => ⟨_, rfl, Reach.step (Step.use_class st c)⟩

theorem reach_foldl_use_class (env : TypeGraph) :
    ∀ (cs : List Nat) (st : Generator), Reach env st (cs.foldl Generator.use_class st) := by
  intro cs
  induction cs with
  | nil => intro st; exact Reach.refl env st
  | cons c cs ih =>
    intro st
    exact (Reach.step (Step.use_class st c)).trans (ih _)

theorem get_skookum_class_path_runs (env : TypeGraph) (k fuel : Nat)
    (hend : env.super_chains_end = true) (hfuel : walks_fit env fuel) (h : UStructP) :
    Runs env k (get_skookum_class_path fuel env h) := by
  intro st _
  unfold TypeGraph.super_chains_end at hend
  rw [Bool.and_eq_true] at hend
  cases h with
  | cls c =>
    obtain ⟨chain, hc, _⟩ := chains_end_walk env.GetSuperClass _ hend.2
      (GetSuperClass_outside env) c fuel hfuel.2
    exact ⟨_, by simp [get_skookum_class_path, hc], reach_foldl_use_class env chain st⟩
  | sstruct s =>
    obtain ⟨chain, hc, _⟩ := chains_end_walk env.GetSuperStruct _ hend.1
      (GetSuperStruct_outside env) s fuel hfuel.1
    exact ⟨st, by simp [get_skookum_class_path, hc], Reach.refl env st⟩

theorem generate_enum_from_property_runs (env : TypeGraph) (k : Nat) (p : PropertyType)
    (hp : get_skookum_property_type env p = SkTypeID_Enum) :
    Runs env k (generate_enum_from_property p) := by
  obtain ⟨e, rfl⟩ := type_enum_inv env p hp
  intro st _
  by_cases he : e ∈ st.m_exported_enums
  · exact ⟨st, by simp [generate_enum_from_property, he], Reach.refl env st⟩
  · exact ⟨_, by simp [generate_enum_from_property, he], Reach.step (Step.export_enum st e)⟩

theorem generate_struct_from_property_runs (env : TypeGraph) (k : Nat)
    (gs : Nat → Generator → Result Generator) (hgs : ∀ s, Runs env k (gs s))
    (p : PropertyType) (hp : get_skookum_property_type env p = SkTypeID_UStruct) :
    Runs env k (generate_struct_from_property gs p) := by
  obtain ⟨s, rfl⟩ := type_ustruct_inv env p hp
  exact hgs s

theorem get_skookum_property_type_name_runs (env : TypeGraph) (k : Nat)
    (gs : Nat → Generator → Result Generator) (hgs : ∀ s, Runs env k (gs s))
    (p : PropertyType) : Runs env k (get_skookum_property_type_name gs env p) := by
  intro st hst
  unfold get_skookum_property_type_name
  split
  · rename_i hp
    obtain ⟨c, hc⟩ := type_uobject_inv env p hp
    rw [hc]
    exact ⟨_, rfl, Reach.step (Step.use_class st c)⟩
  · rename_i hp
    obtain ⟨s, rfl⟩ := type_ustruct_inv env p hp
    exact hgs s st hst
  · exact ⟨st, rfl, Reach.refl env st⟩

theorem export_type_of_member_runs (env : TypeGraph) (k : Nat)
    (gs : Nat → Generator → Result Generator) (hgs : ∀ s, Runs env k (gs s))
    (p : PropertyType) : Runs env k (export_type_of_member gs env p) := by
  unfold export_type_of_member
  apply Runs.bind
  · by_cases h : get_skookum_property_type env p = SkTypeID_Enum
    · simp only [h, if_true]
      exact generate_enum_from_property_runs env k p h
    · simp only [h, if_false]
      exact Runs.ok env k
  · by_cases h : get_skookum_property_type env p = SkTypeID_UStruct
    · simp only [h, if_true]
      exact generate_struct_from_property_runs env k gs hgs p h
    · simp only [h, if_false]
      exact Runs.ok env k

theorem can_export_method_params_runs (env : TypeGraph) (k : Nat)
    (gs : Nat → Generator → Result Generator) (hgs : ∀ s, Runs env k (gs s)) :
    ∀ (params : List UProperty) (st : Generator), unexported_structs env st ≤ k →
      ∃ st1, can_export_method_params gs env params st
          = .ok (params_exportable env params, st1) ∧ Reach env st st1 := by
  intro params
  induction params with
  | nil => intro st _; exact ⟨st, rfl, Reach.refl env st⟩
  | cons p rest ih =>
    intro st hst
    unfold can_export_method_params
    by_cases h1 : is_rejected_param_kind p.Kind = true
    · exact ⟨st, by simp [h1, params_exportable], Reach.refl env st⟩
    · by_cases h2 : is_property_type_supported env p.Kind = true
      · obtain ⟨st1, e1, r1⟩ := export_type_of_member_runs env k gs hgs p.Kind st hst
        obtain ⟨st2, e2, r2⟩ := ih st1 (le_trans (reach_unexported_le env st st1 r1) hst)
        refine ⟨st2, ?_, r1.trans r2⟩
        simp only [h1, h2, e1, Result.bind_ok, e2]
        simp [params_exportable, h1, h2]
      · exact ⟨st, by simp [h1, h2, params_exportable], Reach.refl env st⟩

theorem can_export_method_runs (env : TypeGraph) (k : Nat)
    (gs : Nat → Generator → Result Generator) (hgs : ∀ s, Runs env k (gs s))
    (c : Nat) (f : UFunction) (st : Generator) (hst : unexported_structs env st ≤ k) :
    ∃ st1, can_export_method gs env c f st = .ok (method_exportable env c f, st1)
      ∧ Reach env st st1 := by
  unfold can_export_method method_exportable
  by_cases h1 : f.OwnerClass = c
  · by_cases h2 : f.FUNC_Delegate = true
    · exact ⟨st, by simp [h1, h2], Reach.refl env st⟩
    · obtain ⟨st1, e1, r1⟩ := can_export_method_params_runs env k gs hgs f.Params st hst
      exact ⟨st1, by simp [h1, h2, e1], r1⟩
  · exact ⟨st, by simp [h1], Reach.refl env st⟩

theorem can_export_property_runs (env : TypeGraph) (k : Nat)
    (gs : Nat → Generator → Result Generator) (hgs : ∀ s, Runs env k (gs s))
    (h : UStructP) (p : UProperty) (st : Generator) (hst : unexported_structs env st ≤ k) :
    ∃ st1, can_export_property gs env h p st = .ok (property_exportable env h p, st1)
      ∧ Reach env st st1 := by
  unfold can_export_property property_exportable
  by_cases h2 : p.OwnerStruct = some h
  · by_cases h3 : is_property_type_supported env p.Kind = true
    · obtain ⟨st1, e1, r1⟩ := export_type_of_member_runs env k gs hgs p.Kind st hst
      cases h with
      | cls c =>
        by_cases h1 : p.OwnerClass = some c
        · exact ⟨st1, by simp [h1, h2, h3, e1], r1⟩
        · exact ⟨st, by simp [h1], Reach.refl env st⟩
      | sstruct s => exact ⟨st1, by simp [h2, h3, e1], r1⟩
    · refine ⟨st, ?_, Reach.refl env st⟩
      cases h with
      | cls c => by_cases h1 : p.OwnerClass = some c <;> simp [h1, h2, h3]
      | sstruct s => simp [h2, h3]
  · refine ⟨st, ?_, Reach.refl env st⟩
    cases h with
    | cls c => by_cases h1 : p.OwnerClass = some c <;> simp [h1, h2]
    | sstruct s => simp [h2]

theorem generate_property_default_ctor_argument_runs (env : TypeGraph) (k : Nat)
    (p : PropertyType) (hp : get_skookum_property_type env p ≠ SkTypeID_None) :
    Runs env k (generate_property_default_ctor_argument env p) := by
  intro st _
  refine ⟨st, ?_, Reach.refl env st⟩
  unfold generate_property_default_ctor_argument
  split
  · rename_i h; exact absurd h hp
  · rfl

theorem generate_return_or_param_value_passing_runs (env : TypeGraph) (k : Nat)
    (gs : Nat → Generator → Result Generator) (hgs : ∀ s, Runs env k (gs s)) :
    ∀ p : PropertyType, get_skookum_property_type env p ≠ SkTypeID_None →
      Runs env k (generate_return_or_param_value_passing gs env p) := by
  intro p
  induction p with
  | UArrayProperty inner ih =>
    intro hp st hst
    simp only [generate_return_or_param_value_passing, value_passing_switch]
    split
    · rename_i h; exact absurd h hp
    · exact get_skookum_property_type_name_runs env k gs hgs _ st hst
    · exact get_skookum_property_type_name_runs env k gs hgs _ st hst
    · rename_i h
      obtain ⟨inner1, hinner, hsup, _⟩ := type_list_inv env _ h
      cases hinner
      exact ih (is_property_type_supported_ne_none env inner hsup) st hst
    · exact ⟨st, rfl, Reach.refl env st⟩
  | _ =>
    intro hp st hst
    simp only [generate_return_or_param_value_passing, value_passing_switch]
    split
    · rename_i h; exact absurd h hp
    · exact get_skookum_property_type_name_runs env k gs hgs _ st hst
    · exact get_skookum_property_type_name_runs env k gs hgs _ st hst
    · rename_i h
      obtain ⟨inner1, hinner, _, _⟩ := type_list_inv env _ h
      cases hinner
    · exact ⟨st, rfl, Reach.refl env st⟩

theorem get_array_parameter_expression_runs (env : TypeGraph) (k : Nat)
    (gs : Nat → Generator → Result Generator) (hgs : ∀ s, Runs env k (gs s))
    (p : PropertyType) (hp : get_skookum_property_type env p = SkTypeID_List) :
    Runs env k (get_array_parameter_expression gs env p) := by
  obtain ⟨inner, rfl, hsup, hnl⟩ := type_list_inv env p hp
  have hnn := is_property_type_supported_ne_none env inner hsup
  intro st hst
  simp only [get_array_parameter_expression]
  split
  · rename_i h; exact absurd h hnn
  · rename_i h; exact absurd h hnl
  · exact get_skookum_property_type_name_runs env k gs hgs _ st hst
  · exact get_skookum_property_type_name_runs env k gs hgs _ st hst
  · exact ⟨st, rfl, Reach.refl env st⟩

theorem generate_method_parameter_expression_runs (env : TypeGraph) (k : Nat)
    (gs : Nat → Generator → Result Generator) (hgs : ∀ s, Runs env k (gs s))
    (p : UProperty) (hp : get_skookum_property_type env p.Kind ≠ SkTypeID_None) :
    Runs env k (generate_method_parameter_expression gs env p) := by
  intro st hst
  unfold generate_method_parameter_expression
  split
  · split
    · rename_i h; exact absurd h hp
    · exact get_skookum_property_type_name_runs env k gs hgs _ st hst
    · exact get_skookum_property_type_name_runs env k gs hgs _ st hst
    · rename_i h
      exact get_array_parameter_expression_runs env k gs hgs _ h st hst
    · exact ⟨st, rfl, Reach.refl env st⟩
  · split
    · exact ⟨st, rfl, Reach.refl env st⟩
    · exact generate_property_default_ctor_argument_runs env k _ hp st hst

theorem generate_method_out_parameter_expression_runs (env : TypeGraph) (k : Nat)
    (gs : Nat → Generator → Result Generator) (hgs : ∀ s, Runs env k (gs s))
    (p : UProperty) (hp : get_skookum_property_type env p.Kind ≠ SkTypeID_None) :
    Runs env k (generate_method_out_parameter_expression gs env p) := by
  intro st hst
  unfold generate_method_out_parameter_expression
  split
  · rename_i h; exact absurd h hp
  · exact get_skookum_property_type_name_runs env k gs hgs _ st hst
  · exact get_skookum_property_type_name_runs env k gs hgs _ st hst
  · exact generate_return_or_param_value_passing_runs env k gs hgs _ hp st hst
  · exact ⟨st, rfl, Reach.refl env st⟩

theorem params_exportable_supported (env : TypeGraph) (params : List UProperty)
    (h : params_exportable env params = true) (p : UProperty) (hp : p ∈ params) :
    is_rejected_param_kind p.Kind = false ∧ is_property_type_supported env p.Kind = true := by
  unfold params_exportable at h
  rw [List.all_eq_true] at h
  have := h p hp
  simpa using this

theorem method_exportable_inv (env : TypeGraph) (c : Nat) (f : UFunction)
    (h : method_exportable env c f = true) :
    f.OwnerClass = c ∧ f.FUNC_Delegate = false ∧ params_exportable env f.Params = true := by
  unfold method_exportable at h
  simpa [Bool.and_eq_true, and_assoc] using h

theorem property_exportable_inv (env : TypeGraph) (h : UStructP) (p : UProperty)
    (hp : property_exportable env h p = true) :
    p.OwnerStruct = some h ∧ is_property_type_supported env p.Kind = true := by
  unfold property_exportable at hp
  simp only [Bool.and_eq_true, decide_eq_true_eq] at hp
  exact ⟨hp.1.2, hp.2⟩

theorem generate_method_runs (env : TypeGraph) (k fuel : Nat)
    (hend : env.super_chains_end = true) (hfuel : walks_fit env fuel)
    (gs : Nat → Generator → Result Generator) (hgs : ∀ s, Runs env k (gs s))
    (f : UFunction) (hf : params_exportable env f.Params = true) :
    Runs env k (generate_method gs fuel env f) := by
  have hsup : ∀ p ∈ f.Params, get_skookum_property_type env p.Kind ≠ SkTypeID_None :=
    fun p hp => is_property_type_supported_ne_none env _
      (params_exportable_supported env f.Params hf p hp).2
  unfold generate_method
  apply Runs.bind
  · unfold generate_method_script_file
    apply Runs.bind
    · exact Runs.for_each _ (fun p _ => get_skookum_property_type_name_runs env k gs hgs p.Kind)
    · exact get_skookum_class_path_runs env k fuel hend hfuel _
  · unfold generate_method_binding_code
    apply Runs.bind
    · apply Runs.for_each
      intro p hp
      apply Runs.bind
      · exact generate_method_parameter_expression_runs env k gs hgs p (hsup p hp)
      · by_cases hc : (p.CPF_OutParm && !p.CPF_ReturnParm) = true
        · simp only [hc, if_true]
          exact generate_method_out_parameter_expression_runs env k gs hgs p (hsup p hp)
        · simp only [hc]
          exact Runs.ok env k
    · intro st hst
      cases hr : f.GetReturnProperty with
      | none => exact ⟨st, by simp, Reach.refl env st⟩
      | some rp =>
        have hmem : rp ∈ f.Params := by
          unfold UFunction.GetReturnProperty at hr
          exact List.mem_of_find?_eq_some hr
        exact generate_return_or_param_value_passing_runs env k gs hgs rp.Kind
          (hsup rp hmem) st hst

theorem get_skookum_method_path_of_owner_runs (env : TypeGraph) (k fuel : Nat)
    (hend : env.super_chains_end = true) (hfuel : walks_fit env fuel)
    (p : UProperty) (h : UStructP) (hp : p.OwnerStruct = some h) :
    Runs env k (get_skookum_method_path_of_owner fuel env p) := by
  unfold get_skookum_method_path_of_owner UProperty.owner
  cases hc : p.OwnerClass with
  | some c => exact get_skookum_class_path_runs env k fuel hend hfuel _
  | none =>
    simp only [hp]
    exact get_skookum_class_path_runs env k fuel hend hfuel _

theorem generate_property_getter_runs (env : TypeGraph) (k fuel : Nat)
    (hend : env.super_chains_end = true) (hfuel : walks_fit env fuel)
    (gs : Nat → Generator → Result Generator) (hgs : ∀ s, Runs env k (gs s))
    (h : UStructP) (p : UProperty) (hp : property_exportable env h p = true) :
    Runs env k (generate_property_getter gs fuel env p) := by
  obtain ⟨hown, hsup⟩ := property_exportable_inv env h p hp
  have hnn := is_property_type_supported_ne_none env _ hsup
  unfold generate_property_getter
  apply Runs.bind (get_skookum_property_type_name_runs env k gs hgs p.Kind)
  apply Runs.bind (get_skookum_method_path_of_owner_runs env k fuel hend hfuel p h hown)
  apply Runs.bind (generate_property_default_ctor_argument_runs env k _ hnn)
  exact generate_return_or_param_value_passing_runs env k gs hgs _ hnn

theorem generate_property_setter_runs (env : TypeGraph) (k fuel : Nat)
    (hend : env.super_chains_end = true) (hfuel : walks_fit env fuel)
    (gs : Nat → Generator → Result Generator) (hgs : ∀ s, Runs env k (gs s))
    (h : UStructP) (p : UProperty) (hp : property_exportable env h p = true) :
    Runs env k (generate_property_setter gs fuel env p) := by
  obtain ⟨hown, hsup⟩ := property_exportable_inv env h p hp
  have hnn := is_property_type_supported_ne_none env _ hsup
  unfold generate_property_setter
  apply Runs.bind (get_skookum_method_path_of_owner_runs env k fuel hend hfuel p h hown)
  apply Runs.bind (get_skookum_property_type_name_runs env k gs hgs p.Kind)
  exact generate_method_parameter_expression_runs env k gs hgs p hnn

theorem export_functions_runs (env : TypeGraph) (k fuel : Nat)
    (hend : env.super_chains_end = true) (hfuel : walks_fit env fuel)
    (gs : Nat → Generator → Result Generator) (hgs : ∀ s, Runs env k (gs s)) (c : Nat) :
    ∀ (fs : List UFunction) (b : Bindings), RunsWith env k (export_functions gs fuel env c fs b) := by
  intro fs
  induction fs with
  | nil => intro b st _; exact ⟨b, st, rfl, Reach.refl env st⟩
  | cons f rest ih =>
    intro b st hst
    obtain ⟨st1, e1, r1⟩ := can_export_method_runs env k gs hgs c f st hst
    have hst1 := le_trans (reach_unexported_le env st st1 r1) hst
    simp only [export_functions, e1, Result.bind_ok]
    by_cases hx : method_exportable env c f = true
    · simp only [hx, if_true]
      split
      · obtain ⟨st2, e2, r2⟩ := generate_method_runs env k fuel hend hfuel gs hgs f
          (method_exportable_inv env c f hx).2.2 st1 hst1
        have hst2 := le_trans (reach_unexported_le env st1 st2 r2) hst1
        simp only [e2, Result.bind_ok]
        obtain ⟨b3, st3, e3, r3⟩ := ih _ st2 hst2
        exact ⟨b3, st3, e3, (r1.trans r2).trans r3⟩
      · obtain ⟨b3, st3, e3, r3⟩ := ih b st1 hst1
        exact ⟨b3, st3, e3, r1.trans r3⟩
    · simp only [hx]
      obtain ⟨b3, st3, e3, r3⟩ := ih b st1 hst1
      exact ⟨b3, st3, e3, r1.trans r3⟩

theorem export_properties_runs (env : TypeGraph) (k fuel : Nat)
    (hend : env.super_chains_end = true) (hfuel : walks_fit env fuel)
    (gs : Nat → Generator → Result Generator) (hgs : ∀ s, Runs env k (gs s)) (h : UStructP) :
    ∀ (ps : List UProperty) (b : Bindings),
      RunsWith env k (export_properties gs fuel env h ps b) := by
  intro ps
  induction ps with
  | nil => intro b st _; exact ⟨b, st, rfl, Reach.refl env st⟩
  | cons p rest ih =>
    intro b st hst
    obtain ⟨st1, e1, r1⟩ := can_export_property_runs env k gs hgs h p st hst
    have hst1 := le_trans (reach_unexported_le env st st1 r1) hst
    simp only [export_properties, e1, Result.bind_ok]
    by_cases hx : property_exportable env h p = true
    · simp only [hx, if_true]
      -- the getter
      have hget : ∃ b2 st2,
          (if (!bindings_contain b.instance_scope (MethodBinding.make_property_getter p)) = true
            then (generate_property_getter gs fuel env p st1).bind (fun st2 =>
              Result.ok ({ b with instance_scope := b.instance_scope
                ++ [MethodBinding.make_property_getter p] }, st2))
            else Result.ok (b, st1)) = .ok (b2, st2) ∧ Reach env st1 st2 := by
        split
        · obtain ⟨st2, e2, r2⟩ :=
            generate_property_getter_runs env k fuel hend hfuel gs hgs h p hx st1 hst1
          exact ⟨_, st2, by rw [e2]; rfl, r2⟩
        · exact ⟨b, st1, rfl, Reach.refl env st1⟩
      obtain ⟨b2, st2, e2, r2⟩ := hget
      have hst2 := le_trans (reach_unexported_le env st1 st2 r2) hst1
      simp only [e2, Result.bind_ok]
      -- the setter
      have hset : ∃ b3 st3,
          (if p.CPF_Edit = true then
              if (!bindings_contain b2.instance_scope (MethodBinding.make_property_setter p)) = true
              then (generate_property_setter gs fuel env p st2).bind (fun st3 =>
                Result.ok ({ b2 with instance_scope := b2.instance_scope
                  ++ [MethodBinding.make_property_setter p] }, st3))
              else Result.ok (b2, st2)
            else Result.ok (b2, st2)) = .ok (b3, st3) ∧ Reach env st2 st3 := by
        split
        · split
          · obtain ⟨st3, e3, r3⟩ :=
              generate_property_setter_runs env k fuel hend hfuel gs hgs h p hx st2 hst2
            exact ⟨_, st3, by rw [e3]; rfl, r3⟩
          · exact ⟨b2, st2, rfl, Reach.refl env st2⟩
        · exact ⟨b2, st2, rfl, Reach.refl env st2⟩
      obtain ⟨b3, st3, e3, r3⟩ := hset
      have hst3 := le_trans (reach_unexported_le env st2 st3 r3) hst2
      simp only [e3, Result.bind_ok]
      obtain ⟨b4, st4, e4, r4⟩ := ih b3 st3 hst3
      exact ⟨b4, st4, e4, ((r1.trans r2).trans r3).trans r4⟩
    · simp only [hx]
      obtain ⟨b3, st3, e3, r3⟩ := ih b st1 hst1
      exact ⟨b3, st3, e3, r1.trans r3⟩

theorem struct_properties_ok (env : TypeGraph) (fuel : Nat)
    (hend : env.super_chains_end = true) (hfuel : walks_fit env fuel) (h : UStructP) :
    ∃ ps, struct_properties fuel env h = .ok ps := by
  unfold TypeGraph.super_chains_end at hend
  rw [Bool.and_eq_true] at hend
  cases h with
  | cls c =>
    obtain ⟨chain, hc, _⟩ := chains_end_walk env.GetSuperClass _ hend.2
      (GetSuperClass_outside env) c fuel hfuel.2
    exact ⟨_, by rw [struct_properties, hc]; rfl⟩
  | sstruct s =>
    obtain ⟨chain, hc, _⟩ := chains_end_walk env.GetSuperStruct _ hend.1
      (GetSuperStruct_outside env) s fuel hfuel.1
    exact ⟨_, by rw [struct_properties, hc]; rfl⟩

theorem class_functions_ok (env : TypeGraph) (fuel : Nat)
    (hend : env.super_chains_end = true) (hfuel : walks_fit env fuel) (c : Nat) :
    ∃ fs, class_functions fuel env c = .ok fs := by
  unfold TypeGraph.super_chains_end at hend
  rw [Bool.and_eq_true] at hend
  obtain ⟨chain, hc, _⟩ := chains_end_walk env.GetSuperClass _ hend.2
    (GetSuperClass_outside env) c fuel hfuel.2
  exact ⟨_, by rw [class_functions, hc]; rfl⟩

theorem generate_struct_binding_file_runs (env : TypeGraph) (k fuel : Nat)
    (hend : env.super_chains_end = true) (hfuel : walks_fit env fuel)
    (gs : Nat → Generator → Result Generator) (hgs : ∀ s, Runs env k (gs s)) (s : Nat) :
    RunsWith env k (generate_struct_binding_file gs fuel env s) := by
  intro st hst
  obtain ⟨ps, hps⟩ := struct_properties_ok env fuel hend hfuel (.sstruct s)
  simp only [generate_struct_binding_file, hps, Result.bind_ok]
  exact export_properties_runs env k fuel hend hfuel gs hgs (.sstruct s) ps
    { instance_scope := [], class_scope := [] } st hst

theorem generate_class_binding_file_runs (env : TypeGraph) (k fuel : Nat)
    (hend : env.super_chains_end = true) (hfuel : walks_fit env fuel)
    (gs : Nat → Generator → Result Generator) (hgs : ∀ s, Runs env k (gs s)) (c : Nat) :
    RunsWith env k (generate_class_binding_file gs fuel env c) := by
  intro st hst
  obtain ⟨fs, hfs⟩ := class_functions_ok env fuel hend hfuel c
  obtain ⟨ps, hps⟩ := struct_properties_ok env fuel hend hfuel (.cls c)
  simp only [generate_class_binding_file, hfs, Result.bind_ok]
  obtain ⟨b1, st1, e1, r1⟩ := export_functions_runs env k fuel hend hfuel gs hgs c fs
    { instance_scope := [], class_scope := [] } st hst
  simp only [e1, Result.bind_ok, hps]
  obtain ⟨b2, st2, e2, r2⟩ := export_properties_runs env k fuel hend hfuel gs hgs (.cls c) ps b1 st1
    (le_trans (reach_unexported_le env st st1 r1) hst)
  exact ⟨b2, st2, e2, r1.trans r2⟩

theorem structs_run_runs (env : TypeGraph) (fuel k : Nat) (hrun : StructsRun env fuel)
    (hk : k * (env.structs.length + 2) + env.structs.length + 1 + walk_budget env ≤ fuel)
    (s : Nat) : Runs env k (generate_struct fuel env s) := by
  intro st hst
  apply hrun s st
  unfold struct_budget
  have h1 : unexported_structs env st * (env.structs.length + 2)
      ≤ k * (env.structs.length + 2) := Nat.mul_le_mul_right _ hst
  have h2 := chain_length_le env.GetSuperStruct env.structs.length s
  omega

/-- One unfolding of `generate_struct` under a budget that fits: the struct itself
is dealt with (generated when it passes the gate, skipped otherwise), what remains
is the call for the super struct, whose budget fits again. -/
theorem generate_struct_step (env : TypeGraph) (fuel : Nat)
    (hend : env.super_chains_end = true) (hrun : StructsRun env fuel)
    (s : Nat) (st : Generator) (hfuel : struct_budget env st s ≤ fuel + 1) :
    ∃ st2, Reach env st st2
      ∧ (can_export_struct env st s = true →
          Reach env (st.begin_generating (.sstruct s)) st2)
      ∧ (can_export_struct env st s = false → st2 = st)
      ∧ generate_struct (fuel + 1) env s st
          = (match env.GetSuperStruct s with
             | some parent_struct_p => generate_struct fuel env parent_struct_p st2
             | none => .ok st2)
      ∧ (∀ p, env.GetSuperStruct s = some p → struct_budget env st2 p ≤ fuel) := by
  have hend2 := hend
  unfold TypeGraph.super_chains_end at hend2
  rw [Bool.and_eq_true] at hend2
  have hwalk : walks_fit env fuel := by
    unfold struct_budget walk_budget at hfuel
    unfold walks_fit
    omega
  have hparent : ∀ st2, unexported_structs env st2 ≤ unexported_structs env st →
      ∀ p, env.GetSuperStruct s = some p → struct_budget env st2 p ≤ fuel := by
    intro st2 hle p hp
    have hd := chain_length_super env.GetSuperStruct _ hend2.1 (GetSuperStruct_outside env) s p hp
    have h1 : unexported_structs env st2 * (env.structs.length + 2)
        ≤ unexported_structs env st * (env.structs.length + 2) := Nat.mul_le_mul_right _ hle
    unfold struct_budget at hfuel ⊢
    omega
  by_cases hc : can_export_struct env st s = true
  · have hlt := unexported_structs_begin env st s hc
    have hgs : ∀ s1, Runs env (unexported_structs env (st.begin_generating (.sstruct s)))
        (generate_struct fuel env s1) := by
      intro s1
      apply structs_run_runs env fuel _ hrun
      have h1 : (unexported_structs env (st.begin_generating (.sstruct s)) + 1)
          * (env.structs.length + 2)
          ≤ unexported_structs env st * (env.structs.length + 2) :=
        Nat.mul_le_mul_right _ hlt
      rw [Nat.add_mul] at h1
      unfold struct_budget at hfuel
      omega
    obtain ⟨st1, e1, r1⟩ := get_skookum_class_path_runs env _ fuel hend hwalk (.sstruct s)
      (st.begin_generating (.sstruct s)) (le_refl _)
    obtain ⟨b2, st2, e2, r2⟩ := generate_struct_binding_file_runs env _ fuel hend hwalk
      (generate_struct fuel env) hgs s st1 (reach_unexported_le env _ _ r1)
    have rall : Reach env st st2 := (Reach.step (Step.begin_struct st s hc)).trans (r1.trans r2)
    refine ⟨st2, rall, fun _ => r1.trans r2, fun hf => ?_, ?_,
      hparent st2 (reach_unexported_le env _ _ rall)⟩
    · rw [hc] at hf; cases hf
    · simp only [generate_struct, hc, if_true, e1, Result.bind_ok, e2]
  · have hc2 : can_export_struct env st s = false := by
      cases h : can_export_struct env st s
      · rfl
      · exact absurd h hc
    refine ⟨st, Reach.refl env st, fun ht => absurd ht hc, fun _ => rfl, ?_,
      hparent st (le_refl _)⟩
    simp only [generate_struct, hc2, Bool.false_eq_true, if_false, Result.bind_ok]

/-- Termination of `generate_struct`: a budget that fits is never exhausted, no fatal
branch is reached, and the state only changes by elementary changes. -/
theorem generate_struct_runs (env : TypeGraph) (hend : env.super_chains_end = true) :
    ∀ fuel, StructsRun env fuel := by
  intro fuel
  induction fuel with
  | zero =>
    intro s st h
    unfold struct_budget at h
    omega
  | succ n ih =>
    intro s st h
    obtain ⟨st2, r2, _, _, e, hp⟩ := generate_struct_step env n hend ih s st h
    rw [e]
    cases hs : env.GetSuperStruct s with
    | none => exact ⟨st2, rfl, r2⟩
    | some p =>
      obtain ⟨st3, e3, r3⟩ := ih p st2 (hp p hs)
      exact ⟨st3, e3, r2.trans r3⟩

/-! ## Enough budget for every entry point -/

theorem struct_budget_le_enough (env : TypeGraph) (st : Generator) (s : Nat) :
    struct_budget env st s ≤ enough_fuel env := by
  unfold struct_budget enough_fuel
  have h1 : unexported_structs env st * (env.structs.length + 2)
      ≤ env.structs.length * (env.structs.length + 2) :=
    Nat.mul_le_mul_right _ (unexported_structs_le_length env st)
  have h2 := chain_length_le env.GetSuperStruct env.structs.length s
  omega

theorem walks_fit_of_enough (env : TypeGraph) (fuel : Nat) (h : enough_fuel env ≤ fuel) :
    walks_fit env fuel := by
  unfold enough_fuel walk_budget at h
  unfold walks_fit
  omega

theorem generate_struct_ok (env : TypeGraph) (hend : env.super_chains_end = true)
    (fuel : Nat) (hfuel : enough_fuel env ≤ fuel) (s : Nat) (st : Generator) :
    ∃ st1, generate_struct fuel env s st = .ok st1 ∧ Reach env st st1 :=
  generate_struct_runs env hend fuel s st (le_trans (struct_budget_le_enough env st s) hfuel)

theorem generate_struct_runs_any (env : TypeGraph) (hend : env.super_chains_end = true)
    (fuel : Nat) (hfuel : enough_fuel env ≤ fuel) (k : Nat) (s : Nat) :
    Runs env k (generate_struct fuel env s) :=
  fun st _ => generate_struct_ok env hend fuel hfuel s st

theorem generate_class_ok (env : TypeGraph) (hend : env.super_chains_end = true)
    (fuel : Nat) (hfuel : enough_fuel env ≤ fuel) (c : Nat) (st : Generator) :
    ∃ st1, generate_class fuel env c st = .ok st1
      ∧ Reach env (st.begin_generating (.cls c)) st1 := by
  have hwalk := walks_fit_of_enough env fuel hfuel
  obtain ⟨st1, e1, r1⟩ := get_skookum_class_path_runs env env.structs.length fuel hend hwalk
    (.cls c) (st.begin_generating (.cls c)) (unexported_structs_le_length env _)
  obtain ⟨b2, st2, e2, r2⟩ := generate_class_binding_file_runs env env.structs.length fuel
    hend hwalk (generate_struct fuel env)
    (generate_struct_runs_any env hend fuel hfuel _) c st1
    (unexported_structs_le_length env _)
  exact ⟨st2, by simp only [generate_class, e1, Result.bind_ok, e2], r1.trans r2⟩

/-! ## The log of generated structs -/

theorem count_append_singleton {α : Type} [DecidableEq α] (l : List α) (a b : α) :
    (l ++ [b]).count a = l.count a + (if b = a then 1 else 0) := by
  rw [List.count_append, List.count_singleton]
  by_cases h : b = a
  · simp [h]
  · have h2 : ¬ a = b := fun e => h e.symm
    simp [h, h2]

/-- Along elementary changes the log gains a given handle at most once, and only a
struct handle that was not in the exported set before. -/
theorem reach_log (env : TypeGraph) (st st1 : Generator) (h : Reach env st st1) (x : UStructP) :
    st1.log_generating.count x = st.log_generating.count x
      ∨ (x ∈ st1.m_exported_classes ∧ x ∉ st.m_exported_classes
          ∧ (∃ s, x = .sstruct s)
          ∧ st1.log_generating.count x = st.log_generating.count x + 1) := by
  induction h with
  | refl => exact Or.inl rfl
  | @tail b c hab hstep ih =>
    have hmono := (reach_frame env st b hab).2.2.2.1
    cases hstep with
    | use_class cl => exact ih
    | export_enum e => exact ih
    | begin_struct s hs =>
      obtain ⟨hnot, _, _⟩ := can_export_struct_inv env b s hs
      by_cases hx : UStructP.sstruct s = x
      · subst hx
        rcases ih with ih | ih
        · right
          refine ⟨?_, fun hin => hnot (hmono _ hin), ⟨s, rfl⟩, ?_⟩
          · simp [Generator.begin_generating, mem_add_unique]
          · simp only [Generator.begin_generating, count_append_singleton, if_true, ih]
        · exact absurd ih.1 hnot
      · rcases ih with ih | ih
        · left
          simp only [Generator.begin_generating, count_append_singleton, hx, if_false, ih,
            Nat.add_zero]
        · right
          refine ⟨?_, ih.2.1, ih.2.2.1, ?_⟩
          · simp only [Generator.begin_generating, mem_add_unique]
            exact Or.inl ih.1
          · simp only [Generator.begin_generating, count_append_singleton, hx, if_false,
              ih.2.2.2, Nat.add_zero]

/-! ## Ancestors of a generated struct -/

theorem begin_generating_mem (st : Generator) (h : UStructP) :
    h ∈ (st.begin_generating h).m_exported_classes := by
  simp [Generator.begin_generating, mem_add_unique]

theorem generate_struct_ancestors (env : TypeGraph) (hend : env.super_chains_end = true) :
    ∀ (fuel : Nat) (s : Nat) (st st1 : Generator), struct_budget env st s ≤ fuel →
      generate_struct fuel env s st = .ok st1 →
      ∀ chain, super_chain env.GetSuperStruct (env.structs.length + 1) s = .ok chain →
        ∀ a ∈ s :: chain, is_struct_type_supported env a = true →
          TArray_Contains st.m_skip_classes (env.struct_at a).Name = false →
          UStructP.sstruct a ∈ st1.m_exported_classes := by
  intro fuel
  induction fuel with
  | zero =>
    intro s st st1 h
    unfold struct_budget at h
    omega
  | succ n ih =>
    intro s st st1 hb hrun chain hchain a ha hsup hskip
    obtain ⟨st2, r2, hyes, hno, e, hp⟩ :=
      generate_struct_step env n hend (generate_struct_runs env hend n) s st hb
    rw [e] at hrun
    have hskip2 : st2.m_skip_classes = st.m_skip_classes := (reach_frame env st st2 r2).2.1
    -- the struct itself is exported once it has been dealt with
    have hself : is_struct_type_supported env s = true →
        TArray_Contains st.m_skip_classes (env.struct_at s).Name = false →
        UStructP.sstruct s ∈ st2.m_exported_classes := by
      intro hs1 hs2
      by_cases hc : can_export_struct env st s = true
      · exact (reach_frame env _ st2 (hyes hc)).2.2.2.1 _ (begin_generating_mem st _)
      · have hc2 : can_export_struct env st s = false := by
          cases h : can_export_struct env st s
          · rfl
          · exact absurd h hc
        rw [hno hc2]
        unfold can_export_struct at hc2
        split at hc2
        · rename_i hcond
          simp only [Bool.or_eq_true, decide_eq_true_eq] at hcond
          rcases hcond with hcond | hcond
          · exact hcond
          · rw [hs2] at hcond; cases hcond
        · rw [hs1] at hc2; cases hc2
    cases hs : env.GetSuperStruct s with
    | none =>
      simp only [hs] at hrun
      cases hrun
      simp only [super_chain, hs] at hchain
      cases hchain
      simp only [List.mem_singleton] at ha
      subst ha
      exact hself hsup hskip
    | some p =>
      simp only [hs] at hrun
      obtain ⟨st3, e3, r3⟩ := generate_struct_runs env hend n p st2 (hp p hs)
      rw [e3] at hrun
      have hst : st3 = st1 := by injection hrun
      subst hst
      simp only [super_chain, hs] at hchain
      obtain ⟨rest, h1, h2⟩ := Result.bind_eq_ok hchain
      cases h2
      rcases List.mem_cons.mp ha with rfl | ha2
      · exact (reach_frame env st2 st3 r3).2.2.2.1 _ (hself hsup hskip)
      · exact ih p st2 st3 (hp p hs) e3 rest
          (super_chain_mono _ _ p rest h1 _ (by omega)) a ha2 hsup (by rw [hskip2]; exact hskip)

/-! ## Export requests -/

theorem reach_log_cls (env : TypeGraph) (st st1 : Generator) (h : Reach env st st1) (c : Nat) :
    st1.log_generating.count (.cls c) = st.log_generating.count (.cls c) := by
  rcases reach_log env st st1 h (.cls c) with h1 | h1
  · exact h1
  · obtain ⟨s, hs⟩ := h1.2.2.1
    cases hs

theorem can_export_class_iff (env : TypeGraph) (st : Generator) (c : Nat) :
    can_export_class env st c = true ↔
      (UStructP.cls c ∉ st.m_exported_classes
        ∧ TArray_Contains st.m_skip_classes (env.class_at c).Name = false
        ∧ does_class_have_static_class env c = true) := by
  unfold can_export_class
  simp only [Bool.and_eq_true, Bool.not_eq_true', decide_eq_false_iff_not]
  constructor
  · rintro ⟨⟨h1, h2⟩, h3⟩
    exact ⟨h2, h3, h1⟩
  · rintro ⟨h2, h3, h1⟩
    exact ⟨⟨h1, h2⟩, h3⟩

/-- What `generate_class` leaves behind under enough budget. -/
theorem generate_class_effect (env : TypeGraph) (hend : env.super_chains_end = true)
    (fuel : Nat) (hfuel : enough_fuel env ≤ fuel) (c : Nat) (st : Generator) :
    ∃ st1, generate_class fuel env c st = .ok st1
      ∧ UStructP.cls c ∈ st1.m_exported_classes
      ∧ st1.log_generating.count (.cls c) = st.log_generating.count (.cls c) + 1
      ∧ st1.m_extra_classes = st.m_extra_classes
      ∧ st1.m_skip_classes = st.m_skip_classes
      ∧ (∀ x, x ∈ st.m_exported_classes → x ∈ st1.m_exported_classes)
      ∧ (∀ u, u ∈ st.m_used_classes → u ∈ st1.m_used_classes)
      ∧ (∀ d, UStructP.cls d ∈ st1.m_exported_classes →
          d = c ∨ UStructP.cls d ∈ st.m_exported_classes) := by
  obtain ⟨st1, e1, r1⟩ := generate_class_ok env hend fuel hfuel c st
  obtain ⟨f1, f2, _, f4, f5, _, f7⟩ := reach_frame env _ st1 r1
  refine ⟨st1, e1, f4 _ (begin_generating_mem st _), ?_, f1, f2, ?_, f5, ?_⟩
  · rw [reach_log_cls env _ st1 r1 c]
    simp [Generator.begin_generating, count_append_singleton]
  · intro x hx
    apply f4
    simp only [Generator.begin_generating, mem_add_unique]
    exact Or.inl hx
  · intro d hd
    have := f7 d hd
    simp only [Generator.begin_generating, mem_add_unique] at this
    rcases this with h | h
    · exact Or.inr h
    · left
      injection h

theorem add_unique_record_spec (xs : List ClassRecord) (r : ClassRecord) :
    (∃ x ∈ add_unique_record xs r, x.m_class_p = r.m_class_p)
      ∧ ((∀ x ∈ xs, x.m_class_p ≠ r.m_class_p) → r ∈ add_unique_record xs r)
      ∧ ((∃ x ∈ xs, x.m_class_p = r.m_class_p) → add_unique_record xs r = xs)
      ∧ (∀ x ∈ xs, x ∈ add_unique_record xs r) := by
  by_cases h : xs.any (fun x => decide (x.m_class_p = r.m_class_p)) = true
  · have e : add_unique_record xs r = xs := by
      unfold add_unique_record
      rw [if_pos h]
    rw [e]
    rw [List.any_eq_true] at h
    obtain ⟨x, hx, hxc⟩ := h
    simp only [decide_eq_true_eq] at hxc
    exact ⟨⟨x, hx, hxc⟩, fun hall => absurd hxc (hall x hx), fun _ => rfl, fun _ hy => hy⟩
  · have e : add_unique_record xs r = xs ++ [r] := by
      unfold add_unique_record
      rw [if_neg h]
    rw [e]
    refine ⟨⟨r, by simp, rfl⟩, fun _ => by simp, ?_, fun x hx => by simp [hx]⟩
    rintro ⟨x, hx, hxc⟩
    exfalso
    apply h
    rw [List.any_eq_true]
    exact ⟨x, hx, by simpa using hxc⟩

/-! ## The promotion pass -/

/-- What the loop of `FinishExport` over the records `rs` leaves behind. -/
theorem finish_extra_classes_effect (env : TypeGraph) (hend : env.super_chains_end = true)
    (fuel : Nat) (hfuel : enough_fuel env ≤ fuel) :
    ∀ (rs : List ClassRecord) (st : Generator),
      ∃ st1, finish_extra_classes fuel env rs st = .ok st1
        ∧ st1.m_extra_classes = st.m_extra_classes
        ∧ st1.m_skip_classes = st.m_skip_classes
        ∧ (∀ x, x ∈ st.m_exported_classes → x ∈ st1.m_exported_classes)
        ∧ (∀ u, u ∈ st.m_used_classes → u ∈ st1.m_used_classes)
        ∧ (∀ d, UStructP.cls d ∈ st1.m_exported_classes →
            UStructP.cls d ∈ st.m_exported_classes
              ∨ (d ∈ st1.m_used_classes ∧ ∃ r ∈ rs, r.m_class_p = d))
        ∧ (∀ r ∈ rs, r.m_class_p ∈ st.m_used_classes →
            UStructP.cls r.m_class_p ∈ st1.m_exported_classes) := by
  intro rs
  induction rs with
  | nil =>
    intro st
    exact ⟨st, rfl, rfl, rfl, fun _ h => h, fun _ h => h, fun _ h => Or.inl h,
      fun r hr => absurd hr (List.not_mem_nil r)⟩
  | cons r rest ih =>
    intro st
    by_cases hu : r.m_class_p ∈ st.m_used_classes
    · obtain ⟨st2, e2, hmem, _, g1, g2, g3, g4, g5⟩ :=
        generate_class_effect env hend fuel hfuel r.m_class_p st
      obtain ⟨st3, e3, k1, k2, k3, k4, k5, k6⟩ := ih st2
      refine ⟨st3, by simp [finish_extra_classes, hu, e2, e3], k1.trans g1, k2.trans g2,
        fun x hx => k3 x (g3 x hx), fun u hu1 => k4 u (g4 u hu1), ?_, ?_⟩
      · intro d hd
        rcases k5 d hd with h | ⟨h1, r1, hr1, hr2⟩
        · rcases g5 d h with h2 | h2
          · right
            subst h2
            exact ⟨k4 _ (g4 _ hu), r, List.mem_cons_self _ _, rfl⟩
          · exact Or.inl h2
        · exact Or.inr ⟨h1, r1, List.mem_cons_of_mem _ hr1, hr2⟩
      · intro r1 hr1 hused
        rcases List.mem_cons.mp hr1 with rfl | hr1
        · exact k3 _ hmem
        · exact k6 r1 hr1 (g4 _ hused)
    · obtain ⟨st3, e3, k1, k2, k3, k4, k5, k6⟩ := ih st
      refine ⟨st3, by simp [finish_extra_classes, hu, e3], k1, k2, k3, k4, ?_, ?_⟩
      · intro d hd
        rcases k5 d hd with h | ⟨h1, r1, hr1, hr2⟩
        · exact Or.inl h
        · exact Or.inr ⟨h1, r1, List.mem_cons_of_mem _ hr1, hr2⟩
      · intro r1 hr1 hused
        rcases List.mem_cons.mp hr1 with rfl | hr1
        · exact absurd hused hu
        · exact k6 r1 hr1 hused

/-- The export requests never put a skip-listed class into the exported set. -/
theorem export_requests_effect (env : TypeGraph) (hend : env.super_chains_end = true)
    (fuel : Nat) (hfuel : enough_fuel env ≤ fuel) :
    ∀ (requests : List (Nat × String)) (st : Generator),
      (∀ c, TArray_Contains st.m_skip_classes (env.class_at c).Name = true →
          UStructP.cls c ∉ st.m_exported_classes) →
      ∃ st1, export_requests fuel env requests st = .ok st1
        ∧ st1.m_skip_classes = st.m_skip_classes
        ∧ (∀ c, TArray_Contains st.m_skip_classes (env.class_at c).Name = true →
            UStructP.cls c ∉ st1.m_exported_classes) := by
  intro requests
  induction requests with
  | nil => intro st h; exact ⟨st, rfl, rfl, h⟩
  | cons q rest ih =>
    intro st hinv
    have hone : ∃ st2, ExportClass fuel env q.1 q.2 st = .ok st2
        ∧ st2.m_skip_classes = st.m_skip_classes
        ∧ (∀ c, TArray_Contains st.m_skip_classes (env.class_at c).Name = true →
            UStructP.cls c ∉ st2.m_exported_classes) := by
      unfold ExportClass
      by_cases hplug : is_engine_plugin_header q.2 = true
      · exact ⟨st, by simp [hplug], rfl, hinv⟩
      · have hgate : can_export_class env { st with m_source_header_file_name := q.2 } q.1
            = can_export_class env st q.1 := rfl
        by_cases hc : can_export_class env st q.1 = true
        · obtain ⟨st2, e2, _, _, _, g2, _, _, g5⟩ := generate_class_effect env hend fuel hfuel
            q.1 { st with m_source_header_file_name := q.2 }
          refine ⟨st2, by simp [hplug, hgate, hc, e2], g2, fun c hskip hin => ?_⟩
          rcases g5 c hin with h | h
          · rw [h] at hskip
            have := ((can_export_class_iff env st q.1).mp hc).2.1
            rw [hskip] at this
            cases this
          · exact hinv c hskip h
        · have hc2 : can_export_class env st q.1 = false := by
            cases h : can_export_class env st q.1
            · rfl
            · exact absurd h hc
          exact ⟨{ st with
                    m_source_header_file_name := q.2,
                    m_extra_classes := add_unique_record st.m_extra_classes
                      (ClassRecord.mk q.1 q.2) },
            by simp only [hplug, hgate, hc2]; rfl, rfl, hinv⟩
    obtain ⟨st2, e2, s2, i2⟩ := hone
    obtain ⟨st3, e3, s3, i3⟩ := ih st2 (by rw [s2]; exact i2)
    refine ⟨st3, by simp [export_requests, e2, e3], s3.trans s2, ?_⟩
    intro c hc
    exact i3 c (by rw [s2]; exact hc)

/-- The super chains of the demo graph are acyclic. -/
theorem demo_graph_acyclic : demo_graph.super_chains_acyclic :=
  (super_chains_end_iff_acyclic demo_graph).mp (by decide)

/-! ## Facts about the identifier transformer -/

theorem skookify_var_name_loop_eq (cs : List Char) :
    ∀ prev : Option Char,
      skookify_var_name_loop cs
          (match prev with | none => true | some p => isupper p || isdigit p)
          (match prev with | none => true | some p => p == '_')
        = (List.zip (prev :: cs.map some) cs).flatMap separated_character := by
  induction cs with
  | nil => intro prev; simp [skookify_var_name_loop]
  | cons c cs ih =>
    intro prev
    have h := ih (some c)
    simp only at h
    simp only [skookify_var_name_loop, List.map_cons, List.zip_cons_cons, List.flatMap_cons, h]
    cases prev with
    | none => simp [separated_character]
    | some p =>
      simp only [separated_character, separator_goes_before, Bool.not_or, Bool.and_assoc,
        List.append_assoc, List.singleton_append]

theorem skookify_var_name_eq (name : String) :
    skookify_var_name name
      = (if ms_reserved_keywords.any (fun k => FString_eq (transformed_name name) k)
          then String.mk ((transformed_name name).data ++ ['_']) else transformed_name name,
         skookify_is_boolean name.data) := by
  unfold skookify_var_name transformed_name kept_characters
  by_cases h : name.data.isEmpty = true
  · have h0 : name.data = [] := by simpa using h
    have hn : name = String.mk [] := by
      cases name; simp_all
    subst hn
    decide
  · simp only [h]
    rfl

theorem upper_char_cases (c : Char) (h : 65 ≤ c.toNat ∧ c.toNat ≤ 90) :
    ∃ n, 65 ≤ n ∧ n ≤ 90 ∧ c = Char.ofNat n :=
  ⟨c.toNat, h.1, h.2, (Char.ofNat_toNat c).symm⟩

theorem FChar_ToLower_eq_underscore (c : Char) : (FChar_ToLower c == '_') = (c == '_') := by
  unfold FChar_ToLower
  split
  · rename_i h
    obtain ⟨n, h1, h2, rfl⟩ := upper_char_cases c h
    interval_cases n <;> decide
  · rfl

theorem FChar_ToLower_eq_question (c : Char) (h : FChar_ToLower c = '?') : c = '?' := by
  unfold FChar_ToLower at h
  split at h
  · rename_i hr
    exfalso
    obtain ⟨n, h1, h2, rfl⟩ := upper_char_cases c hr
    revert h
    interval_cases n <;> decide
  · exact h

theorem upper_or_digit_ne_underscore (c : Char) (h : (isupper c || isdigit c) = true) :
    (c == '_') = false := by
  have h1 : c ≠ '_' := by
    intro e; subst e; revert h; decide
  simpa using h1

theorem adjacent_underscores_loop (cs : List Char) :
    ∀ p : Char,
      adjacent_underscores
          (FChar_ToLower p :: skookify_var_name_loop cs (isupper p || isdigit p) (p == '_'))
        = adjacent_underscores (p :: cs) := by
  induction cs with
  | nil => intro p; simp [skookify_var_name_loop, adjacent_underscores]
  | cons c cs ih =>
    intro p
    have h := ih c
    simp only [skookify_var_name_loop]
    by_cases hs : ((isupper c || isdigit c) && !(isupper p || isdigit p) && !(p == '_')) = true
    · rw [if_pos hs]
      simp only [Bool.and_eq_true, Bool.not_eq_true'] at hs
      have hc := upper_or_digit_ne_underscore c hs.1.1
      rw [hc] at h
      simp only [List.singleton_append, adjacent_underscores, FChar_ToLower_eq_underscore, h,
        hs.2, hc]
      simp
    · rw [if_neg hs]
      simp only [List.nil_append, adjacent_underscores, FChar_ToLower_eq_underscore, h]

theorem adjacent_underscores_loop_start (cs : List Char) :
    adjacent_underscores (skookify_var_name_loop cs true true) = adjacent_underscores cs := by
  cases cs with
  | nil => rfl
  | cons c cs =>
    have h := adjacent_underscores_loop cs c
    simpa [skookify_var_name_loop] using h

theorem adjacent_underscores_kept (name : List Char) :
    adjacent_underscores (kept_characters name) = adjacent_underscores name := by
  unfold kept_characters
  split
  · rename_i h
    match name, h with
    | c :: d :: cs, h =>
      simp only [skookify_is_boolean, Bool.and_eq_true, beq_iff_eq] at h
      have hc : (c == '_') = false := by rw [h.1]; decide
      simp [adjacent_underscores, hc]
  · rfl

theorem adjacent_underscores_append (s : List Char) :
    adjacent_underscores (s ++ ['_'])
      = (adjacent_underscores s || decide (s.getLast? = some '_')) := by
  induction s with
  | nil => rfl
  | cons c s ih =>
    cases s with
    | nil => 
      by_cases h : c = '_' <;> simp [adjacent_underscores, h]
    | cons d s =>
      rw [List.cons_append] at ih
      simp only [List.cons_append, adjacent_underscores, List.append_eq]
      rw [ih]
      simp [List.getLast?_cons_cons, Bool.or_assoc]

theorem keyword_last_not_underscore :
    ∀ k ∈ ms_reserved_keywords, (k.data.map FChar_ToLower).getLast? ≠ some '_' := by
  decide

theorem FString_eq_keyword_last (s : String) (k : String) (hk : k ∈ ms_reserved_keywords)
    (h : FString_eq s k = true) : s.data.getLast? ≠ some '_' := by
  intro hl
  unfold FString_eq at h
  have e : s.data.map FChar_ToLower = k.data.map FChar_ToLower := by simpa using h
  have h1 : (s.data.map FChar_ToLower).getLast? = some '_' := by
    rw [List.getLast?_map, hl]; rfl
  rw [e] at h1
  exact keyword_last_not_underscore k hk h1

theorem adjacent_underscores_skookify_var_name (name : String) :
    adjacent_underscores (skookify_var_name name).1.data = adjacent_underscores name.data := by
  rw [skookify_var_name_eq]
  have ht : adjacent_underscores (transformed_name name).data = adjacent_underscores name.data := by
    unfold transformed_name
    rw [adjacent_underscores_loop_start, adjacent_underscores_kept]
  by_cases hk : ms_reserved_keywords.any (fun k => FString_eq (transformed_name name) k) = true
  · simp only [hk, if_true]
    obtain ⟨k, hkm, hke⟩ := List.any_eq_true.mp hk
    have hl := FString_eq_keyword_last _ k hkm hke
    rw [adjacent_underscores_append, ht]
    simp [hl]
  · simp only [hk]
    exact ht

theorem FString_eq_refl (s : String) : FString_eq s s = true := by
  unfold FString_eq; simp

theorem not_keyword_of_suffix (s : List Char) :
    ∀ k ∈ ms_reserved_keywords, FString_eq (String.mk (s ++ ['_'])) k = false := by
  intro k hk
  by_contra h
  have h1 : FString_eq (String.mk (s ++ ['_'])) k = true := by simpa using h
  have h2 := FString_eq_keyword_last _ k hk h1
  simp at h2

theorem skookify_is_boolean_iff (name : List Char) :
    skookify_is_boolean name = true
      ↔ ∃ d rest, name = 'b' :: d :: rest ∧ isupper d = true := by
  constructor
  · intro h
    match name, h with
    | c :: d :: cs, h =>
      simp only [skookify_is_boolean, Bool.and_eq_true, beq_iff_eq] at h
      exact ⟨d, cs, by rw [h.1], h.2⟩
  · rintro ⟨d, rest, rfl, hd⟩
    simp [skookify_is_boolean, hd]

theorem insert_separators_eq_loop (kept : List Char) :
    insert_separators kept = skookify_var_name_loop kept true true :=
  (skookify_var_name_loop_eq kept none).symm

theorem RemoveFromStart_mem (s pre rest : List Char) (h : RemoveFromStart s pre = some rest) :
    ∀ c ∈ rest, c ∈ s := by
  unfold RemoveFromStart at h
  split at h
  · injection h with h
    subst h
    exact fun c hc => List.mem_of_mem_drop hc
  · exact absurd h (by simp)

theorem skookify_method_name_parts (name : String) :
    ∃ (stem : List Char) (flag : Bool),
      (∀ ret, skookify_method_name name ret
          = String.mk (if flag && ret then stem ++ ['?'] else stem))
      ∧ ((skookify_var_name name).2 = true → flag = true)
      ∧ (∀ c ∈ stem, c ∈ (skookify_var_name name).1.data ∨ c ∈ ['_', 's', 'e', 't']) := by
  refine ⟨_, _, fun ret => rfl, ?_, ?_⟩
  · intro h
    simp only [h]
    split_ifs <;> first | rfl | (split <;> first | rfl | (split <;> rfl))
  · intro c hc
    have hk : ∀ c, c ∈ (if (decide (3 < (skookify_var_name name).1.data.length)
          && !FString_IsNumeric (((skookify_var_name name).1.data.drop 3).take 1)) = true then
          (RemoveFromStart (skookify_var_name name).1.data "k2_".data).getD
            (skookify_var_name name).1.data
        else (skookify_var_name name).1.data) → c ∈ (skookify_var_name name).1.data := by
      intro c hc
      split at hc
      · cases hr : RemoveFromStart (skookify_var_name name).1.data "k2_".data with
        | none => rw [hr] at hc; exact hc
        | some rest => rw [hr] at hc; exact RemoveFromStart_mem _ _ _ hr c hc
      · exact hc
    revert hc
    generalize (if (decide (3 < (skookify_var_name name).1.data.length)
          && !FString_IsNumeric (((skookify_var_name name).1.data.drop 3).take 1)) = true then
          (RemoveFromStart (skookify_var_name name).1.data "k2_".data).getD
            (skookify_var_name name).1.data
        else (skookify_var_name name).1.data) = m at hk ⊢
    intro hc
    split at hc
    · split at hc
      · rename_i rest hr
        exact Or.inl (hk c (RemoveFromStart_mem _ _ _ hr c hc))
      · split at hc
        · rename_i rest hr
          rcases List.mem_append.mp hc with h1 | h1
          · exact Or.inl (hk c (RemoveFromStart_mem _ _ _ hr c h1))
          · exact Or.inr h1
        · exact Or.inl (hk c hc)
    · exact Or.inl (hk c hc)

theorem skookify_method_name_flagged (name : String)
    (h : (skookify_var_name name).2 = true) :
    (skookify_method_name name true).data = (skookify_method_name name false).data ++ ['?'] := by
  obtain ⟨stem, flag, hform, hflag, -⟩ := skookify_method_name_parts name
  rw [hform, hform, hflag h]
  rfl

theorem skookify_method_name_plain (name : String)
    (hk : "k2_".data.isPrefixOf (skookify_var_name name).1.data = false)
    (hg : "get_".data.isPrefixOf (skookify_var_name name).1.data = false)
    (hs : "set_".data.isPrefixOf (skookify_var_name name).1.data = false) :
    (skookify_method_name name false).data = (skookify_var_name name).1.data := by
  have e1 : RemoveFromStart (skookify_var_name name).1.data "k2_".data = none := by
    unfold RemoveFromStart; rw [hk]; rfl
  have e2 : RemoveFromStart (skookify_var_name name).1.data "get_".data = none := by
    unfold RemoveFromStart; rw [hg]; rfl
  have e3 : RemoveFromStart (skookify_var_name name).1.data "set_".data = none := by
    unfold RemoveFromStart; rw [hs]; rfl
  unfold skookify_method_name
  simp only [e1, e2, e3, Option.getD_none, ite_self, Bool.and_false]
  rfl

theorem isalpha_not_numeric (c : Char) (h : isalpha c = true) :
    FString_IsNumeric [c] = false := by
  have h1 : c ≠ '-' := by intro e; subst e; revert h; decide
  have h2 : c ≠ '+' := by intro e; subst e; revert h; decide
  have h3 : c ≠ '.' := by intro e; subst e; revert h; decide
  have h4 : isdigit c = false := by
    unfold isalpha at h
    unfold isdigit
    simp only [Bool.or_eq_true, Bool.and_eq_true, decide_eq_true_eq] at h
    simp only [Bool.and_eq_false_imp, decide_eq_true_eq, decide_eq_false_iff_not]
    omega
  simp [FString_IsNumeric, FCString_IsNumeric_loop, h1, h2, h3, h4]

theorem skookify_method_name_get (name : String) (c : Char) (rest : List Char)
    (hvar : (skookify_var_name name).1.data = "get_".data ++ c :: rest)
    (hc : isalpha c = true) :
    skookify_method_name name false = String.mk (c :: rest) := by
  have hn := isalpha_not_numeric c hc
  have hvar2 : (skookify_var_name name).1.data = 'g' :: 'e' :: 't' :: '_' :: c :: rest := hvar
  have e1 : RemoveFromStart ('g' :: 'e' :: 't' :: '_' :: c :: rest) "k2_".data = none := by
    simp [RemoveFromStart]
  have e2 : RemoveFromStart ('g' :: 'e' :: 't' :: '_' :: c :: rest) "get_".data
      = some (c :: rest) := by
    simp [RemoveFromStart]
  have n1 : FString_IsNumeric ((('g' :: 'e' :: 't' :: '_' :: c :: rest).drop 3).take 1)
      = false := by
    show FString_IsNumeric ['_'] = false
    decide
  have n2 : FString_IsNumeric ((('g' :: 'e' :: 't' :: '_' :: c :: rest).drop 4).take 1)
      = false := hn
  have l3 : decide (3 < ('g' :: 'e' :: 't' :: '_' :: c :: rest).length) = true := by simp
  have l4 : decide (4 < ('g' :: 'e' :: 't' :: '_' :: c :: rest).length) = true := by simp
  unfold skookify_method_name
  simp only [hvar2, e1, e2, n1, n2, l3, l4, Option.getD_none, Bool.and_false, Bool.not_false,
    Bool.and_self, if_true]
  rfl

theorem question_mark_not_in_loop (cs : List Char) (h : '?' ∉ cs) :
    ∀ u v, '?' ∉ skookify_var_name_loop cs u v := by
  induction cs with
  | nil => intro u v; simp [skookify_var_name_loop]
  | cons c cs ih =>
    intro u v
    have hc : c ≠ '?' := fun e => h (by simp [e])
    have hcs : '?' ∉ cs := fun e => h (List.mem_cons_of_mem _ e)
    have hl : FChar_ToLower c ≠ '?' := fun e => hc (FChar_ToLower_eq_question c e)
    simp only [skookify_var_name_loop]
    intro hm
    rcases List.mem_append.mp hm with h1 | h1
    · split at h1
      · simp at h1
      · simp at h1
    · rcases List.mem_cons.mp h1 with h2 | h2
      · exact hl h2.symm
      · exact ih hcs _ _ h2

theorem question_mark_not_in_var_name (name : String) (h : '?' ∉ name.data) :
    '?' ∉ (skookify_var_name name).1.data := by
  rw [skookify_var_name_eq]
  have hk : '?' ∉ kept_characters name.data := by
    unfold kept_characters
    split
    · exact fun e => h (List.mem_of_mem_drop e)
    · exact h
  have ht : '?' ∉ (transformed_name name).data := question_mark_not_in_loop _ hk _ _
  split
  · simp only [List.mem_append, List.mem_singleton, not_or]
    exact ⟨ht, by decide⟩
  · exact ht

theorem skookify_method_name_question (name : String) (ret : Bool) (h : '?' ∉ name.data)
    (hq : (skookify_method_name name ret).data.getLast? = some '?') : ret = true := by
  obtain ⟨stem, flag, hform, -, hstem⟩ := skookify_method_name_parts name
  by_contra hr
  have hr : ret = false := by simpa using hr
  subst hr
  rw [hform] at hq
  simp only [Bool.and_false] at hq
  have hmem : '?' ∈ stem := List.mem_of_getLast?_eq_some hq
  rcases hstem _ hmem with h1 | h1
  · exact question_mark_not_in_var_name name h h1
  · revert h1; decide

/-! ## Facts about the binding loops -/

theorem can_export_method_owner (gs : Nat → Generator → Result Generator) (env : TypeGraph)
    (c : Nat) (f : UFunction) (st st1 : Generator)
    (h : can_export_method gs env c f st = .ok (true, st1)) : f.OwnerClass = c := by
  unfold can_export_method at h
  by_contra hne
  rw [if_pos hne] at h
  injection h with h
  injection h with h1 _
  cases h1

theorem can_export_property_owner (gs : Nat → Generator → Result Generator) (env : TypeGraph)
    (h : UStructP) (p : UProperty) (st st1 : Generator)
    (hok : can_export_property gs env h p st = .ok (true, st1)) :
    p.OwnerStruct = some h ∧ ∀ c, h = .cls c → p.OwnerClass = some c := by
  unfold can_export_property at hok
  constructor
  · by_contra hne
    simp only at hok
    split at hok
    · injection hok with hok; injection hok with h1 _; cases h1
    · injection hok with hok; injection hok with h1 _; cases h1
  · intro c hc
    subst hc
    by_contra hne
    have hd : decide (p.OwnerClass ≠ some c) = true := by simpa using hne
    simp only [hd, if_true] at hok
    injection hok with hok; injection hok with h1 _; cases h1

theorem export_functions_skips_inherited (gs : Nat → Generator → Result Generator)
    (fuel : Nat) (env : TypeGraph) (c : Nat) (f : UFunction) (rest : List UFunction)
    (b : Bindings) (st : Generator) (h : f.OwnerClass ≠ c) :
    export_functions gs fuel env c (f :: rest) b st = export_functions gs fuel env c rest b st := by
  simp [export_functions, can_export_method, h]

theorem export_properties_skips_foreign (gs : Nat → Generator → Result Generator)
    (fuel : Nat) (env : TypeGraph) (h : UStructP) (p : UProperty) (rest : List UProperty)
    (b : Bindings) (st : Generator) (hne : p.OwnerStruct ≠ some h) :
    export_properties gs fuel env h (p :: rest) b st
      = export_properties gs fuel env h rest b st := by
  simp only [export_properties, can_export_property, hne, ne_eq, not_false_eq_true, if_true]
  split <;> simp

theorem export_properties_skips_inherited (gs : Nat → Generator → Result Generator)
    (fuel : Nat) (env : TypeGraph) (c : Nat) (p : UProperty) (rest : List UProperty)
    (b : Bindings) (st : Generator) (hne : p.OwnerClass ≠ some c) :
    export_properties gs fuel env (.cls c) (p :: rest) b st
      = export_properties gs fuel env (.cls c) rest b st := by
  simp [export_properties, can_export_property, hne]

theorem export_functions_own (gs : Nat → Generator → Result Generator) (fuel : Nat)
    (env : TypeGraph) (c : Nat) :
    ∀ (fs : List UFunction) (b : Bindings) (st : Generator) (b1 : Bindings) (st1 : Generator),
      export_functions gs fuel env c fs b st = .ok (b1, st1) →
      (∀ x ∈ b1.instance_scope, x ∈ b.instance_scope
        ∨ ∃ f ∈ fs, f.OwnerClass = c ∧ f.FUNC_Static = false ∧ x = MethodBinding.make_method f)
      ∧ (∀ x ∈ b1.class_scope, x ∈ b.class_scope
        ∨ ∃ f ∈ fs, f.OwnerClass = c ∧ f.FUNC_Static = true ∧ x = MethodBinding.make_method f) := by
  intro fs
  induction fs with
  | nil =>
    intro b st b1 st1 h
    simp only [export_functions] at h
    injection h with h
    injection h with h1 _
    subst h1
    exact ⟨fun x hx => Or.inl hx, fun x hx => Or.inl hx⟩
  | cons f rest ih =>
    intro b st b1 st1 h
    simp only [export_functions] at h
    obtain ⟨r, hr, h⟩ := Result.bind_eq_ok h
    have lift : ∀ (b0 : Bindings) (st0 : Generator),
        export_functions gs fuel env c rest b0 st0 = .ok (b1, st1) →
        (∀ x ∈ b0.instance_scope, x ∈ b.instance_scope
          ∨ ∃ g ∈ f :: rest, g.OwnerClass = c ∧ g.FUNC_Static = false
              ∧ x = MethodBinding.make_method g) →
        (∀ x ∈ b0.class_scope, x ∈ b.class_scope
          ∨ ∃ g ∈ f :: rest, g.OwnerClass = c ∧ g.FUNC_Static = true
              ∧ x = MethodBinding.make_method g) →
        (∀ x ∈ b1.instance_scope, x ∈ b.instance_scope
          ∨ ∃ g ∈ f :: rest, g.OwnerClass = c ∧ g.FUNC_Static = false
              ∧ x = MethodBinding.make_method g)
        ∧ (∀ x ∈ b1.class_scope, x ∈ b.class_scope
          ∨ ∃ g ∈ f :: rest, g.OwnerClass = c ∧ g.FUNC_Static = true
              ∧ x = MethodBinding.make_method g) := by
      intro b0 st0 h0 hi hc
      obtain ⟨i1, c1⟩ := ih b0 st0 b1 st1 h0
      constructor
      · intro x hx
        rcases i1 x hx with h1 | ⟨g, hg, h2⟩
        · exact hi x h1
        · exact Or.inr ⟨g, List.mem_cons_of_mem _ hg, h2⟩
      · intro x hx
        rcases c1 x hx with h1 | ⟨g, hg, h2⟩
        · exact hc x h1
        · exact Or.inr ⟨g, List.mem_cons_of_mem _ hg, h2⟩
    by_cases hr1 : r.1 = true
    · have hown : f.OwnerClass = c :=
        can_export_method_owner gs env c f st r.2 (by rw [hr, ← hr1])
      simp only [hr1, if_true] at h
      split at h
      · obtain ⟨st2, _, h⟩ := Result.bind_eq_ok h
        by_cases hs : f.FUNC_Static = true
        · simp only [hs, if_true] at h
          refine lift _ _ h (fun x hx => Or.inl hx) (fun x hx => ?_)
          rcases List.mem_append.mp hx with h1 | h1
          · exact Or.inl h1
          · exact Or.inr ⟨f, List.mem_cons_self _ _, hown, hs, List.mem_singleton.mp h1⟩
        · have hs2 : f.FUNC_Static = false := by simpa using hs
          simp only [hs2] at h
          refine lift _ _ h (fun x hx => ?_) (fun x hx => Or.inl hx)
          rcases List.mem_append.mp hx with h1 | h1
          · exact Or.inl h1
          · exact Or.inr ⟨f, List.mem_cons_self _ _, hown, hs2, List.mem_singleton.mp h1⟩
      · exact lift _ _ h (fun x hx => Or.inl hx) (fun x hx => Or.inl hx)
    · simp only [hr1] at h
      exact lift _ _ h (fun x hx => Or.inl hx) (fun x hx => Or.inl hx)

theorem export_properties_own (gs : Nat → Generator → Result Generator) (fuel : Nat)
    (env : TypeGraph) (h : UStructP) :
    ∀ (ps : List UProperty) (b : Bindings) (st : Generator) (b1 : Bindings) (st1 : Generator),
      export_properties gs fuel env h ps b st = .ok (b1, st1) →
      b1.class_scope = b.class_scope
      ∧ ∀ x ∈ b1.instance_scope, x ∈ b.instance_scope
        ∨ ∃ p ∈ ps, p.OwnerStruct = some h ∧ (∀ c, h = .cls c → p.OwnerClass = some c)
            ∧ (x = MethodBinding.make_property_getter p
              ∨ (p.CPF_Edit = true ∧ x = MethodBinding.make_property_setter p)) := by
  intro ps
  induction ps with
  | nil =>
    intro b st b1 st1 hok
    simp only [export_properties] at hok
    injection hok with hok
    injection hok with h1 _
    subst h1
    exact ⟨rfl, fun x hx => Or.inl hx⟩
  | cons p rest ih =>
    intro b st b1 st1 hok
    simp only [export_properties] at hok
    obtain ⟨r, hr, hok⟩ := Result.bind_eq_ok hok
    by_cases hr1 : r.1 = true
    · have hown := can_export_property_owner gs env h p st r.2 (by rw [hr, ← hr1])
      simp only [hr1, if_true] at hok
      obtain ⟨r2, hr2, hok⟩ := Result.bind_eq_ok hok
      obtain ⟨r3, hr3, hok⟩ := Result.bind_eq_ok hok
      obtain ⟨hc, hi⟩ := ih r3.1 r3.2 b1 st1 hok
      have h2 : r2.1.class_scope = b.class_scope
          ∧ ∀ x ∈ r2.1.instance_scope, x ∈ b.instance_scope
              ∨ x = MethodBinding.make_property_getter p := by
        split at hr2
        · obtain ⟨st2, _, hr2⟩ := Result.bind_eq_ok hr2
          injection hr2 with hr2
          subst hr2
          refine ⟨rfl, fun x hx => ?_⟩
          rcases List.mem_append.mp hx with h1 | h1
          · exact Or.inl h1
          · exact Or.inr (List.mem_singleton.mp h1)
        · injection hr2 with hr2
          subst hr2
          exact ⟨rfl, fun x hx => Or.inl hx⟩
      have h3 : r3.1.class_scope = r2.1.class_scope
          ∧ ∀ x ∈ r3.1.instance_scope, x ∈ r2.1.instance_scope
              ∨ (p.CPF_Edit = true ∧ x = MethodBinding.make_property_setter p) := by
        by_cases he : p.CPF_Edit = true
        · simp only [he, if_true] at hr3
          split at hr3
          · obtain ⟨st3, _, hr3⟩ := Result.bind_eq_ok hr3
            injection hr3 with hr3
            subst hr3
            refine ⟨rfl, fun x hx => ?_⟩
            rcases List.mem_append.mp hx with h1 | h1
            · exact Or.inl h1
            · exact Or.inr ⟨he, List.mem_singleton.mp h1⟩
          · injection hr3 with hr3
            subst hr3
            exact ⟨rfl, fun x hx => Or.inl hx⟩
        · simp only [he] at hr3
          injection hr3 with hr3
          subst hr3
          exact ⟨rfl, fun x hx => Or.inl hx⟩
      refine ⟨by rw [hc, h3.1, h2.1], fun x hx => ?_⟩
      rcases hi x hx with h1 | ⟨q, hq, hq2⟩
      · rcases h3.2 x h1 with h4 | h4
        · rcases h2.2 x h4 with h5 | h5
          · exact Or.inl h5
          · exact Or.inr ⟨p, List.mem_cons_self _ _, hown.1, hown.2, Or.inl h5⟩
        · exact Or.inr ⟨p, List.mem_cons_self _ _, hown.1, hown.2, Or.inr h4⟩
      · exact Or.inr ⟨q, List.mem_cons_of_mem _ hq, hq2⟩
    · simp only [hr1] at hok
      obtain ⟨hc, hi⟩ := ih b r.2 b1 st1 hok
      refine ⟨hc, fun x hx => ?_⟩
      rcases hi x hx with h1 | ⟨q, hq, hq2⟩
      · exact Or.inl h1
      · exact Or.inr ⟨q, List.mem_cons_of_mem _ hq, hq2⟩

theorem direct_type_exported_mono (env : TypeGraph) (st st1 : Generator)
    (h : Reach env st st1) (p : PropertyType) (hp : direct_type_exported env st p) :
    direct_type_exported env st1 p := by
  obtain ⟨_, hskip, _, hexp, _, henum, _⟩ := reach_frame env st st1 h
  refine ⟨fun e he => henum _ (hp.1 e he), fun s hs hk hsup hsk => hexp _ (hp.2 s hs hk hsup ?_)⟩
  rw [← hskip]; exact hsk

theorem generate_struct_exports_self (env : TypeGraph) (hend : env.super_chains_end = true)
    (fuel : Nat) (hfuel : enough_fuel env ≤ fuel) (s : Nat) (st : Generator) :
    ∃ st1, generate_struct fuel env s st = .ok st1 ∧ Reach env st st1
      ∧ (is_struct_type_supported env s = true →
          TArray_Contains st.m_skip_classes (env.struct_at s).Name = false →
          UStructP.sstruct s ∈ st1.m_exported_classes) := by
  have hend2 := hend
  unfold TypeGraph.super_chains_end at hend2
  rw [Bool.and_eq_true] at hend2
  obtain ⟨chain, hchain⟩ := chains_end_spec env.GetSuperStruct _ hend2.1
    (GetSuperStruct_outside env) s
  obtain ⟨st1, e1, r1⟩ := generate_struct_ok env hend fuel hfuel s st
  exact ⟨st1, e1, r1, generate_struct_ancestors env hend fuel s st st1
    (le_trans (struct_budget_le_enough env st s) hfuel) e1 chain hchain s
    (List.mem_cons_self _ _)⟩

theorem export_type_of_member_exports (env : TypeGraph) (hend : env.super_chains_end = true)
    (fuel : Nat) (hfuel : enough_fuel env ≤ fuel) (p : PropertyType) (st : Generator) :
    ∃ st1, export_type_of_member (generate_struct fuel env) env p st = .ok st1
      ∧ Reach env st st1 ∧ direct_type_exported env st1 p := by
  unfold export_type_of_member
  cases p with
  | UByteProperty e =>
    cases e with
    | none =>
      refine ⟨st, by simp [get_skookum_property_type], Reach.refl env st, ?_, ?_⟩
      · intro e he; cases he
      · intro s hs; cases hs
    | some e =>
      by_cases hm : e ∈ st.m_exported_enums
      · refine ⟨st, by simp [get_skookum_property_type, generate_enum_from_property, hm],
          Reach.refl env st, ?_, ?_⟩
        · intro e1 he; injection he with he; injection he with he; subst he; exact hm
        · intro s hs; cases hs
      · refine ⟨st.export_enum e,
          by simp [get_skookum_property_type, generate_enum_from_property, hm],
          Reach.step (Step.export_enum st e), ?_, ?_⟩
        · intro e1 he; injection he with he; injection he with he; subst he
          exact (mem_add_unique _ _ _).mpr (Or.inr rfl)
        · intro s hs; cases hs
  | UStructProperty s =>
    cases hk : known_struct_type (env.struct_at s).Name with
    | some t =>
      obtain ⟨h1, h2⟩ := known_struct_type_ne_none_or_list _ t hk
      have ht : get_skookum_property_type env (UStructProperty s) = t := by
        simp [get_skookum_property_type, hk]
      have hne : t ≠ SkTypeID_Enum ∧ t ≠ SkTypeID_UStruct := by
        unfold known_struct_type at hk
        split_ifs at hk <;> (injection hk with hk; subst hk; exact ⟨by decide, by decide⟩)
      refine ⟨st, by simp [ht, hne.1, hne.2], Reach.refl env st, ?_, ?_⟩
      · intro e he; cases he
      · intro s1 hs hk1; injection hs with hs; subst hs; rw [hk] at hk1; cases hk1
    | none =>
      by_cases hsup : is_struct_type_supported env s = true
      · have ht : get_skookum_property_type env (UStructProperty s) = SkTypeID_UStruct := by
          simp [get_skookum_property_type, hk, hsup]
        obtain ⟨st1, e1, r1, hx⟩ := generate_struct_exports_self env hend fuel hfuel s st
        refine ⟨st1, by simp [ht, generate_struct_from_property, e1], r1, ?_, ?_⟩
        · intro e he; cases he
        · intro s1 hs _ hsup1 hsk
          injection hs with hs; subst hs
          have hskip := (reach_frame env st st1 r1).2.1
          rw [hskip] at hsk
          exact hx hsup1 hsk
      · have ht : get_skookum_property_type env (UStructProperty s) = SkTypeID_None := by
          simp [get_skookum_property_type, hk, hsup]
        refine ⟨st, by simp [ht], Reach.refl env st, ?_, ?_⟩
        · intro e he; cases he
        · intro s1 hs _ hsup1; injection hs with hs; subst hs; exact absurd hsup1 hsup
  | _ =>
    have hst : unexported_structs env st ≤ env.structs.length :=
      unexported_structs_le_length env st
    obtain ⟨st1, e1, r1⟩ := export_type_of_member_runs env env.structs.length
      (generate_struct fuel env) (generate_struct_runs_any env hend fuel hfuel _) _ st hst
    unfold export_type_of_member at e1
    refine ⟨st1, e1, r1, ?_, ?_⟩
    · intro e he; cases he
    · intro s1 hs; cases hs

theorem can_export_method_params_exports (env : TypeGraph)
    (hend : env.super_chains_end = true) (fuel : Nat) (hfuel : enough_fuel env ≤ fuel) :
    ∀ (ps : List UProperty) (st : Generator),
      ∃ st1, can_export_method_params (generate_struct fuel env) env ps st
          = .ok (params_exportable env ps, st1)
        ∧ Reach env st st1
        ∧ (params_exportable env ps = true → ∀ p ∈ ps, direct_type_exported env st1 p.Kind) := by
  intro ps
  induction ps with
  | nil =>
    intro st
    exact ⟨st, rfl, Reach.refl env st, fun _ p hp => by cases hp⟩
  | cons p rest ih =>
    intro st
    by_cases h1 : is_rejected_param_kind p.Kind = true
    · exact ⟨st, by simp [can_export_method_params, params_exportable, h1], Reach.refl env st,
        fun h => by simp [params_exportable, h1] at h⟩
    · by_cases h2 : is_property_type_supported env p.Kind = true
      · obtain ⟨st1, e1, r1, x1⟩ := export_type_of_member_exports env hend fuel hfuel p.Kind st
        obtain ⟨st2, e2, r2, x2⟩ := ih st1
        refine ⟨st2, ?_, r1.trans r2, ?_⟩
        · simp only [can_export_method_params, h1, h2, e1, Result.bind_ok, e2]
          simp [params_exportable, h1, h2]
        · intro h q hq
          have hrest : params_exportable env rest = true := by
            simp only [params_exportable, List.all_cons, Bool.and_eq_true] at h ⊢
            exact h.2
          rcases List.mem_cons.mp hq with h3 | h3
          · subst h3
            exact direct_type_exported_mono env st1 st2 r2 _ x1
          · exact x2 hrest q h3
      · exact ⟨st, by simp [can_export_method_params, params_exportable, h1, h2],
          Reach.refl env st, fun h => by simp [params_exportable, h2] at h⟩

theorem can_export_method_exports (env : TypeGraph)
    (hend : env.super_chains_end = true) (fuel : Nat) (hfuel : enough_fuel env ≤ fuel)
    (c : Nat) (f : UFunction) (st : Generator) :
    ∃ st1, can_export_method (generate_struct fuel env) env c f st
        = .ok (method_exportable env c f, st1)
      ∧ Reach env st st1
      ∧ (method_exportable env c f = true →
          ∀ p ∈ f.Params, direct_type_exported env st1 p.Kind) := by
  by_cases h1 : f.OwnerClass = c
  · by_cases h2 : f.FUNC_Delegate = true
    · exact ⟨st, by simp [can_export_method, method_exportable, h1, h2], Reach.refl env st,
        fun h => by simp [method_exportable, h2] at h⟩
    · obtain ⟨st1, e1, r1, x1⟩ := can_export_method_params_exports env hend fuel hfuel f.Params st
      refine ⟨st1, ?_, r1, ?_⟩
      · simp only [can_export_method, h1, h2, e1]
        simp [method_exportable, h1, h2]
      · intro h
        exact x1 (method_exportable_inv env c f h).2.2
  · exact ⟨st, by simp [can_export_method, method_exportable, h1], Reach.refl env st,
      fun h => by simp [method_exportable, h1] at h⟩

theorem can_export_property_exports (env : TypeGraph)
    (hend : env.super_chains_end = true) (fuel : Nat) (hfuel : enough_fuel env ≤ fuel)
    (h : UStructP) (p : UProperty) (st : Generator) :
    ∃ st1, can_export_property (generate_struct fuel env) env h p st
        = .ok (property_exportable env h p, st1)
      ∧ Reach env st st1
      ∧ (property_exportable env h p = true → direct_type_exported env st1 p.Kind) := by
  have hst := unexported_structs_le_length env st
  obtain ⟨st1, e1, r1⟩ := can_export_property_runs env env.structs.length
    (generate_struct fuel env) (generate_struct_runs_any env hend fuel hfuel _) h p st hst
  refine ⟨st1, e1, r1, fun hx => ?_⟩
  obtain ⟨st2, e2, _, x2⟩ := export_type_of_member_exports env hend fuel hfuel p.Kind st
  have hsup := (property_exportable_inv env h p hx).2
  have hown := (property_exportable_inv env h p hx).1
  have e3 : can_export_property (generate_struct fuel env) env h p st = .ok (true, st2) := by
    unfold can_export_property
    cases h with
    | cls c =>
      have hc : p.OwnerClass = some c := by
        simp only [property_exportable, Bool.and_eq_true, decide_eq_true_eq] at hx
        exact hx.1.1
      simp [hc, hown, hsup, e2]
    | sstruct s => simp [hown, hsup, e2]
  rw [e1] at e3
  injection e3 with e3
  injection e3 with _ e4
  rw [e4]
  exact x2

theorem export_functions_exports (env : TypeGraph)
    (hend : env.super_chains_end = true) (fuel : Nat) (hfuel : enough_fuel env ≤ fuel)
    (c : Nat) :
    ∀ (fs : List UFunction) (b : Bindings) (st : Generator),
      ∃ b1 st1, export_functions (generate_struct fuel env) fuel env c fs b st = .ok (b1, st1)
        ∧ Reach env st st1
        ∧ ∀ f ∈ fs, method_exportable env c f = true →
            ∀ p ∈ f.Params, direct_type_exported env st1 p.Kind := by
  have hgs := generate_struct_runs_any env hend fuel hfuel env.structs.length
  have hwf := walks_fit_of_enough env fuel hfuel
  intro fs
  induction fs with
  | nil => intro b st; exact ⟨b, st, rfl, Reach.refl env st, fun f hf => by cases hf⟩
  | cons f rest ih =>
    intro b st
    obtain ⟨st1, e1, r1, x1⟩ := can_export_method_exports env hend fuel hfuel c f st
    have tail : ∀ (b0 : Bindings) (st0 : Generator), Reach env st1 st0 →
        ∃ b1 st2, export_functions (generate_struct fuel env) fuel env c rest b0 st0
            = .ok (b1, st2)
          ∧ Reach env st st2
          ∧ ∀ g ∈ f :: rest, method_exportable env c g = true →
              ∀ p ∈ g.Params, direct_type_exported env st2 p.Kind := by
      intro b0 st0 r0
      obtain ⟨b1, st2, e2, r2, x2⟩ := ih b0 st0
      refine ⟨b1, st2, e2, (r1.trans r0).trans r2, fun g hg hx p hp => ?_⟩
      rcases List.mem_cons.mp hg with h3 | h3
      · subst h3
        exact direct_type_exported_mono env st1 st2 (r0.trans r2) _ (x1 hx p hp)
      · exact x2 g h3 hx p hp
    simp only [export_functions, e1, Result.bind_ok]
    by_cases hx : method_exportable env c f = true
    · simp only [hx, if_true]
      split
      · obtain ⟨st2, e2, r2⟩ := generate_method_runs env _ fuel hend hwf _ hgs f
          (method_exportable_inv env c f hx).2.2 st1 (unexported_structs_le_length env st1)
        simp only [e2, Result.bind_ok]
        exact tail _ st2 r2
      · exact tail b st1 (Reach.refl env st1)
    · simp only [hx]
      exact tail b st1 (Reach.refl env st1)

theorem export_properties_exports (env : TypeGraph)
    (hend : env.super_chains_end = true) (fuel : Nat) (hfuel : enough_fuel env ≤ fuel)
    (h : UStructP) :
    ∀ (ps : List UProperty) (b : Bindings) (st : Generator),
      ∃ b1 st1, export_properties (generate_struct fuel env) fuel env h ps b st = .ok (b1, st1)
        ∧ Reach env st st1
        ∧ ∀ p ∈ ps, property_exportable env h p = true →
            direct_type_exported env st1 p.Kind := by
  have hgs := generate_struct_runs_any env hend fuel hfuel env.structs.length
  have hwf := walks_fit_of_enough env fuel hfuel
  intro ps
  induction ps with
  | nil => intro b st; exact ⟨b, st, rfl, Reach.refl env st, fun f hf => by cases hf⟩
  | cons p rest ih =>
    intro b st
    obtain ⟨st1, e1, r1, x1⟩ := can_export_property_exports env hend fuel hfuel h p st
    have tail : ∀ (b0 : Bindings) (st0 : Generator), Reach env st1 st0 →
        ∃ b1 st2, export_properties (generate_struct fuel env) fuel env h rest b0 st0
            = .ok (b1, st2)
          ∧ Reach env st st2
          ∧ ∀ q ∈ p :: rest, property_exportable env h q = true →
              direct_type_exported env st2 q.Kind := by
      intro b0 st0 r0
      obtain ⟨b1, st2, e2, r2, x2⟩ := ih b0 st0
      refine ⟨b1, st2, e2, (r1.trans r0).trans r2, fun q hq hx => ?_⟩
      rcases List.mem_cons.mp hq with h3 | h3
      · subst h3
        exact direct_type_exported_mono env st1 st2 (r0.trans r2) _ (x1 hx)
      · exact x2 q h3 hx
    simp only [export_properties, e1, Result.bind_ok]
    by_cases hx : property_exportable env h p = true
    · simp only [hx, if_true]
      have getter : ∃ r2 : Bindings × Generator,
          (if (!bindings_contain b.instance_scope (MethodBinding.make_property_getter p)) = true
            then (generate_property_getter (generate_struct fuel env) fuel env p st1).bind
              (fun st2 => Result.ok
                ({ b with instance_scope :=
                    b.instance_scope ++ [MethodBinding.make_property_getter p] }, st2))
            else Result.ok (b, st1)) = .ok r2 ∧ Reach env st1 r2.2 := by
        split
        · obtain ⟨st2, e2, r2⟩ := generate_property_getter_runs env _ fuel hend hwf _ hgs h p hx
            st1 (unexported_structs_le_length env st1)
          exact ⟨_, by rw [e2]; rfl, r2⟩
        · exact ⟨_, rfl, Reach.refl env st1⟩
      obtain ⟨r2, e2, q2⟩ := getter
      simp only [e2, Result.bind_ok]
      have setter : ∃ r3 : Bindings × Generator,
          (if p.CPF_Edit = true then
              if (!bindings_contain r2.1.instance_scope
                    (MethodBinding.make_property_setter p)) = true then
                (generate_property_setter (generate_struct fuel env) fuel env p r2.2).bind
                  (fun st3 => Result.ok
                    ({ r2.1 with instance_scope :=
                        r2.1.instance_scope ++ [MethodBinding.make_property_setter p] }, st3))
              else Result.ok r2
            else Result.ok r2) = .ok r3 ∧ Reach env r2.2 r3.2 := by
        split
        · split
          · obtain ⟨st3, e3, r3⟩ := generate_property_setter_runs env _ fuel hend hwf _ hgs h p
              hx r2.2 (unexported_structs_le_length env r2.2)
            exact ⟨_, by rw [e3]; rfl, r3⟩
          · exact ⟨_, rfl, Reach.refl env r2.2⟩
        · exact ⟨_, rfl, Reach.refl env r2.2⟩
      obtain ⟨r3, e3, q3⟩ := setter
      simp only [e3, Result.bind_ok]
      exact tail r3.1 r3.2 (q2.trans q3)
    · simp only [hx]
      exact tail b st1 (Reach.refl env st1)

/-! ## Properties kept by the routines that write files -/

theorem keeps_ok (I : Exporter → Prop) : Keeps I (fun st => .ok st) := by
  intro st st1 h e
  cases e
  exact h

theorem keeps_bind {I : Exporter → Prop} {f g : Exporter → Result Exporter}
    (hf : Keeps I f) (hg : Keeps I g) : Keeps I (fun st => (f st).bind g) := by
  intro st st1 h e
  obtain ⟨a, ha, hb⟩ := Result.bind_eq_ok e
  exact hg _ _ (hf _ _ h ha) hb

theorem keeps_for_each {α : Type} {I : Exporter → Prop}
    {body : α → Exporter → Result Exporter} (hb : ∀ x, Keeps I (body x)) :
    ∀ xs, Keeps I (Files.for_each body xs) := by
  intro xs
  induction xs with
  | nil =>
    intro st st1 h e
    cases e
    exact h
  | cons x xs ih =>
    intro st st1 h e
    obtain ⟨a, ha, hb2⟩ := Result.bind_eq_ok e
    exact ih _ _ (hb x _ _ h ha) hb2

theorem foldl_use_class_log (supers : List Nat) :
    ∀ g : Generator, (supers.foldl Generator.use_class g).log_generating = g.log_generating := by
  induction supers with
  | nil => intro g; rfl
  | cons c cs ih => intro g; rw [List.foldl_cons, ih]; rfl

theorem get_skookum_class_path_keeps {I : Exporter → Prop} (hI : Stable I) (cfg : Settings)
    (fuel : Nat) (env : TypeGraph) (h : UStructP) :
    KeepsWith I (Files.get_skookum_class_path cfg fuel env h) := by
  intro st a hst e
  unfold Files.get_skookum_class_path at e
  cases h with
  | cls c =>
    obtain ⟨supers, _, e2⟩ := Result.bind_eq_ok e
    cases e2
    exact hI.frame st _ rfl (foldl_use_class_log _ _) hst
  | sstruct s =>
    obtain ⟨supers, _, e2⟩ := Result.bind_eq_ok e
    cases e2
    exact hst

theorem get_skookum_method_path_keeps {I : Exporter → Prop} (hI : Stable I) (cfg : Settings)
    (fuel : Nat) (env : TypeGraph) (h : UStructP) (name : String) (is_static : Bool) :
    KeepsWith I (Files.get_skookum_method_path cfg fuel env h name is_static) := by
  intro st a hst e
  unfold Files.get_skookum_method_path at e
  obtain ⟨r, e1, e2⟩ := Result.bind_eq_ok e
  cases e2
  exact get_skookum_class_path_keeps hI cfg fuel env h st r hst e1

theorem path_combine_suffix (a b : String) (hb : b.data ≠ []) :
    b.data <:+ (path_combine a b).data := by
  unfold path_combine
  have hbe : b.data.isEmpty = false := by
    cases hd : b.data with
    | nil => exact absurd hd hb
    | cons c cs => rfl
  split
  · exact List.suffix_refl _
  · split
    · exact ⟨a.data, by simp [String.data_append]⟩
    · rw [if_neg (by simp [hbe])]
      split
      · exact ⟨a.data, by simp [String.data_append]⟩
      · exact ⟨a.data ++ "/".data, by simp [String.data_append]⟩

theorem path_combine_has_extension (a b ext : String) (hb : b.data ≠ [])
    (h : has_extension b ext) : has_extension (path_combine a b) ext :=
  List.IsSuffix.trans h (path_combine_suffix a b hb)

theorem has_extension_append (a b ext : String) (h : has_extension b ext) :
    has_extension (a ++ b) ext := by
  unfold has_extension at *
  rw [String.data_append]
  exact List.IsSuffix.trans h (List.suffix_append _ _)

theorem method_file_name_extension (name : String) (is_static : Bool) :
    (method_file_name name is_static).data ≠ []
      ∧ has_extension (method_file_name name is_static) ".sk" := by
  unfold method_file_name
  cases is_static
  · refine ⟨?_, has_extension_append _ _ _ (by decide)⟩
    simp [String.data_append]
  · refine ⟨?_, has_extension_append _ _ _ (by decide)⟩
    simp [String.data_append]

theorem generate_enum_from_property_keeps {I : Exporter → Prop} (hI : Stable I)
    (cfg : Settings) (eng : EngineData) (p : PropertyType) :
    Keeps I (Files.generate_enum_from_property cfg eng p) := by
  intro st st1 hst e
  unfold Files.generate_enum_from_property at e
  split at e
  · cases e; exact hst
  · split at e
    · cases e; exact hst
    · cases e
      unfold Files.generate_enum_script_files
      refine hI.script _ _ _ (Or.inl (path_combine_has_extension _ _ _ (by decide) (by decide)))
        (hI.script _ _ _ (Or.inl (path_combine_has_extension _ _ _ (by decide) (by decide)))
          (hI.script _ _ _ (Or.inr (path_combine_has_extension _ _ _ (by decide) (by decide)))
            ?_))
      exact hI.frame st _ rfl rfl hst
  · cases e

theorem generate_struct_from_property_keeps {I : Exporter → Prop}
    {gs : Nat → Exporter → Result Exporter} (hgs : ∀ s, Keeps I (gs s)) (p : PropertyType) :
    Keeps I (Files.generate_struct_from_property gs p) := by
  intro st st1 hst e
  unfold Files.generate_struct_from_property at e
  split at e
  · exact hgs _ _ _ hst e
  · cases e

theorem get_skookum_property_type_name_keeps {I : Exporter → Prop} (hI : Stable I)
    {gs : Nat → Exporter → Result Exporter} (hgs : ∀ s, Keeps I (gs s)) (env : TypeGraph)
    (p : PropertyType) : Keeps I (Files.get_skookum_property_type_name gs env p) := by
  intro st st1 hst e
  unfold Files.get_skookum_property_type_name at e
  split at e
  · split at e
    · cases e; exact hI.frame st _ rfl rfl hst
    · cases e
  · split at e
    · exact hgs _ _ _ hst e
    · cases e
  · cases e; exact hst

theorem export_type_of_member_keeps {I : Exporter → Prop} (hI : Stable I)
    (cfg : Settings) (eng : EngineData)
    {gs : Nat → Exporter → Result Exporter} (hgs : ∀ s, Keeps I (gs s)) (env : TypeGraph)
    (p : PropertyType) : Keeps I (Files.export_type_of_member cfg eng gs env p) := by
  intro st st1 hst e
  unfold Files.export_type_of_member at e
  obtain ⟨a, e1, e2⟩ := Result.bind_eq_ok e
  have ha : I a := by
    split at e1
    · exact generate_enum_from_property_keeps hI cfg eng p _ _ hst e1
    · cases e1; exact hst
  split at e2
  · exact generate_struct_from_property_keeps hgs p _ _ ha e2
  · cases e2; exact ha

theorem can_export_method_params_keeps {I : Exporter → Prop} (hI : Stable I)
    (cfg : Settings) (eng : EngineData)
    {gs : Nat → Exporter → Result Exporter} (hgs : ∀ s, Keeps I (gs s)) (env : TypeGraph) :
    ∀ params, KeepsWith I (Files.can_export_method_params cfg eng gs env params) := by
  intro params
  induction params with
  | nil =>
    intro st a hst e
    cases e
    exact hst
  | cons p rest ih =>
    intro st a hst e
    unfold Files.can_export_method_params at e
    split at e
    · cases e; exact hst
    · split at e
      · cases e; exact hst
      · obtain ⟨st1, e1, e2⟩ := Result.bind_eq_ok e
        exact ih _ _ (export_type_of_member_keeps hI cfg eng hgs env _ _ _ hst e1) e2

theorem can_export_method_keeps {I : Exporter → Prop} (hI : Stable I)
    (cfg : Settings) (eng : EngineData)
    {gs : Nat → Exporter → Result Exporter} (hgs : ∀ s, Keeps I (gs s)) (env : TypeGraph)
    (c : Nat) (f : UFunction) : KeepsWith I (Files.can_export_method cfg eng gs env c f) := by
  intro st a hst e
  unfold Files.can_export_method at e
  split at e
  · cases e; exact hst
  · split at e
    · cases e; exact hst
    · exact can_export_method_params_keeps hI cfg eng hgs env _ _ _ hst e

theorem can_export_property_keeps {I : Exporter → Prop} (hI : Stable I)
    (cfg : Settings) (eng : EngineData)
    {gs : Nat → Exporter → Result Exporter} (hgs : ∀ s, Keeps I (gs s)) (env : TypeGraph)
    (h : UStructP) (p : UProperty) :
    KeepsWith I (Files.can_export_property cfg eng gs env h p) := by
  intro st a hst e
  unfold Files.can_export_property at e
  simp only at e
  split at e
  · cases e; exact hst
  · split at e
    · cases e; exact hst
    · split at e
      · cases e; exact hst
      · obtain ⟨st1, e1, e2⟩ := Result.bind_eq_ok e
        cases e2
        exact export_type_of_member_keeps hI cfg eng hgs env _ _ _ hst e1

theorem generate_property_default_ctor_argument_keeps (I : Exporter → Prop)
    (env : TypeGraph) (p : PropertyType) :
    Keeps I (Files.generate_property_default_ctor_argument env p) := by
  intro st st1 hst e
  unfold Files.generate_property_default_ctor_argument at e
  split at e
  · cases e
  · cases e; exact hst

theorem value_passing_switch_keeps {I : Exporter → Prop} (hI : Stable I)
    {gs : Nat → Exporter → Result Exporter} (hgs : ∀ s, Keeps I (gs s)) (env : TypeGraph)
    (p : PropertyType) (list_case : Exporter → Result Exporter) (hl : Keeps I list_case) :
    Keeps I (Files.value_passing_switch gs env p list_case) := by
  intro st st1 hst e
  unfold Files.value_passing_switch at e
  split at e
  · cases e
  · exact get_skookum_property_type_name_keeps hI hgs env _ _ _ hst e
  · exact get_skookum_property_type_name_keeps hI hgs env _ _ _ hst e
  · exact hl _ _ hst e
  · cases e; exact hst

theorem generate_return_or_param_value_passing_keeps {I : Exporter → Prop} (hI : Stable I)
    {gs : Nat → Exporter → Result Exporter} (hgs : ∀ s, Keeps I (gs s)) (env : TypeGraph) :
    ∀ p, Keeps I (Files.generate_return_or_param_value_passing gs env p) := by
  intro p
  induction p with
  | UArrayProperty inner ih =>
    intro st st1 hst e
    rw [Files.generate_return_or_param_value_passing] at e
    exact value_passing_switch_keeps hI hgs env _ _ ih _ _ hst e
  | _ =>
    intro st st1 hst e
    rw [Files.generate_return_or_param_value_passing] at e
    · exact value_passing_switch_keeps hI hgs env _ _ (fun _ _ _ e0 => by cases e0) _ _ hst e
    all_goals (intro inner hc; cases hc)

theorem get_array_parameter_expression_keeps {I : Exporter → Prop} (hI : Stable I)
    {gs : Nat → Exporter → Result Exporter} (hgs : ∀ s, Keeps I (gs s)) (env : TypeGraph)
    (p : PropertyType) : Keeps I (Files.get_array_parameter_expression gs env p) := by
  intro st st1 hst e
  unfold Files.get_array_parameter_expression at e
  split at e
  · split at e
    · cases e
    · cases e
    · exact get_skookum_property_type_name_keeps hI hgs env _ _ _ hst e
    · exact get_skookum_property_type_name_keeps hI hgs env _ _ _ hst e
    · cases e; exact hst
  · cases e

theorem generate_method_parameter_expression_keeps {I : Exporter → Prop} (hI : Stable I)
    {gs : Nat → Exporter → Result Exporter} (hgs : ∀ s, Keeps I (gs s)) (env : TypeGraph)
    (p : UProperty) : Keeps I (Files.generate_method_parameter_expression gs env p) := by
  intro st st1 hst e
  unfold Files.generate_method_parameter_expression at e
  split at e
  · split at e
    · cases e
    · exact get_skookum_property_type_name_keeps hI hgs env _ _ _ hst e
    · exact get_skookum_property_type_name_keeps hI hgs env _ _ _ hst e
    · exact get_array_parameter_expression_keeps hI hgs env _ _ _ hst e
    · cases e; exact hst
  · split at e
    · cases e; exact hst
    · exact generate_property_default_ctor_argument_keeps I env _ _ _ hst e

theorem generate_method_out_parameter_expression_keeps {I : Exporter → Prop} (hI : Stable I)
    {gs : Nat → Exporter → Result Exporter} (hgs : ∀ s, Keeps I (gs s)) (env : TypeGraph)
    (p : UProperty) : Keeps I (Files.generate_method_out_parameter_expression gs env p) := by
  intro st st1 hst e
  unfold Files.generate_method_out_parameter_expression at e
  split at e
  · cases e
  · exact get_skookum_property_type_name_keeps hI hgs env _ _ _ hst e
  · exact get_skookum_property_type_name_keeps hI hgs env _ _ _ hst e
  · exact generate_return_or_param_value_passing_keeps hI hgs env _ _ _ hst e
  · cases e; exact hst

theorem generate_method_script_file_keeps {I : Exporter → Prop} (hI : Stable I)
    (cfg : Settings) (eng : EngineData)
    {gs : Nat → Exporter → Result Exporter} (hgs : ∀ s, Keeps I (gs s)) (fuel : Nat)
    (env : TypeGraph) (f : UFunction) (name : String) :
    Keeps I (Files.generate_method_script_file cfg eng gs fuel env f name) := by
  intro st st1 hst e
  unfold Files.generate_method_script_file at e
  obtain ⟨a, e1, e2⟩ := Result.bind_eq_ok e
  have ha : I a :=
    keeps_for_each (fun x : UProperty => get_skookum_property_type_name_keeps hI hgs env x.Kind)
      _ _ _ hst e1
  obtain ⟨r, e3, e4⟩ := Result.bind_eq_ok e2
  cases e4
  have hr : I r.2 := get_skookum_method_path_keeps hI cfg fuel env _ _ _ _ _ ha e3
  unfold Files.get_skookum_method_path at e3
  obtain ⟨r0, _, e5⟩ := Result.bind_eq_ok e3
  cases e5
  exact hI.script _ _ _
    (Or.inl (path_combine_has_extension _ _ _ (method_file_name_extension _ _).1
      (method_file_name_extension _ _).2)) hr

theorem generate_method_binding_code_keeps {I : Exporter → Prop} (hI : Stable I)
    {gs : Nat → Exporter → Result Exporter} (hgs : ∀ s, Keeps I (gs s))
    (env : TypeGraph) (f : UFunction) :
    Keeps I (Files.generate_method_binding_code gs env f) := by
  intro st st1 hst e
  unfold Files.generate_method_binding_code at e
  obtain ⟨a, e1, e2⟩ := Result.bind_eq_ok e
  have ha : I a := by
    refine keeps_for_each (fun x => ?_) _ _ _ hst e1
    intro s0 s1 h0 e0
    obtain ⟨b, e3, e4⟩ := Result.bind_eq_ok e0
    have hb := generate_method_parameter_expression_keeps hI hgs env x _ _ h0 e3
    split at e4
    · exact generate_method_out_parameter_expression_keeps hI hgs env x _ _ hb e4
    · cases e4; exact hb
  split at e2
  · exact generate_return_or_param_value_passing_keeps hI hgs env _ _ _ ha e2
  · cases e2; exact ha

theorem generate_method_keeps {I : Exporter → Prop} (hI : Stable I)
    (cfg : Settings) (eng : EngineData)
    {gs : Nat → Exporter → Result Exporter} (hgs : ∀ s, Keeps I (gs s)) (fuel : Nat)
    (env : TypeGraph) (f : UFunction) (b : MethodBinding) :
    Keeps I (Files.generate_method cfg eng gs fuel env f b) := by
  intro st st1 hst e
  unfold Files.generate_method at e
  obtain ⟨a, e1, e2⟩ := Result.bind_eq_ok e
  exact generate_method_binding_code_keeps hI hgs env f _ _
    (generate_method_script_file_keeps hI cfg eng hgs fuel env f _ _ _ hst e1) e2

theorem generate_property_getter_keeps {I : Exporter → Prop} (hI : Stable I)
    (cfg : Settings) (eng : EngineData)
    {gs : Nat → Exporter → Result Exporter} (hgs : ∀ s, Keeps I (gs s)) (fuel : Nat)
    (env : TypeGraph) (p : UProperty) (b : MethodBinding) :
    Keeps I (Files.generate_property_getter cfg eng gs fuel env p b) := by
  intro st st1 hst e
  unfold Files.generate_property_getter at e
  obtain ⟨a, e1, e2⟩ := Result.bind_eq_ok e
  have ha := get_skookum_property_type_name_keeps hI hgs env _ _ _ hst e1
  obtain ⟨r, e3, e4⟩ := Result.bind_eq_ok e2
  obtain ⟨c, e5, e6⟩ := Result.bind_eq_ok e4
  have hr : I (r.2.emit (.script r.1 (eng.text_getter_script p))) := by
    split at e3
    · have hr2 := get_skookum_method_path_keeps hI cfg fuel env _ _ _ _ _ ha e3
      unfold Files.get_skookum_method_path at e3
      obtain ⟨r0, _, e7⟩ := Result.bind_eq_ok e3
      cases e7
      exact hI.script _ _ _
        (Or.inl (path_combine_has_extension _ _ _ (method_file_name_extension _ _).1
          (method_file_name_extension _ _).2)) hr2
    · cases e3
  exact generate_return_or_param_value_passing_keeps hI hgs env _ _ _
    (generate_property_default_ctor_argument_keeps I env _ _ _ hr e5) e6

theorem generate_property_setter_keeps {I : Exporter → Prop} (hI : Stable I)
    (cfg : Settings) (eng : EngineData)
    {gs : Nat → Exporter → Result Exporter} (hgs : ∀ s, Keeps I (gs s)) (fuel : Nat)
    (env : TypeGraph) (p : UProperty) (b : MethodBinding) :
    Keeps I (Files.generate_property_setter cfg eng gs fuel env p b) := by
  intro st st1 hst e
  unfold Files.generate_property_setter at e
  obtain ⟨r, e1, e2⟩ := Result.bind_eq_ok e
  have hr : I r.2 := by
    split at e1
    · exact get_skookum_class_path_keeps hI cfg fuel env _ _ _ hst e1
    · cases e1
  obtain ⟨a, e3, e4⟩ := Result.bind_eq_ok e2
  have ha := get_skookum_property_type_name_keeps hI hgs env _ _ _ hr e3
  refine generate_method_parameter_expression_keeps hI hgs env p _ _ ?_ e4
  refine hI.script _ _ _ (Or.inl (path_combine_has_extension _ _ _ ?_ ?_)) ha
  · simp [String.data_append]
  · exact has_extension_append _ _ _ (by decide)

theorem export_functions_keeps {I : Exporter → Prop} (hI : Stable I)
    (cfg : Settings) (eng : EngineData)
    {gs : Nat → Exporter → Result Exporter} (hgs : ∀ s, Keeps I (gs s)) (fuel : Nat)
    (env : TypeGraph) (c : Nat) :
    ∀ functions bindings, KeepsWith I
      (Files.export_functions cfg eng gs fuel env c functions bindings) := by
  intro functions
  induction functions with
  | nil =>
    intro bindings st a hst e
    cases e
    exact hst
  | cons f rest ih =>
    intro bindings st a hst e
    unfold Files.export_functions at e
    obtain ⟨r, e1, e2⟩ := Result.bind_eq_ok e
    have hr := can_export_method_keeps hI cfg eng hgs env c f _ _ hst e1
    split at e2
    · simp only at e2
      split at e2
      · obtain ⟨st2, e3, e4⟩ := Result.bind_eq_ok e2
        exact ih _ _ _ (generate_method_keeps hI cfg eng hgs fuel env f _ _ _ hr e3) e4
      · exact ih _ _ _ hr e2
    · exact ih _ _ _ hr e2

theorem export_properties_keeps {I : Exporter → Prop} (hI : Stable I)
    (cfg : Settings) (eng : EngineData)
    {gs : Nat → Exporter → Result Exporter} (hgs : ∀ s, Keeps I (gs s)) (fuel : Nat)
    (env : TypeGraph) (h : UStructP) :
    ∀ properties bindings, KeepsWith I
      (Files.export_properties cfg eng gs fuel env h properties bindings) := by
  intro properties
  induction properties with
  | nil =>
    intro bindings st a hst e
    cases e
    exact hst
  | cons p rest ih =>
    intro bindings st a hst e
    unfold Files.export_properties at e
    obtain ⟨r, e1, e2⟩ := Result.bind_eq_ok e
    have hr := can_export_property_keeps hI cfg eng hgs env h p _ _ hst e1
    split at e2
    · simp only at e2
      obtain ⟨r2, e3, e4⟩ := Result.bind_eq_ok e2
      have hr2 : I r2.2 := by
        split at e3
        · obtain ⟨st2, e5, e6⟩ := Result.bind_eq_ok e3
          cases e6
          exact generate_property_getter_keeps hI cfg eng hgs fuel env p _ _ _ hr e5
        · cases e3; exact hr
      obtain ⟨r3, e7, e8⟩ := Result.bind_eq_ok e4
      have hr3 : I r3.2 := by
        split at e7
        · split at e7
          · obtain ⟨st3, e9, e10⟩ := Result.bind_eq_ok e7
            cases e10
            exact generate_property_setter_keeps hI cfg eng hgs fuel env p _ _ _ hr2 e9
          · cases e7; exact hr2
        · cases e7; exact hr2
      exact ih _ _ _ hr3 e8
    · exact ih _ _ _ hr e2

/-! ## The headers asked for by a run -/

theorem ne_empty_of_data (s : String) (h : s.data ≠ []) : s ≠ "" := by
  intro e
  rw [e] at h
  exact h rfl

theorem header_paths_append (a b : List Output) :
    header_paths (a ++ b) = header_paths a ++ header_paths b := by
  unfold header_paths
  exact List.flatMap_append _ _ _

theorem Accounted_stable (cfg : Settings) (env : TypeGraph) (owed : List String) :
    Stable (Accounted cfg env owed) := by
  refine ⟨?_, ?_⟩
  · intro st st1 ho hl h
    unfold Accounted at *
    rw [ho, hl]
    exact h
  · intro st path body hp h
    unfold Accounted at *
    refine ⟨?_, ?_⟩
    · intro o ho
      unfold Exporter.emit at ho
      rcases List.mem_append.1 ho with h1 | h1
      · exact h.1 o h1
      · rw [List.mem_singleton.1 h1]
        exact hp
    · intro p
      have := h.2 p
      unfold Exporter.emit
      simp only [header_paths_append]
      simpa [header_paths, Output.header_path] using this

theorem Accounted_header (cfg : Settings) (env : TypeGraph) (owed : List String)
    (st st1 : Exporter) (p c : String) (h : Accounted cfg env (p :: owed) st)
    (hw : (Output.header p c).well_formed)
    (ho : st1.outputs = st.outputs ++ [.header p c])
    (hl : st1.gen.log_generating = st.gen.log_generating) :
    Accounted cfg env owed st1 := by
  unfold Accounted at *
  rw [ho, hl]
  refine ⟨?_, ?_⟩
  · intro o hmem
    rcases List.mem_append.1 hmem with h1 | h1
    · exact h.1 o h1
    · rw [List.mem_singleton.1 h1]
      exact hw
  · intro q
    have := h.2 q
    simp only [header_paths_append, List.count_append, List.count_cons] at this ⊢
    simp only [header_paths, Output.header_path, List.flatMap_cons, List.flatMap_nil,
      List.append_nil, List.count_cons, List.count_nil] at this ⊢
    omega

theorem Accounted_begin (cfg : Settings) (env : TypeGraph) (owed : List String)
    (st st1 : Exporter) (h : UStructP) (hst : Accounted cfg env owed st)
    (ho : st1.outputs = st.outputs)
    (hl : st1.gen.log_generating = st.gen.log_generating ++ [h]) :
    Accounted cfg env
      (path_combine cfg.m_binding_code_path (header_file_name env h)
        :: path_combine cfg.m_binding_code_path (binding_file_name env h) :: owed) st1 := by
  unfold Accounted at *
  rw [ho, hl]
  refine ⟨hst.1, ?_⟩
  intro q
  have := hst.2 q
  simp only [List.flatMap_append, List.count_append, List.flatMap_cons, List.flatMap_nil,
    List.append_nil, entity_headers, List.count_cons, List.count_nil] at this ⊢
  omega

theorem header_file_name_extension (env : TypeGraph) (h : UStructP) :
    (header_file_name env h).data ≠ [] ∧ has_extension (header_file_name env h) ".hpp" := by
  unfold header_file_name
  refine ⟨?_, has_extension_append _ _ _ (by decide)⟩
  simp [String.data_append]

theorem binding_file_name_extension (env : TypeGraph) (h : UStructP) :
    (binding_file_name env h).data ≠ [] ∧ has_extension (binding_file_name env h) ".inl" := by
  unfold binding_file_name
  refine ⟨?_, has_extension_append _ _ _ (by decide)⟩
  simp [String.data_append]

theorem generate_struct_script_files_keeps {I : Exporter → Prop} (hI : Stable I)
    (cfg : Settings) (eng : EngineData) (fuel : Nat) (env : TypeGraph) (s : Nat) :
    Keeps I (Files.generate_struct_script_files cfg eng fuel env s) := by
  intro st st1 hst e
  unfold Files.generate_struct_script_files at e
  obtain ⟨r, e1, e2⟩ := Result.bind_eq_ok e
  have hr := get_skookum_class_path_keeps hI cfg fuel env _ st r hst e1
  cases e2
  have h1 := hI.script r.2 (path_combine r.1 "!Class.sk-meta")
    (eng.text_struct_script s "!Class.sk-meta")
    (Or.inr (path_combine_has_extension _ _ _ (by decide) (by decide))) hr
  have h2 := hI.script _ (path_combine r.1 "!().sk") (eng.text_struct_script s "!().sk")
    (Or.inl (path_combine_has_extension _ _ _ (by decide) (by decide))) h1
  have h3 := hI.script _ (path_combine r.1 "!copy().sk") (eng.text_struct_script s "!copy().sk")
    (Or.inl (path_combine_has_extension _ _ _ (by decide) (by decide))) h2
  refine hI.script _ (path_combine r.1 "!!().sk") (eng.text_struct_script s "!!().sk")
    (Or.inl (path_combine_has_extension _ _ _ (by decide) (by decide))) ?_
  split
  · exact hI.script _ (path_combine r.1 "assign().sk") (eng.text_struct_script s "assign().sk")
      (Or.inl (path_combine_has_extension _ _ _ (by decide) (by decide))) h3
  · exact h3

theorem generate_class_script_files_keeps {I : Exporter → Prop} (hI : Stable I)
    (cfg : Settings) (eng : EngineData) (fuel : Nat) (env : TypeGraph) (c : Nat) :
    Keeps I (Files.generate_class_script_files cfg eng fuel env c) := by
  intro st st1 hst e
  unfold Files.generate_class_script_files at e
  obtain ⟨r, e1, e2⟩ := Result.bind_eq_ok e
  have hr := get_skookum_class_path_keeps hI cfg fuel env _ st r hst e1
  cases e2
  exact hI.script r.2 _ _ (Or.inr (path_combine_has_extension _ _ _ (by decide) (by decide))) hr

theorem generate_struct_header_file_accounted (cfg : Settings) (eng : EngineData)
    (env : TypeGraph) (s : Nat) (name : String) (owed : List String) (st : Exporter)
    (h : Accounted cfg env
      (path_combine cfg.m_binding_code_path (header_file_name env (.sstruct s)) :: owed) st) :
    Accounted cfg env owed (Files.generate_struct_header_file cfg eng env s name st) := by
  refine Accounted_header cfg env owed st _ _ _ h ?_ rfl rfl
  refine ⟨Or.inl (path_combine_has_extension _ _ _ (header_file_name_extension _ _).1
    (header_file_name_extension _ _).2), ne_empty_of_data _ ?_⟩
  rw [String.data_append]
  exact List.append_ne_nil_of_left_ne_nil (by decide) _

theorem generate_class_header_file_accounted (cfg : Settings) (eng : EngineData)
    (env : TypeGraph) (c : Nat) (name : String) (owed : List String) (st : Exporter)
    (h : Accounted cfg env
      (path_combine cfg.m_binding_code_path (header_file_name env (.cls c)) :: owed) st) :
    Accounted cfg env owed (Files.generate_class_header_file cfg eng env c name st) := by
  refine Accounted_header cfg env owed st _ _ _ h ?_ rfl rfl
  refine ⟨Or.inl (path_combine_has_extension _ _ _ (header_file_name_extension _ _).1
    (header_file_name_extension _ _).2), ne_empty_of_data _ ?_⟩
  rw [String.data_append]
  exact List.append_ne_nil_of_left_ne_nil (by decide) _

theorem binding_text_ne_empty (name code : String) :
    "\r\nnamespace SkUE" ++ name ++ "_Impl\r\n  \x7b\r\n\r\n" ++ code ≠ "" := by
  refine ne_empty_of_data _ ?_
  rw [String.data_append, String.data_append, String.data_append, List.append_assoc,
    List.append_assoc]
  exact List.append_ne_nil_of_left_ne_nil (by decide) _

theorem generate_struct_binding_file_accounted (cfg : Settings) (eng : EngineData)
    (env : TypeGraph) {gs : Nat → Exporter → Result Exporter}
    (hgs : ∀ owed s, Keeps (Accounted cfg env owed) (gs s)) (fuel : Nat) (s : Nat) (owed : List String) (st : Exporter)
    (r : Bindings × Exporter)
    (h : Accounted cfg env
      (path_combine cfg.m_binding_code_path (binding_file_name env (.sstruct s)) :: owed) st)
    (e : Files.generate_struct_binding_file cfg eng gs fuel env s st = .ok r) :
    Accounted cfg env owed r.2 := by
  unfold Files.generate_struct_binding_file at e
  simp only at e
  obtain ⟨properties, _, e1⟩ := Result.bind_eq_ok e
  obtain ⟨r2, e2, e3⟩ := Result.bind_eq_ok e1
  cases e3
  have h2 : Accounted cfg env
      (path_combine cfg.m_binding_code_path (binding_file_name env (.sstruct s)) :: owed)
      r2.2 := by
    refine export_properties_keeps (Accounted_stable cfg env _) cfg eng (hgs _) fuel env
      (.sstruct s) properties _ _ _ ?_ e2
    exact (Accounted_stable cfg env _).frame st _ rfl rfl h
  refine Accounted_header cfg env owed r2.2 _ _ _ h2 ?_ rfl rfl
  exact ⟨Or.inr (path_combine_has_extension _ _ _ (binding_file_name_extension _ _).1
    (binding_file_name_extension _ _).2), binding_text_ne_empty _ _⟩

theorem generate_class_binding_file_accounted (cfg : Settings) (eng : EngineData)
    (env : TypeGraph) {gs : Nat → Exporter → Result Exporter}
    (hgs : ∀ owed s, Keeps (Accounted cfg env owed) (gs s)) (fuel : Nat) (c : Nat) (owed : List String) (st : Exporter)
    (r : Bindings × Exporter)
    (h : Accounted cfg env
      (path_combine cfg.m_binding_code_path (binding_file_name env (.cls c)) :: owed) st)
    (e : Files.generate_class_binding_file cfg eng gs fuel env c st = .ok r) :
    Accounted cfg env owed r.2 := by
  unfold Files.generate_class_binding_file at e
  simp only at e
  obtain ⟨functions, _, e1⟩ := Result.bind_eq_ok e
  obtain ⟨r1, e2, e3⟩ := Result.bind_eq_ok e1
  obtain ⟨properties, _, e4⟩ := Result.bind_eq_ok e3
  obtain ⟨r2, e5, e6⟩ := Result.bind_eq_ok e4
  cases e6
  have h1 : Accounted cfg env
      (path_combine cfg.m_binding_code_path (binding_file_name env (.cls c)) :: owed)
      r1.2 := by
    refine export_functions_keeps (Accounted_stable cfg env _) cfg eng (hgs _) fuel env
      c functions _ _ _ ?_ e2
    exact (Accounted_stable cfg env _).frame st _ rfl rfl h
  have h2 := export_properties_keeps (Accounted_stable cfg env _) cfg eng (hgs _) fuel env
    (.cls c) properties _ _ _ h1 e5
  refine Accounted_header cfg env owed r2.2 _ _ _ h2 ?_ rfl rfl
  exact ⟨Or.inr (path_combine_has_extension _ _ _ (binding_file_name_extension _ _).1
    (binding_file_name_extension _ _).2), binding_text_ne_empty _ _⟩

theorem generate_struct_accounted (cfg : Settings) (eng : EngineData) (env : TypeGraph) :
    ∀ fuel owed s name,
      Keeps (Accounted cfg env owed) (Files.generate_struct cfg eng fuel env s name) := by
  intro fuel
  induction fuel with
  | zero =>
    intro owed s name st st1 _ e
    cases e
  | succ fuel ih =>
    intro owed s name st st1 hst e
    unfold Files.generate_struct at e
    obtain ⟨st2, e1, e2⟩ := Result.bind_eq_ok e
    have h2 : Accounted cfg env owed st2 := by
      split at e1
      · obtain ⟨sa, e3, e4⟩ := Result.bind_eq_ok e1
        obtain ⟨r, e5, e6⟩ := Result.bind_eq_ok e4
        cases e6
        have hb := Accounted_begin cfg env owed st
          { st with gen := st.gen.begin_generating (.sstruct s) } (.sstruct s) hst rfl rfl
        have ha := generate_struct_script_files_keeps (Accounted_stable cfg env _) cfg eng
          fuel env s _ _ hb e3
        have hh := generate_struct_header_file_accounted cfg eng env s name _ sa ha
        exact generate_struct_binding_file_accounted cfg eng env
          (fun owed s st0 st1 h0 e0 => ih owed s _ st0 st1 h0 e0) fuel s owed _ r hh e5
      · cases e1
        exact hst
    split at e2
    · exact ih owed _ name _ _ h2 e2
    · cases e2
      exact h2

theorem generate_class_accounted (cfg : Settings) (eng : EngineData) (fuel : Nat)
    (env : TypeGraph) (c : Nat) (name : String) :
    Keeps (Accounted cfg env []) (Files.generate_class cfg eng fuel env c name) := by
  intro st st1 hst e
  unfold Files.generate_class at e
  obtain ⟨sa, e3, e4⟩ := Result.bind_eq_ok e
  obtain ⟨r, e5, e6⟩ := Result.bind_eq_ok e4
  cases e6
  have hb := Accounted_begin cfg env [] st
    { st with gen := st.gen.begin_generating (.cls c) } (.cls c) hst rfl rfl
  have ha := generate_class_script_files_keeps (Accounted_stable cfg env _) cfg eng
    fuel env c _ _ hb e3
  have hh := generate_class_header_file_accounted cfg eng env c name _ sa ha
  exact generate_class_binding_file_accounted cfg eng env
    (fun owed s st0 st1 h0 e0 => generate_struct_accounted cfg eng env fuel owed s _ st0 st1 h0 e0)
    fuel c [] _ r hh e5

theorem ExportClass_accounted (cfg : Settings) (eng : EngineData) (fuel : Nat)
    (env : TypeGraph) (c : Nat) (name : String) :
    Keeps (Accounted cfg env []) (Files.ExportClass cfg eng fuel env c name) := by
  intro st st1 hst e
  unfold Files.ExportClass at e
  split at e
  · cases e; exact hst
  · simp only at e
    split at e
    · cases e
      exact (Accounted_stable cfg env []).frame st _ rfl rfl hst
    · refine generate_class_accounted cfg eng fuel env c name _ st1 ?_ e
      exact (Accounted_stable cfg env []).frame st _ rfl rfl hst

theorem export_requests_accounted (cfg : Settings) (eng : EngineData) (fuel : Nat)
    (env : TypeGraph) :
    ∀ requests, Keeps (Accounted cfg env []) (Files.export_requests cfg eng fuel env requests) := by
  intro requests
  induction requests with
  | nil =>
    intro st st1 hst e
    cases e
    exact hst
  | cons r rest ih =>
    intro st st1 hst e
    obtain ⟨a, e1, e2⟩ := Result.bind_eq_ok e
    exact ih _ _ (ExportClass_accounted cfg eng fuel env _ _ _ _ hst e1) e2

theorem finish_extra_classes_accounted (cfg : Settings) (eng : EngineData) (fuel : Nat)
    (env : TypeGraph) :
    ∀ records,
      Keeps (Accounted cfg env []) (Files.finish_extra_classes cfg eng fuel env records) := by
  intro records
  induction records with
  | nil =>
    intro st st1 hst e
    cases e
    exact hst
  | cons r rest ih =>
    intro st st1 hst e
    obtain ⟨a, e1, e2⟩ := Result.bind_eq_ok e
    refine ih _ _ ?_ e2
    split at e1
    · exact generate_class_accounted cfg eng fuel env _ _ _ _ hst e1
    · cases e1
      exact hst

/-- The requests of a whole run: those of the classes and structs it generated, all
accounted for, and the master binding file at the end. -/
theorem run_accounted (cfg : Settings) (eng : EngineData) (fuel : Nat) (env : TypeGraph)
    (skip_classes : List String) (requests : List (Nat × String)) (st : Exporter)
    (e : Files.run cfg eng fuel env skip_classes requests = .ok st) :
    ∃ st0 text, Accounted cfg env [] st0 ∧ st.gen = st0.gen
      ∧ st.outputs = st0.outputs
          ++ [.header (path_combine cfg.m_binding_code_path "SkUE.generated.inl") text]
      ∧ text ≠ "" := by
  unfold Files.run at e
  obtain ⟨a, e1, e2⟩ := Result.bind_eq_ok e
  have ha : Accounted cfg env [] a := by
    refine export_requests_accounted cfg eng fuel env requests _ _ ?_ e1
    refine ⟨?_, ?_⟩
    · intro o ho
      cases ho
    · intro p
      rfl
  unfold Files.FinishExport at e2
  obtain ⟨b, e3, e4⟩ := Result.bind_eq_ok e2
  have hb := finish_extra_classes_accounted cfg eng fuel env _ _ _ ha e3
  cases e4
  refine ⟨b, _, hb, rfl, rfl, ne_empty_of_data _ ?_⟩
  rw [String.data_append]
  exact List.append_ne_nil_of_left_ne_nil (by decide) _

/-! ## Paths and extensions -/

theorem starts_with_ci_append_tmp (s : List Char) (hs : s ≠ [])
    (h : starts_with_ci (s ++ ['.', 't', 'm', 'p']) ['.', 't', 'm', 'p'] = true) :
    starts_with_ci s ['.', 't', 'm', 'p'] = true := by
  match s, hs, h with
  | [_], _, h =>
    simp only [starts_with_ci, List.cons_append, List.nil_append, Bool.and_eq_true] at h
    exact absurd h.2.1 (by decide)
  | [_, _], _, h =>
    simp only [starts_with_ci, List.cons_append, List.nil_append, Bool.and_eq_true] at h
    exact absurd h.2.2.1 (by decide)
  | [_, _, _], _, h =>
    simp only [starts_with_ci, List.cons_append, List.nil_append, Bool.and_eq_true] at h
    exact absurd h.2.2.2.1 (by decide)
  | _ :: _ :: _ :: _ :: _, _, h =>
    simp only [starts_with_ci, List.cons_append, Bool.and_eq_true, Bool.and_true] at h ⊢
    exact ⟨h.1, h.2.1, h.2.2.1, h.2.2.2⟩

theorem FString_Replace_loop_tmp (s : List Char)
    (h : FString_contains_ci s ['.', 't', 'm', 'p'] = false) :
    FString_Replace_loop ['.', 't', 'm', 'p'] [] 0 (s ++ ['.', 't', 'm', 'p']) = s := by
  induction s with
  | nil => rfl
  | cons c cs ih =>
    unfold FString_contains_ci at h
    rw [Bool.or_eq_false_iff] at h
    have hn : starts_with_ci (c :: cs ++ ['.', 't', 'm', 'p']) ['.', 't', 'm', 'p'] = false := by
      cases hb : starts_with_ci (c :: cs ++ ['.', 't', 'm', 'p']) ['.', 't', 'm', 'p'] with
      | false => rfl
      | true =>
        have := starts_with_ci_append_tmp (c :: cs) (by simp) hb
        rw [h.1] at this
        cases this
    rw [List.cons_append] at hn ⊢
    unfold FString_Replace_loop
    rw [hn]
    simp only [Bool.false_eq_true, if_false]
    rw [ih h.2]

/-- The name derived by `rename_temp_files` from the name of a temporary is the target
when the target does not contain `.tmp` (in any case of the letters). -/
theorem FString_Replace_tmp (p : String)
    (h : FString_contains_ci p.data ".tmp".data = false) :
    FString_Replace (p ++ ".tmp") ".tmp" "" = p := by
  unfold FString_Replace
  rw [if_neg (by decide)]
  rw [String.data_append]
  exact congrArg String.mk (FString_Replace_loop_tmp p.data h)

theorem extension_clash (p a b : String) (ha : has_extension p a) (hb : has_extension p b) :
    a.data <:+ b.data ∨ b.data <:+ a.data :=
  List.suffix_or_suffix_of_suffix ha hb

theorem temp_has_extension (p : String) : has_extension (p ++ ".tmp") ".tmp" :=
  has_extension_append _ _ _ (by decide)

theorem temp_inj (p q : String) (h : p ++ ".tmp" = q ++ ".tmp") : p = q := by
  have := congrArg String.data h
  rw [String.data_append, String.data_append] at this
  exact String.ext (List.append_cancel_right this)

theorem header_ne_script (p q : String)
    (hp : has_extension p ".hpp" ∨ has_extension p ".inl")
    (hq : has_extension q ".sk" ∨ has_extension q ".sk-meta") : q ≠ p := by
  intro e
  subst e
  rcases hp with hp | hp <;> rcases hq with hq | hq
  · exact (extension_clash _ _ _ hp hq).elim (by decide) (by decide)
  · exact (extension_clash _ _ _ hp hq).elim (by decide) (by decide)
  · exact (extension_clash _ _ _ hp hq).elim (by decide) (by decide)
  · exact (extension_clash _ _ _ hp hq).elim (by decide) (by decide)

theorem header_ne_temp (p q : String)
    (hp : has_extension p ".hpp" ∨ has_extension p ".inl") : p ≠ q ++ ".tmp" := by
  intro e
  have hq := temp_has_extension q
  rw [← e] at hq
  rcases hp with hp | hp
  · exact (extension_clash _ _ _ hp hq).elim (by decide) (by decide)
  · exact (extension_clash _ _ _ hp hq).elim (by decide) (by decide)

theorem script_ne_temp (p q : String)
    (hp : has_extension p ".sk" ∨ has_extension p ".sk-meta") : p ≠ q ++ ".tmp" := by
  intro e
  have hq := temp_has_extension q
  rw [← e] at hq
  rcases hp with hp | hp
  · exact (extension_clash _ _ _ hp hq).elim (by decide) (by decide)
  · exact (extension_clash _ _ _ hp hq).elim (by decide) (by decide)

/-! ## Staging on the disk -/

theorem save_header_if_changed_unchanged (p c : String) (st : Staging)
    (h : st.disk.text p = some c) (hc : c ≠ "") :
    save_header_if_changed p c st = (false, st) := by
  have hd : c.data.isEmpty = false := by
    cases hx : c.data with
    | nil => exact absurd (String.ext hx) hc
    | cons a as => rfl
  unfold save_header_if_changed FileSystem.LoadFileToString
  simp [h, hd]

/-- What a call of `save_header_if_changed` leaves behind: the files other than the
temporary are as before, and `m_temp_headers` is as before or has the temporary as
its new last entry. -/
theorem save_header_if_changed_frame (p c : String) (st : Staging) :
    (save_header_if_changed p c st).2.disk.write_fails = st.disk.write_fails
      ∧ (∀ q, q ≠ p ++ ".tmp" →
          (save_header_if_changed p c st).2.disk.text q = st.disk.text q)
      ∧ ((save_header_if_changed p c st).2.m_temp_headers = st.m_temp_headers
          ∨ (save_header_if_changed p c st).2.m_temp_headers
              = st.m_temp_headers ++ [p ++ ".tmp"]) := by
  unfold save_header_if_changed
  simp only
  split
  · cases hw : st.disk.write_fails (p ++ ".tmp")
    · simp only [FileSystem.SaveStringToFile, FileSystem.Delete, hw, Bool.false_eq_true,
        if_false]
      refine ⟨trivial, ?_, Or.inr trivial⟩
      intro q hq
      simp [hq]
    · simp only [FileSystem.SaveStringToFile, FileSystem.Delete, hw, if_true]
      refine ⟨trivial, ?_, Or.inl trivial⟩
      intro q hq
      simp [hq]
  · exact ⟨rfl, fun _ _ => rfl, Or.inl rfl⟩

/-! ## Distinct names give distinct headers -/

theorem string_append_left_cancel (a b c : String) (h : a ++ b = a ++ c) : b = c := by
  have := congrArg String.data h
  rw [String.data_append, String.data_append] at this
  exact String.ext (List.append_cancel_left this)

theorem path_combine_inj (a b c : String) (hb : b.data.head? = some 'S')
    (hc : c.data.head? = some 'S') (h : path_combine a b = path_combine a c) : b = c := by
  have hbe : b.data.isEmpty = false := by
    cases hd : b.data with
    | nil => rw [hd] at hb; cases hb
    | cons x xs => rfl
  have hce : c.data.isEmpty = false := by
    cases hd : c.data with
    | nil => rw [hd] at hc; cases hc
    | cons x xs => rfl
  have hb2 : ¬ (b.data.head? = some '/') := by rw [hb]; decide
  have hc2 : ¬ (c.data.head? = some '/') := by rw [hc]; decide
  unfold path_combine at h
  simp only [hbe, hce, hb2, hc2, Bool.false_eq_true, if_false] at h
  split at h
  · exact h
  · split at h
    · exact string_append_left_cancel _ _ _ h
    · exact string_append_left_cancel _ _ _ h

theorem generated_file_name_data (name ext : String) :
    ("SkUE" ++ name ++ ext).data = 'S' :: 'k' :: 'U' :: 'E' :: (name.data ++ ext.data) := by
  rw [String.data_append, String.data_append]
  rfl

theorem generated_file_name_inj (n m e f : String) (hl : e.data.length = f.data.length)
    (h : "SkUE" ++ n ++ e = "SkUE" ++ m ++ f) : n = m ∧ e = f := by
  have := congrArg String.data h
  rw [generated_file_name_data, generated_file_name_data] at this
  have h2 : n.data ++ e.data = m.data ++ f.data := by
    injection this with _ t1
    injection t1 with _ t2
    injection t2 with _ t3
    injection t3 with _ t4
  have := List.append_inj' h2 hl
  exact ⟨String.ext this.1, String.ext this.2⟩

theorem entity_headers_inj (cfg : Settings) (env : TypeGraph) (h k : UStructP) (p : String)
    (hp : p ∈ entity_headers cfg env h) (hq : p ∈ entity_headers cfg env k) :
    get_skookum_class_name env h = get_skookum_class_name env k := by
  unfold entity_headers header_file_name binding_file_name at hp hq
  simp only [List.mem_cons, List.mem_singleton, List.not_mem_nil, or_false] at hp hq
  have hd : ∀ n e : String, ("SkUE" ++ n ++ e).data.head? = some 'S' := by
    intro n e
    rw [generated_file_name_data]
    rfl
  rcases hp with hp | hp <;> rcases hq with hq | hq
  · exact (generated_file_name_inj _ _ ".generated.hpp" ".generated.hpp" rfl
      (path_combine_inj _ _ _ (hd _ _) (hd _ _) (hp.symm.trans hq))).1
  · exact (generated_file_name_inj _ _ ".generated.hpp" ".generated.inl" rfl
      (path_combine_inj _ _ _ (hd _ _) (hd _ _) (hp.symm.trans hq))).1
  · exact (generated_file_name_inj _ _ ".generated.inl" ".generated.hpp" rfl
      (path_combine_inj _ _ _ (hd _ _) (hd _ _) (hp.symm.trans hq))).1
  · exact (generated_file_name_inj _ _ ".generated.inl" ".generated.inl" rfl
      (path_combine_inj _ _ _ (hd _ _) (hd _ _) (hp.symm.trans hq))).1

theorem entity_headers_nodup (cfg : Settings) (env : TypeGraph) (h : UStructP) :
    (entity_headers cfg env h).Nodup := by
  unfold entity_headers header_file_name binding_file_name
  have hd : ∀ n e : String, ("SkUE" ++ n ++ e).data.head? = some 'S' := by
    intro n e
    rw [generated_file_name_data]
    rfl
  rw [List.nodup_cons]
  refine ⟨?_, List.nodup_singleton _⟩
  intro hm
  rw [List.mem_singleton] at hm
  have := (generated_file_name_inj _ _ ".generated.hpp" ".generated.inl" rfl
    (path_combine_inj _ _ _ (hd _ _) (hd _ _) hm)).2
  exact absurd this (by decide)

theorem generated_headers_nodup (cfg : Settings) (env : TypeGraph) :
    ∀ log : List UStructP, (log.map (get_skookum_class_name env)).Nodup →
      (log.flatMap (entity_headers cfg env)).Nodup := by
  intro log
  induction log with
  | nil => intro _; exact List.nodup_nil
  | cons h t ih =>
    intro hn
    rw [List.map_cons, List.nodup_cons] at hn
    rw [List.flatMap_cons, List.nodup_append]
    refine ⟨entity_headers_nodup cfg env h, ih hn.2, ?_⟩
    intro p hp hq
    obtain ⟨k, hk, hpk⟩ := List.mem_flatMap.1 hq
    apply hn.1
    rw [entity_headers_inj cfg env h k p hp hpk]
    exact List.mem_map_of_mem _ hk

theorem master_not_generated (cfg : Settings) (env : TypeGraph) (log : List UStructP)
    (hne : ∀ h ∈ log, get_skookum_class_name env h ≠ "") :
    path_combine cfg.m_binding_code_path "SkUE.generated.inl"
      ∉ log.flatMap (entity_headers cfg env) := by
  intro hm
  obtain ⟨k, hk, hpk⟩ := List.mem_flatMap.1 hm
  unfold entity_headers header_file_name binding_file_name at hpk
  simp only [List.mem_cons, List.mem_singleton, List.not_mem_nil, or_false] at hpk
  have hd : ∀ n e : String, ("SkUE" ++ n ++ e).data.head? = some 'S' := by
    intro n e
    rw [generated_file_name_data]
    rfl
  have hm0 : "SkUE.generated.inl" = "SkUE" ++ "" ++ ".generated.inl" := by decide
  rcases hpk with hpk | hpk
  · rw [hm0] at hpk
    have := (generated_file_name_inj _ _ ".generated.inl" ".generated.hpp" rfl
      (path_combine_inj _ _ _ (hd _ _) (hd _ _) hpk)).2
    exact absurd this (by decide)
  · rw [hm0] at hpk
    have := (generated_file_name_inj _ _ ".generated.inl" ".generated.inl" rfl
      (path_combine_inj _ _ _ (hd _ _) (hd _ _) hpk)).1
    exact hne k hk this.symm

/-- The target paths of a run are pairwise distinct when the classes and structs it
generated have pairwise distinct script class names, none of them empty. -/
theorem run_header_paths_nodup (cfg : Settings) (eng : EngineData) (fuel : Nat)
    (env : TypeGraph) (skip_classes : List String) (requests : List (Nat × String))
    (st : Exporter) (e : Files.run cfg eng fuel env skip_classes requests = .ok st)
    (hn : (st.gen.log_generating.map (get_skookum_class_name env)).Nodup)
    (hne : ∀ h ∈ st.gen.log_generating, get_skookum_class_name env h ≠ "") :
    (header_paths st.outputs).Nodup := by
  obtain ⟨st0, text, ha, hg, ho, _⟩ := run_accounted cfg eng fuel env skip_classes requests st e
  rw [hg] at hn hne
  rw [ho, header_paths_append]
  have hcount := ha.2
  have hnd := generated_headers_nodup cfg env _ hn
  have hmaster := master_not_generated cfg env _ hne
  rw [List.nodup_append]
  refine ⟨?_, ?_, ?_⟩
  · rw [List.nodup_iff_count_le_one]
    intro a
    have := hcount a
    have h1 := List.nodup_iff_count_le_one.1 hnd a
    simp only [List.count_nil, Nat.add_zero] at this
    omega
  · exact List.nodup_singleton _
  · intro p hp hq
    simp only [header_paths, Output.header_path, List.flatMap_cons, List.flatMap_nil,
      List.append_nil, List.mem_singleton] at hq
    subst hq
    have := hcount (path_combine cfg.m_binding_code_path "SkUE.generated.inl")
    have h0 := List.count_eq_zero_of_not_mem hmaster
    have h1 : 0 < List.count (path_combine cfg.m_binding_code_path "SkUE.generated.inl")
        (header_paths st0.outputs) := List.count_pos_iff.2 hp
    simp only [List.count_nil, Nat.add_zero] at this
    omega

/-- Every request of a run is well formed. -/
theorem run_well_formed (cfg : Settings) (eng : EngineData) (fuel : Nat)
    (env : TypeGraph) (skip_classes : List String) (requests : List (Nat × String))
    (st : Exporter) (e : Files.run cfg eng fuel env skip_classes requests = .ok st) :
    ∀ o ∈ st.outputs, o.well_formed := by
  obtain ⟨st0, text, ha, _, ho, ht⟩ := run_accounted cfg eng fuel env skip_classes requests st e
  intro o hmem
  rw [ho] at hmem
  rcases List.mem_append.1 hmem with h1 | h1
  · exact ha.1 o h1
  · rw [List.mem_singleton.1 h1]
    exact ⟨Or.inr (path_combine_has_extension _ _ _ (by decide) (by decide)), ht⟩

/-! ## Carrying out the requests -/

theorem mem_header_paths (outs : List Output) (p : String) :
    p ∈ header_paths outs ↔ ∃ c, Output.header p c ∈ outs := by
  unfold header_paths
  rw [List.mem_flatMap]
  constructor
  · rintro ⟨o, ho, hp⟩
    cases o with
    | script path body => cases hp
    | header q c =>
      simp only [Output.header_path, List.mem_singleton] at hp
      subst hp
      exact ⟨c, ho⟩
  · rintro ⟨c, hc⟩
    exact ⟨_, hc, by simp [Output.header_path]⟩

theorem perform_append (a b : List Output) :
    ∀ s, perform (a ++ b) s = (perform a s).bind (perform b) := by
  induction a with
  | nil => intro s; rfl
  | cons o rest ih =>
    intro s
    simp only [List.cons_append, perform]
    cases perform_output o s with
    | ok s1 => exact ih s1
    | fatal => rfl
    | out_of_fuel => rfl

/-- The entries of `m_temp_headers` come from the calls of `save_header_if_changed`,
in their order, at most one from each call. -/
theorem perform_temp_headers (outs : List Output) :
    ∀ s0 s, perform outs s0 = .ok s →
      ∃ l, s.m_temp_headers = s0.m_temp_headers ++ l
        ∧ l.Sublist ((header_paths outs).map (fun p => p ++ ".tmp")) := by
  induction outs with
  | nil =>
    intro s0 s e
    cases e
    exact ⟨[], (List.append_nil _).symm, List.Sublist.refl _⟩
  | cons o rest ih =>
    intro s0 s e
    obtain ⟨s1, e1, e2⟩ := Result.bind_eq_ok e
    obtain ⟨l, hl, hs⟩ := ih s1 s e2
    cases o with
    | script path body =>
      unfold perform_output at e1
      simp only at e1
      split at e1
      · cases e1
        exact ⟨l, hl, hs⟩
      · cases e1
    | header p c =>
      unfold perform_output at e1
      simp only at e1
      cases e1
      rcases (save_header_if_changed_frame p c s0).2.2 with h | h
      · refine ⟨l, by rw [hl, h], ?_⟩
        simp only [header_paths, List.flatMap_cons, Output.header_path, List.singleton_append,
          List.map_cons]
        exact List.Sublist.cons _ hs
      · refine ⟨(p ++ ".tmp") :: l, by rw [hl, h]; simp, ?_⟩
        simp only [header_paths, List.flatMap_cons, Output.header_path, List.singleton_append,
          List.map_cons]
        exact List.Sublist.cons₂ _ hs

/-- Carrying out well formed requests changes no file but script files and
temporaries. -/
theorem perform_changes (outs : List Output) :
    ∀ s0 s, perform outs s0 = .ok s → (∀ o ∈ outs, o.well_formed) →
      ∀ q, ¬ (has_extension q ".sk" ∨ has_extension q ".sk-meta" ∨ has_extension q ".tmp") →
        s.disk.text q = s0.disk.text q := by
  induction outs with
  | nil =>
    intro s0 s e _ q _
    cases e
    rfl
  | cons o rest ih =>
    intro s0 s e hw q hq
    obtain ⟨s1, e1, e2⟩ := Result.bind_eq_ok e
    rw [ih s1 s e2 (fun o ho => hw o (List.mem_cons_of_mem _ ho)) q hq]
    have hwo := hw o (List.mem_cons_self _ _)
    cases o with
    | script path body =>
      unfold perform_output at e1
      simp only at e1
      unfold FileSystem.SaveStringToFile at e1
      split at e1
      · rename_i disk1 hd
        split at hd
        · cases hd
        · cases hd
          cases e1
          have : q ≠ path := by
            intro e0
            subst e0
            rcases hwo with h | h
            · exact hq (Or.inl h)
            · exact hq (Or.inr (Or.inl h))
          simp [this]
      · cases e1
    | header p c =>
      unfold perform_output at e1
      simp only at e1
      cases e1
      refine (save_header_if_changed_frame p c s0).2.1 q ?_
      intro e0
      subst e0
      exact hq (Or.inr (Or.inr (temp_has_extension p)))

theorem perform_output_write_fails (o : Output) (s0 s : Staging)
    (e : perform_output o s0 = .ok s) : s.disk.write_fails = s0.disk.write_fails := by
  cases o with
  | script path body =>
    unfold perform_output at e
    simp only at e
    unfold FileSystem.SaveStringToFile at e
    split at e
    · rename_i disk1 hd
      split at hd
      · cases hd
      · cases hd
        cases e
        rfl
    · cases e
  | header p c =>
    unfold perform_output at e
    simp only at e
    cases e
    exact (save_header_if_changed_frame p c s0).1

/-- The requests are carried out to the end when no write of a script file fails. -/
theorem perform_returns (outs : List Output) :
    ∀ s0, (∀ path body, Output.script path body ∈ outs → s0.disk.write_fails path = false) →
      ∃ s, perform outs s0 = .ok s := by
  induction outs with
  | nil => intro s0 _; exact ⟨s0, rfl⟩
  | cons o rest ih =>
    intro s0 h
    have h1 : ∃ s1, perform_output o s0 = .ok s1 := by
      cases o with
      | script path body =>
        unfold perform_output FileSystem.SaveStringToFile
        simp [h path body (List.mem_cons_self _ _)]
      | header p c => exact ⟨_, rfl⟩
    obtain ⟨s1, e1⟩ := h1
    have hf := perform_output_write_fails o s0 s1 e1
    obtain ⟨s, e2⟩ := ih s1 (fun path body hm => by
      rw [hf]
      exact h path body (List.mem_cons_of_mem _ hm))
    refine ⟨s, ?_⟩
    unfold perform
    rw [e1]
    exact e2

/-- A failing write of a script file aborts the run. -/
theorem perform_fatal (outs : List Output) :
    ∀ s0 path body, Output.script path body ∈ outs → s0.disk.write_fails path = true →
      perform outs s0 = .fatal := by
  induction outs with
  | nil => intro s0 path body hm; cases hm
  | cons o rest ih =>
    intro s0 path body hm hf
    unfold perform
    rcases List.mem_cons.1 hm with h | h
    · rw [← h]
      unfold perform_output FileSystem.SaveStringToFile
      simp [hf]
    · cases e1 : perform_output o s0 with
      | ok s1 =>
        have := perform_output_write_fails o s0 s1 e1
        exact ih s1 path body h (by rw [this]; exact hf)
      | fatal => rfl
      | out_of_fuel =>
        cases o with
        | script p b =>
          unfold perform_output at e1
          simp only at e1
          split at e1 <;> cases e1
        | header p c => cases e1

theorem mem_script_paths (outs : List Output) (path : String) :
    path ∈ script_paths outs ↔ ∃ body, Output.script path body ∈ outs := by
  unfold script_paths
  rw [List.mem_flatMap]
  constructor
  · rintro ⟨o, ho, hp⟩
    cases o with
    | script q body =>
      simp only [Output.script_path, List.mem_singleton] at hp
      subst hp
      exact ⟨body, ho⟩
    | header q c => cases hp
  · rintro ⟨body, hb⟩
    exact ⟨_, hb, by simp [Output.script_path]⟩

/-! ## A run, its commit, and the same run again -/

theorem save_header_if_changed_fst (p c : String) (st : Staging) :
    (save_header_if_changed p c st).1
      = ((st.disk.LoadFileToString p).data.isEmpty
          || decide (st.disk.LoadFileToString p ≠ c)) := by
  unfold save_header_if_changed
  simp only
  split
  · split <;> rfl
  · rfl

/-- The three outcomes of `save_header_if_changed`: the target holds the new content
and nothing is done; the temporary is written and recorded; the write fails and a
warning is logged. -/
theorem save_header_if_changed_cases (p c : String) (st : Staging) :
    ((save_header_if_changed p c st).2 = st ∧ st.disk.text p = some c)
      ∨ ((save_header_if_changed p c st).2.m_temp_headers
            = st.m_temp_headers ++ [p ++ ".tmp"]
          ∧ (save_header_if_changed p c st).2.disk.text (p ++ ".tmp") = some c
          ∧ (save_header_if_changed p c st).2.log = st.log)
      ∨ (save_header_if_changed p c st).2.log
          = st.log ++ [.Warning_failed_to_save (p ++ ".tmp")] := by
  unfold save_header_if_changed
  simp only
  split
  · right
    cases hf : st.disk.write_fails (p ++ ".tmp")
    · left
      simp [FileSystem.SaveStringToFile, FileSystem.Delete, hf]
    · right
      simp [FileSystem.SaveStringToFile, FileSystem.Delete, hf]
  · rename_i hc
    left
    refine ⟨rfl, ?_⟩
    unfold FileSystem.LoadFileToString at hc
    cases ht : st.disk.text p with
    | none =>
      rw [ht] at hc
      exact absurd (by simp) hc
    | some x =>
      rw [ht] at hc
      simp only [Option.getD_some, Bool.or_eq_true, decide_eq_true_eq, not_or, ne_eq,
        Decidable.not_not] at hc
      rw [hc.2]

theorem save_header_if_changed_log (p c : String) (st : Staging) :
    ∀ l ∈ st.log, l ∈ (save_header_if_changed p c st).2.log := by
  intro l hl
  rcases save_header_if_changed_cases p c st with ⟨h, _⟩ | ⟨_, _, h⟩ | h
  · rw [h]; exact hl
  · rw [h]; exact hl
  · rw [h]; exact List.mem_append_left _ hl

theorem perform_output_log (o : Output) (s0 s : Staging) (e : perform_output o s0 = .ok s) :
    ∀ l ∈ s0.log, l ∈ s.log := by
  cases o with
  | script path body =>
    unfold perform_output at e
    simp only at e
    split at e
    · cases e
      exact fun l hl => hl
    · cases e
  | header p c =>
    unfold perform_output at e
    simp only at e
    cases e
    exact save_header_if_changed_log p c s0

theorem perform_log (outs : List Output) :
    ∀ s0 s, perform outs s0 = .ok s → ∀ l ∈ s0.log, l ∈ s.log := by
  induction outs with
  | nil =>
    intro s0 s e l hl
    cases e
    exact hl
  | cons o rest ih =>
    intro s0 s e l hl
    obtain ⟨s1, e1, e2⟩ := Result.bind_eq_ok e
    exact ih s1 s e2 l (perform_output_log o s0 s1 e1 l hl)

theorem perform_write_fails (outs : List Output) :
    ∀ s0 s, perform outs s0 = .ok s → s.disk.write_fails = s0.disk.write_fails := by
  induction outs with
  | nil =>
    intro s0 s e
    cases e
    rfl
  | cons o rest ih =>
    intro s0 s e
    obtain ⟨s1, e1, e2⟩ := Result.bind_eq_ok e
    rw [ih s1 s e2, perform_output_write_fails o s0 s1 e1]

/-- The two outcomes of the move of one temporary in `rename_temp_files`: the text of
the temporary arrives at the derived name, or an error is logged. -/
theorem rename_temp_file_cases (s : Staging) (t : String) :
    (rename_temp_file s t).disk.write_fails = s.disk.write_fails
      ∧ ((∃ c, s.disk.text t = some c
            ∧ ∀ q, (rename_temp_file s t).disk.text q
                = if q = FString_Replace t ".tmp" "" then some c
                  else if q = t then none else s.disk.text q)
          ∨ (rename_temp_file s t).log
              = s.log ++ [.Error_could_not_write (FString_Replace t ".tmp" "")])
      ∧ ∀ l ∈ s.log, l ∈ (rename_temp_file s t).log := by
  have hlogs : ∀ l ∈ s.log, l ∈ (rename_temp_file s t).log := by
    intro l hl
    unfold rename_temp_file
    simp only
    split
    · exact List.mem_append_left _ hl
    · exact List.mem_append_left _ hl
  have hwf : (rename_temp_file s t).disk.write_fails = s.disk.write_fails := by
    unfold rename_temp_file FileSystem.Move
    simp only
    split
    · rfl
    · rename_i disk1 hm
      split at hm
      · cases hm
      · split at hm
        · cases hm
        · cases hm
          rfl
  refine ⟨hwf, ?_, hlogs⟩
  unfold rename_temp_file
  simp only
  split
  · right
    rfl
  · rename_i disk1 hm
    left
    unfold FileSystem.Move at hm
    split at hm
    · cases hm
    · rename_i c hc
      split at hm
      · cases hm
      · cases hm
        exact ⟨c, hc, fun q => rfl⟩

theorem rename_temp_files_log (remaining : List String) :
    ∀ s : Staging, ∀ l ∈ s.log, l ∈ (remaining.foldl rename_temp_file s).log := by
  induction remaining with
  | nil => intro s l hl; exact hl
  | cons t tail ih =>
    intro s l hl
    rw [List.foldl_cons]
    exact ih _ l ((rename_temp_file_cases s t).2.2 l hl)

theorem rename_temp_files_write_fails (remaining : List String) :
    ∀ s : Staging, (remaining.foldl rename_temp_file s).disk.write_fails
      = s.disk.write_fails := by
  induction remaining with
  | nil => intro s; rfl
  | cons t tail ih =>
    intro s
    rw [List.foldl_cons, ih, (rename_temp_file_cases s t).1]

/-- After requests with pairwise distinct targets have been carried out without a
logged failure, the text of every header asked for is in its temporary when the
temporary is recorded, and at its target otherwise. -/
theorem perform_staged (disk : FileSystem) (outs : List Output) :
    (∀ o ∈ outs, o.well_formed) → (header_paths outs).Nodup →
      ∀ s, perform outs { disk := disk, m_temp_headers := [], log := [] } = .ok s →
        (∀ l ∈ s.log, l.is_failure = false) →
        Staged outs s.m_temp_headers s.disk := by
  induction outs using List.reverseRecOn with
  | nil =>
    intro _ _ s e _
    cases e
    refine ⟨?_, List.nodup_nil, ?_⟩
    · intro p c hm
      cases hm
    · intro t ht
      cases ht
  | append_singleton done o ih =>
    intro hw hn s2 e hlog
    rw [header_paths_append] at hn
    rw [perform_append] at e
    obtain ⟨s, e0, e1⟩ := Result.bind_eq_ok e
    obtain ⟨s3, e2, e3⟩ := Result.bind_eq_ok e1
    have e4 : s3 = s2 := by
      cases e3
      rfl
    subst e4
    have hlog0 : ∀ l ∈ s.log, l.is_failure = false :=
      fun l hl => hlog l (perform_output_log o s s3 e2 l hl)
    obtain ⟨h1, h2, h3⟩ :=
      ih (fun o ho => hw o (List.mem_append_left _ ho)) (List.Nodup.of_append_left hn) s e0 hlog0
    have hwo := hw o (List.mem_append_right _ (List.mem_singleton_self _))
    cases o with
    | script path body =>
      unfold perform_output at e2
      simp only at e2
      unfold FileSystem.SaveStringToFile at e2
      split at e2
      · rename_i disk1 hd
        split at hd
        · cases hd
        · cases hd
          cases e2
          refine ⟨?_, h2, ?_⟩
          · intro p c hm
            rcases List.mem_append.1 hm with hm | hm
            · have hwp := hw _ (List.mem_append_left _ hm)
              have n1 : p ++ ".tmp" ≠ path := fun e0 => script_ne_temp path p hwo e0.symm
              have n2 : p ≠ path := fun e0 => header_ne_script p path hwp.1 hwo e0.symm
              simp only [n1, n2, if_false]
              exact h1 p c hm
            · rw [List.mem_singleton] at hm
              cases hm
          · intro t ht
            obtain ⟨p, hp, hpt⟩ := h3 t ht
            exact ⟨p, by rw [header_paths_append]; exact List.mem_append_left _ hp, hpt⟩
      · cases e2
    | header p0 c0 =>
      have hnew : p0 ∉ header_paths done := by
        intro hm
        exact (List.nodup_append.1 hn).2.2 hm (by simp [header_paths, Output.header_path])
      have htmp : p0 ++ ".tmp" ∉ s.m_temp_headers := by
        intro hm
        obtain ⟨p, hp, hpt⟩ := h3 _ hm
        rw [temp_inj _ _ hpt] at hnew
        exact hnew hp
      unfold perform_output at e2
      simp only at e2
      cases e2
      have hfr := save_header_if_changed_frame p0 c0 s
      rcases save_header_if_changed_cases p0 c0 s with ⟨hs, ht0⟩ | ⟨hs, ht0, _⟩ | hs
      · rw [hs]
        refine ⟨?_, h2, ?_⟩
        · intro p c hm
          rcases List.mem_append.1 hm with hm | hm
          · exact h1 p c hm
          · rw [List.mem_singleton] at hm
            cases hm
            exact ⟨fun hx => absurd hx htmp, fun _ => ht0⟩
        · intro t ht
          obtain ⟨p, hp, hpt⟩ := h3 t ht
          exact ⟨p, by rw [header_paths_append]; exact List.mem_append_left _ hp, hpt⟩
      · rw [hs]
        refine ⟨?_, ?_, ?_⟩
        · intro p c hm
          rcases List.mem_append.1 hm with hm | hm
          · have hwp := hw _ (List.mem_append_left _ hm)
            have hpd : p ∈ header_paths done := (mem_header_paths done p).2 ⟨c, hm⟩
            have hne : p ≠ p0 := fun e0 => hnew (e0 ▸ hpd)
            have n1 : p ++ ".tmp" ≠ p0 ++ ".tmp" := fun e0 => hne (temp_inj _ _ e0)
            have n2 : p ≠ p0 ++ ".tmp" := header_ne_temp p p0 hwp.1
            rw [hfr.2.1 _ n1, hfr.2.1 _ n2]
            refine ⟨fun hx => (h1 p c hm).1 ?_, fun hx => (h1 p c hm).2 ?_⟩
            · rcases List.mem_append.1 hx with hx | hx
              · exact hx
              · exact absurd (List.mem_singleton.1 hx) n1
            · exact fun hy => hx (List.mem_append_left _ hy)
          · rw [List.mem_singleton] at hm
            cases hm
            exact ⟨fun _ => ht0,
              fun hx => absurd (List.mem_append_right _ (List.mem_singleton_self _)) hx⟩
        · rw [List.nodup_append]
          refine ⟨h2, List.nodup_singleton _, ?_⟩
          intro t ht hx
          rw [List.mem_singleton] at hx
          subst hx
          exact htmp ht
        · intro t ht
          rcases List.mem_append.1 ht with ht | ht
          · obtain ⟨p, hp, hpt⟩ := h3 t ht
            exact ⟨p, by rw [header_paths_append]; exact List.mem_append_left _ hp, hpt⟩
          · rw [List.mem_singleton] at ht
            refine ⟨p0, ?_, ht⟩
            rw [header_paths_append]
            exact List.mem_append_right _ (by simp [header_paths, Output.header_path])
      · exfalso
        have := hlog (.Warning_failed_to_save (p0 ++ ".tmp"))
          (by rw [hs]; exact List.mem_append_right _ (List.mem_singleton_self _))
        cases this

/-- When `rename_temp_files` logs no failure and no target contains `.tmp`, it leaves
the text of every header asked for at its target. -/
theorem rename_staged (outs : List Output) (hw : ∀ o ∈ outs, o.well_formed)
    (ht : ∀ p ∈ header_paths outs, FString_contains_ci p.data ".tmp".data = false) :
    ∀ (remaining : List String) (s : Staging), Staged outs remaining s.disk →
      (∀ l ∈ (remaining.foldl rename_temp_file s).log, l.is_failure = false) →
      Staged outs [] (remaining.foldl rename_temp_file s).disk := by
  intro remaining
  induction remaining with
  | nil => intro s h _; exact h
  | cons t tail ih =>
    intro s h hlog
    obtain ⟨h1, h2, h3⟩ := h
    rw [List.foldl_cons] at hlog ⊢
    apply ih _ _ hlog
    obtain ⟨p0, hp0, hpt⟩ := h3 t (List.mem_cons_self _ _)
    subst hpt
    obtain ⟨c0, hc0⟩ := (mem_header_paths outs p0).1 hp0
    have htext := (h1 p0 c0 hc0).1 (List.mem_cons_self _ _)
    obtain ⟨_, hcase, _⟩ := rename_temp_file_cases s (p0 ++ ".tmp")
    rw [FString_Replace_tmp p0 (ht p0 hp0)] at hcase
    rcases hcase with ⟨c1, hc1, m2⟩ | herr
    · rw [htext] at hc1
      cases hc1
      rw [List.nodup_cons] at h2
      refine ⟨?_, h2.2, fun t ht => h3 t (List.mem_cons_of_mem _ ht)⟩
      intro p c hm
      have hwp := hw _ hm
      rw [m2, m2]
      have n0 : p ++ ".tmp" ≠ p0 := fun e0 => header_ne_temp p0 p
        ((hw _ hc0).1) e0.symm
      have n3 : p ≠ p0 ++ ".tmp" := header_ne_temp p p0 hwp.1
      refine ⟨?_, ?_⟩
      · intro hx
        have n1 : p ++ ".tmp" ≠ p0 ++ ".tmp" := fun e0 => h2.1 (e0 ▸ hx)
        simp only [n0, n1, if_false]
        exact (h1 p c hm).1 (List.mem_cons_of_mem _ hx)
      · intro hx
        by_cases hpp : p = p0
        · subst hpp
          simp only [if_true]
          have := (h1 p c hm).1 (List.mem_cons_self _ _)
          rw [htext] at this
          exact this
        · simp only [hpp, n3, if_false]
          refine (h1 p c hm).2 ?_
          intro hy
          rcases List.mem_cons.1 hy with hy | hy
          · exact hpp (temp_inj _ _ hy)
          · exact hx hy
    · exfalso
      have := hlog (.Error_could_not_write p0)
        (rename_temp_files_log tail _ _
          (by rw [herr]; exact List.mem_append_right _ (List.mem_singleton_self _)))
      cases this

/-- Requests whose headers are all at their targets stage nothing. -/
theorem perform_unchanged (outs : List Output) (hw : ∀ o ∈ outs, o.well_formed) :
    ∀ rest : List Output, (∀ o ∈ rest, o ∈ outs) → ∀ s : Staging,
      Staged outs [] s.disk → s.m_temp_headers = [] →
      (∀ path ∈ script_paths outs, s.disk.write_fails path = false) →
      ∃ s1, perform rest s = .ok s1 ∧ s1.m_temp_headers = [] := by
  intro rest
  induction rest with
  | nil => intro _ s _ hm _; exact ⟨s, rfl, hm⟩
  | cons o rest ih =>
    intro hsub s h hm hf
    obtain ⟨h1, h2, h3⟩ := h
    have ho := hsub o (List.mem_cons_self _ _)
    have hwo := hw o ho
    cases o with
    | script path body =>
      have hfp := hf path ((mem_script_paths outs path).2 ⟨body, ho⟩)
      have e1 : perform (Output.script path body :: rest) s
          = perform rest { s with disk := { s.disk with
              text := fun q => if q = path then some body else s.disk.text q } } := by
        simp [perform, perform_output, FileSystem.SaveStringToFile, hfp, Result.bind]
      rw [e1]
      refine ih (fun o ho => hsub o (List.mem_cons_of_mem _ ho)) _ ⟨?_, h2, h3⟩ hm hf
      intro p c hpc
      have n2 : p ≠ path := fun e0 => header_ne_script p path (hw _ hpc).1 hwo e0.symm
      refine ⟨fun hx => absurd hx (List.not_mem_nil _), fun hx => ?_⟩
      simp only [n2, if_false]
      exact (h1 p c hpc).2 hx
    | header p c =>
      have e1 : perform (Output.header p c :: rest) s = perform rest s := by
        simp only [perform, perform_output]
        rw [save_header_if_changed_unchanged p c s ((h1 p c ho).2 (List.not_mem_nil _)) hwo.2]
        rfl
      rw [e1]
      exact ih (fun o ho => hsub o (List.mem_cons_of_mem _ ho)) s ⟨h1, h2, h3⟩ hm hf

/-- Well formed requests with pairwise distinct targets, none of which contains `.tmp`,
carried out and committed without a logged failure: `rename_temp_files` leaves the text
of every header at its target, and the same requests carried out again on the disk
left behind stage nothing. -/
theorem perform_twice (outs : List Output) (hw : ∀ o ∈ outs, o.well_formed)
    (hn : (header_paths outs).Nodup)
    (ht : ∀ p ∈ header_paths outs, FString_contains_ci p.data ".tmp".data = false)
    (disk : FileSystem) (s1 : Staging)
    (e1 : perform outs { disk := disk, m_temp_headers := [], log := [] } = .ok s1)
    (hlog : ∀ l ∈ (rename_temp_files s1).log, l.is_failure = false) :
    (∀ p c, Output.header p c ∈ outs → (rename_temp_files s1).disk.text p = some c)
      ∧ ∃ s2, perform outs
            { disk := (rename_temp_files s1).disk, m_temp_headers := [], log := [] } = .ok s2
          ∧ s2.m_temp_headers = [] := by
  have hlog1 : ∀ l ∈ s1.log, l.is_failure = false :=
    fun l hl => hlog l (rename_temp_files_log s1.m_temp_headers s1 l hl)
  have hst := perform_staged disk outs hw hn s1 e1 hlog1
  have h2 := rename_staged outs hw ht s1.m_temp_headers s1 hst hlog
  refine ⟨fun p c hm => (h2.1 p c hm).2 (List.not_mem_nil _), ?_⟩
  refine perform_unchanged outs hw outs (fun o ho => ho)
    { disk := (rename_temp_files s1).disk, m_temp_headers := [], log := [] } h2 rfl ?_
  intro path hp
  obtain ⟨body, hb⟩ := (mem_script_paths outs path).1 hp
  have hwf : (rename_temp_files s1).disk.write_fails = disk.write_fails := by
    unfold rename_temp_files
    rw [rename_temp_files_write_fails, perform_write_fails outs _ s1 e1]
  show (rename_temp_files s1).disk.write_fails path = false
  rw [hwf]
  cases hf : disk.write_fails path with
  | false => rfl
  | true =>
    have := perform_fatal outs { disk := disk, m_temp_headers := [], log := [] } path body hb hf
    rw [this] at e1
    cases e1

/-! ## Facts about the names of bindings -/

theorem without_underscores_loop (cs : List Char) :
    ∀ u v, without_underscores (skookify_var_name_loop cs u v)
      = without_underscores (cs.map FChar_ToLower) := by
  induction cs with
  | nil => intro u v; rfl
  | cons c cs ih =>
    intro u v
    simp only [skookify_var_name_loop, without_underscores, List.map_cons, List.filter_append]
    have h0 : List.filter (fun c => c != '_')
        (if ((isupper c || isdigit c) && !u && !v) = true then ['_'] else []) = [] := by
      split <;> rfl
    rw [h0, List.nil_append, List.filter_cons, List.filter_cons]
    have := ih (isupper c || isdigit c) (c == '_')
    unfold without_underscores at this
    rw [this]

theorem without_underscores_append_underscore (s : List Char) :
    without_underscores (s ++ ['_']) = without_underscores s := by
  unfold without_underscores
  rw [List.filter_append]
  simp

theorem FChar_ToLower_ne_Q (c : Char) : FChar_ToLower c ≠ 'Q' := by
  unfold FChar_ToLower
  split
  · rename_i h
    obtain ⟨n, h1, h2, rfl⟩ := upper_char_cases c h
    interval_cases n <;> decide
  · rename_i h
    intro e
    subst e
    exact h (by decide)

theorem Q_not_in_loop (cs : List Char) : ∀ u v, 'Q' ∉ skookify_var_name_loop cs u v := by
  induction cs with
  | nil => intro u v; simp [skookify_var_name_loop]
  | cons c cs ih =>
    intro u v
    simp only [skookify_var_name_loop]
    intro hm
    rcases List.mem_append.mp hm with h1 | h1
    · split at h1
      · simp at h1
      · simp at h1
    · rcases List.mem_cons.mp h1 with h2 | h2
      · exact FChar_ToLower_ne_Q c h2.symm
      · exact ih _ _ h2

theorem Q_not_in_var_name (name : String) : 'Q' ∉ (skookify_var_name name).1.data := by
  rw [skookify_var_name_eq]
  have ht : 'Q' ∉ (transformed_name name).data := Q_not_in_loop _ _ _
  simp only
  split
  · intro hm
    rcases List.mem_append.mp hm with h1 | h1
    · exact ht h1
    · simp at h1
  · exact ht

theorem Q_not_in_method_name (name : String) (ret : Bool) :
    'Q' ∉ (skookify_method_name name ret).data := by
  obtain ⟨stem, flag, hform, -, hstem⟩ := skookify_method_name_parts name
  rw [hform]
  have hs : 'Q' ∉ stem := by
    intro hm
    rcases hstem _ hm with h1 | h1
    · exact Q_not_in_var_name name h1
    · revert h1; decide
  simp only
  split
  · intro hm
    rcases List.mem_append.mp hm with h1 | h1
    · exact hs h1
    · simp at h1
  · exact hs

theorem question_mark_not_in_plain_method_name (name : String) (h : '?' ∉ name.data) :
    '?' ∉ (skookify_method_name name false).data := by
  obtain ⟨stem, flag, hform, -, hstem⟩ := skookify_method_name_parts name
  rw [hform]
  simp only [Bool.and_false, Bool.false_eq_true, if_false]
  intro hm
  rcases hstem _ hm with h1 | h1
  · exact question_mark_not_in_var_name name h h1
  · revert h1; decide

theorem replace_question_mark_inj :
    ∀ s t : List Char, 'Q' ∉ s → 'Q' ∉ t →
      replace_question_mark s ['_', 'Q'] = replace_question_mark t ['_', 'Q'] → s = t := by
  intro s
  induction s with
  | nil =>
    intro t _ _ h
    cases t with
    | nil => rfl
    | cons d t =>
      simp only [replace_question_mark, List.flatMap_nil, List.flatMap_cons] at h
      split at h <;> cases h
  | cons c s ih =>
    intro t hs ht h
    have hcQ : c ≠ 'Q' := fun e => hs (by simp [e])
    have hs2 : 'Q' ∉ s := fun e => hs (List.mem_cons_of_mem _ e)
    cases t with
    | nil =>
      simp only [replace_question_mark, List.flatMap_nil, List.flatMap_cons] at h
      split at h <;> cases h
    | cons d t =>
      have hdQ : d ≠ 'Q' := fun e => ht (by simp [e])
      have ht2 : 'Q' ∉ t := fun e => ht (List.mem_cons_of_mem _ e)
      simp only [replace_question_mark, List.flatMap_cons] at h
      by_cases hc : c = '?' <;> by_cases hd : d = '?'
      · subst hc
        subst hd
        simp only [beq_self_eq_true, if_true, List.cons_append, List.nil_append,
          List.cons.injEq, true_and] at h
        rw [ih t hs2 ht2 h]
      · subst hc
        have hd2 : (d == '?') = false := by simpa using hd
        simp only [beq_self_eq_true, if_true, hd2, Bool.false_eq_true, if_false,
          List.cons_append, List.nil_append, List.cons.injEq] at h
        obtain ⟨_, h2⟩ := h
        cases t with
        | nil =>
          simp only [List.flatMap_nil] at h2
          cases h2
        | cons e t =>
          have heQ : e ≠ 'Q' := fun e0 => ht2 (by simp [e0])
          simp only [List.flatMap_cons] at h2
          split at h2
          · simp only [List.cons_append, List.cons.injEq] at h2
            exact absurd h2.1 (by decide)
          · simp only [List.cons_append, List.nil_append, List.cons.injEq] at h2
            exact absurd h2.1.symm heQ
      · subst hd
        have hc2 : (c == '?') = false := by simpa using hc
        simp only [beq_self_eq_true, if_true, hc2, Bool.false_eq_true, if_false,
          List.cons_append, List.nil_append, List.cons.injEq] at h
        obtain ⟨_, h2⟩ := h
        cases s with
        | nil =>
          simp only [List.flatMap_nil] at h2
          cases h2
        | cons e s =>
          have heQ : e ≠ 'Q' := fun e0 => hs2 (by simp [e0])
          simp only [List.flatMap_cons] at h2
          split at h2
          · simp only [List.cons_append, List.cons.injEq] at h2
            exact absurd h2.1.symm (by decide)
          · simp only [List.cons_append, List.nil_append, List.cons.injEq] at h2
            exact absurd h2.1 heQ
      · have hc2 : (c == '?') = false := by simpa using hc
        have hd2 : (d == '?') = false := by simpa using hd
        simp only [hc2, hd2, Bool.false_eq_true, if_false, List.cons_append, List.nil_append,
          List.cons.injEq] at h
        rw [h.1, ih t hs2 ht2 h.2]

theorem replace_question_mark_id (s dst : List Char) (h : '?' ∉ s) :
    replace_question_mark s dst = s := by
  induction s with
  | nil => rfl
  | cons c s ih =>
    have hc : (c == '?') = false := by
      have : c ≠ '?' := fun e => h (by simp [e])
      simpa using this
    have hs : '?' ∉ s := fun e => h (List.mem_cons_of_mem _ e)
    have := ih hs
    unfold replace_question_mark at this ⊢
    simp only [List.flatMap_cons, hc, Bool.false_eq_true, if_false, List.singleton_append]
    rw [this]

theorem native_identifier_no_question_mark (name : String) (h : native_identifier name) :
    '?' ∉ name.data := by
  intro hm
  rcases h _ hm with h1 | h1 | h1
  · revert h1; decide
  · revert h1; decide
  · revert h1; decide

theorem made_from_identifier_code_name (b : MethodBinding) (h : made_from_identifier b) :
    b.m_code_name = String.mk (replace_question_mark b.m_script_name.data ['_', 'Q'])
      ∧ 'Q' ∉ b.m_script_name.data := by
  rcases h with ⟨f, _, rfl⟩ | ⟨p, _, rfl⟩ | ⟨p, hp, rfl⟩
  · exact ⟨rfl, Q_not_in_method_name _ _⟩
  · exact ⟨rfl, Q_not_in_method_name _ _⟩
  · have hq := question_mark_not_in_plain_method_name p.Name
      (native_identifier_no_question_mark _ hp)
    have hq2 : '?' ∉ (skookify_method_name p.Name false).data ++ "_set".data := by
      intro hm
      rcases List.mem_append.mp hm with h1 | h1
      · exact hq h1
      · revert h1; decide
    refine ⟨?_, ?_⟩
    · unfold MethodBinding.make_property_setter
      simp only
      rw [replace_question_mark_id _ _ hq2]
    · unfold MethodBinding.make_property_setter
      simp only
      intro hm
      rcases List.mem_append.mp hm with h1 | h1
      · exact Q_not_in_method_name _ _ h1
      · revert h1; decide

theorem glue_symbol_data (is_static : Bool) (code_name : String) :
    (glue_symbol is_static code_name).data
      = 'm' :: 't' :: 'h' :: 'd'
          :: ((if is_static then ['c'] else []) ++ '_' :: code_name.data) := by
  unfold glue_symbol
  cases is_static <;> simp [String.data_append]

theorem glue_symbol_inj (s1 s2 : Bool) (c1 c2 : String)
    (h : glue_symbol s1 c1 = glue_symbol s2 c2) : s1 = s2 ∧ c1 = c2 := by
  have := congrArg String.data h
  rw [glue_symbol_data, glue_symbol_data] at this
  cases s1 <;> cases s2
  · simp only [Bool.false_eq_true, if_false, List.nil_append, List.cons.injEq, true_and] at this
    exact ⟨rfl, String.ext this⟩
  · simp only [Bool.false_eq_true, if_false, if_true, List.nil_append, List.cons_append,
      List.cons.injEq, true_and] at this
    exact absurd this.1 (by decide)
  · simp only [Bool.false_eq_true, if_false, if_true, List.nil_append, List.cons_append,
      List.cons.injEq, true_and] at this
    exact absurd this.1 (by decide)
  · simp only [if_true, List.cons_append, List.nil_append, List.cons.injEq, true_and] at this
    exact ⟨rfl, String.ext this⟩

/-! ## Facts about the binding lists -/

theorem bindings_contain_false (l : List MethodBinding) (b : MethodBinding)
    (h : bindings_contain l b = false) :
    ∀ a ∈ l, FString_eq a.m_script_name b.m_script_name = false := by
  intro a ha
  unfold bindings_contain at h
  rw [List.any_eq_false] at h
  simpa using h a ha

theorem FString_eq_comm (a b : String) : FString_eq a b = FString_eq b a := by
  unfold FString_eq
  rw [Bool.eq_iff_iff]
  simp only [beq_iff_eq]
  exact eq_comm

theorem distinct_script_names_append (l : List MethodBinding) (b : MethodBinding)
    (hl : distinct_script_names l) (h : bindings_contain l b = false) :
    distinct_script_names (l ++ [b]) := by
  unfold distinct_script_names at *
  rw [List.pairwise_append]
  refine ⟨hl, List.pairwise_singleton _ _, ?_⟩
  intro a ha c hc
  rw [List.mem_singleton] at hc
  subst hc
  exact bindings_contain_false l c h a ha

/-- The lists during the function loop: no two bindings of a list have the same script
name, and no script name is in both lists. -/
theorem export_functions_distinct (gs : Nat → Generator → Result Generator) (fuel : Nat)
    (env : TypeGraph) (c : Nat) :
    ∀ functions bindings st r,
      distinct_script_names bindings.instance_scope →
      distinct_script_names bindings.class_scope →
      (∀ a ∈ bindings.instance_scope, ∀ b ∈ bindings.class_scope,
        FString_eq a.m_script_name b.m_script_name = false) →
      export_functions gs fuel env c functions bindings st = .ok r →
      distinct_script_names r.1.instance_scope ∧ distinct_script_names r.1.class_scope
        ∧ ∀ a ∈ r.1.instance_scope, ∀ b ∈ r.1.class_scope,
            FString_eq a.m_script_name b.m_script_name = false := by
  intro functions
  induction functions with
  | nil =>
    intro bindings st r hi hc hd e
    cases e
    exact ⟨hi, hc, hd⟩
  | cons f rest ih =>
    intro bindings st r hi hc hd e
    unfold export_functions at e
    obtain ⟨r1, _, e2⟩ := Result.bind_eq_ok e
    split at e2
    · simp only at e2
      split at e2
      · rename_i hn
        simp only [Bool.and_eq_true, Bool.not_eq_true', Bool.not_eq_eq_eq_not, Bool.not_true]
          at hn
        obtain ⟨st2, _, e4⟩ := Result.bind_eq_ok e2
        refine ih _ _ _ ?_ ?_ ?_ e4
        · split
          · exact hi
          · exact distinct_script_names_append _ _ hi hn.1
        · split
          · exact distinct_script_names_append _ _ hc hn.2
          · exact hc
        · intro a ha b hb
          split at ha
          · rename_i hs
            simp only [hs, if_true] at hb
            rcases List.mem_append.1 hb with hb | hb
            · exact hd a ha b hb
            · rw [List.mem_singleton] at hb
              subst hb
              exact bindings_contain_false _ _ hn.1 a ha
          · rename_i hs
            simp only [hs, if_false] at hb
            rcases List.mem_append.1 ha with ha | ha
            · exact hd a ha b hb
            · rw [List.mem_singleton] at ha
              subst ha
              rw [FString_eq_comm]
              exact bindings_contain_false _ _ hn.2 b hb
      · exact ih _ _ _ hi hc hd e2
    · exact ih _ _ _ hi hc hd e2

/-- The lists during the property loop: no two bindings of the instance scope list
have the same script name, and the class scope list is left as it is. -/
theorem export_properties_distinct (gs : Nat → Generator → Result Generator) (fuel : Nat)
    (env : TypeGraph) (h : UStructP) :
    ∀ properties bindings st r,
      distinct_script_names bindings.instance_scope →
      export_properties gs fuel env h properties bindings st = .ok r →
      distinct_script_names r.1.instance_scope
        ∧ r.1.class_scope = bindings.class_scope := by
  intro properties
  induction properties with
  | nil =>
    intro bindings st r hi e
    cases e
    exact ⟨hi, rfl⟩
  | cons p rest ih =>
    intro bindings st r hi e
    unfold export_properties at e
    obtain ⟨r1, _, e2⟩ := Result.bind_eq_ok e
    split at e2
    · simp only at e2
      obtain ⟨r2, e3, e4⟩ := Result.bind_eq_ok e2
      have h2 : distinct_script_names r2.1.instance_scope
          ∧ r2.1.class_scope = bindings.class_scope := by
        split at e3
        · rename_i hn
          obtain ⟨st2, _, e6⟩ := Result.bind_eq_ok e3
          cases e6
          exact ⟨distinct_script_names_append _ _ hi (by simpa using hn), rfl⟩
        · cases e3
          exact ⟨hi, rfl⟩
      obtain ⟨r3, e7, e8⟩ := Result.bind_eq_ok e4
      have h3 : distinct_script_names r3.1.instance_scope
          ∧ r3.1.class_scope = bindings.class_scope := by
        split at e7
        · split at e7
          · rename_i hn
            obtain ⟨st3, _, e10⟩ := Result.bind_eq_ok e7
            cases e10
            exact ⟨distinct_script_names_append _ _ h2.1 (by simpa using hn), h2.2⟩
          · cases e7
            exact h2
        · cases e7
          exact h2
      obtain ⟨h4, h5⟩ := ih _ _ _ h3.1 e8
      exact ⟨h4, h5.trans h3.2⟩
    · exact ih _ _ _ hi e2

/-! ## The run with files is the run of the generator

Every routine of the namespace `Files` does to the generator what the routine of the
same name on `Generator` does. -/

theorem result_map_bind {α α0 β β0 : Type} (φ : α → α0) (ψ : β → β0) (x : Result α)
    (f : α → Result β) (f0 : α0 → Result β0) (h : ∀ a, (f a).map ψ = f0 (φ a)) :
    (x.bind f).map ψ = (x.map φ).bind f0 := by
  cases x with
  | ok a => exact h a
  | fatal => rfl
  | out_of_fuel => rfl

theorem result_map_bind_of {α α0 β β0 : Type} (φ : α → α0) {ψ : β → β0} {x : Result α}
    {x0 : Result α0} {f : α → Result β} {f0 : α0 → Result β0} (hx : x.map φ = x0)
    (h : ∀ a, (f a).map ψ = f0 (φ a)) : (x.bind f).map ψ = x0.bind f0 := by
  subst hx
  exact result_map_bind φ ψ x f f0 h

theorem result_bind_map_const {α β β0 : Type} (ψ : β → β0) (x : Result α)
    (f : α → Result β) (f0 : α → Result β0) (h : ∀ a, (f a).map ψ = f0 a) :
    (x.bind f).map ψ = x.bind f0 := by
  cases x with
  | ok a => exact h a
  | fatal => rfl
  | out_of_fuel => rfl

theorem for_each_gen {α : Type} (body : α → Exporter → Result Exporter)
    (body0 : α → Generator → Result Generator)
    (h : ∀ x st, (body x st).map Exporter.gen = body0 x st.gen) :
    ∀ xs st, (Files.for_each body xs st).map Exporter.gen = for_each body0 xs st.gen := by
  intro xs
  induction xs with
  | nil => intro st; rfl
  | cons x xs ih =>
    intro st
    unfold Files.for_each for_each
    exact result_map_bind_of Exporter.gen (h x st) ih

theorem get_skookum_class_path_gen (cfg : Settings) (fuel : Nat) (env : TypeGraph)
    (h : UStructP) (st : Exporter) :
    (Files.get_skookum_class_path cfg fuel env h st).map (fun r => r.2.gen)
      = get_skookum_class_path fuel env h st.gen := by
  unfold Files.get_skookum_class_path get_skookum_class_path
  cases h with
  | cls c => exact result_bind_map_const _ _ _ _ (fun _ => rfl)
  | sstruct s => exact result_bind_map_const _ _ _ _ (fun _ => rfl)

theorem get_skookum_method_path_gen (cfg : Settings) (fuel : Nat) (env : TypeGraph)
    (h : UStructP) (name : String) (is_static : Bool) (st : Exporter) :
    (Files.get_skookum_method_path cfg fuel env h name is_static st).map (fun r => r.2.gen)
      = get_skookum_class_path fuel env h st.gen := by
  unfold Files.get_skookum_method_path
  have h0 := get_skookum_class_path_gen cfg fuel env h st
  rw [← h0]
  cases Files.get_skookum_class_path cfg fuel env h st <;> rfl

theorem generate_enum_from_property_gen (cfg : Settings) (eng : EngineData)
    (p : PropertyType) (st : Exporter) :
    (Files.generate_enum_from_property cfg eng p st).map Exporter.gen
      = generate_enum_from_property p st.gen := by
  cases p with
  | UByteProperty e =>
    cases e with
    | none => rfl
    | some enum_p =>
      unfold Files.generate_enum_from_property generate_enum_from_property
      simp only
      split <;> rfl
  | _ => rfl

theorem generate_struct_from_property_gen (gs : Nat → Exporter → Result Exporter)
    (gs0 : Nat → Generator → Result Generator)
    (hgs : ∀ s st, (gs s st).map Exporter.gen = gs0 s st.gen) (p : PropertyType)
    (st : Exporter) :
    (Files.generate_struct_from_property gs p st).map Exporter.gen
      = generate_struct_from_property gs0 p st.gen := by
  cases p with
  | UStructProperty s => exact hgs _ _
  | _ => rfl

theorem get_skookum_property_type_name_gen (gs : Nat → Exporter → Result Exporter)
    (gs0 : Nat → Generator → Result Generator)
    (hgs : ∀ s st, (gs s st).map Exporter.gen = gs0 s st.gen) (env : TypeGraph)
    (p : PropertyType) (st : Exporter) :
    (Files.get_skookum_property_type_name gs env p st).map Exporter.gen
      = get_skookum_property_type_name gs0 env p st.gen := by
  unfold Files.get_skookum_property_type_name get_skookum_property_type_name
  cases get_skookum_property_type env p with
  | SkTypeID_UObject =>
    simp only
    cases p.PropertyClass <;> rfl
  | SkTypeID_UStruct =>
    simp only
    cases p with
    | UStructProperty s => exact hgs _ _
    | _ => rfl
  | _ => rfl

theorem export_type_of_member_gen (cfg : Settings) (eng : EngineData)
    (gs : Nat → Exporter → Result Exporter) (gs0 : Nat → Generator → Result Generator)
    (hgs : ∀ s st, (gs s st).map Exporter.gen = gs0 s st.gen) (env : TypeGraph)
    (p : PropertyType) (st : Exporter) :
    (Files.export_type_of_member cfg eng gs env p st).map Exporter.gen
      = export_type_of_member gs0 env p st.gen := by
  unfold Files.export_type_of_member export_type_of_member
  simp only
  refine result_map_bind_of Exporter.gen ?_ ?_
  · by_cases h1 : get_skookum_property_type env p = SkTypeID_Enum
    · simp only [h1, ↓reduceIte]
      exact generate_enum_from_property_gen cfg eng p st
    · simp only [h1, ↓reduceIte]
      rfl
  · intro a
    by_cases h1 : get_skookum_property_type env p = SkTypeID_UStruct
    · simp only [h1, ↓reduceIte]
      exact generate_struct_from_property_gen gs gs0 hgs p a
    · simp only [h1, ↓reduceIte]
      rfl

theorem can_export_method_params_gen (cfg : Settings) (eng : EngineData)
    (gs : Nat → Exporter → Result Exporter) (gs0 : Nat → Generator → Result Generator)
    (hgs : ∀ s st, (gs s st).map Exporter.gen = gs0 s st.gen) (env : TypeGraph) :
    ∀ params st,
      (Files.can_export_method_params cfg eng gs env params st).map (fun r => (r.1, r.2.gen))
        = can_export_method_params gs0 env params st.gen := by
  intro params
  induction params with
  | nil => intro st; rfl
  | cons p rest ih =>
    intro st
    unfold Files.can_export_method_params can_export_method_params
    split
    · rfl
    · split
      · rfl
      · exact result_map_bind_of Exporter.gen
          (export_type_of_member_gen cfg eng gs gs0 hgs env _ st) ih

theorem can_export_method_gen (cfg : Settings) (eng : EngineData)
    (gs : Nat → Exporter → Result Exporter) (gs0 : Nat → Generator → Result Generator)
    (hgs : ∀ s st, (gs s st).map Exporter.gen = gs0 s st.gen) (env : TypeGraph)
    (c : Nat) (f : UFunction) (st : Exporter) :
    (Files.can_export_method cfg eng gs env c f st).map (fun r => (r.1, r.2.gen))
      = can_export_method gs0 env c f st.gen := by
  unfold Files.can_export_method can_export_method
  split
  · rfl
  · split
    · rfl
    · exact can_export_method_params_gen cfg eng gs gs0 hgs env _ _

theorem can_export_property_gen (cfg : Settings) (eng : EngineData)
    (gs : Nat → Exporter → Result Exporter) (gs0 : Nat → Generator → Result Generator)
    (hgs : ∀ s st, (gs s st).map Exporter.gen = gs0 s st.gen) (env : TypeGraph)
    (h : UStructP) (p : UProperty) (st : Exporter) :
    (Files.can_export_property cfg eng gs env h p st).map (fun r => (r.1, r.2.gen))
      = can_export_property gs0 env h p st.gen := by
  have tail : ∀ b : Bool,
      (if b = true then (Result.ok (false, st) : Result (Bool × Exporter))
        else if p.OwnerStruct ≠ some h then .ok (false, st)
        else if (!is_property_type_supported env p.Kind) = true then .ok (false, st)
        else (Files.export_type_of_member cfg eng gs env p.Kind st).bind
          (fun st1 => .ok (true, st1))).map (fun r => (r.1, r.2.gen))
      = (if b = true then (Result.ok (false, st.gen) : Result (Bool × Generator))
        else if p.OwnerStruct ≠ some h then .ok (false, st.gen)
        else if (!is_property_type_supported env p.Kind) = true then .ok (false, st.gen)
        else (export_type_of_member gs0 env p.Kind st.gen).bind
          (fun st1 => .ok (true, st1))) := by
    intro b
    cases b
    · simp only [Bool.false_eq_true, ↓reduceIte]
      by_cases h2 : p.OwnerStruct ≠ some h
      · rw [if_pos h2, if_pos h2]
        rfl
      · rw [if_neg h2, if_neg h2]
        cases h3 : is_property_type_supported env p.Kind
        · rfl
        · simp only [Bool.not_true, Bool.false_eq_true, ↓reduceIte]
          exact result_map_bind_of Exporter.gen
            (export_type_of_member_gen cfg eng gs gs0 hgs env _ st) (fun _ => rfl)
    · rfl
  unfold Files.can_export_property can_export_property
  cases h with
  | cls c => exact tail _
  | sstruct s => exact tail _

theorem generate_property_default_ctor_argument_gen (env : TypeGraph) (p : PropertyType)
    (st : Exporter) :
    (Files.generate_property_default_ctor_argument env p st).map Exporter.gen
      = generate_property_default_ctor_argument env p st.gen := by
  unfold Files.generate_property_default_ctor_argument generate_property_default_ctor_argument
  cases get_skookum_property_type env p <;> rfl

theorem value_passing_switch_gen (gs : Nat → Exporter → Result Exporter)
    (gs0 : Nat → Generator → Result Generator)
    (hgs : ∀ s st, (gs s st).map Exporter.gen = gs0 s st.gen) (env : TypeGraph)
    (p : PropertyType) (list_case : Exporter → Result Exporter)
    (list_case0 : Generator → Result Generator)
    (hl : ∀ st, (list_case st).map Exporter.gen = list_case0 st.gen) (st : Exporter) :
    (Files.value_passing_switch gs env p list_case st).map Exporter.gen
      = value_passing_switch gs0 env p list_case0 st.gen := by
  have hn := get_skookum_property_type_name_gen gs gs0 hgs env p st
  unfold Files.value_passing_switch value_passing_switch
  cases get_skookum_property_type env p with
  | SkTypeID_UStruct => exact hn
  | SkTypeID_UObject => exact hn
  | SkTypeID_List => exact hl _
  | _ => rfl

theorem generate_return_or_param_value_passing_gen (gs : Nat → Exporter → Result Exporter)
    (gs0 : Nat → Generator → Result Generator)
    (hgs : ∀ s st, (gs s st).map Exporter.gen = gs0 s st.gen) (env : TypeGraph) :
    ∀ p st, (Files.generate_return_or_param_value_passing gs env p st).map Exporter.gen
      = generate_return_or_param_value_passing gs0 env p st.gen := by
  intro p
  induction p with
  | UArrayProperty inner ih =>
    intro st
    rw [Files.generate_return_or_param_value_passing, generate_return_or_param_value_passing]
    exact value_passing_switch_gen gs gs0 hgs env _ _ _ ih st
  | _ =>
    intro st
    rw [Files.generate_return_or_param_value_passing, generate_return_or_param_value_passing]
    · exact value_passing_switch_gen gs gs0 hgs env _ _ _ (fun _ => rfl) st
    all_goals (intro inner hc; cases hc)

theorem get_array_parameter_expression_gen (gs : Nat → Exporter → Result Exporter)
    (gs0 : Nat → Generator → Result Generator)
    (hgs : ∀ s st, (gs s st).map Exporter.gen = gs0 s st.gen) (env : TypeGraph)
    (p : PropertyType) (st : Exporter) :
    (Files.get_array_parameter_expression gs env p st).map Exporter.gen
      = get_array_parameter_expression gs0 env p st.gen := by
  cases p with
  | UArrayProperty inner =>
    have hn := get_skookum_property_type_name_gen gs gs0 hgs env inner st
    unfold Files.get_array_parameter_expression get_array_parameter_expression
    simp only
    cases get_skookum_property_type env inner with
    | SkTypeID_UStruct => exact hn
    | SkTypeID_UObject => exact hn
    | _ => rfl
  | _ => rfl

theorem generate_method_parameter_expression_gen (gs : Nat → Exporter → Result Exporter)
    (gs0 : Nat → Generator → Result Generator)
    (hgs : ∀ s st, (gs s st).map Exporter.gen = gs0 s st.gen) (env : TypeGraph)
    (p : UProperty) (st : Exporter) :
    (Files.generate_method_parameter_expression gs env p st).map Exporter.gen
      = generate_method_parameter_expression gs0 env p st.gen := by
  have hn := get_skookum_property_type_name_gen gs gs0 hgs env p.Kind st
  have ha := get_array_parameter_expression_gen gs gs0 hgs env p.Kind st
  have hd := generate_property_default_ctor_argument_gen env p.Kind st
  unfold Files.generate_method_parameter_expression generate_method_parameter_expression
  by_cases h1 : (!is_out_only p) = true
  · simp only [h1, ↓reduceIte]
    cases get_skookum_property_type env p.Kind with
    | SkTypeID_UStruct => exact hn
    | SkTypeID_UObject => exact hn
    | SkTypeID_List => exact ha
    | _ => rfl
  · simp only [h1, ↓reduceIte]
    by_cases h2 : p.Kind.IsA_UObjectPropertyBase = true
    · simp only [h2, ↓reduceIte]
      rfl
    · simp only [h2, ↓reduceIte]
      exact hd

theorem generate_method_out_parameter_expression_gen (gs : Nat → Exporter → Result Exporter)
    (gs0 : Nat → Generator → Result Generator)
    (hgs : ∀ s st, (gs s st).map Exporter.gen = gs0 s st.gen) (env : TypeGraph)
    (p : UProperty) (st : Exporter) :
    (Files.generate_method_out_parameter_expression gs env p st).map Exporter.gen
      = generate_method_out_parameter_expression gs0 env p st.gen := by
  have hn := get_skookum_property_type_name_gen gs gs0 hgs env p.Kind st
  have hv := generate_return_or_param_value_passing_gen gs gs0 hgs env p.Kind st
  unfold Files.generate_method_out_parameter_expression generate_method_out_parameter_expression
  cases get_skookum_property_type env p.Kind with
  | SkTypeID_UStruct => exact hn
  | SkTypeID_UObject => exact hn
  | SkTypeID_List => exact hv
  | _ => rfl

theorem generate_method_script_file_gen (cfg : Settings) (eng : EngineData)
    (gs : Nat → Exporter → Result Exporter) (gs0 : Nat → Generator → Result Generator)
    (hgs : ∀ s st, (gs s st).map Exporter.gen = gs0 s st.gen) (fuel : Nat) (env : TypeGraph)
    (f : UFunction) (name : String) (st : Exporter) :
    (Files.generate_method_script_file cfg eng gs fuel env f name st).map Exporter.gen
      = generate_method_script_file gs0 fuel env f st.gen := by
  unfold Files.generate_method_script_file generate_method_script_file
  refine result_map_bind_of Exporter.gen
    (for_each_gen _ (fun param_p : UProperty => get_skookum_property_type_name gs0 env param_p.Kind)
      (fun x st => get_skookum_property_type_name_gen gs gs0 hgs env x.Kind st) _ st) ?_
  intro a
  have h0 := get_skookum_method_path_gen cfg fuel env (.cls f.OwnerClass) name f.FUNC_Static a
  rw [← h0]
  cases Files.get_skookum_method_path cfg fuel env (.cls f.OwnerClass) name f.FUNC_Static a <;> rfl

theorem generate_method_binding_code_gen (gs : Nat → Exporter → Result Exporter)
    (gs0 : Nat → Generator → Result Generator)
    (hgs : ∀ s st, (gs s st).map Exporter.gen = gs0 s st.gen) (env : TypeGraph)
    (f : UFunction) (st : Exporter) :
    (Files.generate_method_binding_code gs env f st).map Exporter.gen
      = generate_method_binding_code gs0 env f st.gen := by
  have hbody : ∀ (x : UProperty) (st0 : Exporter),
      ((Files.generate_method_parameter_expression gs env x st0).bind
          (fun st1 =>
            if x.CPF_OutParm && !x.CPF_ReturnParm
            then Files.generate_method_out_parameter_expression gs env x st1
            else .ok st1)).map Exporter.gen
        = (generate_method_parameter_expression gs0 env x st0.gen).bind
            (fun st1 =>
              if x.CPF_OutParm && !x.CPF_ReturnParm
              then generate_method_out_parameter_expression gs0 env x st1
              else .ok st1) := by
    intro x st0
    have htail : ∀ a : Exporter,
        (if x.CPF_OutParm && !x.CPF_ReturnParm
          then Files.generate_method_out_parameter_expression gs env x a
          else .ok a).map Exporter.gen
        = (fun st1 =>
            if x.CPF_OutParm && !x.CPF_ReturnParm
            then generate_method_out_parameter_expression gs0 env x st1
            else .ok st1) a.gen := by
      intro a
      cases h1 : (x.CPF_OutParm && !x.CPF_ReturnParm)
      · rfl
      · exact generate_method_out_parameter_expression_gen gs gs0 hgs env x a
    exact result_map_bind_of Exporter.gen
      (generate_method_parameter_expression_gen gs gs0 hgs env x st0) htail
  have hret : ∀ a : Exporter,
      (match f.GetReturnProperty with
        | some return_value_p =>
          Files.generate_return_or_param_value_passing gs env return_value_p.Kind a
        | none => .ok a).map Exporter.gen
      = (fun st2 =>
          match f.GetReturnProperty with
          | some return_value_p =>
            generate_return_or_param_value_passing gs0 env return_value_p.Kind st2
          | none => .ok st2) a.gen := by
    intro a
    cases f.GetReturnProperty with
    | none => rfl
    | some r => exact generate_return_or_param_value_passing_gen gs gs0 hgs env r.Kind a
  unfold Files.generate_method_binding_code generate_method_binding_code
  exact result_map_bind_of Exporter.gen (for_each_gen _ _ hbody _ st) hret

theorem generate_method_gen (cfg : Settings) (eng : EngineData)
    (gs : Nat → Exporter → Result Exporter) (gs0 : Nat → Generator → Result Generator)
    (hgs : ∀ s st, (gs s st).map Exporter.gen = gs0 s st.gen) (fuel : Nat) (env : TypeGraph)
    (f : UFunction) (b : MethodBinding) (st : Exporter) :
    (Files.generate_method cfg eng gs fuel env f b st).map Exporter.gen
      = generate_method gs0 fuel env f st.gen := by
  unfold Files.generate_method generate_method
  exact result_map_bind_of Exporter.gen
    (generate_method_script_file_gen cfg eng gs gs0 hgs fuel env f _ st)
    (generate_method_binding_code_gen gs gs0 hgs env f)

theorem generate_property_getter_gen (cfg : Settings) (eng : EngineData)
    (gs : Nat → Exporter → Result Exporter) (gs0 : Nat → Generator → Result Generator)
    (hgs : ∀ s st, (gs s st).map Exporter.gen = gs0 s st.gen) (fuel : Nat) (env : TypeGraph)
    (p : UProperty) (b : MethodBinding) (st : Exporter) :
    (Files.generate_property_getter cfg eng gs fuel env p b st).map Exporter.gen
      = generate_property_getter gs0 fuel env p st.gen := by
  unfold Files.generate_property_getter generate_property_getter
  refine result_map_bind_of Exporter.gen
    (get_skookum_property_type_name_gen gs gs0 hgs env p.Kind st) ?_
  intro a
  refine result_map_bind_of (fun r : String × Exporter => r.2.gen) ?_ ?_
  · unfold get_skookum_method_path_of_owner
    cases p.owner with
    | none => rfl
    | some owner => exact get_skookum_method_path_gen cfg fuel env owner _ _ a
  · intro r
    exact result_map_bind_of Exporter.gen
      (generate_property_default_ctor_argument_gen env p.Kind _)
      (generate_return_or_param_value_passing_gen gs gs0 hgs env p.Kind)

theorem generate_property_setter_gen (cfg : Settings) (eng : EngineData)
    (gs : Nat → Exporter → Result Exporter) (gs0 : Nat → Generator → Result Generator)
    (hgs : ∀ s st, (gs s st).map Exporter.gen = gs0 s st.gen) (fuel : Nat) (env : TypeGraph)
    (p : UProperty) (b : MethodBinding) (st : Exporter) :
    (Files.generate_property_setter cfg eng gs fuel env p b st).map Exporter.gen
      = generate_property_setter gs0 fuel env p st.gen := by
  unfold Files.generate_property_setter generate_property_setter
  refine result_map_bind_of (fun r : String × Exporter => r.2.gen) ?_ ?_
  · unfold get_skookum_method_path_of_owner
    cases p.owner with
    | none => rfl
    | some owner => exact get_skookum_class_path_gen cfg fuel env owner st
  · intro r
    refine result_map_bind_of Exporter.gen
      (get_skookum_property_type_name_gen gs gs0 hgs env p.Kind r.2) ?_
    intro a
    exact generate_method_parameter_expression_gen gs gs0 hgs env p _

theorem export_functions_gen (cfg : Settings) (eng : EngineData)
    (gs : Nat → Exporter → Result Exporter) (gs0 : Nat → Generator → Result Generator)
    (hgs : ∀ s st, (gs s st).map Exporter.gen = gs0 s st.gen) (fuel : Nat) (env : TypeGraph)
    (c : Nat) :
    ∀ functions bindings st,
      (Files.export_functions cfg eng gs fuel env c functions bindings st).map
          (fun r => (r.1, r.2.gen))
        = export_functions gs0 fuel env c functions bindings st.gen := by
  intro functions
  induction functions with
  | nil => intro bindings st; rfl
  | cons f rest ih =>
    intro bindings st
    unfold Files.export_functions export_functions
    refine result_map_bind_of (fun r : Bool × Exporter => (r.1, r.2.gen))
      (can_export_method_gen cfg eng gs gs0 hgs env c f st) ?_
    intro r
    simp only
    cases r.1
    · simp only [Bool.false_eq_true, ↓reduceIte]
      exact ih _ _
    · simp only [↓reduceIte]
      cases (!bindings_contain bindings.instance_scope (MethodBinding.make_method f)
          && !bindings_contain bindings.class_scope (MethodBinding.make_method f))
      · simp only [Bool.false_eq_true, ↓reduceIte]
        exact ih _ _
      · simp only [↓reduceIte]
        exact result_map_bind_of Exporter.gen
          (generate_method_gen cfg eng gs gs0 hgs fuel env f _ r.2) (fun a => ih _ a)

theorem export_properties_gen (cfg : Settings) (eng : EngineData)
    (gs : Nat → Exporter → Result Exporter) (gs0 : Nat → Generator → Result Generator)
    (hgs : ∀ s st, (gs s st).map Exporter.gen = gs0 s st.gen) (fuel : Nat) (env : TypeGraph)
    (h : UStructP) :
    ∀ properties bindings st,
      (Files.export_properties cfg eng gs fuel env h properties bindings st).map
          (fun r => (r.1, r.2.gen))
        = export_properties gs0 fuel env h properties bindings st.gen := by
  intro properties
  induction properties with
  | nil => intro bindings st; rfl
  | cons p rest ih =>
    intro bindings st
    unfold Files.export_properties export_properties
    refine result_map_bind_of (fun r : Bool × Exporter => (r.1, r.2.gen))
      (can_export_property_gen cfg eng gs gs0 hgs env h p st) ?_
    intro r
    simp only
    cases r.1
    · simp only [Bool.false_eq_true, ↓reduceIte]
      exact ih _ _
    · simp only [↓reduceIte]
      refine result_map_bind_of (fun r : Bindings × Exporter => (r.1, r.2.gen)) ?_ ?_
      · cases (!bindings_contain bindings.instance_scope
            (MethodBinding.make_property_getter p))
        · rfl
        · simp only [↓reduceIte]
          exact result_map_bind_of Exporter.gen
            (generate_property_getter_gen cfg eng gs gs0 hgs fuel env p _ r.2) (fun _ => rfl)
      · intro r2
        refine result_map_bind_of (fun r : Bindings × Exporter => (r.1, r.2.gen)) ?_ ?_
        · cases p.CPF_Edit
          · rfl
          · simp only [↓reduceIte]
            cases (!bindings_contain r2.1.instance_scope
                (MethodBinding.make_property_setter p))
            · rfl
            · simp only [↓reduceIte]
              exact result_map_bind_of Exporter.gen
                (generate_property_setter_gen cfg eng gs gs0 hgs fuel env p _ r2.2)
                (fun _ => rfl)
        · intro r3
          exact ih _ _

theorem generate_class_binding_file_gen (cfg : Settings) (eng : EngineData)
    (gs : Nat → Exporter → Result Exporter) (gs0 : Nat → Generator → Result Generator)
    (hgs : ∀ s st, (gs s st).map Exporter.gen = gs0 s st.gen) (fuel : Nat) (env : TypeGraph)
    (c : Nat) (st : Exporter) :
    (Files.generate_class_binding_file cfg eng gs fuel env c st).map (fun r => (r.1, r.2.gen))
      = generate_class_binding_file gs0 fuel env c st.gen := by
  unfold Files.generate_class_binding_file generate_class_binding_file
  simp only
  refine result_bind_map_const _ _ _ _ ?_
  intro functions
  refine result_map_bind_of (fun r : Bindings × Exporter => (r.1, r.2.gen))
    (export_functions_gen cfg eng gs gs0 hgs fuel env c functions _ _) ?_
  intro r
  refine result_bind_map_const _ _ _ _ ?_
  intro properties
  have h0 := export_properties_gen cfg eng gs gs0 hgs fuel env (.cls c) properties r.1 r.2
  rw [← h0]
  cases Files.export_properties cfg eng gs fuel env (.cls c) properties r.1 r.2 <;> rfl

theorem generate_struct_binding_file_gen (cfg : Settings) (eng : EngineData)
    (gs : Nat → Exporter → Result Exporter) (gs0 : Nat → Generator → Result Generator)
    (hgs : ∀ s st, (gs s st).map Exporter.gen = gs0 s st.gen) (fuel : Nat) (env : TypeGraph)
    (s : Nat) (st : Exporter) :
    (Files.generate_struct_binding_file cfg eng gs fuel env s st).map (fun r => (r.1, r.2.gen))
      = generate_struct_binding_file gs0 fuel env s st.gen := by
  unfold Files.generate_struct_binding_file generate_struct_binding_file
  simp only
  refine result_bind_map_const _ _ _ _ ?_
  intro properties
  have h0 := export_properties_gen cfg eng gs gs0 hgs fuel env (.sstruct s) properties
    { instance_scope := [], class_scope := [] }
    { st with m_all_binding_file_names :=
        st.m_all_binding_file_names ++ [binding_file_name env (.sstruct s)] }
  rw [← h0]
  cases Files.export_properties cfg eng gs fuel env (.sstruct s) properties
    { instance_scope := [], class_scope := [] }
    { st with m_all_binding_file_names :=
        st.m_all_binding_file_names ++ [binding_file_name env (.sstruct s)] } <;> rfl

theorem generate_struct_script_files_gen (cfg : Settings) (eng : EngineData) (fuel : Nat)
    (env : TypeGraph) (s : Nat) (st : Exporter) :
    (Files.generate_struct_script_files cfg eng fuel env s st).map Exporter.gen
      = get_skookum_class_path fuel env (.sstruct s) st.gen := by
  unfold Files.generate_struct_script_files
  have h0 := get_skookum_class_path_gen cfg fuel env (.sstruct s) st
  rw [← h0]
  cases Files.get_skookum_class_path cfg fuel env (.sstruct s) st with
  | ok r =>
    simp only [Result.bind, Result.map]
    split <;> rfl
  | fatal => rfl
  | out_of_fuel => rfl

theorem generate_class_script_files_gen (cfg : Settings) (eng : EngineData) (fuel : Nat)
    (env : TypeGraph) (c : Nat) (st : Exporter) :
    (Files.generate_class_script_files cfg eng fuel env c st).map Exporter.gen
      = get_skookum_class_path fuel env (.cls c) st.gen := by
  unfold Files.generate_class_script_files
  have h0 := get_skookum_class_path_gen cfg fuel env (.cls c) st
  rw [← h0]
  cases Files.get_skookum_class_path cfg fuel env (.cls c) st <;> rfl

theorem generate_struct_gen (cfg : Settings) (eng : EngineData) (env : TypeGraph) :
    ∀ fuel s name st,
      (Files.generate_struct cfg eng fuel env s name st).map Exporter.gen
        = generate_struct fuel env s st.gen := by
  intro fuel
  induction fuel with
  | zero => intro s name st; rfl
  | succ fuel ih =>
    intro s name st
    unfold Files.generate_struct generate_struct
    refine result_map_bind_of Exporter.gen ?_ ?_
    · cases can_export_struct env st.gen s
      · rfl
      · simp only [↓reduceIte]
        refine result_map_bind_of Exporter.gen
          (generate_struct_script_files_gen cfg eng fuel env s _) ?_
        intro st1
        exact result_map_bind_of (fun r : Bindings × Exporter => (r.1, r.2.gen))
          (generate_struct_binding_file_gen cfg eng _ (generate_struct fuel env)
            (fun s0 st0 => ih s0 _ st0) fuel env s _) (fun _ => rfl)
    · intro st2
      cases env.GetSuperStruct s with
      | none => rfl
      | some parent => exact ih parent name st2

theorem generate_class_gen (cfg : Settings) (eng : EngineData) (fuel : Nat) (env : TypeGraph)
    (c : Nat) (name : String) (st : Exporter) :
    (Files.generate_class cfg eng fuel env c name st).map Exporter.gen
      = generate_class fuel env c st.gen := by
  unfold Files.generate_class generate_class
  refine result_map_bind_of Exporter.gen
    (generate_class_script_files_gen cfg eng fuel env c _) ?_
  intro st1
  exact result_map_bind_of (fun r : Bindings × Exporter => (r.1, r.2.gen))
    (generate_class_binding_file_gen cfg eng _ (generate_struct fuel env)
      (fun s0 st0 => generate_struct_gen cfg eng env fuel s0 _ st0) fuel env c _) (fun _ => rfl)

theorem ExportClass_gen (cfg : Settings) (eng : EngineData) (fuel : Nat) (env : TypeGraph)
    (c : Nat) (name : String) (st : Exporter) :
    (Files.ExportClass cfg eng fuel env c name st).map Exporter.gen
      = ExportClass fuel env c name st.gen := by
  unfold Files.ExportClass ExportClass
  cases is_engine_plugin_header name
  · simp only [Bool.false_eq_true, ↓reduceIte]
    cases (!can_export_class env { st.gen with m_source_header_file_name := name } c)
    · simp only [Bool.false_eq_true, ↓reduceIte]
      exact generate_class_gen cfg eng fuel env c name _
    · rfl
  · rfl

theorem export_requests_gen (cfg : Settings) (eng : EngineData) (fuel : Nat)
    (env : TypeGraph) :
    ∀ requests st,
      (Files.export_requests cfg eng fuel env requests st).map Exporter.gen
        = export_requests fuel env requests st.gen := by
  intro requests
  induction requests with
  | nil => intro st; rfl
  | cons r rest ih =>
    intro st
    unfold Files.export_requests export_requests
    exact result_map_bind_of Exporter.gen (ExportClass_gen cfg eng fuel env _ _ st) ih

theorem finish_extra_classes_gen (cfg : Settings) (eng : EngineData) (fuel : Nat)
    (env : TypeGraph) :
    ∀ records st,
      (Files.finish_extra_classes cfg eng fuel env records st).map Exporter.gen
        = finish_extra_classes fuel env records st.gen := by
  intro records
  induction records with
  | nil => intro st; rfl
  | cons r rest ih =>
    intro st
    unfold Files.finish_extra_classes finish_extra_classes
    refine result_map_bind_of Exporter.gen ?_ ih
    cases decide (r.m_class_p ∈ st.gen.m_used_classes)
    · rfl
    · simp only [↓reduceIte]
      exact generate_class_gen cfg eng fuel env _ _ st

/-- The run with files does to the generator what the run of the generator does: both
return or both do not, and the generator at the end is the same. -/
theorem run_gen (cfg : Settings) (eng : EngineData) (fuel : Nat) (env : TypeGraph)
    (skip_classes : List String) (requests : List (Nat × String)) :
    (Files.run cfg eng fuel env skip_classes requests).map Exporter.gen
      = run fuel env skip_classes requests := by
  unfold Files.run run
  refine result_map_bind_of Exporter.gen
    (export_requests_gen cfg eng fuel env requests (Files.Initialize skip_classes)) ?_
  intro st
  unfold Files.FinishExport FinishExport
  have h0 := finish_extra_classes_gen cfg eng fuel env st.gen.m_extra_classes st
  rw [← h0]
  cases Files.finish_extra_classes cfg eng fuel env st.gen.m_extra_classes st <;> rfl

/-! ## The claims -/

/-- C2: the classifier returns the list tag for an array property if and only if the
element property passes `is_property_type_supported` and the element's own tag is not
the list tag; hence an array of arrays always classifies as `SkTypeID_None`, and a
property with the list tag is an array whose element tag is neither `SkTypeID_None`
nor `SkTypeID_List`. -/
theorem list_tag_iff_supported_non_list_element (env : TypeGraph) (inner : PropertyType) :
    (get_skookum_property_type env (UArrayProperty inner) = SkTypeID_List
        ↔ (is_property_type_supported env inner = true
            ∧ get_skookum_property_type env inner ≠ SkTypeID_List))
      ∧ (∀ inner2, get_skookum_property_type env (UArrayProperty (UArrayProperty inner2))
            = SkTypeID_None)
      ∧ (∀ p, get_skookum_property_type env p = SkTypeID_List →
            ∃ element, p = UArrayProperty element
              ∧ get_skookum_property_type env element ≠ SkTypeID_None
              ∧ get_skookum_property_type env element ≠ SkTypeID_List) := by
  have hiff := array_tag_list_iff env
  refine ⟨hiff inner, ?_, ?_⟩
  · intro inner2
    rcases get_skookum_property_type_array_cases env (UArrayProperty inner2) with h | h
    · have h2 := (hiff (UArrayProperty inner2)).mp h
      rcases get_skookum_property_type_array_cases env inner2 with h3 | h3
      · exact absurd h3 h2.2
      · exact absurd h3 (is_property_type_supported_ne_none env _ h2.1)
    · exact h
  · intro p hp
    obtain ⟨e, he, hsup, hnl⟩ := type_list_inv env p hp
    exact ⟨e, he, is_property_type_supported_ne_none env e hsup, hnl⟩

/-- C3: the classifier returns a tag other than `SkTypeID_None` exactly for the
allowlisted shapes (`allowlisted_shape`); in particular a byte property that is not
enum-backed, an object reference to a class that has no static class and is not named
`Object`, a struct that is neither a named math struct nor supportable, and every
property kind the classifier does not name classify as `SkTypeID_None`. -/
theorem classifier_non_none_iff_allowlisted (env : TypeGraph) (p : PropertyType) :
    (get_skookum_property_type env p ≠ SkTypeID_None ↔ allowlisted_shape env p)
      ∧ get_skookum_property_type env (UByteProperty none) = SkTypeID_None
      ∧ (∀ c, ¬ is_exposed_class env c →
            get_skookum_property_type env (UObjectProperty c) = SkTypeID_None)
      ∧ (∀ s, ¬ is_known_math_struct env s → is_struct_type_supported env s = false →
            get_skookum_property_type env (UStructProperty s) = SkTypeID_None)
      ∧ get_skookum_property_type env UInterfaceProperty = SkTypeID_None
      ∧ get_skookum_property_type env UDelegateProperty = SkTypeID_None
      ∧ get_skookum_property_type env UMulticastDelegateProperty = SkTypeID_None
      ∧ get_skookum_property_type env UOtherProperty = SkTypeID_None := by
  have hobj : ∀ c, (if (does_class_have_static_class env c
        || FString_eq (env.class_at c).Name "Object") = true
      then SkTypeID_UObject else SkTypeID_None) ≠ SkTypeID_None ↔ is_exposed_class env c := by
    intro c
    unfold is_exposed_class
    split
    · rename_i h
      rw [Bool.or_eq_true] at h
      exact ⟨fun _ => h, fun _ => by decide⟩
    · rename_i h
      rw [Bool.or_eq_true] at h
      exact ⟨fun hn => absurd rfl hn, fun hc => absurd hc h⟩
  have hstruct : ∀ s, get_skookum_property_type env (UStructProperty s) ≠ SkTypeID_None
      ↔ (is_known_math_struct env s ∨ is_struct_type_supported env s = true) := by
    intro s
    unfold is_known_math_struct
    simp only [get_skookum_property_type]
    cases hk : known_struct_type (env.struct_at s).Name with
    | some t =>
      simp only
      exact ⟨fun _ => Or.inl (fun h => Option.noConfusion h),
        fun _ => (known_struct_type_ne_none_or_list _ t hk).1⟩
    | none =>
      simp only
      by_cases hs : is_struct_type_supported env s = true
      · simp [hs]
      · simp [hs]
  have hmain : get_skookum_property_type env p ≠ SkTypeID_None ↔ allowlisted_shape env p := by
    cases p with
    | UStructProperty s => exact hstruct s
    | UByteProperty e => cases e <;> simp [get_skookum_property_type, allowlisted_shape]
    | UObjectProperty c => simpa only [get_skookum_property_type, allowlisted_shape] using hobj c
    | UWeakObjectProperty c =>
      simpa only [get_skookum_property_type, allowlisted_shape] using hobj c
    | ULazyObjectProperty c =>
      simpa only [get_skookum_property_type, allowlisted_shape] using hobj c
    | UAssetObjectProperty c =>
      simpa only [get_skookum_property_type, allowlisted_shape] using hobj c
    | UAssetClassProperty c =>
      simpa only [get_skookum_property_type, allowlisted_shape] using hobj c
    | UArrayProperty inner =>
      have h1 := array_tag_list_iff env inner
      simp only [allowlisted_shape]
      rw [← h1]
      rcases get_skookum_property_type_array_cases env inner with h | h <;> simp [h]
    | _ => simp [get_skookum_property_type, allowlisted_shape]
  refine ⟨hmain, by simp [get_skookum_property_type], ?_, ?_,
    by simp [get_skookum_property_type], by simp [get_skookum_property_type],
    by simp [get_skookum_property_type], by simp [get_skookum_property_type]⟩
  · intro c hc
    by_contra hn
    exact hc ((hobj c).mp (by simpa only [get_skookum_property_type] using hn))
  · intro s h1 h2
    by_contra hn
    rcases (hstruct s).mp hn with h | h
    · exact h1 h
    · rw [h2] at h; cases h

/-- C1: on a graph with acyclic super chains and with enough recursion budget, for
every class `C`, function `f` and generator state, `can_export_method` returns, and it
returns true if and only if `f` is owned by `C`, `f` is not a delegate
function, and every parameter of `f` (the return value is one of them) is neither a
delegate, a multicast delegate, a weak object nor an interface property and passes
`is_property_type_supported`. -/
theorem can_export_method_iff (env : TypeGraph) (hacyc : env.super_chains_acyclic)
    (fuel : Nat) (hfuel : enough_fuel env ≤ fuel) (class_p : Nat) (function_p : UFunction)
    (st : Generator) :
    ∃ r st1, can_export_method (generate_struct fuel env) env class_p function_p st
        = .ok (r, st1)
      ∧ (r = true ↔
          (function_p.OwnerClass = class_p ∧ function_p.FUNC_Delegate = false
            ∧ ∀ param_p ∈ function_p.Params,
                (param_p.Kind ≠ UDelegateProperty ∧ param_p.Kind ≠ UMulticastDelegateProperty
                  ∧ (∀ c, param_p.Kind ≠ UWeakObjectProperty c)
                  ∧ param_p.Kind ≠ UInterfaceProperty)
                ∧ is_property_type_supported env param_p.Kind = true)) := by
  have hend := (super_chains_end_iff_acyclic env).mpr hacyc
  obtain ⟨st1, e1, _⟩ := can_export_method_runs env env.structs.length
    (generate_struct fuel env) (generate_struct_runs_any env hend fuel hfuel _)
    class_p function_p st (unexported_structs_le_length env st)
  refine ⟨_, st1, e1, ?_⟩
  have hkind : ∀ k : PropertyType, is_rejected_param_kind k = false ↔
      (k ≠ UDelegateProperty ∧ k ≠ UMulticastDelegateProperty
        ∧ (∀ c, k ≠ UWeakObjectProperty c) ∧ k ≠ UInterfaceProperty) := by
    intro k
    cases k <;> simp [is_rejected_param_kind]
  unfold method_exportable params_exportable
  simp only [Bool.and_eq_true, decide_eq_true_eq, Bool.not_eq_true', List.all_eq_true]
  constructor
  · rintro ⟨⟨h1, h2⟩, h3⟩
    exact ⟨h1, h2, fun p hp => ⟨(hkind _).mp (h3 p hp).1, (h3 p hp).2⟩⟩
  · rintro ⟨h1, h2, h3⟩
    exact ⟨⟨h1, h2⟩, fun p hp => ⟨(hkind _).mpr (h3 p hp).1, (h3 p hp).2⟩⟩

/-- Witness for C1 on the demo graph: the method `SetNode` of class `Delta`. -/
theorem can_export_method_iff_witness :
    demo_graph.super_chains_acyclic ∧ enough_fuel demo_graph ≤ 40
      ∧ ∃ r st1, can_export_method (generate_struct 40 demo_graph) demo_graph 3 demo_set_node
            (Initialize []) = .ok (r, st1)
          ∧ (r = true ↔
              (demo_set_node.OwnerClass = 3 ∧ demo_set_node.FUNC_Delegate = false
                ∧ ∀ param_p ∈ demo_set_node.Params,
                    (param_p.Kind ≠ UDelegateProperty
                      ∧ param_p.Kind ≠ UMulticastDelegateProperty
                      ∧ (∀ c, param_p.Kind ≠ UWeakObjectProperty c)
                      ∧ param_p.Kind ≠ UInterfaceProperty)
                    ∧ is_property_type_supported demo_graph param_p.Kind = true)) :=
  ⟨demo_graph_acyclic, by decide,
    can_export_method_iff demo_graph demo_graph_acyclic 40 (by decide) 3 demo_set_node (Initialize [])⟩

/-- C9: on a graph with acyclic super chains and with enough recursion budget,
`generate_struct` returns, and after it every struct on the ancestor chain of
the given struct (the struct itself and each super struct up to the root) that is
supportable (`is_struct_type_supported`: has defaults or is flagged RequiredAPI) and
not on the skip list is in the exported set, whether or not the given struct itself
passes the gate. -/
theorem generate_struct_exports_ancestors (env : TypeGraph)
    (hacyc : env.super_chains_acyclic) (fuel : Nat) (hfuel : enough_fuel env ≤ fuel)
    (struct_p : Nat) (st : Generator) :
    ∃ chain st1, super_chain env.GetSuperStruct fuel struct_p = .ok chain
      ∧ generate_struct fuel env struct_p st = .ok st1
      ∧ ∀ a ∈ struct_p :: chain, is_struct_type_supported env a = true →
          TArray_Contains st.m_skip_classes (env.struct_at a).Name = false →
          UStructP.sstruct a ∈ st1.m_exported_classes := by
  have hend := (super_chains_end_iff_acyclic env).mpr hacyc
  have hend2 := hend
  unfold TypeGraph.super_chains_end at hend2
  rw [Bool.and_eq_true] at hend2
  obtain ⟨chain, hchain⟩ := chains_end_spec env.GetSuperStruct _ hend2.1
    (GetSuperStruct_outside env) struct_p
  obtain ⟨st1, e1, _⟩ := generate_struct_ok env hend fuel hfuel struct_p st
  refine ⟨chain, st1, super_chain_mono _ _ _ _ hchain fuel
    (walks_fit_of_enough env fuel hfuel).1, e1, ?_⟩
  exact generate_struct_ancestors env hend fuel struct_p st st1
    (le_trans (struct_budget_le_enough env st struct_p) hfuel) e1 chain hchain

/-- Witness for C9 on the demo graph: `Hidden` fails the gate, its ancestors `Node`
and `Base` are exported. -/
theorem generate_struct_exports_ancestors_witness :
    demo_graph.super_chains_acyclic ∧ enough_fuel demo_graph ≤ 40
      ∧ is_struct_type_supported demo_graph 2 = false
      ∧ ∃ chain st1, super_chain demo_graph.GetSuperStruct 40 2 = .ok chain
          ∧ generate_struct 40 demo_graph 2 (Initialize []) = .ok st1
          ∧ ∀ a ∈ 2 :: chain, is_struct_type_supported demo_graph a = true →
              TArray_Contains (Initialize []).m_skip_classes (demo_graph.struct_at a).Name
                = false →
              UStructP.sstruct a ∈ st1.m_exported_classes :=
  ⟨demo_graph_acyclic, by decide, by decide,
    generate_struct_exports_ancestors demo_graph demo_graph_acyclic 40 (by decide) 2 (Initialize [])⟩

/-- C10: on a graph whose super chains are acyclic, `generate_struct` terminates from every
state (a budget computed from the size of the graph is never exhausted), also when structs refer to themselves or to one another through property
types; during the call the generation of any one struct is begun at most once, and
never for a struct that was already in the exported set. -/
theorem generate_struct_terminates (env : TypeGraph) (hacyc : env.super_chains_acyclic)
    (fuel : Nat) (hfuel : enough_fuel env ≤ fuel) (struct_p : Nat) (st : Generator) :
    ∃ st1, generate_struct fuel env struct_p st = .ok st1
      ∧ ∀ s, st1.log_generating.count (.sstruct s) ≤ st.log_generating.count (.sstruct s) + 1
          ∧ (UStructP.sstruct s ∈ st.m_exported_classes →
              st1.log_generating.count (.sstruct s) = st.log_generating.count (.sstruct s)) := by
  have hend := (super_chains_end_iff_acyclic env).mpr hacyc
  obtain ⟨st1, e1, r1⟩ := generate_struct_ok env hend fuel hfuel struct_p st
  refine ⟨st1, e1, fun s => ?_⟩
  rcases reach_log env st st1 r1 (.sstruct s) with h | h
  · exact ⟨by omega, fun _ => h⟩
  · exact ⟨by omega, fun hin => absurd hin h.2.1⟩

/-- Witness for C10 on the demo graph: `Node` holds an array of `Node`. -/
theorem generate_struct_terminates_witness :
    demo_graph.super_chains_acyclic ∧ enough_fuel demo_graph ≤ 40
      ∧ ∃ st1, generate_struct 40 demo_graph 1 (Initialize []) = .ok st1
          ∧ ∀ s, st1.log_generating.count (.sstruct s)
                ≤ (Initialize []).log_generating.count (.sstruct s) + 1
              ∧ (UStructP.sstruct s ∈ (Initialize []).m_exported_classes →
                  st1.log_generating.count (.sstruct s)
                    = (Initialize []).log_generating.count (.sstruct s)) :=
  ⟨demo_graph_acyclic, by decide,
    generate_struct_terminates demo_graph demo_graph_acyclic 40 (by decide) 1 (Initialize [])⟩

/-- C4 as amended, on a graph with acyclic super chains and with enough recursion
budget: a request whose header path contains `Engine/Plugins` or
`Engine\Plugins` is ignored.  For every other request `ExportClass` generates the class
(its generation is logged once more and it is in the exported set) if and only if the
class is not yet in the exported set, its name is not on the skip list and it has a
static class; in every other case nothing is generated and the class has a record in
`m_extra_classes`: the new record with this header when it had none, the old record
otherwise. -/
theorem ExportClass_generates_or_defers (env : TypeGraph)
    (hacyc : env.super_chains_acyclic) (fuel : Nat) (hfuel : enough_fuel env ≤ fuel)
    (class_p : Nat) (source_header_file_name : String) (st : Generator) :
    ∃ st1, ExportClass fuel env class_p source_header_file_name st = .ok st1
      ∧ (is_engine_plugin_header source_header_file_name = true → st1 = st)
      ∧ (is_engine_plugin_header source_header_file_name = false →
          ((st1.log_generating.count (.cls class_p)
                = st.log_generating.count (.cls class_p) + 1
              ∧ UStructP.cls class_p ∈ st1.m_exported_classes)
            ↔ (UStructP.cls class_p ∉ st.m_exported_classes
                ∧ TArray_Contains st.m_skip_classes (env.class_at class_p).Name = false
                ∧ does_class_have_static_class env class_p = true))
          ∧ (¬ (UStructP.cls class_p ∉ st.m_exported_classes
                ∧ TArray_Contains st.m_skip_classes (env.class_at class_p).Name = false
                ∧ does_class_have_static_class env class_p = true) →
              st1 = { st with
                        m_source_header_file_name := source_header_file_name,
                        m_extra_classes := add_unique_record st.m_extra_classes
                          (ClassRecord.mk class_p source_header_file_name) }
              ∧ (∃ r ∈ st1.m_extra_classes, r.m_class_p = class_p)
              ∧ ((∀ r ∈ st.m_extra_classes, r.m_class_p ≠ class_p) →
                  ClassRecord.mk class_p source_header_file_name ∈ st1.m_extra_classes)
              ∧ ((∃ r ∈ st.m_extra_classes, r.m_class_p = class_p) →
                  st1.m_extra_classes = st.m_extra_classes))) := by
  have hend := (super_chains_end_iff_acyclic env).mpr hacyc
  by_cases hplug : is_engine_plugin_header source_header_file_name = true
  · refine ⟨st, by simp [ExportClass, hplug], fun _ => rfl, fun h => ?_⟩
    rw [hplug] at h
    cases h
  · have hgate : can_export_class env
        { st with m_source_header_file_name := source_header_file_name } class_p
        = can_export_class env st class_p := rfl
    by_cases hc : can_export_class env st class_p = true
    · obtain ⟨st1, e1, hmem, hlog, _⟩ := generate_class_effect env hend fuel hfuel class_p
        { st with m_source_header_file_name := source_header_file_name }
      refine ⟨st1, by simp [ExportClass, hplug, hgate, hc, e1], fun h => absurd h hplug,
        fun _ => ⟨⟨fun _ => (can_export_class_iff env st class_p).mp hc,
          fun _ => ⟨hlog, hmem⟩⟩, fun hn => absurd ((can_export_class_iff env st class_p).mp hc) hn⟩⟩
    · have hc2 : can_export_class env st class_p = false := by
        cases h : can_export_class env st class_p
        · rfl
        · exact absurd h hc
      obtain ⟨s1, s2, s3, _⟩ := add_unique_record_spec st.m_extra_classes
        (ClassRecord.mk class_p source_header_file_name)
      refine ⟨_, by simp only [ExportClass, hplug, hgate, hc2]; rfl, fun h => absurd h hplug,
        fun _ => ⟨⟨fun hl => ?_, fun hg => absurd ((can_export_class_iff env st class_p).mpr hg) hc⟩,
          fun _ => ⟨rfl, s1, s2, s3⟩⟩⟩
      exfalso
      have := hl.1
      simp only at this
      omega

/-- Witness for C4 on the demo graph: the request for `Delta` from `Delta.h`. -/
theorem ExportClass_generates_or_defers_witness :
    demo_graph.super_chains_acyclic ∧ enough_fuel demo_graph ≤ 40
      ∧ (ExportClass 40 demo_graph 3 "Delta.h" (Initialize [])).returns
          (fun st1 => UStructP.cls 3 ∈ st1.m_exported_classes ∧ st1.m_extra_classes = [])
      ∧ ∃ st1, ExportClass 40 demo_graph 3 "Delta.h" (Initialize []) = .ok st1
          ∧ (is_engine_plugin_header "Delta.h" = true → st1 = Initialize [])
          ∧ (is_engine_plugin_header "Delta.h" = false →
              ((st1.log_generating.count (.cls 3)
                    = (Initialize []).log_generating.count (.cls 3) + 1
                  ∧ UStructP.cls 3 ∈ st1.m_exported_classes)
                ↔ (UStructP.cls 3 ∉ (Initialize []).m_exported_classes
                    ∧ TArray_Contains (Initialize []).m_skip_classes
                        (demo_graph.class_at 3).Name = false
                    ∧ does_class_have_static_class demo_graph 3 = true))
              ∧ (¬ (UStructP.cls 3 ∉ (Initialize []).m_exported_classes
                    ∧ TArray_Contains (Initialize []).m_skip_classes
                        (demo_graph.class_at 3).Name = false
                    ∧ does_class_have_static_class demo_graph 3 = true) →
                  st1 = { Initialize [] with
                            m_source_header_file_name := "Delta.h",
                            m_extra_classes := add_unique_record (Initialize []).m_extra_classes
                              (ClassRecord.mk 3 "Delta.h") }
                  ∧ (∃ r ∈ st1.m_extra_classes, r.m_class_p = 3)
                  ∧ ((∀ r ∈ (Initialize []).m_extra_classes, r.m_class_p ≠ 3) →
                      ClassRecord.mk 3 "Delta.h" ∈ st1.m_extra_classes)
                  ∧ ((∃ r ∈ (Initialize []).m_extra_classes, r.m_class_p = 3) →
                      st1.m_extra_classes = (Initialize []).m_extra_classes))) :=
  ⟨demo_graph_acyclic, by decide, by decide,
    ExportClass_generates_or_defers demo_graph demo_graph_acyclic 40 (by decide) 3 "Delta.h"
      (Initialize [])⟩

/-- Counterexample to C4 as stated.  The class `Delta` is not exported, not skip-listed
and has a static class, yet the request with a header under `Engine/Plugins` neither
generates it nor records it as deferred: the state is unchanged.  And a class that is
deferred a second time with another header keeps its first record: it is not recorded
together with the header of the second request. -/
theorem ExportClass_counterexample :
    (UStructP.cls 3 ∉ (Initialize []).m_exported_classes
        ∧ TArray_Contains (Initialize []).m_skip_classes (demo_graph.class_at 3).Name = false
        ∧ does_class_have_static_class demo_graph 3 = true)
      ∧ ExportClass 40 demo_graph 3 "Engine/Plugins/Runtime/Delta.h" (Initialize [])
          = .ok (Initialize [])
      ∧ ((ExportClass 40 demo_graph 2 "Beta.h" (Initialize [])).bind
            (ExportClass 40 demo_graph 2 "Moved/Beta.h")).returns
          (fun st1 => st1.m_extra_classes = [ClassRecord.mk 2 "Beta.h"]
            ∧ ClassRecord.mk 2 "Moved/Beta.h" ∉ st1.m_extra_classes
            ∧ st1.log_generating = []) := by
  decide

/-- C5 as amended, on a graph with acyclic super chains and with enough recursion
budget: `FinishExport` returns and keeps the deferred records; a deferred
class whose handle is in the used set when `FinishExport` begins is in the exported set
afterwards, and a deferred class that was not in the exported set when `FinishExport`
began is in the exported set afterwards only if its handle is in the used set at the
end of the run. -/
theorem FinishExport_promotes_used (env : TypeGraph) (hacyc : env.super_chains_acyclic)
    (fuel : Nat) (hfuel : enough_fuel env ≤ fuel) (st : Generator) :
    ∃ st1, FinishExport fuel env st = .ok st1
      ∧ st1.m_extra_classes = st.m_extra_classes
      ∧ ∀ r ∈ st.m_extra_classes,
          (r.m_class_p ∈ st.m_used_classes → UStructP.cls r.m_class_p ∈ st1.m_exported_classes)
          ∧ (UStructP.cls r.m_class_p ∉ st.m_exported_classes →
              UStructP.cls r.m_class_p ∈ st1.m_exported_classes →
              r.m_class_p ∈ st1.m_used_classes) := by
  have hend := (super_chains_end_iff_acyclic env).mpr hacyc
  obtain ⟨st1, e1, k1, _, _, _, k5, k6⟩ :=
    finish_extra_classes_effect env hend fuel hfuel st.m_extra_classes st
  refine ⟨st1, e1, k1, fun r hr => ⟨k6 r hr, fun hn hin => ?_⟩⟩
  rcases k5 _ hin with h | h
  · exact absurd h hn
  · exact h.1

/-- Witness for C5 on the demo graph, in the state reached by the requests for `Alpha`,
`Beta` and `Delta`. -/
theorem FinishExport_promotes_used_witness :
    demo_graph.super_chains_acyclic ∧ enough_fuel demo_graph ≤ 40
      ∧ export_requests 40 demo_graph [(1, "Alpha.h"), (2, "Beta.h"), (3, "Delta.h")]
          (Initialize ["Alpha"]) = .ok demo_requested
      ∧ ∃ st1, FinishExport 40 demo_graph demo_requested = .ok st1
          ∧ st1.m_extra_classes = demo_requested.m_extra_classes
          ∧ ∀ r ∈ demo_requested.m_extra_classes,
              (r.m_class_p ∈ demo_requested.m_used_classes →
                UStructP.cls r.m_class_p ∈ st1.m_exported_classes)
              ∧ (UStructP.cls r.m_class_p ∉ demo_requested.m_exported_classes →
                  UStructP.cls r.m_class_p ∈ st1.m_exported_classes →
                  r.m_class_p ∈ st1.m_used_classes) :=
  ⟨demo_graph_acyclic, by decide, by decide,
    FinishExport_promotes_used demo_graph demo_graph_acyclic 40 (by decide) demo_requested⟩

/-- Counterexample to C5 as stated, on the demo graph with `Alpha` skip-listed and the
requests `Alpha`, `Beta`, `Delta`, `Delta`: all three classes are recorded as deferred;
`Delta` is in the exported set and not in the used set; `Alpha` is in the used set
(entered by the promotion of `Beta`, whose method takes an `Alpha`) and not in the
exported set. -/
theorem FinishExport_iff_used_counterexample :
    (run 40 demo_graph ["Alpha"]
        [(1, "Alpha.h"), (2, "Beta.h"), (3, "Delta.h"), (3, "Delta.h")]).returns
      (fun st1 => st1.deferred_classes = [1, 2, 3]
        ∧ (UStructP.cls 3 ∈ st1.m_exported_classes ∧ 3 ∉ st1.m_used_classes)
        ∧ (1 ∈ st1.m_used_classes ∧ UStructP.cls 1 ∉ st1.m_exported_classes)) := by
  decide

/-- C6 at its failing input, the demo graph with `Alpha` skip-listed and the requests
`Alpha`, `Beta`, `Delta`: `Alpha` fails the gate and is deferred; `Beta` is exported (by
promotion) and its generated method `Attach` takes an `Alpha`, so `Alpha` is in the used
set; yet `Alpha` is not in the exported set after `FinishExport`.  With the records in
the other order (`Beta` requested before `Alpha`) it is. -/
theorem late_use_not_promoted :
    (run 40 demo_graph ["Alpha"] [(1, "Alpha.h"), (2, "Beta.h"), (3, "Delta.h")]).returns
        (fun st1 => st1.deferred_classes = [1, 2]
          ∧ UStructP.cls 2 ∈ st1.m_exported_classes
          ∧ method_exportable demo_graph 2 demo_attach = true
          ∧ 1 ∈ st1.m_used_classes
          ∧ UStructP.cls 1 ∉ st1.m_exported_classes)
      ∧ (run 40 demo_graph ["Alpha"] [(2, "Beta.h"), (1, "Alpha.h"), (3, "Delta.h")]).returns
        (fun st1 => st1.deferred_classes = [2, 1]
          ∧ 1 ∈ st1.m_used_classes
          ∧ UStructP.cls 1 ∈ st1.m_exported_classes) := by
  decide

/-- C7 at its failing input, the demo graph and the requests `Object`, `Object`,
`Delta`: the second request records the exported class `Object` as deferred, `Delta`
makes it used, and `FinishExport` generates it a second time. -/
theorem reexported_class_regenerated :
    (export_requests 40 demo_graph [(0, "Object.h"), (0, "Object.h"), (3, "Delta.h")]
        (Initialize [])).returns
        (fun st0 => UStructP.cls 0 ∈ st0.m_exported_classes
          ∧ st0.deferred_classes = [0]
          ∧ st0.log_generating.count (.cls 0) = 1)
      ∧ (run 40 demo_graph [] [(0, "Object.h"), (0, "Object.h"), (3, "Delta.h")]).returns
        (fun st1 => st1.log_generating.count (.cls 0) = 2
          ∧ st1.log_generating = [.cls 0, .cls 3, .sstruct 1, .sstruct 0, .cls 0]) := by
  decide

/-- C8 as amended, on a graph with acyclic super chains and with enough recursion
budget: in every run (export requests, then `FinishExport`) no class with a
skip-listed name is in the exported set when the requests are done, and at the end of
the run such a class is in the exported set only if it has a deferred record and its
handle is in the used set. -/
theorem skip_listed_exported_only_if_used (env : TypeGraph)
    (hacyc : env.super_chains_acyclic) (fuel : Nat) (hfuel : enough_fuel env ≤ fuel)
    (skip_classes : List String) (requests : List (Nat × String)) :
    ∃ st0 st1, export_requests fuel env requests (Initialize skip_classes) = .ok st0
      ∧ FinishExport fuel env st0 = .ok st1
      ∧ run fuel env skip_classes requests = .ok st1
      ∧ ∀ c, TArray_Contains skip_classes (env.class_at c).Name = true →
          UStructP.cls c ∉ st0.m_exported_classes
          ∧ (UStructP.cls c ∈ st1.m_exported_classes →
              c ∈ st1.m_used_classes ∧ ∃ r ∈ st1.m_extra_classes, r.m_class_p = c) := by
  have hend := (super_chains_end_iff_acyclic env).mpr hacyc
  obtain ⟨st0, e0, _, i0⟩ := export_requests_effect env hend fuel hfuel requests
    (Initialize skip_classes) (fun c _ hin => absurd hin (List.not_mem_nil _))
  obtain ⟨st1, e1, k1, _, _, _, k5, _⟩ :=
    finish_extra_classes_effect env hend fuel hfuel st0.m_extra_classes st0
  refine ⟨st0, st1, e0, e1, by simp only [run, e0, Result.bind_ok]; exact e1,
    fun c hc => ⟨i0 c hc, fun hin => ?_⟩⟩
  rcases k5 c hin with h | ⟨h1, r, hr, hrc⟩
  · exact absurd h (i0 c hc)
  · exact ⟨h1, r, by rw [k1]; exact hr, hrc⟩

/-- Witness for C8 on the demo graph with `Alpha` skip-listed. -/
theorem skip_listed_exported_only_if_used_witness :
    demo_graph.super_chains_acyclic ∧ enough_fuel demo_graph ≤ 40
      ∧ TArray_Contains ["Alpha"] (demo_graph.class_at 1).Name = true
      ∧ ∃ st0 st1,
          export_requests 40 demo_graph [(2, "Beta.h"), (1, "Alpha.h"), (3, "Delta.h")]
            (Initialize ["Alpha"]) = .ok st0
          ∧ FinishExport 40 demo_graph st0 = .ok st1
          ∧ run 40 demo_graph ["Alpha"] [(2, "Beta.h"), (1, "Alpha.h"), (3, "Delta.h")]
              = .ok st1
          ∧ ∀ c, TArray_Contains ["Alpha"] (demo_graph.class_at c).Name = true →
              UStructP.cls c ∉ st0.m_exported_classes
              ∧ (UStructP.cls c ∈ st1.m_exported_classes →
                  c ∈ st1.m_used_classes ∧ ∃ r ∈ st1.m_extra_classes, r.m_class_p = c) :=
  ⟨demo_graph_acyclic, by decide, by decide,
    skip_listed_exported_only_if_used demo_graph demo_graph_acyclic 40 (by decide) ["Alpha"]
      [(2, "Beta.h"), (1, "Alpha.h"), (3, "Delta.h")]⟩

/-- Counterexample to C8 as stated, on the demo graph with `Alpha` on the skip list
and the requests `Beta`, `Alpha`, `Delta`: the promotion of `Beta` makes `Alpha` used,
and `FinishExport` then generates `Alpha`, so a skip-listed class is in the exported set
at the end of the run. -/
theorem skip_listed_class_promoted :
    TArray_Contains ["Alpha"] (demo_graph.class_at 1).Name = true
      ∧ (run 40 demo_graph ["Alpha"] [(2, "Beta.h"), (1, "Alpha.h"), (3, "Delta.h")]).returns
          (fun st1 => UStructP.cls 1 ∈ st1.m_exported_classes
            ∧ UStructP.cls 1 ∈ st1.log_generating) := by
  decide

/-! ## The claims on bindings, names and marshalling -/

/-- C11: on a graph with acyclic super chains and with enough recursion budget,
`generate_class_binding_file` and `generate_struct_binding_file` return, and every
binding they register is made from a function or property whose owner is the class or
struct itself: a method binding from a visited function with `GetOwnerClass() == C`,
a getter or setter binding from a visited property with `GetOwnerStruct() == C` (and
`GetOwnerClass() == C` for a class).  The loops leave out every visited member with
another owner: it changes neither the bindings nor the generator. -/
theorem bindings_come_from_own_members (env : TypeGraph)
    (hacyc : env.super_chains_acyclic) (fuel : Nat) (hfuel : enough_fuel env ≤ fuel) :
    (∀ (class_p : Nat) (st : Generator), ∃ functions properties bindings st1,
        class_functions fuel env class_p = .ok functions
        ∧ struct_properties fuel env (.cls class_p) = .ok properties
        ∧ generate_class_binding_file (generate_struct fuel env) fuel env class_p st
            = .ok (bindings, st1)
        ∧ ∀ b ∈ bindings.instance_scope ++ bindings.class_scope,
            (∃ f ∈ functions, f.OwnerClass = class_p ∧ b = MethodBinding.make_method f)
            ∨ (∃ p ∈ properties, p.OwnerClass = some class_p
                ∧ p.OwnerStruct = some (.cls class_p)
                ∧ (b = MethodBinding.make_property_getter p
                  ∨ b = MethodBinding.make_property_setter p)))
    ∧ (∀ (struct_p : Nat) (st : Generator), ∃ properties bindings st1,
        struct_properties fuel env (.sstruct struct_p) = .ok properties
        ∧ generate_struct_binding_file (generate_struct fuel env) fuel env struct_p st
            = .ok (bindings, st1)
        ∧ ∀ b ∈ bindings.instance_scope ++ bindings.class_scope,
            ∃ p ∈ properties, p.OwnerStruct = some (.sstruct struct_p)
              ∧ (b = MethodBinding.make_property_getter p
                ∨ b = MethodBinding.make_property_setter p))
    ∧ (∀ (class_p : Nat) (f : UFunction) (rest : List UFunction) (b : Bindings)
        (st : Generator), f.OwnerClass ≠ class_p →
        export_functions (generate_struct fuel env) fuel env class_p (f :: rest) b st
          = export_functions (generate_struct fuel env) fuel env class_p rest b st)
    ∧ (∀ (class_p : Nat) (p : UProperty) (rest : List UProperty) (b : Bindings)
        (st : Generator), p.OwnerClass ≠ some class_p →
        export_properties (generate_struct fuel env) fuel env (.cls class_p) (p :: rest) b st
          = export_properties (generate_struct fuel env) fuel env (.cls class_p) rest b st)
    ∧ (∀ (class_or_struct_p : UStructP) (p : UProperty) (rest : List UProperty)
        (b : Bindings) (st : Generator), p.OwnerStruct ≠ some class_or_struct_p →
        export_properties (generate_struct fuel env) fuel env class_or_struct_p (p :: rest) b st
          = export_properties (generate_struct fuel env) fuel env class_or_struct_p rest b st) := by
  have hend := (super_chains_end_iff_acyclic env).mpr hacyc
  have hgs := generate_struct_runs_any env hend fuel hfuel env.structs.length
  have hwf := walks_fit_of_enough env fuel hfuel
  refine ⟨fun c st => ?_, fun s st => ?_,
    fun c f rest b st h => export_functions_skips_inherited _ fuel env c f rest b st h,
    fun c p rest b st h => export_properties_skips_inherited _ fuel env c p rest b st h,
    fun h p rest b st hne => export_properties_skips_foreign _ fuel env h p rest b st hne⟩
  · obtain ⟨fs, hfs⟩ := class_functions_ok env fuel hend hwf c
    obtain ⟨ps, hps⟩ := struct_properties_ok env fuel hend hwf (.cls c)
    obtain ⟨bs, st1, e1, _⟩ := generate_class_binding_file_runs env _ fuel hend hwf _ hgs c st
      (unexported_structs_le_length env st)
    refine ⟨fs, ps, bs, st1, hfs, hps, e1, fun b hb => ?_⟩
    simp only [generate_class_binding_file, hfs, hps, Result.bind_ok] at e1
    obtain ⟨r, hr, e2⟩ := Result.bind_eq_ok e1
    obtain ⟨fi, fc⟩ := export_functions_own _ fuel env c fs _ st r.1 r.2 hr
    obtain ⟨pc, pi⟩ := export_properties_own _ fuel env (.cls c) ps r.1 r.2 bs st1 e2
    have hfun : ∀ x, x ∈ r.1.instance_scope ∨ x ∈ r.1.class_scope →
        ∃ f ∈ fs, f.OwnerClass = c ∧ x = MethodBinding.make_method f := by
      intro x hx
      rcases hx with hx | hx
      · rcases fi x hx with h1 | ⟨f, hf, ho, _, hm⟩
        · cases h1
        · exact ⟨f, hf, ho, hm⟩
      · rcases fc x hx with h1 | ⟨f, hf, ho, _, hm⟩
        · cases h1
        · exact ⟨f, hf, ho, hm⟩
    rcases List.mem_append.mp hb with hb | hb
    · rcases pi b hb with h1 | ⟨p, hp, ho, hoc, hm⟩
      · exact Or.inl (hfun b (Or.inl h1))
      · refine Or.inr ⟨p, hp, hoc c rfl, ho, ?_⟩
        rcases hm with hm | hm
        · exact Or.inl hm
        · exact Or.inr hm.2
    · rw [pc] at hb
      exact Or.inl (hfun b (Or.inr hb))
  · obtain ⟨ps, hps⟩ := struct_properties_ok env fuel hend hwf (.sstruct s)
    obtain ⟨bs, st1, e1, _⟩ := generate_struct_binding_file_runs env _ fuel hend hwf _ hgs s st
      (unexported_structs_le_length env st)
    refine ⟨ps, bs, st1, hps, e1, fun b hb => ?_⟩
    simp only [generate_struct_binding_file, hps, Result.bind_ok] at e1
    obtain ⟨pc, pi⟩ := export_properties_own _ fuel env (.sstruct s) ps _ st bs st1 e1
    rcases List.mem_append.mp hb with hb | hb
    · rcases pi b hb with h1 | ⟨p, hp, ho, _, hm⟩
      · cases h1
      · refine ⟨p, hp, ho, ?_⟩
        rcases hm with hm | hm
        · exact Or.inl hm
        · exact Or.inr hm.2
    · rw [pc] at hb
      cases hb

/-- Witness for C11 on the demo graph: class `Delta` visits its own functions and the
function `Attach` of its super class `Beta`; the bindings are those of `GetScore` and
`SetNode`. -/
theorem bindings_come_from_own_members_witness :
    demo_graph.super_chains_acyclic ∧ enough_fuel demo_graph ≤ 40
      ∧ class_functions 40 demo_graph 3
          = .ok [demo_get_score, demo_set_node, demo_notify, demo_attach]
      ∧ (generate_class_binding_file (generate_struct 40 demo_graph) 40 demo_graph 3
          (Initialize [])).returns
        (fun r => script_names r.1.instance_scope = ["score", "node_set"]
          ∧ script_names r.1.class_scope = [])
      ∧ ∃ functions properties bindings st1,
          class_functions 40 demo_graph 3 = .ok functions
          ∧ struct_properties 40 demo_graph (.cls 3) = .ok properties
          ∧ generate_class_binding_file (generate_struct 40 demo_graph) 40 demo_graph 3
              (Initialize []) = .ok (bindings, st1)
          ∧ ∀ b ∈ bindings.instance_scope ++ bindings.class_scope,
              (∃ f ∈ functions, f.OwnerClass = 3 ∧ b = MethodBinding.make_method f)
              ∨ (∃ p ∈ properties, p.OwnerClass = some 3 ∧ p.OwnerStruct = some (.cls 3)
                  ∧ (b = MethodBinding.make_property_getter p
                    ∨ b = MethodBinding.make_property_setter p)) :=
  ⟨demo_graph_acyclic, by decide, by decide, by decide,
    (bindings_come_from_own_members demo_graph demo_graph_acyclic 40 (by decide)).1 3
      (Initialize [])⟩

/-- C12 at its failing input: class `Thing` declares the static function `GetFoo` and
the property `Foo`, both accepted and both with the script name `foo`.  The binding
file registers two bindings named `foo`, the method in the class scope list and the
getter in the instance scope list: the property loop looks the name up in the
instance scope list only.  With `GetFoo` not static the getter is left out and one
binding named `foo` is registered. -/
theorem static_method_and_getter_both_bound :
    (can_export_method (generate_struct 10 (clash_graph true)) (clash_graph true) 1
        (clash_get_foo true) (Initialize [])).returns (fun r => r.1 = true)
    ∧ (can_export_property (generate_struct 10 (clash_graph true)) (clash_graph true) (.cls 1)
        clash_foo (Initialize [])).returns (fun r => r.1 = true)
    ∧ (MethodBinding.make_method (clash_get_foo true)).m_script_name = "foo"
    ∧ (MethodBinding.make_property_getter clash_foo).m_script_name = "foo"
    ∧ (generate_class_binding_file (generate_struct 10 (clash_graph true)) 10 (clash_graph true) 1
        (Initialize [])).returns
      (fun r => script_names r.1.instance_scope = ["foo"]
        ∧ script_names r.1.class_scope = ["foo"])
    ∧ (generate_class_binding_file (generate_struct 10 (clash_graph false)) 10
        (clash_graph false) 1 (Initialize [])).returns
      (fun r => script_names r.1.instance_scope = ["foo"]
        ∧ script_names r.1.class_scope = []) := by
  decide

/-- Counterexample to C13 as stated.  Class `Widget` has the accepted method
`SetModes(TArray<EMode>)`, the accepted property `Position` of the supportable struct
`Vector` and the accepted property `Items`, an array of the supportable struct `Item`,
whose getter is left out because the method `GetItems` has its script name.  After the
binding file has been generated no enum and no struct is exported: the gates export a
type only when it is the tag `Enum` or `UStruct` of the member itself. -/
theorem element_types_not_exported :
    (can_export_method (generate_struct 10 element_graph) element_graph 1 element_set_modes
        (Initialize [])).returns (fun r => r.1 = true)
    ∧ (can_export_property (generate_struct 10 element_graph) element_graph (.cls 1)
        element_position (Initialize [])).returns (fun r => r.1 = true)
    ∧ (can_export_property (generate_struct 10 element_graph) element_graph (.cls 1)
        element_items (Initialize [])).returns (fun r => r.1 = true)
    ∧ is_struct_type_supported element_graph 0 = true
    ∧ is_struct_type_supported element_graph 1 = true
    ∧ (generate_class_binding_file (generate_struct 10 element_graph) 10 element_graph 1
        (Initialize [])).returns
      (fun r => r.2.m_exported_enums = [] ∧ r.2.m_exported_classes = []
        ∧ script_names r.1.instance_scope = ["modes_set", "items", "position"]) := by
  decide

/-- C13 as amended: on a graph with acyclic super chains and with enough recursion
budget, once the binding file of a class or struct has been generated, for every
visited member that `can_export_method` or `can_export_property` accepts, each enum
that is directly the type of a parameter, of the return value or of the property is
in `m_exported_enums`, and each struct that is directly such a type, is none of the
known math structs, is supportable and is not skip-listed is in
`m_exported_classes`. -/
theorem accepted_member_types_exported (env : TypeGraph)
    (hacyc : env.super_chains_acyclic) (fuel : Nat) (hfuel : enough_fuel env ≤ fuel) :
    (∀ (class_p : Nat) (st : Generator), ∃ functions properties bindings st1,
        class_functions fuel env class_p = .ok functions
        ∧ struct_properties fuel env (.cls class_p) = .ok properties
        ∧ generate_class_binding_file (generate_struct fuel env) fuel env class_p st
            = .ok (bindings, st1)
        ∧ (∀ f ∈ functions,
            (∃ st0 st2, can_export_method (generate_struct fuel env) env class_p f st0
              = .ok (true, st2)) →
            ∀ p ∈ f.Params, direct_type_exported env st1 p.Kind)
        ∧ (∀ p ∈ properties,
            (∃ st0 st2, can_export_property (generate_struct fuel env) env (.cls class_p) p st0
              = .ok (true, st2)) →
            direct_type_exported env st1 p.Kind))
    ∧ (∀ (struct_p : Nat) (st : Generator), ∃ properties bindings st1,
        struct_properties fuel env (.sstruct struct_p) = .ok properties
        ∧ generate_struct_binding_file (generate_struct fuel env) fuel env struct_p st
            = .ok (bindings, st1)
        ∧ (∀ p ∈ properties,
            (∃ st0 st2, can_export_property (generate_struct fuel env) env (.sstruct struct_p)
              p st0 = .ok (true, st2)) →
            direct_type_exported env st1 p.Kind)) := by
  have hend := (super_chains_end_iff_acyclic env).mpr hacyc
  have hwf := walks_fit_of_enough env fuel hfuel
  have hgs := generate_struct_runs_any env hend fuel hfuel env.structs.length
  have hmeth : ∀ (c : Nat) (f : UFunction),
      (∃ st0 st2, can_export_method (generate_struct fuel env) env c f st0 = .ok (true, st2)) →
      method_exportable env c f = true := by
    rintro c f ⟨st0, st2, h⟩
    obtain ⟨st3, e3, _⟩ := can_export_method_runs env _ _ hgs c f st0
      (unexported_structs_le_length env st0)
    rw [h] at e3
    injection e3 with e3
    injection e3 with e4 _
    exact e4.symm
  have hprop : ∀ (h : UStructP) (p : UProperty),
      (∃ st0 st2, can_export_property (generate_struct fuel env) env h p st0
        = .ok (true, st2)) →
      property_exportable env h p = true := by
    rintro h p ⟨st0, st2, hx⟩
    obtain ⟨st3, e3, _⟩ := can_export_property_runs env _ _ hgs h p st0
      (unexported_structs_le_length env st0)
    rw [hx] at e3
    injection e3 with e3
    injection e3 with e4 _
    exact e4.symm
  refine ⟨fun c st => ?_, fun s st => ?_⟩
  · obtain ⟨fs, hfs⟩ := class_functions_ok env fuel hend hwf c
    obtain ⟨ps, hps⟩ := struct_properties_ok env fuel hend hwf (.cls c)
    obtain ⟨b1, st1, e1, r1, x1⟩ := export_functions_exports env hend fuel hfuel c fs
      { instance_scope := [], class_scope := [] } st
    obtain ⟨b2, st2, e2, r2, x2⟩ := export_properties_exports env hend fuel hfuel (.cls c) ps
      b1 st1
    refine ⟨fs, ps, b2, st2, hfs, hps, ?_, fun f hf hx p hp => ?_,
      fun p hp hx => x2 p hp (hprop _ p hx)⟩
    · simp only [generate_class_binding_file, hfs, hps, Result.bind_ok, e1, e2]
    · exact direct_type_exported_mono env st1 st2 r2 _ (x1 f hf (hmeth c f hx) p hp)
  · obtain ⟨ps, hps⟩ := struct_properties_ok env fuel hend hwf (.sstruct s)
    obtain ⟨b2, st2, e2, r2, x2⟩ := export_properties_exports env hend fuel hfuel (.sstruct s)
      ps { instance_scope := [], class_scope := [] } st
    refine ⟨ps, b2, st2, hps, ?_, fun p hp hx => x2 p hp (hprop _ p hx)⟩
    simp only [generate_struct_binding_file, hps, Result.bind_ok, e2]

/-- Witness for C13 on the demo graph: class `Delta` has the method
`SetNode(Node NewNode)`, and `Node` is exported with the binding file. -/
theorem accepted_member_types_exported_witness :
    demo_graph.super_chains_acyclic ∧ enough_fuel demo_graph ≤ 40
      ∧ (can_export_method (generate_struct 40 demo_graph) demo_graph 3 demo_set_node
          (Initialize [])).returns (fun r => r.1 = true)
      ∧ (generate_class_binding_file (generate_struct 40 demo_graph) 40 demo_graph 3
          (Initialize [])).returns
        (fun r => UStructP.sstruct 1 ∈ r.2.m_exported_classes)
      ∧ ∃ functions properties bindings st1,
          class_functions 40 demo_graph 3 = .ok functions
          ∧ struct_properties 40 demo_graph (.cls 3) = .ok properties
          ∧ generate_class_binding_file (generate_struct 40 demo_graph) 40 demo_graph 3
              (Initialize []) = .ok (bindings, st1)
          ∧ (∀ f ∈ functions,
              (∃ st0 st2, can_export_method (generate_struct 40 demo_graph) demo_graph 3 f st0
                = .ok (true, st2)) →
              ∀ p ∈ f.Params, direct_type_exported demo_graph st1 p.Kind)
          ∧ (∀ p ∈ properties,
              (∃ st0 st2, can_export_property (generate_struct 40 demo_graph) demo_graph
                (.cls 3) p st0 = .ok (true, st2)) →
              direct_type_exported demo_graph st1 p.Kind) :=
  ⟨demo_graph_acyclic, by decide, by decide, by decide,
    (accepted_member_types_exported demo_graph demo_graph_acyclic 40 (by decide)).1 3
      (Initialize [])⟩

/-- C14: for every native name the result of `skookify_var_name` is made of the kept
characters in order, each in lower case and each preceded by one underscore exactly
when it is an uppercase letter or a digit and its predecessor is neither an uppercase
letter, a digit nor an underscore (never for the first kept character); the only
other character is the underscore that the keyword test appends at the end.
`MaxWalkSpeed` gives `max_walk_speed` and `Vector2D` gives `vector_2d`. -/
theorem skookify_var_name_inserts_separators :
    (∀ name : String,
      (skookify_var_name name).1.data
        = insert_separators (kept_characters name.data)
          ++ (if ms_reserved_keywords.any
                (fun k => FString_eq (String.mk (insert_separators (kept_characters name.data))) k)
              then ['_'] else []))
    ∧ skookify_var_name "MaxWalkSpeed" = ("max_walk_speed", false)
    ∧ skookify_var_name "Vector2D" = ("vector_2d", false) := by
  refine ⟨fun name => ?_, by decide, by decide⟩
  rw [skookify_var_name_eq, insert_separators_eq_loop]
  unfold transformed_name
  split <;> simp

/-- C15: `skookify_var_name` reports `is_boolean = true` if and only if the name starts
with `b` immediately followed by an uppercase letter; in that case the result is
built from the name without its first character, otherwise from the whole name.
`bVisible` gives `(visible, true)`; `b`, `bar` and `Visible` give `is_boolean = false`
and lose no character. -/
theorem skookify_var_name_boolean_flag :
    (∀ name : String,
      ((skookify_var_name name).2 = true
        ↔ ∃ d rest, name.data = 'b' :: d :: rest ∧ isupper d = true)
      ∧ ((skookify_var_name name).2 = true →
          ∃ suffix, (suffix = [] ∨ suffix = ['_'])
            ∧ (skookify_var_name name).1.data = insert_separators (name.data.drop 1) ++ suffix)
      ∧ ((skookify_var_name name).2 = false →
          ∃ suffix, (suffix = [] ∨ suffix = ['_'])
            ∧ (skookify_var_name name).1.data = insert_separators name.data ++ suffix))
    ∧ skookify_var_name "bVisible" = ("visible", true)
    ∧ skookify_var_name "b" = ("b", false)
    ∧ skookify_var_name "bar" = ("bar", false)
    ∧ skookify_var_name "Visible" = ("visible", false) := by
  refine ⟨fun name => ?_, by decide, by decide, by decide, by decide⟩
  have hres : ∃ suffix, (suffix = [] ∨ suffix = ['_'])
      ∧ (skookify_var_name name).1.data
          = insert_separators (kept_characters name.data) ++ suffix := by
    rw [skookify_var_name_eq, insert_separators_eq_loop]
    unfold transformed_name
    split
    · exact ⟨['_'], Or.inr rfl, rfl⟩
    · exact ⟨[], Or.inl rfl, by simp⟩
  have hflag : (skookify_var_name name).2 = skookify_is_boolean name.data := by
    rw [skookify_var_name_eq]
  refine ⟨?_, ?_, ?_⟩
  · rw [hflag]; exact skookify_is_boolean_iff name.data
  · intro h
    rw [hflag] at h
    simpa [kept_characters, h] using hres
  · intro h
    rw [hflag] at h
    simpa [kept_characters, h] using hres

/-- Counterexample to C16 as stated: the name `A__B` is transformed to `a__b`, which
holds two adjacent underscores. -/
theorem skookify_var_name_keeps_adjacent_underscores :
    skookify_var_name "A__B" = ("a__b", false)
      ∧ adjacent_underscores (skookify_var_name "A__B").1.data = true := by
  decide

/-- C16 as amended: for every native name the result of `skookify_var_name` holds two
adjacent underscores exactly when the native name does.  No inserted separator and no
keyword suffix stands next to another underscore, and the underscores of the native
name are all kept. -/
theorem skookify_var_name_adjacent_underscores (name : String) :
    adjacent_underscores (skookify_var_name name).1.data = adjacent_underscores name.data :=
  adjacent_underscores_skookify_var_name name

/-- C17: for every native name the result of `skookify_var_name` is no entry of
`ms_reserved_keywords`, also when compared without regard to case as the code
compares; when the transformed name equals a keyword the result is the transformed
name with one underscore appended. -/
theorem skookify_var_name_not_reserved (name : String) :
    (skookify_var_name name).1 ∉ ms_reserved_keywords
      ∧ (∀ k ∈ ms_reserved_keywords, FString_eq (skookify_var_name name).1 k = false)
      ∧ (transformed_name name ∈ ms_reserved_keywords →
          (skookify_var_name name).1 = String.mk ((transformed_name name).data ++ ['_'])) := by
  have hci : ∀ k ∈ ms_reserved_keywords, FString_eq (skookify_var_name name).1 k = false := by
    rw [skookify_var_name_eq]
    by_cases hk : ms_reserved_keywords.any (fun k => FString_eq (transformed_name name) k) = true
    · simp only [hk, if_true]
      exact not_keyword_of_suffix _
    · simp only [hk]
      intro k hkm
      by_contra hc
      exact hk (List.any_eq_true.mpr ⟨k, hkm, by simpa using hc⟩)
  refine ⟨fun hmem => ?_, hci, fun hmem => ?_⟩
  · have := hci _ hmem
    rw [FString_eq_refl] at this
    exact absurd this (by decide)
  · rw [skookify_var_name_eq]
    have hk : ms_reserved_keywords.any (fun k => FString_eq (transformed_name name) k) = true :=
      List.any_eq_true.mpr ⟨_, hmem, FString_eq_refl _⟩
    simp only [hk, if_true]

/-- Counterexample to C18 as stated: for the boolean property `bVisible` the script name
of the getter binding is `visible?`, not `visible`. -/
theorem boolean_property_getter_counterexample :
    demo_visible.Kind = UBoolProperty
      ∧ skookify_is_boolean demo_visible.Name.data = true
      ∧ (MethodBinding.make_property_getter demo_visible).m_script_name = "visible?"
      ∧ (MethodBinding.make_property_getter demo_visible).m_script_name ≠ "visible" := by
  decide

/-- C18 as amended: for a property of boolean type whose native name starts with `b`
followed by an uppercase letter, the script name of the getter binding made by
`MethodBinding::make_property_getter` ends in a question mark: it is the name that
`skookify_method_name` gives without a boolean return type, followed by `?`; when the
`skookify_var_name` form of the name begins with none of `k2_`, `get_` and `set_`, it
is that form (the stripped lowercase name) followed by `?`. -/
theorem boolean_property_getter_name (property_p : UProperty)
    (hkind : property_p.Kind = UBoolProperty)
    (hname : ∃ d rest, property_p.Name.data = 'b' :: d :: rest ∧ isupper d = true) :
    (MethodBinding.make_property_getter property_p).m_script_name.data
        = (skookify_method_name property_p.Name false).data ++ ['?']
      ∧ ("k2_".data.isPrefixOf (skookify_var_name property_p.Name).1.data = false →
          "get_".data.isPrefixOf (skookify_var_name property_p.Name).1.data = false →
          "set_".data.isPrefixOf (skookify_var_name property_p.Name).1.data = false →
          (MethodBinding.make_property_getter property_p).m_script_name.data
            = (skookify_var_name property_p.Name).1.data ++ ['?']) := by
  have hflag : (skookify_var_name property_p.Name).2 = true := by
    rw [skookify_var_name_eq]
    exact (skookify_is_boolean_iff _).mpr hname
  have hscript : (MethodBinding.make_property_getter property_p).m_script_name
      = skookify_method_name property_p.Name true := by
    simp [MethodBinding.make_property_getter, is_bool_property, hkind]
  rw [hscript, skookify_method_name_flagged _ hflag]
  exact ⟨rfl, fun hk hg hs => by rw [skookify_method_name_plain _ hk hg hs]⟩

/-- Witness for C18: the boolean property `bVisible`, whose getter is named `visible?`. -/
theorem boolean_property_getter_name_witness :
    demo_visible.Kind = UBoolProperty
      ∧ (∃ d rest, demo_visible.Name.data = 'b' :: d :: rest ∧ isupper d = true)
      ∧ (MethodBinding.make_property_getter demo_visible).m_script_name.data
          = (skookify_method_name demo_visible.Name false).data ++ ['?']
      ∧ (skookify_method_name demo_visible.Name false).data ++ ['?'] = "visible?".data :=
  ⟨rfl, ⟨ 'V', "isible".data, by decide, by decide ⟩,
    (boolean_property_getter_name demo_visible rfl
      ⟨ 'V', "isible".data, by decide, by decide ⟩).1, by decide⟩

/-- C19: when the `skookify_var_name` form of a native method name is `get_` followed by
a remainder that begins with a letter, and the return type is absent or not boolean,
`skookify_method_name` returns exactly the remainder: the prefix is stripped and no
question mark is appended.  More generally, for a native name without a question mark
the result ends in `?` only when the return property is a boolean property. -/
theorem skookify_method_name_strips_get (name : String) (c : Char) (rest : List Char)
    (hvar : (skookify_var_name name).1.data = "get_".data ++ c :: rest)
    (hc : isalpha c = true) :
    skookify_method_name name false = String.mk (c :: rest)
      ∧ (∀ (native : String) (return_is_bool : Bool), '?' ∉ native.data →
          (skookify_method_name native return_is_bool).data.getLast? = some '?' →
          return_is_bool = true) :=
  ⟨skookify_method_name_get name c rest hvar hc,
    fun native return_is_bool h hq => skookify_method_name_question native return_is_bool h hq⟩

/-- Witness for C19: `GetFoo` with a return type that is not boolean gives `foo`. -/
theorem skookify_method_name_strips_get_witness :
    (skookify_var_name "GetFoo").1.data = "get_".data ++ 'f' :: ['o', 'o']
      ∧ isalpha 'f' = true
      ∧ skookify_method_name "GetFoo" false = "foo" :=
  ⟨by decide, by decide,
    (skookify_method_name_strips_get "GetFoo" 'f' ['o', 'o'] (by decide) (by decide)).1⟩

/-- C20: on a graph with acyclic super chains and with enough recursion budget, for
every property accepted by `is_property_type_supported` the tag is not
`SkTypeID_None`, and `generate_method_parameter_expression`,
`generate_method_out_parameter_expression`, `generate_return_or_param_value_passing`
and `generate_property_default_ctor_argument` all return normally: none reaches its
`Unsupported` branch.  When the tag is `SkTypeID_List` the property is an array whose
element has a tag that is neither `SkTypeID_None` nor `SkTypeID_List`, and
`get_array_parameter_expression` returns normally as well. -/
theorem marshalling_covers_supported_tags (env : TypeGraph)
    (hacyc : env.super_chains_acyclic) (fuel : Nat) (hfuel : enough_fuel env ≤ fuel)
    (param_p : UProperty) (hsup : is_property_type_supported env param_p.Kind = true)
    (st : Generator) :
    get_skookum_property_type env param_p.Kind ≠ SkTypeID_None
      ∧ (∃ st1, generate_method_parameter_expression (generate_struct fuel env) env param_p st
          = .ok st1)
      ∧ (∃ st1, generate_method_out_parameter_expression (generate_struct fuel env) env
          param_p st = .ok st1)
      ∧ (∃ st1, generate_return_or_param_value_passing (generate_struct fuel env) env
          param_p.Kind st = .ok st1)
      ∧ (∃ st1, generate_property_default_ctor_argument env param_p.Kind st = .ok st1)
      ∧ (get_skookum_property_type env param_p.Kind = SkTypeID_List →
          ∃ inner, param_p.Kind = UArrayProperty inner
            ∧ get_skookum_property_type env inner ≠ SkTypeID_None
            ∧ get_skookum_property_type env inner ≠ SkTypeID_List
            ∧ ∃ st1, get_array_parameter_expression (generate_struct fuel env) env
                param_p.Kind st = .ok st1) := by
  have hend := (super_chains_end_iff_acyclic env).mpr hacyc
  have hgs := generate_struct_runs_any env hend fuel hfuel env.structs.length
  have hst := unexported_structs_le_length env st
  have hne := is_property_type_supported_ne_none env param_p.Kind hsup
  refine ⟨hne, ?_, ?_, ?_, ?_, ?_⟩
  · obtain ⟨st1, e, _⟩ := generate_method_parameter_expression_runs env _ _ hgs param_p hne st hst
    exact ⟨st1, e⟩
  · obtain ⟨st1, e, _⟩ :=
      generate_method_out_parameter_expression_runs env _ _ hgs param_p hne st hst
    exact ⟨st1, e⟩
  · obtain ⟨st1, e, _⟩ :=
      generate_return_or_param_value_passing_runs env _ _ hgs param_p.Kind hne st hst
    exact ⟨st1, e⟩
  · obtain ⟨st1, e, _⟩ :=
      generate_property_default_ctor_argument_runs env env.structs.length param_p.Kind hne st hst
    exact ⟨st1, e⟩
  · intro hl
    obtain ⟨inner, hi, hs, hnl⟩ := type_list_inv env param_p.Kind hl
    obtain ⟨st1, e, _⟩ := get_array_parameter_expression_runs env _ _ hgs param_p.Kind hl st hst
    exact ⟨inner, hi, is_property_type_supported_ne_none env inner hs, hnl, st1, e⟩

/-- Witness for C20 on the demo graph: the property `Children` of `Node`, an array of
`Node`. -/
theorem marshalling_covers_supported_tags_witness :
    demo_graph.super_chains_acyclic ∧ enough_fuel demo_graph ≤ 40
      ∧ is_property_type_supported demo_graph demo_children.Kind = true
      ∧ get_skookum_property_type demo_graph demo_children.Kind = SkTypeID_List
      ∧ (∃ st1, generate_method_parameter_expression (generate_struct 40 demo_graph)
          demo_graph demo_children (Initialize []) = .ok st1) :=
  ⟨demo_graph_acyclic, by decide, by decide, by decide,
    (marshalling_covers_supported_tags demo_graph demo_graph_acyclic 40 (by decide)
      demo_children (by decide) (Initialize [])).2.1⟩


/-! ## The claims on staging, files and binding names -/

set_option maxRecDepth 100000

/-- Counterexample to C21 as stated.  The file at the target exists and is empty, and
the new content is empty as well, byte for byte the same.  The claim says that nothing
is written, nothing is recorded and `false` is returned; `save_header_if_changed`
returns `true`, writes the temporary and records it: it takes an empty text read from
the target for a missing file. -/
theorem empty_header_staged_again :
    (save_header_if_changed "Gen/SkUE.generated.inl" ""
        { disk := FileSystem.of_files [("Gen/SkUE.generated.inl", "")],
          m_temp_headers := [], log := [] }).1 = true
    ∧ (save_header_if_changed "Gen/SkUE.generated.inl" ""
        { disk := FileSystem.of_files [("Gen/SkUE.generated.inl", "")],
          m_temp_headers := [], log := [] }).2.m_temp_headers
        = ["Gen/SkUE.generated.inl.tmp"]
    ∧ (save_header_if_changed "Gen/SkUE.generated.inl" ""
        { disk := FileSystem.of_files [("Gen/SkUE.generated.inl", "")],
          m_temp_headers := [], log := [] }).2.disk.text "Gen/SkUE.generated.inl.tmp"
        = some "" := by
  decide

/-- C21 as amended: `save_header_if_changed` returns `true` exactly when the text read
from the target is empty (a missing file reads as empty) or differs from the new
content.  When it returns `false` the disk, `m_temp_headers` and the log are as before.
When it returns `true` and the temporary can be written, the temporary holds the new
content, it is the new last entry of `m_temp_headers` and no other file has changed;
when the temporary cannot be written nothing is recorded. -/
theorem save_header_if_changed_stages_iff (header_path new_header_contents : String)
    (st : Staging) :
    ((save_header_if_changed header_path new_header_contents st).1 = true
        ↔ (st.disk.LoadFileToString header_path = ""
            ∨ st.disk.LoadFileToString header_path ≠ new_header_contents))
    ∧ (st.disk.text header_path = none →
        (save_header_if_changed header_path new_header_contents st).1 = true)
    ∧ ((save_header_if_changed header_path new_header_contents st).1 = false →
        (save_header_if_changed header_path new_header_contents st).2 = st)
    ∧ ((save_header_if_changed header_path new_header_contents st).1 = true →
        st.disk.write_fails (header_path ++ ".tmp") = false →
        (save_header_if_changed header_path new_header_contents st).2.m_temp_headers
            = st.m_temp_headers ++ [header_path ++ ".tmp"]
          ∧ (save_header_if_changed header_path new_header_contents st).2.disk.text
              (header_path ++ ".tmp") = some new_header_contents
          ∧ ∀ q, q ≠ header_path ++ ".tmp" →
              (save_header_if_changed header_path new_header_contents st).2.disk.text q
                = st.disk.text q)
    ∧ ((save_header_if_changed header_path new_header_contents st).1 = true →
        st.disk.write_fails (header_path ++ ".tmp") = true →
        (save_header_if_changed header_path new_header_contents st).2.m_temp_headers
          = st.m_temp_headers) := by
  have hiff : (save_header_if_changed header_path new_header_contents st).1 = true
      ↔ (st.disk.LoadFileToString header_path = ""
          ∨ st.disk.LoadFileToString header_path ≠ new_header_contents) := by
    have he : ∀ s : String, s.data.isEmpty = true ↔ s = "" := by
      intro s
      constructor
      · intro h
        exact String.ext (by simpa using h)
      · intro h
        rw [h]
        rfl
    rw [save_header_if_changed_fst]
    simp only [Bool.or_eq_true, decide_eq_true_eq, he]
  refine ⟨hiff, ?_, ?_, ?_, ?_⟩
  · intro hnone
    rw [hiff]
    left
    unfold FileSystem.LoadFileToString
    rw [hnone]
    rfl
  · intro hfalse
    rw [save_header_if_changed_fst] at hfalse
    unfold save_header_if_changed
    simp only
    rw [if_neg (by rw [hfalse]; decide)]
  · intro htrue hw
    have hfr := save_header_if_changed_frame header_path new_header_contents st
    rw [save_header_if_changed_fst] at htrue
    refine ⟨?_, ?_, hfr.2.1⟩
    · unfold save_header_if_changed
      simp only
      rw [if_pos htrue]
      simp [FileSystem.SaveStringToFile, FileSystem.Delete, hw]
    · unfold save_header_if_changed
      simp only
      rw [if_pos htrue]
      simp [FileSystem.SaveStringToFile, FileSystem.Delete, hw]
  · intro htrue hw
    unfold save_header_if_changed
    simp only
    split
    · simp only [FileSystem.SaveStringToFile, FileSystem.Delete, hw, if_true]
    · rfl

/-- Counterexample to C22 as stated.  The classes `Object` and `Entity` both have the
script class name `Entity` (`skookify_class_name` renames `Object` to `Entity`), so
both are generated into `SkUEEntity.generated.hpp` and `SkUEEntity.generated.inl`.  On
an empty disk the run for the two requests stages each of the two targets twice:
`m_temp_headers` holds the same temporary twice. -/
theorem same_target_staged_twice :
    (generate_files demo_settings (demo_engine twin_graph) 40 twin_graph []
        [(0, "Object.h"), (1, "Entity.h")] (FileSystem.of_files [])).returns
      (fun s => s.m_temp_headers
        = ["Gen/SkUEEntity.generated.hpp.tmp", "Gen/SkUEEntity.generated.inl.tmp",
           "Gen/SkUEEntity.generated.hpp.tmp", "Gen/SkUEEntity.generated.inl.tmp",
           "Gen/SkUE.generated.inl.tmp"]) := by
  decide

/-- C22 as amended: when the classes and structs that a run generates (one for every
line `Generating ...` of the log) have pairwise distinct script class names, none of
them empty, then on every disk no temporary is recorded twice: `m_temp_headers` is the
list of the names `p.tmp` of pairwise distinct target paths `p` of the run. -/
theorem staged_headers_distinct (cfg : Settings) (eng : EngineData) (fuel : Nat)
    (env : TypeGraph) (skip_classes : List String) (requests : List (Nat × String))
    (st : Exporter) (disk : FileSystem) (s : Staging)
    (hrun : Files.run cfg eng fuel env skip_classes requests = .ok st)
    (hnames : (st.gen.log_generating.map (get_skookum_class_name env)).Nodup)
    (hnonempty : ∀ h ∈ st.gen.log_generating, get_skookum_class_name env h ≠ "")
    (hs : generate_files cfg eng fuel env skip_classes requests disk = .ok s) :
    s.m_temp_headers.Nodup
      ∧ ∃ targets : List String, targets.Nodup
          ∧ targets.Sublist (header_paths st.outputs)
          ∧ s.m_temp_headers = targets.map (fun p => p ++ ".tmp") := by
  unfold generate_files at hs
  rw [hrun] at hs
  obtain ⟨l, hl, hsub⟩ := perform_temp_headers st.outputs _ s hs
  simp only [List.nil_append] at hl
  have hnd := run_header_paths_nodup cfg eng fuel env skip_classes requests st hrun hnames
    hnonempty
  obtain ⟨targets, ht1, ht2⟩ := List.sublist_map_iff.1 hsub
  have htn : targets.Nodup := List.Nodup.sublist ht1 hnd
  refine ⟨?_, targets, htn, ht1, by rw [hl, ht2]⟩
  rw [hl, ht2]
  exact List.Nodup.map (fun a b h => temp_inj a b h) htn

/-- Witness for C22: the demo run on an empty disk. -/
theorem staged_headers_distinct_witness :
    Files.run demo_settings (demo_engine demo_graph) 40 demo_graph [] [(3, "Delta.h")]
        = .ok demo_exporter
      ∧ demo_exporter.gen.log_generating = [.cls 3, .sstruct 1, .sstruct 0]
      ∧ generate_files demo_settings (demo_engine demo_graph) 40 demo_graph []
          [(3, "Delta.h")] (FileSystem.of_files []) = .ok demo_staged
      ∧ demo_staged.m_temp_headers.length = 7
      ∧ demo_staged.m_temp_headers.Nodup
      ∧ ∃ targets : List String, targets.Nodup
          ∧ targets.Sublist (header_paths demo_exporter.outputs)
          ∧ demo_staged.m_temp_headers = targets.map (fun p => p ++ ".tmp") :=
  ⟨by decide, by decide, by rfl, by decide,
    staged_headers_distinct demo_settings (demo_engine demo_graph) 40 demo_graph []
      [(3, "Delta.h")] demo_exporter (FileSystem.of_files []) demo_staged (by decide)
      (by decide) (by decide) (by rfl)⟩

/-- C23 at its failing input.  Generated code goes to the folder `C:/Work.tmp/Gen`.
`save_header_if_changed` records the temporary `C:/Work.tmp/Gen/SkUE.generated.inl.tmp`
of the master binding file; `rename_temp_files` derives the target name with
`Replace(".tmp", "")`, which removes every occurrence of `.tmp`, and moves the
temporary to `C:/Work/Gen/SkUE.generated.inl`: nothing arrives at the target.  The
derived name is the target whenever the target does not contain `.tmp` (in any case of
the letters). -/
theorem rename_temp_files_misses_target :
    (save_header_if_changed "C:/Work.tmp/Gen/SkUE.generated.inl" "x"
        { disk := FileSystem.of_files [], m_temp_headers := [], log := [] }).2.m_temp_headers
      = ["C:/Work.tmp/Gen/SkUE.generated.inl.tmp"]
    ∧ FString_Replace "C:/Work.tmp/Gen/SkUE.generated.inl.tmp" ".tmp" ""
      = "C:/Work/Gen/SkUE.generated.inl"
    ∧ (rename_temp_files
        (save_header_if_changed "C:/Work.tmp/Gen/SkUE.generated.inl" "x"
          { disk := FileSystem.of_files [], m_temp_headers := [], log := [] }).2).disk.text
        "C:/Work.tmp/Gen/SkUE.generated.inl" = none
    ∧ (rename_temp_files
        (save_header_if_changed "C:/Work.tmp/Gen/SkUE.generated.inl" "x"
          { disk := FileSystem.of_files [], m_temp_headers := [], log := [] }).2).disk.text
        "C:/Work/Gen/SkUE.generated.inl" = some "x"
    ∧ ∀ p : String, FString_contains_ci p.data ".tmp".data = false →
        FString_Replace (p ++ ".tmp") ".tmp" "" = p :=
  ⟨by decide, by decide, by decide, by decide, FString_Replace_tmp⟩

/-- Counterexample to C24 as stated.  In the demo run on an empty disk, when all the
requests have been carried out and `rename_temp_files` has not yet run, the class meta
file of `Delta` and the script file of its method `score` are at their real target
paths, while the header of `Delta` is in its temporary only. -/
theorem script_files_written_in_place :
    (generate_files demo_settings (demo_engine demo_graph) 40 demo_graph []
        [(3, "Delta.h")] (FileSystem.of_files [])).returns
      (fun s =>
        s.disk.text "Scripts/Object/Entity/Beta/Delta/!Class.sk-meta" = some "// Delta\r\n"
          ∧ s.disk.text "Scripts/Object/Entity/Beta/Delta/score().sk"
              = some "// GetScore\r\n"
          ∧ s.disk.text "Gen/SkUEDelta.generated.hpp" = none
          ∧ (s.disk.text "Gen/SkUEDelta.generated.hpp.tmp").isSome = true) := by
  decide

/-- C24 as amended: at every moment of a run before `rename_temp_files` (after any
number `done` of its requests to the file system), the only files that differ from the
disk before the run are script files (extension `.sk` or `.sk-meta`), which are written
in place, and temporaries (extension `.tmp`); every header, binding file and the master
binding file has the extension `.hpp` or `.inl`, and the file at its target path is as
before the run. -/
theorem headers_staged_until_commit (cfg : Settings) (eng : EngineData) (fuel : Nat)
    (env : TypeGraph) (skip_classes : List String) (requests : List (Nat × String))
    (st : Exporter) (disk : FileSystem) (done : List Output) (s : Staging)
    (hrun : Files.run cfg eng fuel env skip_classes requests = .ok st)
    (hdone : done <+: st.outputs)
    (hs : perform done { disk := disk, m_temp_headers := [], log := [] } = .ok s) :
    (∀ q, s.disk.text q ≠ disk.text q →
        has_extension q ".sk" ∨ has_extension q ".sk-meta" ∨ has_extension q ".tmp")
      ∧ ∀ p c, Output.header p c ∈ st.outputs →
          (has_extension p ".hpp" ∨ has_extension p ".inl") ∧ s.disk.text p = disk.text p := by
  have hw := run_well_formed cfg eng fuel env skip_classes requests st hrun
  have hwd : ∀ o ∈ done, o.well_formed := fun o ho => hw o (List.IsPrefix.subset hdone ho)
  have hch := perform_changes done _ s hs hwd
  refine ⟨?_, ?_⟩
  · intro q hq
    by_contra hn
    exact hq (hch q hn)
  · intro p c hm
    have hp := (hw _ hm).1
    refine ⟨hp, hch p ?_⟩
    rintro (h | h | h)
    · exact header_ne_script p p hp (Or.inl h) rfl
    · exact header_ne_script p p hp (Or.inr h) rfl
    · rcases hp with hp | hp
      · exact (extension_clash _ _ _ hp h).elim (by decide) (by decide)
      · exact (extension_clash _ _ _ hp h).elim (by decide) (by decide)

/-- Witness for C24: the demo run on an empty disk, all requests carried out. -/
theorem headers_staged_until_commit_witness :
    Files.run demo_settings (demo_engine demo_graph) 40 demo_graph [] [(3, "Delta.h")]
        = .ok demo_exporter
      ∧ demo_exporter.outputs <+: demo_exporter.outputs
      ∧ perform demo_exporter.outputs
          { disk := FileSystem.of_files [], m_temp_headers := [], log := [] } = .ok demo_staged
      ∧ (header_paths demo_exporter.outputs).length = 7
      ∧ (∀ q, demo_staged.disk.text q ≠ (FileSystem.of_files []).text q →
          has_extension q ".sk" ∨ has_extension q ".sk-meta" ∨ has_extension q ".tmp")
      ∧ ∀ p c, Output.header p c ∈ demo_exporter.outputs →
          (has_extension p ".hpp" ∨ has_extension p ".inl")
            ∧ demo_staged.disk.text p = (FileSystem.of_files []).text p :=
  ⟨by decide, List.prefix_refl _, by rfl, by decide,
    headers_staged_until_commit demo_settings (demo_engine demo_graph) 40 demo_graph []
      [(3, "Delta.h")] demo_exporter (FileSystem.of_files []) demo_exporter.outputs demo_staged
      (by decide) (List.prefix_refl _) (by rfl)⟩

/-- Counterexample to C25 as stated.  The demo run on a disk on which the temporary of
the header of `Delta` and the master binding file cannot be written.  The claim says
that each of the two failures aborts the run; the run returns normally:
`save_header_if_changed` logs a warning and does not record the temporary,
`rename_temp_files` logs an error and goes on. -/
theorem failed_header_writes_not_fatal :
    (run_on_disk demo_settings (demo_engine demo_graph) 40 demo_graph [] [(3, "Delta.h")]
        locked_disk).returns
      (fun s =>
        LogLine.Warning_failed_to_save "Gen/SkUEDelta.generated.hpp.tmp" ∈ s.log
          ∧ "Gen/SkUEDelta.generated.hpp.tmp" ∉ s.m_temp_headers
          ∧ LogLine.Error_could_not_write "Gen/SkUE.generated.inl" ∈ s.log
          ∧ s.disk.text "Gen/SkUE.generated.inl" = none
          ∧ (s.disk.text "Gen/SkUEDelta.generated.inl").isSome = true) := by
  decide

/-- C25 as amended: a run is aborted by a failed write exactly when the write of a
script file fails.  When no write of a script file fails the run returns normally,
whatever else fails; when the write of one of its script files fails the run is
aborted.  A failed write of the temporary in `save_header_if_changed` is logged as a
warning and the temporary is not recorded; a failed move in `rename_temp_files` is
logged as an error and leaves the disk as it is. -/
theorem only_script_write_failure_is_fatal (cfg : Settings) (eng : EngineData) (fuel : Nat)
    (env : TypeGraph) (skip_classes : List String) (requests : List (Nat × String))
    (st : Exporter) (disk : FileSystem)
    (hrun : Files.run cfg eng fuel env skip_classes requests = .ok st) :
    ((∀ path ∈ script_paths st.outputs, disk.write_fails path = false) →
        ∃ s, run_on_disk cfg eng fuel env skip_classes requests disk = .ok s)
      ∧ ((∃ path ∈ script_paths st.outputs, disk.write_fails path = true) →
          run_on_disk cfg eng fuel env skip_classes requests disk = .fatal)
      ∧ (∀ (header_path new_header_contents : String) (s0 : Staging),
          (save_header_if_changed header_path new_header_contents s0).1 = true →
          s0.disk.write_fails (header_path ++ ".tmp") = true →
          (save_header_if_changed header_path new_header_contents s0).2.m_temp_headers
              = s0.m_temp_headers
            ∧ (save_header_if_changed header_path new_header_contents s0).2.log
              = s0.log ++ [.Warning_failed_to_save (header_path ++ ".tmp")])
      ∧ ∀ (s0 : Staging) (temp_header_file_name : String),
          s0.disk.Move (FString_Replace temp_header_file_name ".tmp" "") temp_header_file_name
            = none →
          (rename_temp_file s0 temp_header_file_name).disk = s0.disk
            ∧ (rename_temp_file s0 temp_header_file_name).log
              = s0.log
                ++ [.Error_could_not_write (FString_Replace temp_header_file_name ".tmp" "")] := by
  refine ⟨?_, ?_, ?_, ?_⟩
  · intro h
    obtain ⟨s, hs⟩ := perform_returns st.outputs
      { disk := disk, m_temp_headers := [], log := [] }
      (fun path body hm => h path ((mem_script_paths _ _).2 ⟨body, hm⟩))
    refine ⟨rename_temp_files s, ?_⟩
    unfold run_on_disk generate_files
    rw [hrun]
    simp only [Result.bind, hs]
  · rintro ⟨path, hp, hf⟩
    obtain ⟨body, hm⟩ := (mem_script_paths _ _).1 hp
    have := perform_fatal st.outputs { disk := disk, m_temp_headers := [], log := [] }
      path body hm hf
    unfold run_on_disk generate_files
    rw [hrun]
    simp only [Result.bind, this]
  · intro p c s0 htrue hw
    rw [save_header_if_changed_fst] at htrue
    unfold save_header_if_changed
    simp only
    rw [if_pos htrue]
    simp only [FileSystem.SaveStringToFile, FileSystem.Delete, hw, if_true]
    exact ⟨trivial, trivial⟩
  · intro s0 t hm
    unfold rename_temp_file
    simp only
    rw [hm]
    exact ⟨rfl, rfl⟩

/-- Witness for C25: the demo run; on the disk `read_only_scripts` the class meta file
of `Delta` cannot be written and the run is aborted, on the disk `locked_disk` only
headers cannot be written and the run returns. -/
theorem only_script_write_failure_is_fatal_witness :
    Files.run demo_settings (demo_engine demo_graph) 40 demo_graph [] [(3, "Delta.h")]
        = .ok demo_exporter
      ∧ run_on_disk demo_settings (demo_engine demo_graph) 40 demo_graph [] [(3, "Delta.h")]
          read_only_scripts = .fatal
      ∧ (∃ s, run_on_disk demo_settings (demo_engine demo_graph) 40 demo_graph []
          [(3, "Delta.h")] locked_disk = .ok s) :=
  ⟨by decide,
    (only_script_write_failure_is_fatal demo_settings (demo_engine demo_graph) 40 demo_graph
      [] [(3, "Delta.h")] demo_exporter read_only_scripts (by decide)).2.1
      ⟨"Scripts/Object/Entity/Beta/Delta/!Class.sk-meta", by decide, by decide⟩,
    (only_script_write_failure_is_fatal demo_settings (demo_engine demo_graph) 40 demo_graph
      [] [(3, "Delta.h")] demo_exporter locked_disk (by decide)).1 (by decide)⟩

/-- Counterexample to C26 as stated.  The classes `Object` and `Entity` are generated
into the same header `SkUEEntity.generated.hpp` and the same binding file.  On the disk
`twin_disk`, which holds the two files of `Entity`, the first run for the two requests
stages the two files of `Object`, finds those of `Entity` unchanged, and commits: every
write succeeds and no failure is logged.  The second run on the same graph finds the
files of `Object` at the targets and stages those of `Entity`: `m_temp_headers` is not
empty. -/
theorem second_run_stages_again :
    (run_on_disk demo_settings (demo_engine twin_graph) 40 twin_graph []
        [(0, "Object.h"), (1, "Entity.h")] twin_disk).returns
      (fun s1 =>
        (∀ l ∈ s1.log, l.is_failure = false)
          ∧ s1.m_temp_headers
              = ["Gen/SkUEEntity.generated.hpp.tmp", "Gen/SkUEEntity.generated.inl.tmp",
                 "Gen/SkUE.generated.inl.tmp"]
          ∧ (generate_files demo_settings (demo_engine twin_graph) 40 twin_graph []
              [(0, "Object.h"), (1, "Entity.h")] s1.disk).returns
            (fun s2 => s2.m_temp_headers
              = ["Gen/SkUEEntity.generated.hpp.tmp", "Gen/SkUEEntity.generated.inl.tmp"])) := by
  decide

/-- C26 as amended: let the classes and structs that the run generates have pairwise
distinct script class names, none of them empty, let no target path of the run contain
`.tmp` (in any case of the letters), and let the first run with its `rename_temp_files`
return without a logged failure (every write of the first run succeeded).  Then the
first run leaves the text of every header, binding file and of the master binding file
at its target path, and the same run on the disk it left behind returns and stages
nothing: `m_temp_headers` stays empty. -/
theorem second_run_stages_nothing (cfg : Settings) (eng : EngineData) (fuel : Nat)
    (env : TypeGraph) (skip_classes : List String) (requests : List (Nat × String))
    (st : Exporter) (disk : FileSystem) (s1 : Staging)
    (hrun : Files.run cfg eng fuel env skip_classes requests = .ok st)
    (hnames : (st.gen.log_generating.map (get_skookum_class_name env)).Nodup)
    (hnonempty : ∀ h ∈ st.gen.log_generating, get_skookum_class_name env h ≠ "")
    (htmp : ∀ p ∈ header_paths st.outputs, FString_contains_ci p.data ".tmp".data = false)
    (hfirst : run_on_disk cfg eng fuel env skip_classes requests disk = .ok s1)
    (hlog : ∀ l ∈ s1.log, l.is_failure = false) :
    (∀ p c, Output.header p c ∈ st.outputs → s1.disk.text p = some c)
      ∧ ∃ s2, generate_files cfg eng fuel env skip_classes requests s1.disk = .ok s2
          ∧ s2.m_temp_headers = [] := by
  have hw := run_well_formed cfg eng fuel env skip_classes requests st hrun
  have hnd := run_header_paths_nodup cfg eng fuel env skip_classes requests st hrun hnames
    hnonempty
  unfold run_on_disk generate_files at hfirst
  rw [hrun] at hfirst
  obtain ⟨s0, e0, e1⟩ := Result.bind_eq_ok hfirst
  cases e1
  obtain ⟨h1, s2, e2, h2⟩ := perform_twice st.outputs hw hnd htmp disk s0 e0 hlog
  refine ⟨h1, s2, ?_, h2⟩
  unfold generate_files
  rw [hrun]
  exact e2

/-- Witness for C26: the demo run on an empty disk. -/
theorem second_run_stages_nothing_witness :
    Files.run demo_settings (demo_engine demo_graph) 40 demo_graph [] [(3, "Delta.h")]
        = .ok demo_exporter
      ∧ (header_paths demo_exporter.outputs).length = 7
      ∧ run_on_disk demo_settings (demo_engine demo_graph) 40 demo_graph []
          [(3, "Delta.h")] (FileSystem.of_files []) = .ok demo_committed
      ∧ demo_committed.log.length = 7
      ∧ (∀ p c, Output.header p c ∈ demo_exporter.outputs →
          demo_committed.disk.text p = some c)
      ∧ ∃ s2, generate_files demo_settings (demo_engine demo_graph) 40 demo_graph []
            [(3, "Delta.h")] demo_committed.disk = .ok s2
          ∧ s2.m_temp_headers = [] :=
  ⟨by decide, by decide, by rfl, by decide,
    second_run_stages_nothing demo_settings (demo_engine demo_graph) 40 demo_graph []
      [(3, "Delta.h")] demo_exporter (FileSystem.of_files []) demo_committed (by decide)
      (by decide) (by decide) (by decide) (by rfl) (by decide)⟩

/-- C27 at its failing input.  In every binding file no two bindings of the instance
scope list and no two bindings of the class scope list have the same script name, and
after the function loop no script name is in both lists.  The property loop looks a
getter up in the instance scope list only: for class `Thing`, which declares the
static function `GetFoo` and the property `Foo`, the member pass leaves the method
`foo` in the class scope list and the getter `foo` in the instance scope list, one
script name in both lists. -/
theorem script_name_in_both_lists :
    (∀ (gs : Nat → Generator → Result Generator) (fuel : Nat) (env : TypeGraph)
        (class_p : Nat) (st : Generator) (r : Bindings × Generator),
        generate_class_binding_file gs fuel env class_p st = .ok r →
        distinct_script_names r.1.instance_scope ∧ distinct_script_names r.1.class_scope)
    ∧ (∀ (gs : Nat → Generator → Result Generator) (fuel : Nat) (env : TypeGraph)
        (struct_p : Nat) (st : Generator) (r : Bindings × Generator),
        generate_struct_binding_file gs fuel env struct_p st = .ok r →
        distinct_script_names r.1.instance_scope ∧ r.1.class_scope = [])
    ∧ (∀ (gs : Nat → Generator → Result Generator) (fuel : Nat) (env : TypeGraph)
        (class_p : Nat) (functions : List UFunction) (st : Generator)
        (r : Bindings × Generator),
        export_functions gs fuel env class_p functions
            { instance_scope := [], class_scope := [] } st = .ok r →
        ∀ a ∈ r.1.instance_scope, ∀ b ∈ r.1.class_scope,
          FString_eq a.m_script_name b.m_script_name = false)
    ∧ (generate_class_binding_file (generate_struct 10 (clash_graph true)) 10
          (clash_graph true) 1 (Initialize [])).returns
        (fun r =>
          MethodBinding.make_method (clash_get_foo true) ∈ r.1.class_scope
            ∧ MethodBinding.make_property_getter clash_foo ∈ r.1.instance_scope
            ∧ (MethodBinding.make_method (clash_get_foo true)).m_script_name = "foo"
            ∧ (MethodBinding.make_property_getter clash_foo).m_script_name = "foo") := by
  refine ⟨?_, ?_, ?_, by decide⟩
  · intro gs fuel env class_p st r e
    unfold generate_class_binding_file at e
    obtain ⟨functions, _, e1⟩ := Result.bind_eq_ok e
    obtain ⟨r1, e2, e3⟩ := Result.bind_eq_ok e1
    obtain ⟨properties, _, e4⟩ := Result.bind_eq_ok e3
    obtain ⟨h1, h2, _⟩ := export_functions_distinct gs fuel env class_p functions
      { instance_scope := [], class_scope := [] } st r1
      List.Pairwise.nil List.Pairwise.nil (fun a ha => absurd ha (List.not_mem_nil _)) e2
    obtain ⟨h3, h4⟩ := export_properties_distinct gs fuel env _ properties _ _ r h1 e4
    exact ⟨h3, by rw [h4]; exact h2⟩
  · intro gs fuel env struct_p st r e
    unfold generate_struct_binding_file at e
    obtain ⟨properties, _, e1⟩ := Result.bind_eq_ok e
    exact export_properties_distinct gs fuel env _ properties
      { instance_scope := [], class_scope := [] } _ r List.Pairwise.nil e1
  · intro gs fuel env class_p functions st r e
    exact (export_functions_distinct gs fuel env class_p functions
      { instance_scope := [], class_scope := [] } st r
      List.Pairwise.nil List.Pairwise.nil (fun a ha => absurd ha (List.not_mem_nil _)) e).2.2

/-- C28: without its underscores the result of `skookify_var_name` is the name in
lower case, without its first character when the flag `is_boolean` is set (the first
character is then the `b`), and without its underscores: apart from underscores the
transformer keeps the characters of the name, in their order, each in lower case. -/
theorem skookify_var_name_only_inserts_underscores (name : String) :
    without_underscores (skookify_var_name name).1.data
        = without_underscores
            (if (skookify_var_name name).2 then (name.data.map FChar_ToLower).drop 1
              else name.data.map FChar_ToLower)
      ∧ ((skookify_var_name name).2 = true → name.data.head? = some 'b') := by
  rw [skookify_var_name_eq]
  simp only
  refine ⟨?_, ?_⟩
  · have ht : without_underscores (transformed_name name).data
        = without_underscores ((kept_characters name.data).map FChar_ToLower) :=
      without_underscores_loop _ _ _
    have hk : (kept_characters name.data).map FChar_ToLower
        = if skookify_is_boolean name.data = true then (name.data.map FChar_ToLower).drop 1
          else name.data.map FChar_ToLower := by
      unfold kept_characters
      split
      · exact List.map_drop _ _ _
      · rfl
    rw [← hk, ← ht]
    split
    · exact without_underscores_append_underscore _
    · rfl
  · intro h
    cases hd : name.data with
    | nil => rw [hd] at h; cases h
    | cons c cs =>
      rw [hd] at h
      cases cs with
      | nil => cases h
      | cons d ds =>
        simp only [skookify_is_boolean, Bool.and_eq_true, beq_iff_eq] at h
        rw [h.1]
        rfl

/-- C29: `skookify_method_name` returns reserved words.  The variable form of `GetIf`
is `get_if`, and the method name is `if` once `get_` is removed; the variable form of
`K2_If` is `k2_if`, and the method name is `if` once `k2_` is removed; `if` is in
`ms_reserved_keywords`, and `skookify_var_name` turns the name `If` into `if_`. -/
theorem skookify_method_name_returns_keyword :
    (skookify_var_name "GetIf").1 = "get_if"
      ∧ skookify_method_name "GetIf" false = "if"
      ∧ (skookify_var_name "K2_If").1 = "k2_if"
      ∧ (∀ return_is_bool, skookify_method_name "K2_If" return_is_bool = "if")
      ∧ "if" ∈ ms_reserved_keywords
      ∧ (skookify_var_name "If").1 = "if_"
      ∧ ∃ name return_is_bool,
          skookify_method_name name return_is_bool ∈ ms_reserved_keywords := by
  refine ⟨by decide, by decide, by decide, by decide, by decide, by decide,
    "GetIf", false, by decide⟩

/-- C30: two bindings made from members whose native names are made of ASCII letters,
digits and underscores have the same glue function name `mthd%s_%s` only when they are
of the same scope and have the same script name.  The code name is the script name with
every `?` replaced by `_Q` (a setter name has no `?`), and a script name has no `Q`. -/
theorem glue_symbol_injective (b1 b2 : MethodBinding) (static1 static2 : Bool)
    (h1 : made_from_identifier b1) (h2 : made_from_identifier b2)
    (h : glue_symbol static1 b1.m_code_name = glue_symbol static2 b2.m_code_name) :
    static1 = static2 ∧ b1.m_script_name = b2.m_script_name := by
  obtain ⟨hs, hc⟩ := glue_symbol_inj _ _ _ _ h
  obtain ⟨c1, q1⟩ := made_from_identifier_code_name b1 h1
  obtain ⟨c2, q2⟩ := made_from_identifier_code_name b2 h2
  rw [c1, c2] at hc
  have := replace_question_mark_inj _ _ q1 q2 (congrArg String.data hc)
  exact ⟨hs, String.ext this⟩

/-- Witness for C30: the method `GetFoo` and the getter of the property `Foo`, both
with the script name `foo`. -/
theorem glue_symbol_injective_witness :
    made_from_identifier (MethodBinding.make_method (clash_get_foo false))
      ∧ made_from_identifier (MethodBinding.make_property_getter clash_foo)
      ∧ glue_symbol false (MethodBinding.make_method (clash_get_foo false)).m_code_name
          = "mthd_foo"
      ∧ glue_symbol false (MethodBinding.make_property_getter clash_foo).m_code_name
          = "mthd_foo"
      ∧ false = false
      ∧ (MethodBinding.make_method (clash_get_foo false)).m_script_name
          = (MethodBinding.make_property_getter clash_foo).m_script_name :=
  ⟨Or.inl ⟨clash_get_foo false, by decide, rfl⟩,
    Or.inr (Or.inl ⟨clash_foo, by decide, rfl⟩), by decide, by decide,
    glue_symbol_injective _ _ false false (Or.inl ⟨clash_get_foo false, by decide, rfl⟩)
      (Or.inr (Or.inl ⟨clash_foo, by decide, rfl⟩)) (by decide)⟩

end SkookumScriptGenerator
